import Mathlib

/-!
# DigitalNote consensus core: a shallow embedding of `src/cblock.cpp`

The definitions below transcribe the C++ of `CBlock` (Merkle tree, context-free
block validation, block acceptance and connection, block-index insertion and
best-chain selection) into Lean functions.  Mutable members and globals are passed explicitly, loops are
recursive functions with a fuel argument that is supplied by the caller of the
loop, and an access outside a `std::vector` (undefined behaviour in C++) is an
explicit result of the model.  Functions of the repository whose bodies are not
part of the sources under study (hashing, transaction classification, the
ledger, ...) are fields of parameter records.
-/

namespace DigitalNote

/-! ## Data model -/

/-- 256-bit unsigned integer (`uint256`); arithmetic on it is taken modulo `2^256`. -/
abbrev uint256 := Nat

/-- Reference to one output of an earlier transaction (`COutPoint`). -/
structure COutPoint where
  hash : uint256
  n : Nat
  deriving DecidableEq, Repr

/-- Transaction input (`CTxIn`). -/
structure CTxIn where
  prevout : COutPoint
  scriptSig : List Nat
  deriving DecidableEq, Repr

/-- Transaction output (`CTxOut`); `nValue` is an `int64_t` amount. -/
structure CTxOut where
  nValue : Int
  scriptPubKey : List Nat
  deriving DecidableEq, Repr

/-- Members of `CTransaction` (ctransaction.h). -/
structure CTransaction where
  nVersion : Int
  nTime : Nat
  vin : List CTxIn
  vout : List CTxOut
  nLockTime : Nat
  deriving DecidableEq, Repr

/-- Members of `CBlock` (cblock.h), the `mutable` ones included. -/
structure CBlock where
  nVersion : Int
  hashPrevBlock : uint256
  hashMerkleRoot : uint256
  nTime : Nat
  nBits : Nat
  nNonce : Nat
  vtx : List CTransaction
  vchBlockSig : List Nat
  vMerkleTree : List uint256
  nDoS : Int
  deriving DecidableEq, Repr

/-- Hash functions used by the Merkle code; their bodies are outside the sources. -/
structure Hasher where
  /-- The four-argument `Hash(BEGIN(a), END(a), BEGIN(b), END(b))` of hash.h. -/
  Hash : uint256 → uint256 → uint256
  /-- The transaction id `CTransaction::GetHash()`. -/
  GetHash : CTransaction → uint256
  /-- `Hash_bmw512(BEGIN(nVersion), END(nNonce))`: the hash of the six header members. -/
  Hash_bmw512 : Int → uint256 → uint256 → Nat → Nat → Nat → uint256

/-! ## Merkle tree (cblock.cpp 263-335)

The loop counters `nSize`, `i`, `j` are C++ `int`s that start from `vtx.size()` and stay
non-negative; they are natural numbers here.  The index `nIndex` of a branch can be
negative and is an integer, with `^`, `&` and `>>` as `Int.xor`, `Int.land` and `>>>`. -/

/-- Inner loop of `BuildMerkleTree`: `for (int i = 0; i < nSize; i += 2)`, appending
`Hash(vMerkleTree[j+i], vMerkleTree[j+i2])` with `i2 = min(i+1, nSize-1)`.
`none` is a read outside `vMerkleTree` (or exhausted fuel). -/
def buildLevel (Hash : uint256 → uint256 → uint256) (j nSize : Nat) :
    Nat → Nat → List uint256 → Option (List uint256)
  | 0, i, vMerkleTree => if i < nSize then none else some vMerkleTree
  | fuel + 1, i, vMerkleTree =>
    if i < nSize then
      let i2 := min (i + 1) (nSize - 1)
      match vMerkleTree[j + i]?, vMerkleTree[j + i2]? with
      | some a, some b => buildLevel Hash j nSize fuel (i + 2) (vMerkleTree ++ [Hash a b])
      | _, _ => none
    else some vMerkleTree

/-- Outer loop of `BuildMerkleTree`:
`for (int nSize = vtx.size(); nSize > 1; nSize = (nSize + 1) / 2) { ...; j += nSize; }`. -/
def buildLevels (Hash : uint256 → uint256 → uint256) :
    Nat → Nat → Nat → List uint256 → Option (List uint256)
  | 0, _, nSize, vMerkleTree => if nSize > 1 then none else some vMerkleTree
  | fuel + 1, j, nSize, vMerkleTree =>
    if nSize > 1 then
      match buildLevel Hash j nSize nSize 0 vMerkleTree with
      | some t => buildLevels Hash fuel (j + nSize) ((nSize + 1) / 2) t
      | none => none
    else some vMerkleTree

/-- `CBlock::BuildMerkleTree`: clears and refills the cache `vMerkleTree` and returns
`vMerkleTree.empty() ? 0 : vMerkleTree.back()`.  The result is the block with its
new cache together with the returned root. -/
def BuildMerkleTree (h : Hasher) (b : CBlock) : Option (CBlock × uint256) :=
  match buildLevels h.Hash b.vtx.length 0 b.vtx.length (b.vtx.map h.GetHash) with
  | some t => some ({ b with vMerkleTree := t }, if t.isEmpty then 0 else t.getLastD 0)
  | none => none

/-- Loop of `GetMerkleBranch`: `int i = std::min(nIndex^1, nSize-1);`
`vMerkleBranch.push_back(vMerkleTree[j+i]); nIndex >>= 1; j += nSize;`. -/
def branchLoop (vMerkleTree : List uint256) :
    Nat → Nat → Nat → Int → List uint256 → Option (List uint256)
  | 0, _, nSize, _, vMerkleBranch => if nSize > 1 then none else some vMerkleBranch
  | fuel + 1, j, nSize, nIndex, vMerkleBranch =>
    if nSize > 1 then
      let i : Int := min (Int.xor nIndex 1) ((nSize : Int) - 1)
      if (j : Int) + i < 0 then none
      else
        match vMerkleTree[((j : Int) + i).toNat]? with
        | some x =>
          branchLoop vMerkleTree fuel (j + nSize) ((nSize + 1) / 2) (nIndex >>> 1)
            (vMerkleBranch ++ [x])
        | none => none
    else some vMerkleBranch

/-- `CBlock::GetMerkleBranch`: builds the tree only when the cache is empty, then
collects one sibling per level. -/
def GetMerkleBranch (h : Hasher) (b : CBlock) (nIndex : Int) : Option (List uint256) :=
  match (if b.vMerkleTree.isEmpty then BuildMerkleTree h b else some (b, 0)) with
  | some (b1, _) => branchLoop b1.vMerkleTree b1.vtx.length 0 b1.vtx.length nIndex []
  | none => none

/-- Loop of `CheckMerkleBranch` over the siblings, `nIndex & 1` choosing the order. -/
def checkLoop (Hash : uint256 → uint256 → uint256) : List uint256 → uint256 → Int → uint256
  | [], hash, _ => hash
  | otherside :: rest, hash, nIndex =>
    checkLoop Hash rest
      (if Int.land nIndex 1 ≠ 0 then Hash otherside hash else Hash hash otherside)
      (nIndex >>> 1)

/-- `CBlock::CheckMerkleBranch` (static). -/
def CheckMerkleBranch (h : Hasher) (hash : uint256) (vMerkleBranch : List uint256)
    (nIndex : Int) : uint256 :=
  if nIndex = -1 then 0 else checkLoop h.Hash vMerkleBranch hash nIndex

/-! ### The reduction and the fold as the specification words them -/

/-- One step of the specification's reduction: the hashes of the consecutive pairs of a
level, the last element paired with itself when the level has odd length. -/
def refPairs (Hash : uint256 → uint256 → uint256) : List uint256 → List uint256
  | [] => []
  | [a] => [Hash a a]
  | a :: b :: rest => Hash a b :: refPairs Hash rest

/-- Repeated replacement of the level by its pair hashes until one hash is left. -/
def refReduce (Hash : uint256 → uint256 → uint256) : Nat → List uint256 → List uint256
  | 0, level => level
  | fuel + 1, level =>
    if level.length ≤ 1 then level else refReduce Hash fuel (refPairs Hash level)

/-- Reference Merkle root: zero for no ids, the id itself for one id, otherwise the
last hash of the pairwise reduction. -/
def refMerkleRoot (Hash : uint256 → uint256 → uint256) (txids : List uint256) : uint256 :=
  match txids with
  | [] => 0
  | [a] => a
  | _ => (refReduce Hash txids.length txids).getLastD 0

/-- Reference fold of a branch into a leaf: at level `k` the accumulator becomes
`Hash sibling acc` when bit `k` of `index` is 1 and `Hash acc sibling` when it is 0. -/
def refBranchFold (Hash : uint256 → uint256 → uint256) (leaf : uint256)
    (branch : List uint256) (index : Nat) : uint256 :=
  branch.enum.foldl
    (fun acc ks => if index.testBit ks.1 then Hash ks.2 acc else Hash acc ks.2) leaf

/-- Concatenation of every level of the tree, the layout of `vMerkleTree`. -/
def allLevels (Hash : uint256 → uint256 → uint256) : Nat → List uint256 → List uint256
  | 0, cur => cur
  | fuel + 1, cur =>
    if cur.length > 1 then cur ++ allLevels Hash fuel (refPairs Hash cur) else cur

/-- Sibling path as a function of the levels: one sibling per level. -/
def refBranch (Hash : uint256 → uint256 → uint256) : Nat → List uint256 → Nat → List uint256
  | 0, _, _ => []
  | fuel + 1, cur, idx =>
    if cur.length > 1 then
      cur.getD (min (idx ^^^ 1) (cur.length - 1)) 0 :: refBranch Hash fuel (refPairs Hash cur) (idx / 2)
    else []

/-! ## Block index and best-chain selection (cblock.cpp 748-1001, 1999-2028) -/

/-- `CBlock::GetPoWHash`. -/
def GetPoWHash (h : Hasher) (b : CBlock) : uint256 :=
  h.Hash_bmw512 b.nVersion b.hashPrevBlock b.hashMerkleRoot b.nTime b.nBits b.nNonce

/-- `CBlock::GetHash`: both branches of the version test hash the header with bmw512. -/
def GetHash (h : Hasher) (b : CBlock) : uint256 :=
  if b.nVersion > 6 then
    h.Hash_bmw512 b.nVersion b.hashPrevBlock b.hashMerkleRoot b.nTime b.nBits b.nNonce
  else GetPoWHash h b

/-- Classification of transactions and outputs (`CTransaction::IsCoinBase`,
`CTransaction::IsCoinStake`, `CTxOut::IsEmpty`), whose bodies are outside the sources. -/
structure TxKinds where
  IsCoinBase : CTransaction → Bool
  IsCoinStake : CTransaction → Bool
  IsEmpty : CTxOut → Bool

/-- `CBlock::IsProofOfStake`: `vtx.size() > 1 && vtx[1].IsCoinStake()`. -/
def IsProofOfStake (k : TxKinds) (b : CBlock) : Bool :=
  decide (b.vtx.length > 1) &&
    (match b.vtx[1]? with
     | some tx => k.IsCoinStake tx
     | none => false)

/-- `CBlock::IsProofOfWork`. -/
def IsProofOfWork (k : TxKinds) (b : CBlock) : Bool :=
  !IsProofOfStake k b

/-- `CBlock::GetStakeEntropyBit`: `(GetHash().Get64()) & 1llu`, the lowest bit of the
low 64 bits of the block hash. -/
def GetStakeEntropyBit (h : Hasher) (b : CBlock) : Nat :=
  (GetHash h b % 2 ^ 64) &&& 1

/-- In-memory index entry (`CBlockIndex`).  A pointer to an entry is the hash under
which the entry is stored in `mapBlockIndex`; `none` is the null pointer.  The forward
link `pnext`, `nMint` and `nMoneySupply` are written by collaborators only and are
recorded as events. -/
structure CBlockIndex where
  phashBlock : uint256
  pprev : Option uint256
  nFile : Nat
  nBlockPos : Nat
  nSequenceId : Nat
  nHeight : Int
  nChainTrust : uint256
  fProofOfStake : Bool
  prevoutStake : Option COutPoint
  nStakeTime : Nat
  fStakeEntropyBit : Nat
  hashProof : uint256
  nStakeModifier : Nat
  fGeneratedStakeModifier : Bool
  bnStakeModifierV2 : uint256
  nVersion : Int
  nTime : Nat
  nBits : Nat
  deriving DecidableEq, Repr

/-- Calls into the ledger, the mempool and the signal bus, in program order. -/
inductive Event where
  | TxnBegin
  | TxnCommit
  | TxnAbort
  | WriteHashBestChain (hash : uint256)
  | WriteBlockIndex (hash : uint256)
  | ConnectBlock (pindex : uint256)
  | Reorganize (pindex : uint256)
  | InvalidChainFound (pindex : uint256)
  | ReadFromDisk (pindex : uint256)
  | SetNext (pprev pnext : uint256)
  | MempoolRemove (txid : uint256)
  | SignalSetBestChain (pindex : uint256)
  | SignalUpdatedTransaction
  deriving DecidableEq, Repr

/-- The chain-state globals of main.cpp that `AddToBlockIndex` and `SetBestChain` read
and write (`mapBlockIndex`, `hashBestChain`, `pindexBest`, `pindexGenesisBlock`,
`nBestHeight`, `nBestChainTrust`, `nBlockSequenceId`, `setStakeSeen`), with the trace of
the collaborator calls made so far. -/
structure ChainState where
  mapBlockIndex : List (uint256 × CBlockIndex)
  hashBestChain : uint256
  pindexBest : Option uint256
  pindexGenesisBlock : Option uint256
  nBestHeight : Int
  nBestChainTrust : uint256
  nBlockSequenceId : Nat
  setStakeSeen : List (COutPoint × Nat)
  trace : List Event
  deriving DecidableEq, Repr

/-- Record one collaborator call. -/
def ChainState.emit (s : ChainState) (e : Event) : ChainState :=
  { s with trace := s.trace ++ [e] }

/-- Collaborators of chain selection whose bodies are outside the sources.  Each result
may depend on the whole chain state, trace included, so that two calls of the same
function need not agree. -/
structure ChainEnv where
  /-- `Params().HashGenesisBlock()`. -/
  HashGenesisBlock : uint256
  /-- Modelled from the spec: `CBlockIndex::GetBlockTrust()` (cblockindex.h is not among
  the sources), a function of the proof kind and of the difficulty bits: work blocks
  are rewarded by inverse difficulty, stake blocks by the stake-trust rule. -/
  GetBlockTrust : Bool → Nat → uint256
  /-- `CBlockIndex::SetStakeEntropyBit`: whether the bit is accepted. -/
  SetStakeEntropyBit : Nat → Bool
  /-- `ComputeNextStakeModifier(pprev, nStakeModifier, fGenerated)`; `none` is failure. -/
  ComputeNextStakeModifier : ChainState → Option uint256 → Option (Nat × Bool)
  /-- `ComputeStakeModifierV2(pprev, kernel)`. -/
  ComputeStakeModifierV2 : ChainState → Option uint256 → uint256 → uint256
  TxnBegin : ChainState → Bool
  TxnCommit : ChainState → Bool
  WriteHashBestChain : ChainState → uint256 → Bool
  /-- Result of `block.ConnectBlock(txdb, pindex)` in the given state. -/
  ConnectBlock : ChainState → CBlock → uint256 → Bool
  /-- Result of `Reorganize(txdb, pindex)` of main.cpp. -/
  Reorganize : ChainState → uint256 → Bool
  /-- `block.ReadFromDisk(pindex)`; `none` is failure. -/
  ReadFromDisk : ChainState → uint256 → Option CBlock
  IsInitialBlockDownload : ChainState → Bool

/-- Modelled from the spec: the constructor `CBlockIndex(nFile, nBlockPos, block)`
(cblockindex.h is not among the sources): an entry without links, at height 0 and
trust 0, that carries the block's disk position, proof kind and header members.  A
stake block without an input in `vtx[1]` has no `vtx[1].vin[0]` to read (`none`). -/
def CBlockIndex.new (k : TxKinds) (nFile nBlockPos : Nat) (b : CBlock) : Option CBlockIndex :=
  let base : CBlockIndex :=
    { phashBlock := 0, pprev := none, nFile := nFile, nBlockPos := nBlockPos,
      nSequenceId := 0, nHeight := 0, nChainTrust := 0, fProofOfStake := false,
      prevoutStake := none, nStakeTime := 0, fStakeEntropyBit := 0, hashProof := 0,
      nStakeModifier := 0, fGeneratedStakeModifier := false, bnStakeModifierV2 := 0,
      nVersion := b.nVersion, nTime := b.nTime, nBits := b.nBits }
  if IsProofOfStake k b then
    match b.vtx[1]? with
    | some tx =>
      match tx.vin[0]? with
      | some txin =>
        some { base with fProofOfStake := true, prevoutStake := some txin.prevout,
                         nStakeTime := tx.nTime }
      | none => none
    | none => none
  else some base

/-- `CBlock::SetBestChainInner`.  `none` is the write through a null `pprev`. -/
def SetBestChainInner (c : ChainEnv) (h : Hasher) (s : ChainState) (b : CBlock)
    (pindexNew : uint256) : Option (Bool × ChainState) :=
  let hash := GetHash h b
  let fConnect := c.ConnectBlock s b pindexNew
  let s1 := s.emit (Event.ConnectBlock pindexNew)
  let fWrite := fConnect && c.WriteHashBestChain s1 hash
  let s2 := if fConnect then s1.emit (Event.WriteHashBestChain hash) else s1
  if !fConnect || !fWrite then
    some (false, (s2.emit Event.TxnAbort).emit (Event.InvalidChainFound pindexNew))
  else if !c.TxnCommit s2 then some (false, s2.emit Event.TxnCommit)
  else
    let s3 := s2.emit Event.TxnCommit
    match (s3.mapBlockIndex.lookup pindexNew).bind (fun e => e.pprev) with
    | none => none
    | some pprev =>
      let s4 := s3.emit (Event.SetNext pprev pindexNew)
      some (true, { s4 with trace := s4.trace ++ b.vtx.map (fun tx => Event.MempoolRemove (h.GetHash tx)) })

/-- The `while` loop of `SetBestChain` that postpones reconnects:
`while (pindexIntermediate->pprev && pindexIntermediate->pprev->nChainTrust > pindexBest->nChainTrust)`.
`none` is a null or dangling pointer (or exhausted fuel). -/
def postponeLoop (s : ChainState) : Nat → uint256 → List uint256 → Option (uint256 × List uint256)
  | 0, _, _ => none
  | fuel + 1, pindexIntermediate, vpindexSecondary =>
    match s.mapBlockIndex.lookup pindexIntermediate with
    | none => none
    | some e =>
      match e.pprev with
      | none => some (pindexIntermediate, vpindexSecondary)
      | some pprev =>
        match s.mapBlockIndex.lookup pprev, s.pindexBest.bind (fun p => s.mapBlockIndex.lookup p) with
        | some ep, some ebest =>
          if ep.nChainTrust > ebest.nChainTrust then
            postponeLoop s fuel pprev (vpindexSecondary ++ [pindexIntermediate])
          else some (pindexIntermediate, vpindexSecondary)
        | _, _ => none

/-- The loop of `SetBestChain` over the postponed blocks; every failure is a `break`. -/
def connectFurther (c : ChainEnv) (h : Hasher) : List uint256 → ChainState → Option ChainState
  | [], s => some s
  | pindex :: rest, s =>
    let s1 := s.emit (Event.ReadFromDisk pindex)
    match c.ReadFromDisk s pindex with
    | none => some s1
    | some block =>
      if !c.TxnBegin s1 then some (s1.emit Event.TxnBegin)
      else
        match SetBestChainInner c h (s1.emit Event.TxnBegin) block pindex with
        | none => none
        | some (false, s2) => some s2
        | some (true, s2) => connectFurther c h rest s2

/-- The three cases of `SetBestChain` up to the publication of the new best block. -/
def switchChain (c : ChainEnv) (h : Hasher) (s1 : ChainState) (b : CBlock)
    (pindexNew : uint256) : Option (Bool × ChainState) :=
  let hash := GetHash h b
  if s1.pindexGenesisBlock.isNone && hash == c.HashGenesisBlock then
    let s2 := s1.emit (Event.WriteHashBestChain hash)
    if !c.TxnCommit s2 then some (false, s2.emit Event.TxnCommit)
    else some (true, { s2.emit Event.TxnCommit with pindexGenesisBlock := some pindexNew })
  else if b.hashPrevBlock == s1.hashBestChain then
    SetBestChainInner c h s1 b pindexNew
  else
    match postponeLoop s1 (s1.mapBlockIndex.length + 1) pindexNew [] with
    | none => none
    | some (pindexIntermediate, vpindexSecondary) =>
      let s2 := s1.emit (Event.Reorganize pindexIntermediate)
      if !c.Reorganize s1 pindexIntermediate then
        some (false, (s2.emit Event.TxnAbort).emit (Event.InvalidChainFound pindexNew))
      else
        match connectFurther c h vpindexSecondary.reverse s2 with
        | none => none
        | some s3 => some (true, s3)

/-- `CBlock::SetBestChain`: the switch to the new chain, the locator signal and the
publication of the new best block.  What follows in the source (the log line, the
version warning and the `-blocknotify` command) does not touch the chain state. -/
def SetBestChain (c : ChainEnv) (h : Hasher) (s : ChainState) (b : CBlock)
    (pindexNew : uint256) : Option (Bool × ChainState) :=
  let hash := GetHash h b
  if !c.TxnBegin s then some (false, s.emit Event.TxnBegin)
  else
    match switchChain c h (s.emit Event.TxnBegin) b pindexNew with
    | none => none
    | some (false, s2) => some (false, s2)
    | some (true, s2) =>
      match s2.mapBlockIndex.lookup pindexNew with
      | none => none
      | some e =>
        let fIsInitialDownload := c.IsInitialBlockDownload s2
        let s3 :=
          if e.nHeight % 20160 = 0 ∨ (fIsInitialDownload = false ∧ e.nHeight % 144 = 0) then
            s2.emit (Event.SignalSetBestChain pindexNew)
          else s2
        some (true, { s3 with hashBestChain := hash, pindexBest := some pindexNew,
                              nBestHeight := e.nHeight, nBestChainTrust := e.nChainTrust })

/-- Cumulative trust of the entry `pprev` points to, `0` for the null pointer. -/
def prevChainTrust (s : ChainState) (pprev : Option uint256) : uint256 :=
  match pprev.bind (fun p => s.mapBlockIndex.lookup p) with
  | some ep => ep.nChainTrust
  | none => 0

/-- `AddToBlockIndex`, lines 912-934: the new entry with its sequence id, hash, link to
the previous entry, height and chain trust
`(pprev ? pprev->nChainTrust : 0) + GetBlockTrust()` in 256-bit arithmetic. -/
def linkedEntry (c : ChainEnv) (h : Hasher) (k : TxKinds) (s : ChainState) (b : CBlock)
    (nFile nBlockPos : Nat) : Option CBlockIndex :=
  match CBlockIndex.new k nFile nBlockPos b with
  | none => none
  | some e0 =>
    let e1 := { e0 with nSequenceId := s.nBlockSequenceId, phashBlock := GetHash h b }
    let e2 :=
      match s.mapBlockIndex.lookup b.hashPrevBlock with
      | some ep => { e1 with pprev := some b.hashPrevBlock, nHeight := ep.nHeight + 1 }
      | none => e1
    some { e2 with
      nChainTrust :=
        (prevChainTrust s e2.pprev + c.GetBlockTrust e2.fProofOfStake e2.nBits) % 2 ^ 256 }

/-- `AddToBlockIndex`, lines 936-955: entropy bit, proof hash and stake modifiers.
`some none` is a `return error(...)`, `none` the read of a missing `vtx[1].vin[0]`. -/
def stakedEntry (c : ChainEnv) (h : Hasher) (k : TxKinds) (s1 : ChainState) (b : CBlock)
    (e3 : CBlockIndex) (hashProof : uint256) : Option (Option CBlockIndex) :=
  if !c.SetStakeEntropyBit (GetStakeEntropyBit h b) then some none
  else
    match c.ComputeNextStakeModifier s1 e3.pprev with
    | none => some none
    | some (nStakeModifier, fGeneratedStakeModifier) =>
      let kernel : Option uint256 :=
        if IsProofOfWork k b then some (GetHash h b)
        else (b.vtx[1]?).bind (fun tx => (tx.vin[0]?).map (fun txin => txin.prevout.hash))
      match kernel with
      | none => none
      | some kernelHash =>
        some (some { e3 with
          fStakeEntropyBit := GetStakeEntropyBit h b,
          hashProof := hashProof,
          nStakeModifier := nStakeModifier,
          fGeneratedStakeModifier := fGeneratedStakeModifier,
          bnStakeModifierV2 := c.ComputeStakeModifierV2 s1 e3.pprev kernelHash })

/-- `AddToBlockIndex`, lines 957-965: insertion into `mapBlockIndex` and `setStakeSeen`. -/
def insertEntry (s1 : ChainState) (hash : uint256) (pindexNew : CBlockIndex) : ChainState :=
  { s1 with
    mapBlockIndex := (hash, pindexNew) :: s1.mapBlockIndex,
    setStakeSeen :=
      if pindexNew.fProofOfStake then
        match pindexNew.prevoutStake with
        | some o => (o, pindexNew.nStakeTime) :: s1.setStakeSeen
        | none => s1.setStakeSeen
      else s1.setStakeSeen }

/-- `AddToBlockIndex`, lines 967-1000: the entry is written to the ledger, becomes the
best block when its trust is greater than `nBestChainTrust`, and the UI is notified. -/
def publishEntry (c : ChainEnv) (h : Hasher) (s2 : ChainState) (b : CBlock)
    (pindexNew : CBlockIndex) : Option (Bool × ChainState) :=
  let hash := GetHash h b
  if !c.TxnBegin s2 then some (false, s2.emit Event.TxnBegin)
  else
    let s3 := (s2.emit Event.TxnBegin).emit (Event.WriteBlockIndex hash)
    if !c.TxnCommit s3 then some (false, s3.emit Event.TxnCommit)
    else
      let s4 := s3.emit Event.TxnCommit
      let best : Option (Bool × ChainState) :=
        if pindexNew.nChainTrust > s4.nBestChainTrust then SetBestChain c h s4 b hash
        else some (true, s4)
      match best with
      | none => none
      | some (false, s5) => some (false, s5)
      | some (true, s5) =>
        if s5.pindexBest = some hash then
          match b.vtx[0]? with
          | some _ => some (true, s5.emit Event.SignalUpdatedTransaction)
          | none => none
        else some (true, s5)

/-- `CBlock::AddToBlockIndex`.  The result is the returned flag with the chain state
the call leaves behind; `none` is undefined behaviour (a read outside a vector, a null
pointer). -/
def AddToBlockIndex (c : ChainEnv) (h : Hasher) (k : TxKinds) (s : ChainState) (b : CBlock)
    (nFile nBlockPos : Nat) (hashProof : uint256) : Option (Bool × ChainState) :=
  let hash := GetHash h b
  if (s.mapBlockIndex.lookup hash).isSome then some (false, s)
  else
    match linkedEntry c h k s b nFile nBlockPos with
    | none => none
    | some e3 =>
      let s1 := { s with nBlockSequenceId := (s.nBlockSequenceId + 1) % 2 ^ 32 }
      match stakedEntry c h k s1 b e3 hashProof with
      | none => none
      | some none => some (false, s1)
      | some (some pindexNew) => publishEntry c h (insertEntry s1 hash pindexNew) b pindexNew

/-! ## The trust bookkeeping of `AddToBlockIndex`, seen on its own -/

/-- What best-chain selection uses of a block: its hash, the hash of its parent and its
block trust. -/
structure TrustItem where
  key : uint256
  prev : uint256
  blockTrust : uint256

/-- View of the chain state: the cumulative trust stored under each indexed hash, the
best trust, and the best tip (`pindexBest`, `hashBestChain`). -/
structure TrustState where
  trust : uint256 → Option uint256
  best : uint256
  tip : Option uint256 × uint256

/-- Effect of one successful `AddToBlockIndex` on the view. -/
def TrustState.add (t : TrustState) (x : TrustItem) : TrustState :=
  { trust := fun k =>
      if k = x.key then some (((t.trust x.prev).getD 0 + x.blockTrust) % 2 ^ 256) else t.trust k,
    best :=
      if ((t.trust x.prev).getD 0 + x.blockTrust) % 2 ^ 256 > t.best then
        ((t.trust x.prev).getD 0 + x.blockTrust) % 2 ^ 256
      else t.best,
    tip :=
      if ((t.trust x.prev).getD 0 + x.blockTrust) % 2 ^ 256 > t.best then (some x.key, x.key)
      else t.tip }

/-- Effect of a sequence of successful calls. -/
def TrustState.addList (t : TrustState) : List TrustItem → TrustState
  | [] => t
  | x :: l => (t.add x).addList l

/-- Every block is unknown at the moment it is added. -/
def Fresh : TrustState → List TrustItem → Prop
  | _, [] => True
  | t, x :: l => t.trust x.key = none ∧ Fresh (t.add x) l

/-- No block is its own parent and no parent comes after its child. -/
def ParentsFirstItems : List TrustItem → Prop
  | [] => True
  | x :: post => (∀ y ∈ x :: post, y.key ≠ x.prev) ∧ ParentsFirstItems post

/-- The view of a chain state. -/
def trustView (s : ChainState) : TrustState :=
  { trust := fun k => (s.mapBlockIndex.lookup k).map (fun e => e.nChainTrust),
    best := s.nBestChainTrust,
    tip := (s.pindexBest, s.hashBestChain) }

/-- The view of a block. -/
def trustItem (c : ChainEnv) (h : Hasher) (k : TxKinds) (b : CBlock) : TrustItem :=
  { key := GetHash h b, prev := b.hashPrevBlock,
    blockTrust := c.GetBlockTrust (IsProofOfStake k b) b.nBits }

/-- An order of blocks in which each parent precedes its children: no block of the
list is the parent of itself or of an earlier block. -/
def ParentsFirst (h : Hasher) : List CBlock → Prop
  | [] => True
  | x :: post => (∀ y ∈ x :: post, GetHash h y ≠ x.hashPrevBlock) ∧ ParentsFirst h post

/-! ## Context-free block validation (cblock.cpp 63-68, 1003-1581, 1902-1932) -/

/-- Script classes returned by `Solver` (script.h). -/
inductive txnouttype where
  | TX_NONSTANDARD
  | TX_PUBKEY
  | TX_PUBKEYHASH
  | TX_SCRIPTHASH
  | TX_MULTISIG
  | TX_NULL_DATA
  deriving DecidableEq, Repr

/-- Entry of the masternode winner list (`CMasternodePaymentWinner`). -/
structure CMasternodePaymentWinner where
  nBlockHeight : Int
  vin : CTxIn
  payee : List Nat
  vchSig : List Nat
  score : Nat
  deriving DecidableEq, Repr

/-- `CMasternodePayments::GetBlockPayee` (cmasternodepayments.cpp 112-126): the payee and
input of the first winner recorded for the height; `none` is `return false`. -/
def GetBlockPayee (vWinning : List CMasternodePaymentWinner) (nBlockHeight : Int) :
    Option (List Nat × CTxIn) :=
  match vWinning.find? (fun winner => decide (winner.nBlockHeight = nBlockHeight)) with
  | some winner => some (winner.payee, winner.vin)
  | none => none

/-- Globals, constants and collaborators read by `CheckBlock` whose definitions are
outside the sources. -/
structure CheckEnv where
  MAX_BLOCK_SIZE : Nat
  MAX_BLOCK_SIGOPS : Nat
  /-- `::GetSerializeSize(block, SER_NETWORK, PROTOCOL_VERSION)`. -/
  GetSerializeSize : CBlock → Nat
  CheckProofOfWork : uint256 → Nat → Bool
  GetAdjustedTime : Int
  FutureDrift : Int → Int
  /-- `Solver(scriptPubKey, whichType, vSolutions)`: result, script class, solutions. -/
  Solver : List Nat → Bool × txnouttype × List (List Nat)
  /-- `CPubKey(vchPubKey).Verify(hash, vchSig)`. -/
  Verify : List Nat → uint256 → List Nat → Bool
  /-- `IsSporkActive(SPORK_3_INSTANTX_BLOCK_FILTERING)`. -/
  fInstantXBlockFiltering : Bool
  mapLockedInputs : List (COutPoint × uint256)
  fDebug : Bool
  IsInitialBlockDownload : ChainState → Bool
  START_MASTERNODE_PAYMENTS : Int
  /-- The winner list of the global `masternodePayments`. -/
  vWinning : List CMasternodePaymentWinner
  VERION_1_0_0_0_MANDATORY_UPDATE_START : Int
  VERION_1_0_1_5_MANDATORY_UPDATE_START : Int
  COIN : Int
  /-- `GetProofOfStakeReward(pindexPrev, nCoinAge, nFees)`, given the entry `pindexPrev`
  points to (`none` for the null pointer). -/
  GetProofOfStakeReward : Option CBlockIndex → Int → Int → Int
  GetProofOfWorkReward : Int → Int → Int
  GetMasternodePayment : Int → Int → Int
  GetDevOpsPayment : Int → Int → Int
  /-- The global `nMasterNodeChecksDelayBaseTime` before the call. -/
  nMasterNodeChecksDelayBaseTime : Int
  GetTime : Int
  getDevelopersAdress : CBlockIndex → List Nat
  /-- `mnodeman.IsPayeeAValidMasternode(script)`. -/
  IsPayeeAValidMasternode : List Nat → Bool
  fMnAdvRelay : Bool
  /-- `ExtractDestination` followed by `CBitcoinAddress(..).ToString()`. -/
  AddressToString : List Nat → List Nat
  /-- `tx.CheckTransaction()`: the result and the transaction's `nDoS` afterwards. -/
  CheckTransaction : CTransaction → Bool × Int
  GetLegacySigOpCount : CTransaction → Nat

/-- What one call of `CheckBlock` leaves behind: the returned flag, the block with its
`mutable` members (`nDoS`, `vMerkleTree`), and the global
`nMasterNodeChecksDelayBaseTime`. -/
structure CheckOutcome where
  ok : Bool
  block : CBlock
  nMasterNodeChecksDelayBaseTime : Int
  deriving DecidableEq, Repr

/-- `CBlock::DoS`: `nDoS += nDoSIn; return fIn;`.  `nDoS` is a C++ `int`; the sum is taken
in the integers, signed overflow being undefined in C++. -/
def DoS (b : CBlock) (nDoSIn : Int) (fIn : Bool) : Bool × CBlock :=
  (fIn, { b with nDoS := b.nDoS + nDoSIn })

/-- `return DoS(nDoSIn, error(...))`, `error` returning `false`. -/
def rejectDoS (b : CBlock) (baseTime : Int) (nDoSIn : Int) : Option CheckOutcome :=
  some { ok := (DoS b nDoSIn false).1, block := (DoS b nDoSIn false).2,
         nMasterNodeChecksDelayBaseTime := baseTime }

/-- `return error(...)` without a call of `DoS`. -/
def rejectPlain (b : CBlock) (baseTime : Int) : Option CheckOutcome :=
  some { ok := false, block := b, nMasterNodeChecksDelayBaseTime := baseTime }

/-- `CBlock::GetBlockTime`. -/
def GetBlockTime (b : CBlock) : Int := (b.nTime : Int)

/-- Size limits: `vtx.empty() || vtx.size() > MAX_BLOCK_SIZE ||`
`::GetSerializeSize(*this, SER_NETWORK, PROTOCOL_VERSION) > MAX_BLOCK_SIZE`. -/
def sizeLimitsFailed (env : CheckEnv) (b : CBlock) : Bool :=
  b.vtx.isEmpty || decide (b.vtx.length > env.MAX_BLOCK_SIZE) ||
    decide (env.GetSerializeSize b > env.MAX_BLOCK_SIZE)

/-- Proof of work: `fCheckPOW && IsProofOfWork() && !CheckProofOfWork(GetPoWHash(), nBits)`. -/
def proofOfWorkFailed (env : CheckEnv) (h : Hasher) (k : TxKinds) (b : CBlock)
    (fCheckPOW : Bool) : Bool :=
  fCheckPOW && IsProofOfWork k b && !env.CheckProofOfWork (GetPoWHash h b) b.nBits

/-- Timestamp: `GetBlockTime() > FutureDrift(GetAdjustedTime())`. -/
def timestampTooFar (env : CheckEnv) (b : CBlock) : Bool :=
  decide (GetBlockTime b > env.FutureDrift env.GetAdjustedTime)

/-- First transaction: `vtx.empty() || !vtx[0].IsCoinBase()`. -/
def firstNotCoinBase (k : TxKinds) (b : CBlock) : Bool :=
  match b.vtx with
  | [] => true
  | tx0 :: _ => !k.IsCoinBase tx0

/-- `for (unsigned int i = 1; i < vtx.size(); i++) if (vtx[i].IsCoinBase())`. -/
def laterCoinBase (k : TxKinds) (b : CBlock) : Bool :=
  (b.vtx.drop 1).any k.IsCoinBase

/-- `vtx[0].vout.size() != 1 || !vtx[0].vout[0].IsEmpty()`, for a non-empty `vtx`. -/
def coinBaseOutputNotEmpty (k : TxKinds) (b : CBlock) : Bool :=
  match b.vtx with
  | [] => true
  | tx0 :: _ =>
    match tx0.vout with
    | [o] => !k.IsEmpty o
    | _ => true

/-- `vtx.empty() || !vtx[1].IsCoinStake()`, within `if (IsProofOfStake())`. -/
def secondNotCoinStake (k : TxKinds) (b : CBlock) : Bool :=
  b.vtx.isEmpty ||
    (match b.vtx[1]? with
     | some tx1 => !k.IsCoinStake tx1
     | none => true)

/-- `for (unsigned int i = 2; i < vtx.size(); i++) if (vtx[i].IsCoinStake())`. -/
def laterCoinStake (k : TxKinds) (b : CBlock) : Bool :=
  (b.vtx.drop 2).any k.IsCoinStake

/-- `CBlock::CheckBlockSignature`; `none` is the read of a missing `vtx[1].vout[1]` or
`vSolutions[0]`. -/
def CheckBlockSignature (env : CheckEnv) (h : Hasher) (k : TxKinds) (b : CBlock) : Option Bool :=
  if IsProofOfWork k b then some b.vchBlockSig.isEmpty
  else if b.vchBlockSig.isEmpty then some false
  else
    match (b.vtx[1]?).bind (fun tx => tx.vout[1]?) with
    | none => none
    | some txout =>
      match env.Solver txout.scriptPubKey with
      | (false, _, _) => some false
      | (true, whichType, vSolutions) =>
        if whichType = txnouttype.TX_PUBKEY then
          match vSolutions[0]? with
          | some vchPubKey => some (env.Verify vchPubKey (GetHash h b) b.vchBlockSig)
          | none => none
        else some false

/-- InstantX scan: some input of a non-coinbase transaction is locked by a different
transaction (`mapLockedInputs.count(in.prevout) && mapLockedInputs[in.prevout] != tx.GetHash()`),
under `IsSporkActive(SPORK_3_INSTANTX_BLOCK_FILTERING)`. -/
def lockedInputConflict (env : CheckEnv) (h : Hasher) (k : TxKinds) (b : CBlock) : Bool :=
  env.fInstantXBlockFiltering &&
    b.vtx.any (fun tx =>
      !k.IsCoinBase tx &&
        tx.vin.any (fun txin =>
          match env.mapLockedInputs.lookup txin.prevout with
          | some locker => locker != h.GetHash tx
          | none => false))

/-- Masternode payment step (lines 1104-1243).  `some false` is the rejection
`DoS(100, ...)`, `none` a null or dangling `pindexBest`. -/
def masternodePaymentStep (env : CheckEnv) (k : TxKinds) (s : ChainState) (b : CBlock) :
    Option Bool :=
  if env.IsInitialBlockDownload s then
    if env.fDebug then
      match s.pindexBest.bind (fun p => s.mapBlockIndex.lookup p) with
      | some _ => some true
      | none => none
    else some true
  else if (b.nTime : Int) > env.START_MASTERNODE_PAYMENTS then
    if IsProofOfStake k b then
      match s.pindexBest with
      | none => some true
      | some p =>
        match s.mapBlockIndex.lookup p, b.vtx[1]? with
        | some pindex, some tx1 =>
          if pindex.phashBlock = b.hashPrevBlock then
            let masternodePaymentAmount : Option Int := tx1.vout.getLast?.map (fun o => o.nValue)
            let payee : Option (List Nat) :=
              (GetBlockPayee env.vWinning (pindex.nHeight + 1)).map (fun r => r.1)
            let fAnyPayee : Bool :=
              match payee with
              | none => true
              | some script => script.isEmpty
            let foundPaymentAndPayee : Bool :=
              fAnyPayee ||
                tx1.vout.any (fun o =>
                  decide (some o.nValue = masternodePaymentAmount) &&
                    decide (some o.scriptPubKey = payee))
            some foundPaymentAndPayee
          else some true
        | _, _ => none
    else some true
  else some true

/-- Body of the payment loop for output `i` (lines 1331-1512); `none` is a read of
`vout[nProofOfIndexMasternode]` or `vout[nProofOfIndexDevops]` outside the vector. -/
def paymentsAt (COIN : Int) (fValidPayee : List Nat → Bool) (fMnAdvRelay : Bool)
    (isProofOfStake : Bool) (vout : List CTxOut) (nProofOfIndexMasternode nProofOfIndexDevops : Nat)
    (nMasternodePayment nDevopsPayment nMasterNodeChecksEngageTime : Int)
    (pindexBestBlockTime updateStart : Int) (i : Nat) (fBlockHasPayments : Bool) : Option Bool :=
  match vout[i]?, vout[nProofOfIndexMasternode]?, vout[nProofOfIndexDevops]? with
  | some o, some oMasternode, some oDevops =>
    let nAmount := o.nValue.tdiv COIN
    let nIndexedMasternodePayment := oMasternode.nValue.tdiv COIN
    let nIndexedDevopsPayment := oDevops.nValue.tdiv COIN
    let f1 : Bool :=
      if i = nProofOfIndexMasternode then
        let fa : Bool :=
          if fValidPayee o.scriptPubKey then fBlockHasPayments
          else if nMasterNodeChecksEngageTime ≠ 0 then
            (if fMnAdvRelay then false else fBlockHasPayments)
          else fBlockHasPayments
        if (if isProofOfStake then nIndexedMasternodePayment else nAmount) = nMasternodePayment
        then fa else false
      else fBlockHasPayments
    let f2 : Bool :=
      if i = nProofOfIndexDevops then
        if (if isProofOfStake then nIndexedDevopsPayment else nAmount) = nDevopsPayment then f1
        else if pindexBestBlockTime < updateStart then false
        else if nIndexedDevopsPayment ≥ nDevopsPayment then f1
        else false
      else f1
    some f2
  | _, _, _ => none

/-- The payment loop `for (unsigned int i = 0; i < vout.size(); i++)`. -/
def paymentsLoop (COIN : Int) (fValidPayee : List Nat → Bool) (fMnAdvRelay : Bool)
    (isProofOfStake : Bool) (vout : List CTxOut) (nProofOfIndexMasternode nProofOfIndexDevops : Nat)
    (nMasternodePayment nDevopsPayment nMasterNodeChecksEngageTime : Int)
    (pindexBestBlockTime updateStart : Int) : List Nat → Bool → Option Bool
  | [], fBlockHasPayments => some fBlockHasPayments
  | i :: rest, fBlockHasPayments =>
    match paymentsAt COIN fValidPayee fMnAdvRelay isProofOfStake vout nProofOfIndexMasternode
        nProofOfIndexDevops nMasternodePayment nDevopsPayment nMasterNodeChecksEngageTime
        pindexBestBlockTime updateStart i fBlockHasPayments with
    | some f => paymentsLoop COIN fValidPayee fMnAdvRelay isProofOfStake vout
        nProofOfIndexMasternode nProofOfIndexDevops nMasternodePayment nDevopsPayment
        nMasterNodeChecksEngageTime pindexBestBlockTime updateStart rest f
    | none => none

/-- Devops and masternode payment verification (lines 1245-1532).  The result is
`fBlockHasPayments` (`true` when the verification is skipped) with the new value of
`nMasterNodeChecksDelayBaseTime`; `none` is a read outside a vector. -/
def devopsPaymentStep (env : CheckEnv) (h : Hasher) (k : TxKinds) (s : ChainState) (b : CBlock) :
    Option (Bool × Int) :=
  match s.mapBlockIndex.lookup (GetHash h b) with
  | none => some (true, env.nMasterNodeChecksDelayBaseTime)
  | some pindex =>
    let pindexBestBlockTime : Int := (pindex.nTime : Int)
    if pindexBestBlockTime > env.VERION_1_0_0_0_MANDATORY_UPDATE_START then
      let nMasterNodeChecksDelay : Int := 45 * 60
      let pindexPrev : Option CBlockIndex := pindex.pprev.bind (fun p => s.mapBlockIndex.lookup p)
      let isProofOfStake : Bool := !IsProofOfWork k b
      match b.vtx[if isProofOfStake then 1 else 0]? with
      | none => none
      | some tx =>
        let layout : Nat × Nat × Bool :=
          if isProofOfStake then
            if tx.vout.length ≠ 4 then
              if tx.vout.length ≠ 5 then (2, 3, false) else (3, 4, true)
            else (2, 3, true)
          else
            if tx.vout.length ≠ 3 then (1, 2, false) else (1, 2, true)
        let nStandardPayment : Int :=
          if isProofOfStake then env.GetProofOfStakeReward pindexPrev 0 0
          else env.GetProofOfWorkReward pindex.nHeight 0
        let nMasternodePayment := (env.GetMasternodePayment pindex.nHeight nStandardPayment).tdiv env.COIN
        let nDevopsPayment := (env.GetDevOpsPayment pindex.nHeight nStandardPayment).tdiv env.COIN
        let fIsInitialDownload := env.IsInitialBlockDownload s
        let baseTime : Int :=
          if fIsInitialDownload then env.GetTime else env.nMasterNodeChecksDelayBaseTime
        let nMasterNodeChecksEngageTime : Int :=
          if fIsInitialDownload then 0
          else env.nMasterNodeChecksDelayBaseTime + nMasterNodeChecksDelay
        let strVfyDevopsAddress := env.getDevelopersAdress pindex
        match paymentsLoop env.COIN
            (fun script => env.IsPayeeAValidMasternode script ||
              decide (env.AddressToString script = strVfyDevopsAddress))
            env.fMnAdvRelay isProofOfStake tx.vout layout.1 layout.2.1 nMasternodePayment
            nDevopsPayment nMasterNodeChecksEngageTime pindexBestBlockTime
            env.VERION_1_0_1_5_MANDATORY_UPDATE_START (List.range tx.vout.length) layout.2.2 with
        | some fBlockHasPayments => some (fBlockHasPayments, baseTime)
        | none => none
    else some (true, env.nMasterNodeChecksDelayBaseTime)

/-- The loop "Check transactions": the weight of the first failure, `tx.nDoS` for a
failed `CheckTransaction()` and 50 for a transaction time stamp after the block's. -/
def transactionsFailure (CheckTransaction : CTransaction → Bool × Int) (b : CBlock) :
    List CTransaction → Option Int
  | [] => none
  | tx :: rest =>
    if !(CheckTransaction tx).1 then some (CheckTransaction tx).2
    else if GetBlockTime b < (tx.nTime : Int) then some 50
    else transactionsFailure CheckTransaction b rest

/-- `uniqueTx.size() != vtx.size()` for the set `uniqueTx` of the transaction ids. -/
def duplicateTransaction (h : Hasher) (b : CBlock) : Bool :=
  decide ((b.vtx.map h.GetHash).dedup.length ≠ b.vtx.length)

/-- `nSigOps += GetLegacySigOpCount(tx)` over all transactions, in `unsigned int`. -/
def legacySigOps (env : CheckEnv) (b : CBlock) : Nat :=
  b.vtx.foldl (fun nSigOps tx => (nSigOps + env.GetLegacySigOpCount tx) % 2 ^ 32) 0

/-- `CheckBlock` from "Check transactions" to the end (lines 1535-1580). -/
def checkTransactionsAndRoot (env : CheckEnv) (h : Hasher) (b : CBlock) (baseTime : Int)
    (fCheckMerkleRoot : Bool) : Option CheckOutcome :=
  match transactionsFailure env.CheckTransaction b b.vtx with
  | some nDoSIn => rejectDoS b baseTime nDoSIn
  | none =>
    if duplicateTransaction h b then rejectDoS b baseTime 100
    else if legacySigOps env b > env.MAX_BLOCK_SIGOPS then rejectDoS b baseTime 100
    else if fCheckMerkleRoot then
      match BuildMerkleTree h b with
      | none => none
      | some (b1, root) =>
        if b.hashMerkleRoot ≠ root then rejectDoS b1 baseTime 100
        else some { ok := true, block := b1, nMasterNodeChecksDelayBaseTime := baseTime }
    else some { ok := true, block := b, nMasterNodeChecksDelayBaseTime := baseTime }

/-- `CheckBlock` from the signature check to the end (lines 1063-1580). -/
def checkSignatureAndPayments (env : CheckEnv) (h : Hasher) (k : TxKinds) (s : ChainState)
    (b : CBlock) (fCheckMerkleRoot fCheckSig : Bool) : Option CheckOutcome :=
  match (if fCheckSig then CheckBlockSignature env h k b else some true) with
  | none => none
  | some false => rejectDoS b env.nMasterNodeChecksDelayBaseTime 100
  | some true =>
    if lockedInputConflict env h k b then rejectDoS b env.nMasterNodeChecksDelayBaseTime 0
    else
      match masternodePaymentStep env k s b with
      | none => none
      | some false => rejectDoS b env.nMasterNodeChecksDelayBaseTime 100
      | some true =>
        match devopsPaymentStep env h k s b with
        | none => none
        | some (false, baseTime) => rejectDoS b baseTime 10
        | some (true, baseTime) => checkTransactionsAndRoot env h b baseTime fCheckMerkleRoot

/-- `CBlock::CheckBlock(fCheckPOW, fCheckMerkleRoot, fCheckSig)` in the chain state `s`.
`none` is undefined behaviour (a read outside a vector, a null pointer). -/
def CheckBlock (env : CheckEnv) (h : Hasher) (k : TxKinds) (s : ChainState) (b : CBlock)
    (fCheckPOW fCheckMerkleRoot fCheckSig : Bool) : Option CheckOutcome :=
  if sizeLimitsFailed env b then rejectDoS b env.nMasterNodeChecksDelayBaseTime 100
  else if proofOfWorkFailed env h k b fCheckPOW then
    rejectDoS b env.nMasterNodeChecksDelayBaseTime 50
  else if timestampTooFar env b then rejectPlain b env.nMasterNodeChecksDelayBaseTime
  else if firstNotCoinBase k b then rejectDoS b env.nMasterNodeChecksDelayBaseTime 100
  else if laterCoinBase k b then rejectDoS b env.nMasterNodeChecksDelayBaseTime 100
  else if IsProofOfStake k b && coinBaseOutputNotEmpty k b then
    rejectDoS b env.nMasterNodeChecksDelayBaseTime 100
  else if IsProofOfStake k b && secondNotCoinStake k b then
    rejectDoS b env.nMasterNodeChecksDelayBaseTime 100
  else if IsProofOfStake k b && laterCoinStake k b then
    rejectDoS b env.nMasterNodeChecksDelayBaseTime 100
  else checkSignatureAndPayments env h k s b fCheckMerkleRoot fCheckSig

/-! ## Names for the parts of the payment verification -/

/-- Index layout of the payment outputs (lines 1276-1308) for a payment transaction with
`n` outputs: `nProofOfIndexMasternode`, `nProofOfIndexDevops` and the value
`fBlockHasPayments` starts the loop with. -/
def paymentLayout (isProofOfStake : Bool) (n : Nat) : Nat × Nat × Bool :=
  if isProofOfStake then
    if n ≠ 4 then
      if n ≠ 5 then (2, 3, false) else (3, 4, true)
    else (2, 3, true)
  else
    if n ≠ 3 then (1, 2, false) else (1, 2, true)

/-- `nStandardPayment` (lines 1293 and 1305) for the block with index entry `pindex`. -/
def nStandardPayment (env : CheckEnv) (k : TxKinds) (s : ChainState) (b : CBlock)
    (pindex : CBlockIndex) : Int :=
  if !IsProofOfWork k b then
    env.GetProofOfStakeReward (pindex.pprev.bind (fun p => s.mapBlockIndex.lookup p)) 0 0
  else env.GetProofOfWorkReward pindex.nHeight 0

/-- `nMasternodePayment` (line 1309): the masternode payment in whole coins. -/
def nMasternodePayment (env : CheckEnv) (k : TxKinds) (s : ChainState) (b : CBlock)
    (pindex : CBlockIndex) : Int :=
  (env.GetMasternodePayment pindex.nHeight (nStandardPayment env k s b pindex)).tdiv env.COIN

/-- `nDevopsPayment` (line 1310): the devops payment in whole coins. -/
def nDevopsPayment (env : CheckEnv) (k : TxKinds) (s : ChainState) (b : CBlock)
    (pindex : CBlockIndex) : Int :=
  (env.GetDevOpsPayment pindex.nHeight (nStandardPayment env k s b pindex)).tdiv env.COIN

/-- `nMasterNodeChecksEngageTime` (lines 1316-1324): 0 during initial download, else the
base time plus 45 minutes. -/
def nMasterNodeChecksEngageTime (env : CheckEnv) (s : ChainState) : Int :=
  if env.IsInitialBlockDownload s then 0 else env.nMasterNodeChecksDelayBaseTime + 45 * 60

/-- The recipient test of the masternode output (lines 1356 and 1442): a valid masternode
payee or the devops address. -/
def fValidPayee (env : CheckEnv) (pindex : CBlockIndex) (script : List Nat) : Bool :=
  env.IsPayeeAValidMasternode script ||
    decide (env.AddressToString script = env.getDevelopersAdress pindex)

/-- What the loop body leaves of `fBlockHasPayments` at the masternode index (lines
1354-1385 and 1440-1471) for the output `o` found there. -/
def masternodeOutputOk (COIN : Int) (fValid : List Nat → Bool) (fMnAdvRelay : Bool)
    (required engageTime : Int) (o : CTxOut) : Bool :=
  decide (o.nValue.tdiv COIN = required) &&
    (fValid o.scriptPubKey || !(decide (engageTime ≠ 0) && fMnAdvRelay))

/-- What the loop body leaves of `fBlockHasPayments` at the devops index (lines 1388-1427
and 1474-1512) for the output `o` found there. -/
def devopsOutputOk (COIN required blockTime updateStart : Int) (o : CTxOut) : Bool :=
  decide (o.nValue.tdiv COIN = required) ||
    (!decide (blockTime < updateStart) && decide (o.nValue.tdiv COIN ≥ required))

/-- The published best chain with the genesis pointer: `hashBestChain`, `pindexBest`,
`nBestHeight`, `nBestChainTrust` and `pindexGenesisBlock`. -/
def ChainState.published (s : ChainState) :
    uint256 × Option uint256 × Int × uint256 × Option uint256 :=
  (s.hashBestChain, s.pindexBest, s.nBestHeight, s.nBestChainTrust, s.pindexGenesisBlock)

/-! ## `CBlock::AcceptBlock` -/

/-- Collaborators of `AcceptBlock` whose bodies are outside the sources.  Those that
follow `pprev` pointers take the chain state. -/
structure AcceptEnv where
  Velocity_check : Int → Bool
  Velocity : ChainState → CBlockIndex → CBlock → Bool
  /-- `Params().EndPoWBlock()`. -/
  EndPoWBlock : Int
  /-- `Params().StartPoSBlock()`. -/
  StartPoSBlock : Int
  /-- `CheckCoinStakeTimestamp(nHeight, nTimeBlock, nTimeTx)`. -/
  CheckCoinStakeTimestamp : Int → Int → Int → Bool
  /-- `GetNextTargetRequired(pindexPrev, fProofOfStake)`. -/
  GetNextTargetRequired : ChainState → CBlockIndex → Bool → Nat
  /-- `pindexPrev->GetPastTimeLimit()`. -/
  GetPastTimeLimit : ChainState → CBlockIndex → Int
  /-- `IsFinalTx(tx, nHeight, nBlockTime)`. -/
  IsFinalTx : CTransaction → Int → Int → Bool
  /-- `tx.GetMapTxInputs(mapInputs, true)`; `none` is a thrown exception. -/
  GetMapTxInputs : CTransaction → Option Bool
  /-- `tx.GetValueMapIn(mapInputs)`; `none` is a thrown exception. -/
  GetValueMapIn : CTransaction → Option Int
  /-- `tx.GetValueOut()`; `none` is a thrown exception. -/
  GetValueOut : CTransaction → Option Int
  /-- `Checkpoints::CheckHardened(nHeight, hash)`. -/
  CheckHardened : Int → uint256 → Bool
  /-- `CheckProofOfStake(pindexPrev, vtx[1], nBits, hashProof, targetProofOfStake)`: the
  returned flag and the value left in `hashProof`. -/
  CheckProofOfStake : ChainState → CBlockIndex → CTransaction → Nat → Bool × uint256
  /-- `Checkpoints::CheckSync(nHeight)`. -/
  CheckSync : Int → Bool
  /-- The script `CScript() << nHeight`. -/
  heightScript : Int → List Nat
  /-- `CheckDiskSpace(::GetSerializeSize(*this, SER_DISK, CLIENT_VERSION))`. -/
  CheckDiskSpace : CBlock → Bool
  /-- `WriteToDisk(nFile, nBlockPos)`; `none` is failure. -/
  WriteToDisk : CBlock → Option (Nat × Nat)
  /-- Weight that the `ConnectBlock` run on this block inside `AddToBlockIndex` adds to
  `nDoS` (the chain collaborator `ChainEnv.ConnectBlock` reports its flag only). -/
  nestedDoS : ChainState → CBlock → Int

/-- What a call of `AcceptBlock` leaves behind: the returned flag, the block with its
`mutable` member `nDoS`, and the chain state. -/
structure AcceptOutcome where
  ok : Bool
  block : CBlock
  chain : ChainState
  deriving DecidableEq, Repr

/-- `return DoS(nDoSIn, error(...))` inside `AcceptBlock`. -/
def acceptDoS (s : ChainState) (b : CBlock) (nDoSIn : Int) : Option AcceptOutcome :=
  some { ok := (DoS b nDoSIn false).1, block := (DoS b nDoSIn false).2, chain := s }

/-- `return error(...)` inside `AcceptBlock`. -/
def acceptError (s : ChainState) (b : CBlock) : Option AcceptOutcome :=
  some { ok := false, block := b, chain := s }

/-- Addition of `int64_t` (`CAmount`) values in 64-bit two's complement: the result the
overflow guards of `AcceptBlock` test the sign of. -/
def wrap64 (x : Int) : Int := (x + 2 ^ 63) % 2 ^ 64 - 2 ^ 63

/-- How the accumulation loop of the anti-inflation check ends: an exception, a
`return DoS(nDoSIn, ...)`, or the totals `tx_inputs_values` and `tx_outputs_values`. -/
inductive InflationResult where
  | threw
  | rejected (nDoSIn : Int)
  | done (tx_inputs_values tx_outputs_values : Int)
  deriving DecidableEq, Repr

/-- The loop over `vtx` of the anti-inflation check (lines 1698-1732), from the totals
`tx_inputs_values` and `tx_outputs_values` reached so far. -/
def inflationLoop (GetMapTxInputs : CTransaction → Option Bool)
    (GetValueMapIn GetValueOut : CTransaction → Option Int) :
    List CTransaction → Int → Int → InflationResult
  | [], tx_inputs_values, tx_outputs_values =>
    InflationResult.done tx_inputs_values tx_outputs_values
  | tx :: rest, tx_inputs_values, tx_outputs_values =>
    match GetMapTxInputs tx with
    | none => InflationResult.threw
    | some false => InflationResult.rejected 10
    | some true =>
      match GetValueMapIn tx with
      | none => InflationResult.threw
      | some tx_MapIn_values =>
        match GetValueOut tx with
        | none => InflationResult.threw
        | some tx_MapOut_values =>
          if wrap64 (tx_inputs_values + tx_MapIn_values) ≥ 0 then
            if wrap64 (tx_outputs_values + tx_MapOut_values) ≥ 0 then
              inflationLoop GetMapTxInputs GetValueMapIn GetValueOut rest
                (wrap64 (tx_inputs_values + tx_MapIn_values))
                (wrap64 (tx_outputs_values + tx_MapOut_values))
            else InflationResult.rejected 100
          else InflationResult.rejected 100

/-- The anti-inflation check with its `try`/`catch` (lines 1684-1762): `some nDoSIn` is
a rejection with that weight, `none` lets the block through (after the warning, when an
exception was caught at a height up to 403084). -/
def inflationStep (a : AcceptEnv) (env : CheckEnv) (b : CBlock) (nHeight : Int) : Option Int :=
  if nHeight > 170 then
    let block_reward := env.GetProofOfWorkReward nHeight 0
    match inflationLoop a.GetMapTxInputs a.GetValueMapIn a.GetValueOut b.vtx 0 0 with
    | InflationResult.threw => if nHeight > 403084 then some 100 else none
    | InflationResult.rejected nDoSIn => some nDoSIn
    | InflationResult.done tx_inputs_values tx_outputs_values =>
      if wrap64 (tx_inputs_values + block_reward) < tx_outputs_values then some 100 else none
  else none

/-- `AcceptBlock` from the hardened checkpoint on (lines 1764-1832).  `none` is the read
of a missing `vtx[0].vin[0]`.  The inventory relay at the end touches neither the block
nor the chain state. -/
def acceptFromCheckpoints (a : AcceptEnv) (c : ChainEnv) (h : Hasher) (k : TxKinds)
    (s : ChainState) (b : CBlock) (pindexPrev : CBlockIndex) (nHeight : Int)
    (hashProof : uint256) : Option AcceptOutcome :=
  if !a.CheckHardened nHeight (GetHash h b) then acceptDoS s b 100
  else
    let stake : Option (Bool × uint256) :=
      if IsProofOfStake k b then
        (b.vtx[1]?).map (fun tx => a.CheckProofOfStake s pindexPrev tx b.nBits)
      else some (true, hashProof)
    match stake with
    | none => none
    | some (false, _) => acceptError s b
    | some (true, hashProof1) =>
      if !a.CheckSync nHeight then acceptError s b
      else
        match (b.vtx[0]?).bind (fun tx => tx.vin[0]?) with
        | none => none
        | some txin =>
          if !(a.heightScript nHeight).isPrefixOf txin.scriptSig then acceptDoS s b 100
          else if !a.CheckDiskSpace b then acceptError s b
          else
            match a.WriteToDisk b with
            | none => acceptError s b
            | some (nFile, nBlockPos) =>
              match AddToBlockIndex c h k s b nFile nBlockPos hashProof1 with
              | none => none
              | some (false, s1) =>
                some { ok := false, block := { b with nDoS := b.nDoS + a.nestedDoS s b },
                       chain := s1 }
              | some (true, s1) => some { ok := true, block := b, chain := s1 }

/-- `AcceptBlock` from the anti-inflation check on (lines 1681-1832). -/
def acceptFromInflation (a : AcceptEnv) (env : CheckEnv) (c : ChainEnv) (h : Hasher)
    (k : TxKinds) (s : ChainState) (b : CBlock) (pindexPrev : CBlockIndex) (nHeight : Int)
    (hashProof : uint256) : Option AcceptOutcome :=
  match inflationStep a env b nHeight with
  | some nDoSIn => acceptDoS s b nDoSIn
  | none => acceptFromCheckpoints a c h k s b pindexPrev nHeight hashProof

/-- `AcceptBlock` from the finality check on (lines 1672-1832). -/
def acceptFromFinality (a : AcceptEnv) (env : CheckEnv) (c : ChainEnv) (h : Hasher)
    (k : TxKinds) (s : ChainState) (b : CBlock) (pindexPrev : CBlockIndex) (nHeight : Int)
    (hashProof : uint256) : Option AcceptOutcome :=
  if b.vtx.any (fun tx => !a.IsFinalTx tx nHeight (GetBlockTime b)) then acceptDoS s b 10
  else acceptFromInflation a env c h k s b pindexPrev nHeight hashProof

/-- The test "Check timestamp against prev" (line 1667). -/
def timestampTooEarly (a : AcceptEnv) (env : CheckEnv) (s : ChainState) (b : CBlock)
    (pindexPrev : CBlockIndex) : Bool :=
  decide (GetBlockTime b ≤ a.GetPastTimeLimit s pindexPrev) ||
    decide (env.FutureDrift (GetBlockTime b) < (pindexPrev.nTime : Int))

/-- `AcceptBlock` from the timestamp check on (lines 1666-1832). -/
def acceptFromTimestamp (a : AcceptEnv) (env : CheckEnv) (c : ChainEnv) (h : Hasher)
    (k : TxKinds) (s : ChainState) (b : CBlock) (pindexPrev : CBlockIndex) (nHeight : Int)
    (hashProof : uint256) : Option AcceptOutcome :=
  if timestampTooEarly a env s b pindexPrev then acceptError s b
  else acceptFromFinality a env c h k s b pindexPrev nHeight hashProof

/-- The difficulty test (line 1661). -/
def incorrectProof (a : AcceptEnv) (k : TxKinds) (s : ChainState) (b : CBlock)
    (pindexPrev : CBlockIndex) (nHeight : Int) : Bool :=
  decide (nHeight ≠ 46921) && decide (nHeight ≠ 46923) && decide (nHeight ≠ 46924) &&
    decide (nHeight ≠ 403116) &&
    decide (b.nBits ≠ a.GetNextTargetRequired s pindexPrev (IsProofOfStake k b))

/-- `AcceptBlock` from the difficulty check on (lines 1656-1832). -/
def acceptFromDifficulty (a : AcceptEnv) (env : CheckEnv) (c : ChainEnv) (h : Hasher)
    (k : TxKinds) (s : ChainState) (b : CBlock) (pindexPrev : CBlockIndex) (nHeight : Int)
    (hashProof : uint256) : Option AcceptOutcome :=
  if incorrectProof a k s b pindexPrev nHeight then acceptDoS s b 100
  else acceptFromTimestamp a env c h k s b pindexPrev nHeight hashProof

/-- The checks of `AcceptBlock` between the lookup of the previous entry and the
difficulty check (lines 1605-1654): `some (some nDoSIn)` is a rejection with that
weight, `some none` lets the block through, `none` is the read of a missing `vtx[0]`. -/
def earlyRejection (a : AcceptEnv) (env : CheckEnv) (k : TxKinds) (s : ChainState)
    (b : CBlock) (pindexPrev : CBlockIndex) (nHeight : Int) : Option (Option Int) :=
  if b.nVersion < 7 then some (some 100)
  else if b.nVersion > 7 then some (some 100)
  else if a.Velocity_check nHeight && !a.Velocity s pindexPrev b then some (some 100)
  else if IsProofOfWork k b && decide (nHeight > a.EndPoWBlock) then some (some 100)
  else if IsProofOfStake k b && decide (nHeight < a.StartPoSBlock) then some (some 100)
  else
    match b.vtx[0]? with
    | none => none
    | some tx0 =>
      if decide (GetBlockTime b > env.FutureDrift (tx0.nTime : Int)) && IsProofOfStake k b then
        some (some 50)
      else
        let fStakeTime : Option Bool :=
          if IsProofOfStake k b then
            (b.vtx[1]?).map (fun tx1 =>
              !a.CheckCoinStakeTimestamp nHeight (GetBlockTime b) (tx1.nTime : Int))
          else some false
        match fStakeTime with
        | none => none
        | some true => some (some 50)
        | some false => some none

/-- `CBlock::AcceptBlock` in the chain state `s`.  `none` is undefined behaviour (a read
outside a vector). -/
def AcceptBlock (a : AcceptEnv) (env : CheckEnv) (c : ChainEnv) (h : Hasher) (k : TxKinds)
    (s : ChainState) (b : CBlock) : Option AcceptOutcome :=
  if (s.mapBlockIndex.lookup (GetHash h b)).isSome then acceptError s b
  else
    match s.mapBlockIndex.lookup b.hashPrevBlock with
    | none => acceptDoS s b 10
    | some pindexPrev =>
      let nHeight := pindexPrev.nHeight + 1
      match earlyRejection a env k s b pindexPrev nHeight with
      | none => none
      | some (some nDoSIn) => acceptDoS s b nDoSIn
      | some none =>
        acceptFromDifficulty a env c h k s b pindexPrev nHeight
          (if IsProofOfWork k b then GetPoWHash h b else 0)

/-! ## `CBlock::ConnectBlock` -/

/-- Collaborators of `ConnectBlock` whose bodies are outside the sources.  The calls
that read `mapQueuedChanges` take the transactions of the block handled before. -/
structure ConnectEnv where
  /-- `BlockSizeCalculator::ComputeBlockSize(pindex)`. -/
  ComputeBlockSize : CBlockIndex → Nat
  /-- `GetP2SHSigOpCount(tx, mapInputs)`. -/
  GetP2SHSigOpCount : CTransaction → Nat
  /-- `tx.FetchInputs(txdb, mapQueuedChanges, true, false, mapInputs, fInvalid)`. -/
  FetchInputs : List CTransaction → CTransaction → Bool
  /-- `tx.GetValueMapIn(mapInputs)`. -/
  GetValueMapIn : CTransaction → Int
  /-- `tx.GetValueOut()`. -/
  GetValueOut : CTransaction → Int
  /-- `tx.ConnectInputs(txdb, mapInputs, mapQueuedChanges, posThisTx, pindex, true, false, flags)`. -/
  ConnectInputs : List CTransaction → CTransaction → Bool
  /-- `vtx[1].GetCoinAge(txdb, pindex->pprev, nCoinAge)`; `none` is failure. -/
  GetCoinAge : CTransaction → Option Nat
  /-- `txdb.WriteBlockIndex(CDiskBlockIndex(pindex))`. -/
  WriteBlockIndex : CBlockIndex → Bool
  /-- Whether every `txdb.UpdateTxIndex` of the queued changes succeeds. -/
  UpdateTxIndex : List CTransaction → Bool
  /-- `GetBoolArg("-addrindex", false)`. -/
  fAddrIndex : Bool
  /-- `txdb.WriteBlockIndex(blockindexPrev)` for the previous entry. -/
  WritePrevBlockIndex : CBlockIndex → Bool

/-- What a call of `ConnectBlock` leaves behind: the returned flag, the block with its
`mutable` members, and the globals `nMasterNodeChecksDelayBaseTime`, `MAX_BLOCK_SIZE`
and `MAX_BLOCK_SIGOPS`. -/
structure ConnectOutcome where
  ok : Bool
  block : CBlock
  nMasterNodeChecksDelayBaseTime : Int
  MAX_BLOCK_SIZE : Nat
  MAX_BLOCK_SIGOPS : Nat
  deriving DecidableEq, Repr

/-- The running totals of the transaction loop of `ConnectBlock`. -/
structure ConnectTotals where
  nFees : Int
  nValueIn : Int
  nValueOut : Int
  nStakeReward : Int
  nSigOps : Nat
  deriving DecidableEq, Repr

/-- How a part of `ConnectBlock` ends: it goes on, returns false without a DoS weight,
or returns `DoS(nDoSIn, ...)`. -/
inductive ConnectStep (α : Type) where
  | pass (x : α)
  | fail
  | dos (nDoSIn : Int)

/-- The loop of `ConnectBlock` over `vtx` (lines 509-571), `seen` being the
transactions handled before.  `nSigOps` is an `unsigned int`, the amounts are
`int64_t`. -/
def connectLoop (k : TxKinds) (GetLegacySigOpCount : CTransaction → Nat) (conn : ConnectEnv)
    (MAX_BLOCK_SIGOPS : Nat) :
    List CTransaction → List CTransaction → ConnectTotals → ConnectStep ConnectTotals
  | _, [], t => ConnectStep.pass t
  | seen, tx :: rest, t =>
    let nSigOps1 := (t.nSigOps + GetLegacySigOpCount tx) % 2 ^ 32
    if nSigOps1 > MAX_BLOCK_SIGOPS then ConnectStep.dos 100
    else if k.IsCoinBase tx then
      connectLoop k GetLegacySigOpCount conn MAX_BLOCK_SIGOPS (seen ++ [tx]) rest
        { t with nSigOps := nSigOps1, nValueOut := wrap64 (t.nValueOut + conn.GetValueOut tx) }
    else if !conn.FetchInputs seen tx then ConnectStep.fail
    else
      let nSigOps2 := (nSigOps1 + conn.GetP2SHSigOpCount tx) % 2 ^ 32
      if nSigOps2 > MAX_BLOCK_SIGOPS then ConnectStep.dos 100
      else
        let nTxValueIn := conn.GetValueMapIn tx
        let nTxValueOut := conn.GetValueOut tx
        let t1 : ConnectTotals :=
          { nSigOps := nSigOps2,
            nValueIn := wrap64 (t.nValueIn + nTxValueIn),
            nValueOut := wrap64 (t.nValueOut + nTxValueOut),
            nFees :=
              if !k.IsCoinStake tx then wrap64 (t.nFees + wrap64 (nTxValueIn - nTxValueOut))
              else t.nFees,
            nStakeReward :=
              if k.IsCoinStake tx then wrap64 (nTxValueOut - nTxValueIn) else t.nStakeReward }
        if !conn.ConnectInputs seen tx then ConnectStep.fail
        else connectLoop k GetLegacySigOpCount conn MAX_BLOCK_SIGOPS (seen ++ [tx]) rest t1

/-- The reward caps of `ConnectBlock` (lines 573-610) for the entry `pindex`; `none` is
the read of a missing `vtx[0]` or `vtx[1]`. -/
def rewardCaps (env : CheckEnv) (conn : ConnectEnv) (k : TxKinds) (s : ChainState)
    (b : CBlock) (pindex : CBlockIndex) (t : ConnectTotals) : Option (ConnectStep Unit) :=
  let work : Option (ConnectStep Unit) :=
    if IsProofOfWork k b then
      match b.vtx[0]? with
      | none => none
      | some tx0 =>
        if conn.GetValueOut tx0 > env.GetProofOfWorkReward pindex.nHeight t.nFees then
          some (ConnectStep.dos 50)
        else some (ConnectStep.pass ())
    else some (ConnectStep.pass ())
  match work with
  | some (ConnectStep.pass _) =>
    if IsProofOfStake k b then
      match b.vtx[1]? with
      | none => none
      | some tx1 =>
        match conn.GetCoinAge tx1 with
        | none => some ConnectStep.fail
        | some nCoinAge =>
          if t.nStakeReward >
              env.GetProofOfStakeReward (pindex.pprev.bind (fun p => s.mapBlockIndex.lookup p))
                (nCoinAge : Int) t.nFees then
            some (ConnectStep.dos 100)
          else some (ConnectStep.pass ())
    else some (ConnectStep.pass ())
  | other => other

/-- The ledger writes at the end of `ConnectBlock` (lines 612-720): the returned flag,
`none` being a dangling `pindex->pprev`.  The writes of `pindex->nMint` and
`pindex->nMoneySupply` in front of them concern members that the index entries of this
development do not carry. -/
def connectWrites (conn : ConnectEnv) (k : TxKinds) (s : ChainState) (b : CBlock)
    (pindex : CBlockIndex) (fJustCheck : Bool) : Option Bool :=
  if !conn.WriteBlockIndex pindex then some false
  else if fJustCheck then some true
  else if !conn.UpdateTxIndex b.vtx then some false
  else if conn.fAddrIndex &&
      b.vtx.any (fun tx => !k.IsCoinBase tx && !conn.FetchInputs [] tx) then some false
  else
    match pindex.pprev with
    | none => some true
    | some p =>
      match s.mapBlockIndex.lookup p with
      | none => none
      | some pprev => some (conn.WritePrevBlockIndex pprev)

/-- `CBlock::ConnectBlock(txdb, pindex, fJustCheck)` for the entry stored under the hash
`pindex`, the amounts and signature counts being total functions of the transaction.
`none` is undefined behaviour (a dangling pointer, a read outside a vector). -/
def ConnectBlock (env : CheckEnv) (conn : ConnectEnv) (h : Hasher) (k : TxKinds)
    (s : ChainState) (b : CBlock) (pindex : uint256) (fJustCheck : Bool) :
    Option ConnectOutcome :=
  match CheckBlock env h k s b (!fJustCheck) (!fJustCheck) false with
  | none => none
  | some checked =>
    if !checked.ok then
      some { ok := false, block := checked.block,
             nMasterNodeChecksDelayBaseTime := checked.nMasterNodeChecksDelayBaseTime,
             MAX_BLOCK_SIZE := env.MAX_BLOCK_SIZE, MAX_BLOCK_SIGOPS := env.MAX_BLOCK_SIGOPS }
    else
      match s.mapBlockIndex.lookup pindex with
      | none => none
      | some e =>
        let b1 := checked.block
        let size := conn.ComputeBlockSize e
        let sigops := size / 50
        let result (ok : Bool) (block : CBlock) : Option ConnectOutcome :=
          some { ok := ok, block := block,
                 nMasterNodeChecksDelayBaseTime := checked.nMasterNodeChecksDelayBaseTime,
                 MAX_BLOCK_SIZE := size, MAX_BLOCK_SIGOPS := sigops }
        match connectLoop k env.GetLegacySigOpCount conn sigops [] b1.vtx
            { nFees := 0, nValueIn := 0, nValueOut := 0, nStakeReward := 0, nSigOps := 0 } with
        | ConnectStep.dos nDoSIn => result false (DoS b1 nDoSIn false).2
        | ConnectStep.fail => result false b1
        | ConnectStep.pass t =>
          match rewardCaps env conn k s b1 e t with
          | none => none
          | some (ConnectStep.dos nDoSIn) => result false (DoS b1 nDoSIn false).2
          | some ConnectStep.fail => result false b1
          | some (ConnectStep.pass _) =>
            match connectWrites conn k s b1 e fJustCheck with
            | none => none
            | some ok => result ok b1

/-- The weights that the checks of a block attach: 0, 10, 50, 100, or the weight
`tx.nDoS` that a failed `CheckTransaction` left on a transaction of the block. -/
def attachedWeight (env : CheckEnv) (b : CBlock) (w : Int) : Prop :=
  w = 0 ∨ w = 10 ∨ w = 50 ∨ w = 100 ∨ ∃ tx ∈ b.vtx, w = (env.CheckTransaction tx).2

/-- The weights that `AcceptBlock` attaches: 0, 10, 50, 100, or the weight left by the
`ConnectBlock` run inside `AddToBlockIndex`. -/
def acceptWeight (a : AcceptEnv) (s : ChainState) (b : CBlock) (w : Int) : Prop :=
  w = 0 ∨ w = 10 ∨ w = 50 ∨ w = 100 ∨ w = a.nestedDoS s b

/-- The coinbase and coinstake time stamp checks of `AcceptBlock` (lines 1644-1654):
`some (some nDoSIn)` is a rejection with that weight, `some none` lets the block through,
`none` is the read of a missing `vtx[0]`. -/
def stakeTimeRejection (a : AcceptEnv) (env : CheckEnv) (k : TxKinds) (b : CBlock)
    (nHeight : Int) : Option (Option Int) :=
  match b.vtx[0]? with
  | none => none
  | some tx0 =>
    if decide (GetBlockTime b > env.FutureDrift (tx0.nTime : Int)) && IsProofOfStake k b then
      some (some 50)
    else
      let fStakeTime : Option Bool :=
        if IsProofOfStake k b then
          (b.vtx[1]?).map (fun tx1 =>
            !a.CheckCoinStakeTimestamp nHeight (GetBlockTime b) (tx1.nTime : Int))
        else some false
      match fStakeTime with
      | none => none
      | some true => some (some 50)
      | some false => some none

/-- `AcceptBlock` from the coinbase time stamp check on (lines 1644-1832). -/
def acceptFromStakeTime (a : AcceptEnv) (env : CheckEnv) (c : ChainEnv) (h : Hasher)
    (k : TxKinds) (s : ChainState) (b : CBlock) (pindexPrev : CBlockIndex) (nHeight : Int) :
    Option AcceptOutcome :=
  match stakeTimeRejection a env k b nHeight with
  | none => none
  | some (some nDoSIn) => acceptDoS s b nDoSIn
  | some none =>
    acceptFromDifficulty a env c h k s b pindexPrev nHeight
      (if IsProofOfWork k b then GetPoWHash h b else 0)

/-- The exact fee total of a list of transactions: the sum of value in minus value out
over the transactions that are neither coinbase nor coinstake. -/
def exactFees (k : TxKinds) (conn : ConnectEnv) (l : List CTransaction) : Int :=
  ((l.filter (fun tx => !k.IsCoinBase tx && !k.IsCoinStake tx)).map
    (fun tx => conn.GetValueMapIn tx - conn.GetValueOut tx)).sum

/-- The stake reward that the loop of `ConnectBlock` leaves behind: value out minus
value in, in `int64_t`, of the last coinstake among the transactions that are not a
coinbase; `acc` when there is none. -/
def lastStakeReward (k : TxKinds) (conn : ConnectEnv) : List CTransaction → Int → Int
  | [], acc => acc
  | tx :: rest, acc =>
    lastStakeReward k conn rest
      (if !k.IsCoinBase tx && k.IsCoinStake tx then
        wrap64 (conn.GetValueOut tx - conn.GetValueMapIn tx)
       else acc)

/-! ## `CBlock::DisconnectBlock` (cblock.cpp) -/

/-- Calls made by `DisconnectBlock`, in program order.  A transaction is named by its
index in `vtx`; `WriteBlockIndex p` is the write of the disk record of the entry `p`
(the previous entry) with `hashNext = 0`. -/
inductive DisconnectEvent where
  | DisconnectInputs (i : Nat)
  | WriteBlockIndex (pprev : uint256)
  | SyncWithWallets (i : Nat)
  deriving DecidableEq, Repr

/-- Ledger collaborators of `DisconnectBlock` whose bodies are outside the sources.
Each result may depend on the calls made before it. -/
structure DisconnectEnv where
  /-- Result of `tx.DisconnectInputs(txdb)`. -/
  DisconnectInputs : List DisconnectEvent → CTransaction → Bool
  /-- Result of `txdb.WriteBlockIndex(blockindexPrev)`. -/
  WriteBlockIndex : List DisconnectEvent → uint256 → Bool

/-- The loop `for (int i = vtx.size()-1; i >= 0; i--)` of `DisconnectBlock`, entered with
`i + 1 = n`.  The result is `false` with the trace when a `DisconnectInputs` fails, and
`true` with the trace when the loop runs to its end; a read outside `vtx` is `none`. -/
def disconnectLoop (env : DisconnectEnv) (vtx : List CTransaction) :
    Nat → List DisconnectEvent → Option (Bool × List DisconnectEvent)
  | 0, tr => some (true, tr)
  | i + 1, tr =>
    match vtx[i]? with
    | none => none
    | some tx =>
      if !env.DisconnectInputs tr tx then
        some (false, tr ++ [DisconnectEvent.DisconnectInputs i])
      else
        disconnectLoop env vtx i (tr ++ [DisconnectEvent.DisconnectInputs i])

/-- The calls `SyncWithWallets(tx, this, false)` of the closing loop, in `vtx` order. -/
def syncEvents (vtx : List CTransaction) : List DisconnectEvent :=
  (List.range vtx.length).map DisconnectEvent.SyncWithWallets

/-- Model of `CBlock::DisconnectBlock(txdb, pindex)`: the result and the calls made.
`pindex` is dereferenced after the loop only; an entry missing from the map is
`none`. -/
def DisconnectBlock (env : DisconnectEnv) (s : ChainState) (b : CBlock) (pindex : uint256) :
    Option (Bool × List DisconnectEvent) :=
  match disconnectLoop env b.vtx b.vtx.length [] with
  | none => none
  | some (false, tr) => some (false, tr)
  | some (true, tr) =>
    match s.mapBlockIndex.lookup pindex with
    | none => none
    | some e =>
      match e.pprev with
      | none => some (true, tr ++ syncEvents b.vtx)
      | some p =>
        if !env.WriteBlockIndex tr p then
          some (false, tr ++ [DisconnectEvent.WriteBlockIndex p])
        else
          some (true, tr ++ [DisconnectEvent.WriteBlockIndex p] ++ syncEvents b.vtx)

/-- The indices `n - 1, n - 2, ..., i` in this order (empty when `n ≤ i`). -/
def descending (n i : Nat) : List Nat :=
  (List.range' i (n - i)).reverse

/-- The `DisconnectInputs` calls for the indices `n - 1` down to `i`. -/
def disconnectCalls (n i : Nat) : List DisconnectEvent :=
  (descending n i).map DisconnectEvent.DisconnectInputs

/-- Index of the transaction of a `DisconnectInputs` call. -/
def DisconnectEvent.inputsIndex : DisconnectEvent → Option Nat
  | DisconnectEvent.DisconnectInputs i => some i
  | _ => none

/-- The `pnext` write recorded by an event: the entry the forward link was set to. -/
def Event.connected : Event → Option uint256
  | Event.SetNext _ pnext => some pnext
  | _ => none

/-- The blocks that `SetBestChainInner` connected according to a trace: the targets
of the `pprev->pnext = pindexNew` writes, in program order. -/
def connectedBlocks (tr : List Event) : List uint256 :=
  tr.filterMap Event.connected

/-- Every ledger call made while the postponed blocks are connected succeeds: the block
of each listed entry is read from disk, and `TxnBegin`, `ConnectBlock`,
`WriteHashBestChain` and `TxnCommit` return `true`. -/
def ledgerSucceeds (c : ChainEnv) (l : List uint256) : Prop :=
  (∀ st p, p ∈ l → (c.ReadFromDisk st p).isSome = true) ∧
  (∀ st, c.TxnBegin st = true) ∧
  (∀ st blk p, c.ConnectBlock st blk p = true) ∧
  (∀ st hash, c.WriteHashBestChain st hash = true) ∧
  (∀ st, c.TxnCommit st = true)

/-! ## `CTxMemPool` (ctxmempool.cpp)

The two `std::map` members are functions from keys to optional values.  A pointer to
a transaction stored in `mapTx` is the key it is stored under; reading through a
pointer whose key is not in `mapTx` is undefined (`none`). -/

/-- Value of `mapNextTx` (`CInPoint`): the spending transaction and the index of the
spending input. -/
structure CInPoint where
  ptx : uint256
  n : Nat
  deriving DecidableEq, Repr

/-- Members of `CTxMemPool`. -/
structure CTxMemPool where
  mapTx : uint256 → Option CTransaction
  mapNextTx : COutPoint → Option CInPoint
  nTransactionsUpdated : Nat

/-- The loop of `addUnchecked`, entered at input `i`:
`mapNextTx[tx.vin[i].prevout] = CInPoint(&mapTx[hash], i)`. -/
def indexInputs (hash : uint256) :
    List CTxIn → Nat → (COutPoint → Option CInPoint) → (COutPoint → Option CInPoint)
  | [], _, m => m
  | txin :: rest, i, m =>
    indexInputs hash rest (i + 1)
      (fun o => if o = txin.prevout then some { ptx := hash, n := i } else m o)

/-- `CTxMemPool::addUnchecked(hash, tx)`: the returned flag and the pool afterwards. -/
def addUnchecked (pool : CTxMemPool) (hash : uint256) (tx : CTransaction) :
    Bool × CTxMemPool :=
  (true,
    { mapTx := fun k => if k = hash then some tx else pool.mapTx k,
      mapNextTx := indexInputs hash tx.vin 0 pool.mapNextTx,
      nTransactionsUpdated := (pool.nTransactionsUpdated + 1) % 2 ^ 32 })

/-- The loop `mapNextTx.erase(txin.prevout)` over the inputs. -/
def eraseInputs :
    List CTxIn → (COutPoint → Option CInPoint) → (COutPoint → Option CInPoint)
  | [], m => m
  | txin :: rest, m => eraseInputs rest (fun o => if o = txin.prevout then none else m o)

/-- Whether the transaction argument of `remove` can still be read: an argument that
is a reference to an element of `mapTx` (`held` is its key) is gone once the element
has been erased. -/
def argumentAlive (pool : CTxMemPool) : Option uint256 → Bool
  | none => true
  | some key => (pool.mapTx key).isSome

/-- The loop over the outputs in the recursive branch of `remove`.  `removeRec pool key
child` is the nested call `remove(*it->second.ptx, true)`.  The bound `tx.vout.size()`
is read again after each nested call. -/
def removeChildren (removeRec : CTxMemPool → uint256 → CTransaction → Option CTxMemPool)
    (hash : uint256) (held : Option uint256) : List Nat → CTxMemPool → Option CTxMemPool
  | [], pool => some pool
  | i :: rest, pool =>
    match pool.mapNextTx { hash := hash, n := i } with
    | none => removeChildren removeRec hash held rest pool
    | some it =>
      match pool.mapTx it.ptx with
      | none => none
      | some child =>
        match removeRec pool it.ptx child with
        | none => none
        | some pool1 =>
          if argumentAlive pool1 held then removeChildren removeRec hash held rest pool1
          else none

/-- Model of `CTxMemPool::remove(tx, fRecursive)`: the pool afterwards (the call
returns `true`).  `held` is the key of the element of `mapTx` the reference `tx` is
bound to, `none` for a transaction outside the pool.  The recursion is bounded by
the fuel; `none` is exhausted fuel or undefined behaviour. -/
def remove (h : Hasher) :
    Nat → CTxMemPool → Option uint256 → CTransaction → Bool → Option CTxMemPool
  | 0, _, _, _, _ => none
  | fuel + 1, pool, held, tx, fRecursive =>
    let hash := h.GetHash tx
    if (pool.mapTx hash).isSome then
      match (if fRecursive then
          removeChildren (fun p key child => remove h fuel p (some key) child true)
            hash held (List.range tx.vout.length) pool
        else some pool) with
      | none => none
      | some pool1 =>
        some { mapTx := fun k => if k = hash then none else pool1.mapTx k,
               mapNextTx := eraseInputs tx.vin pool1.mapNextTx,
               nTransactionsUpdated := (pool1.nTransactionsUpdated + 1) % 2 ^ 32 }
    else some pool

/-- The loop of `removeConflicts` over the inputs of `tx`.  Two transactions are equal
when their version, time, inputs, outputs and lock time are. -/
def conflictsLoop (h : Hasher) (fuel : Nat) (tx : CTransaction) :
    List CTxIn → CTxMemPool → Option CTxMemPool
  | [], pool => some pool
  | txin :: rest, pool =>
    match pool.mapNextTx txin.prevout with
    | none => conflictsLoop h fuel tx rest pool
    | some it =>
      match pool.mapTx it.ptx with
      | none => none
      | some txConflict =>
        if txConflict ≠ tx then
          match remove h fuel pool (some it.ptx) txConflict true with
          | none => none
          | some pool1 => conflictsLoop h fuel tx rest pool1
        else conflictsLoop h fuel tx rest pool

/-- Model of `CTxMemPool::removeConflicts(tx)`: the pool afterwards (the call returns
`true`). -/
def removeConflicts (h : Hasher) (fuel : Nat) (pool : CTxMemPool) (tx : CTransaction) :
    Option CTxMemPool :=
  conflictsLoop h fuel tx tx.vin pool

/-- `CTxMemPool::clear()`. -/
def CTxMemPool.clear (pool : CTxMemPool) : CTxMemPool :=
  { mapTx := fun _ => none, mapNextTx := fun _ => none,
    nTransactionsUpdated := (pool.nTransactionsUpdated + 1) % 2 ^ 32 }

/-- `CTxMemPool::exists(hash)`. -/
def CTxMemPool.exists (pool : CTxMemPool) (hash : uint256) : Bool :=
  (pool.mapTx hash).isSome

/-- No dangling entry: every entry of `mapNextTx` refers to a transaction stored in
`mapTx` whose `n`-th input spends the outpoint. -/
def spenderIndexSound (pool : CTxMemPool) : Prop :=
  ∀ o it, pool.mapNextTx o = some it →
    ∃ t, pool.mapTx it.ptx = some t ∧ (t.vin[it.n]?).map (fun txin => txin.prevout) = some o

/-- Every transaction of `mapTx` is stored under its own hash. -/
def storedUnderHash (h : Hasher) (pool : CTxMemPool) : Prop :=
  ∀ k t, pool.mapTx k = some t → h.GetHash t = k

/-- No transaction of the pool spends, through a chain of pool transactions, one of
its own outputs: along every entry of `mapNextTx` the rank falls from the transaction
that is spent to the one that spends. -/
def spendsDescend (rank : uint256 → Nat) (pool : CTxMemPool) : Prop :=
  ∀ o it, pool.mapNextTx o = some it → rank it.ptx < rank o.hash

/-- The pool `a` holds nothing that the pool `b` does not hold. -/
def CTxMemPool.within (a b : CTxMemPool) : Prop :=
  (∀ k t, a.mapTx k = some t → b.mapTx k = some t) ∧
  (∀ o it, a.mapNextTx o = some it → b.mapNextTx o = some it)

/-! ## `CMasternodePayments::AddWinningMasternode` (cmasternodepayments.cpp) -/

/-- Collaborators of the winner list whose bodies are outside the sources. -/
structure WinnerEnv where
  /-- `GetBlockHash(hash, nBlockHeight)`: the hash written, `none` for `false`. -/
  GetBlockHash : Int → Option uint256
  /-- `Hash(BEGIN(n), END(n))` of a 256-bit number. -/
  Hash : uint256 → uint256
  /-- `CMasternodePaymentWinner::GetHash()`. -/
  GetHash : CMasternodePaymentWinner → uint256

/-- The members `vWinning` and `mapSeenMasternodeVotes` of `CMasternodePayments`. -/
structure WinnerState where
  vWinning : List CMasternodePaymentWinner
  mapSeenMasternodeVotes : List (uint256 × CMasternodePaymentWinner)
  deriving DecidableEq, Repr

/-- `CMasternodePayments::CalculateScore`: the low 64 bits of the distance between the
hash of the block hash and the hash of the input's outpoint hash. -/
def CalculateScore (env : WinnerEnv) (blockHash : uint256) (vin : CTxIn) : Nat :=
  let n2 := env.Hash blockHash
  let n3 := env.Hash vin.prevout.hash
  let n4 := if n3 > n2 then n3 - n2 else n2 - n3
  n4 % 2 ^ 64

/-- `std::map::insert`: a key already present keeps its value. -/
def seenInsert (m : List (uint256 × CMasternodePaymentWinner)) (key : uint256)
    (w : CMasternodePaymentWinner) : List (uint256 × CMasternodePaymentWinner) :=
  match m.lookup key with
  | some _ => m
  | none => m ++ [(key, w)]

/-- The loop over `vWinning` of `AddWinningMasternode`: the list after the replacement
when the loop returns `true`, `none` when it runs to its end. -/
def winningLoop (winnerIn : CMasternodePaymentWinner) :
    List CMasternodePaymentWinner → Option (List CMasternodePaymentWinner)
  | [] => none
  | winner :: rest =>
    if winner.nBlockHeight = winnerIn.nBlockHeight ∧ winner.score < winnerIn.score then
      some ({ winner with score := winnerIn.score, vin := winnerIn.vin,
                          payee := winnerIn.payee, vchSig := winnerIn.vchSig } :: rest)
    else
      (winningLoop winnerIn rest).map (fun l => winner :: l)

/-- Value of `foundBlock` when the loop has run to its end. -/
def foundBlock (winnerIn : CMasternodePaymentWinner)
    (vWinning : List CMasternodePaymentWinner) : Bool :=
  vWinning.any (fun winner => decide (winner.nBlockHeight = winnerIn.nBlockHeight))

/-- Model of `CMasternodePayments::AddWinningMasternode(winnerIn)`: the result, the
members afterwards, and `winnerIn` afterwards (it is passed by reference and its score
is overwritten). -/
def AddWinningMasternode (env : WinnerEnv) (st : WinnerState)
    (winnerIn : CMasternodePaymentWinner) :
    Bool × WinnerState × CMasternodePaymentWinner :=
  match env.GetBlockHash (winnerIn.nBlockHeight - 576) with
  | none => (false, st, winnerIn)
  | some blockHash =>
    let w : CMasternodePaymentWinner :=
      { winnerIn with score := CalculateScore env blockHash winnerIn.vin }
    match winningLoop w st.vWinning with
    | some l =>
      (true, { vWinning := l,
               mapSeenMasternodeVotes := seenInsert st.mapSeenMasternodeVotes (env.GetHash w) w },
        w)
    | none =>
      if !foundBlock w st.vWinning then
        (true, { vWinning := st.vWinning ++ [w],
                 mapSeenMasternodeVotes :=
                   seenInsert st.mapSeenMasternodeVotes (env.GetHash w) w },
          w)
      else
        (false, st, w)

/-- The list `vWinning` holds at most one winner for each block height. -/
def onePerHeight (vWinning : List CMasternodePaymentWinner) : Prop :=
  (vWinning.map (fun winner => winner.nBlockHeight)).Nodup

instance (vWinning : List CMasternodePaymentWinner) : Decidable (onePerHeight vWinning) := by
  unfold onePerHeight
  infer_instance

/-! ## Base58 (base58.cpp)

A byte vector is a list of numbers below 256; a C string is the list of its characters
in front of the terminating zero.  `CBigNum` is outside the sources: the big number
is a natural number and `CBigNum::getvch` is a parameter. -/

/-- The table `pszBase58`. -/
def pszBase58 : List Char :=
  "123456789ABCDEFGHJKLMNPQRSTUVWXYZabcdefghijkmnopqrstuvwxyz".toList

/-- The C library `isspace` in the "C" locale: space, tab, line feed, vertical tab,
form feed, carriage return. -/
def isspace (c : Char) : Bool :=
  c.toNat == 32 || (9 ≤ c.toNat && c.toNat ≤ 13)

/-- The loop "Convert big endian string to bignum" of `DecodeBase58`, entered with the
number read so far; `none` is `return false`.  A character outside the table ends the
loop: only white space may follow up to the end of the string. -/
def base58Digits : List Char → Nat → Option Nat
  | [], bn => some bn
  | c :: p, bn =>
    match pszBase58.indexOf? c with
    | none => if (c :: p).dropWhile isspace = [] then some bn else none
    | some i => base58Digits p (bn * 58 + i)

/-- The step "Trim off sign byte if present" on the little-endian bytes. -/
def trimSignByte (vchTmp : List Nat) : List Nat :=
  if vchTmp.length ≥ 2 ∧ vchTmp.reverse[0]? = some 0 ∧ vchTmp.reverse.getD 1 0 ≥ 128 then
    vchTmp.dropLast
  else
    vchTmp

/-- Model of `DecodeBase58(psz, vchRet)`: the bytes of `vchRet`, `none` for `false`.
The pointer `psz` is advanced over the leading spaces and over the leading `1`
characters (the count `zeroes` of the latter is not read again); the digits and, under
"Restore leading zeros", `nLeadingZeros` are read from the advanced pointer. -/
def DecodeBase58 (getvch : Nat → List Nat) (psz : List Char) : Option (List Nat) :=
  let psz1 := psz.dropWhile isspace
  let psz2 := psz1.dropWhile (fun c => c == '1')
  match base58Digits psz2 0 with
  | none => none
  | some bn =>
    let vchTmp := trimSignByte (getvch bn)
    let nLeadingZeros := (psz2.takeWhile (fun c => some c == pszBase58[0]?)).length
    some (List.replicate nLeadingZeros 0 ++ vchTmp.reverse)

/-- The inner loop of `EncodeBase58` over the digits from the last to the first (the
argument lists them in this order): the digits afterwards and the carry left. -/
def carryLoop : List Nat → Nat → List Nat × Nat
  | [], carry => ([], carry)
  | d :: ds, carry =>
    let c1 := carry + 256 * d
    let r := carryLoop ds (c1 / 58)
    ((c1 % 58) :: r.1, r.2)

/-- One round "b58 = b58 * 256 + ch" on the big-endian digits; `none` when
`assert(carry == 0)` fails. -/
def applyByte (b58 : List Nat) (ch : Nat) : Option (List Nat) :=
  let r := carryLoop b58.reverse ch
  if r.2 = 0 then some r.1.reverse else none

/-- The loop "Process the bytes" of `EncodeBase58`. -/
def processBytes : List Nat → List Nat → Option (List Nat)
  | [], b58 => some b58
  | ch :: rest, b58 =>
    match applyByte b58 ch with
    | none => none
    | some b => processBytes rest b

/-- Model of `EncodeBase58(pbegin, pend)` on the bytes in the range; `none` when the
assertion fails.  A digit is a remainder modulo 58, inside the table. -/
def EncodeBase58 (vch : List Nat) : Option (List Char) :=
  let zeroes := (vch.takeWhile (fun x => x == 0)).length
  let rest := vch.dropWhile (fun x => x == 0)
  match processBytes rest (List.replicate (rest.length * 138 / 100 + 1) 0) with
  | none => none
  | some b58 =>
    some (List.replicate zeroes '1'
      ++ (b58.dropWhile (fun d => d == 0)).map (fun d => pszBase58.getD d (Char.ofNat 0)))

/-- Value of base-58 digits listed from the last to the first. -/
def digitsValue : List Nat → Nat
  | [] => 0
  | d :: ds => d + 58 * digitsValue ds

/-! ## `CScriptCompressor` (cscriptcompressor.cpp)

A script is its vector of bytes.  The opcode values and the public-key class are
outside the sources and are parameters. -/

/-- Values of the opcodes named in cscriptcompressor.cpp. -/
structure Opcodes where
  OP_DUP : Nat
  OP_HASH160 : Nat
  OP_EQUALVERIFY : Nat
  OP_CHECKSIG : Nat
  OP_EQUAL : Nat

/-- Members of `CPubKey` called by the compressor, on the bytes of the key. -/
structure PubKeyEnv where
  /-- `CPubKey::IsFullyValid()`. -/
  IsFullyValid : List Nat → Bool
  /-- `CPubKey::Decompress()`: the 65 bytes of the key, `none` on failure. -/
  Decompress : List Nat → Option (List Nat)

/-- `CScriptCompressor::IsToKeyID`: the 20 bytes copied into `hash`, or `none` for
`false`. -/
def IsToKeyID (op : Opcodes) (script : List Nat) : Option (List Nat) :=
  if script.length = 25 ∧
      script[0]? = some op.OP_DUP ∧
      script[1]? = some op.OP_HASH160 ∧
      script[2]? = some 20 ∧
      script[23]? = some op.OP_EQUALVERIFY ∧
      script[24]? = some op.OP_CHECKSIG then
    some ((script.drop 3).take 20)
  else
    none

/-- `CScriptCompressor::IsToScriptID`: the 20 bytes copied into `hash`, or `none` for
`false`. -/
def IsToScriptID (op : Opcodes) (script : List Nat) : Option (List Nat) :=
  if script.length = 23 ∧
      script[0]? = some op.OP_HASH160 ∧
      script[1]? = some 20 ∧
      script[22]? = some op.OP_EQUAL then
    some ((script.drop 2).take 20)
  else
    none

/-- `CScriptCompressor::IsToPubKey`: the bytes set into `pubkey`, or `none` for
`false`. -/
def IsToPubKey (op : Opcodes) (pk : PubKeyEnv) (script : List Nat) : Option (List Nat) :=
  if script.length = 35 ∧
      script[0]? = some 33 ∧
      script[34]? = some op.OP_CHECKSIG ∧
      (script[1]? = some 2 ∨ script[1]? = some 3) then
    some ((script.drop 1).take 33)
  else if script.length = 67 ∧
      script[0]? = some 65 ∧
      script[66]? = some op.OP_CHECKSIG ∧
      script[1]? = some 4 then
    if pk.IsFullyValid ((script.drop 1).take 65) then
      some ((script.drop 1).take 65)
    else
      none
  else
    none

/-- `CScriptCompressor::Compress`: the bytes of `out`, or `none` for `false`. -/
def Compress (op : Opcodes) (pk : PubKeyEnv) (script : List Nat) : Option (List Nat) :=
  match IsToKeyID op script with
  | some keyID => some (0 :: keyID)
  | none =>
    match IsToScriptID op script with
    | some scriptID => some (1 :: scriptID)
    | none =>
      match IsToPubKey op pk script with
      | some pubkey =>
        if pubkey[0]? = some 2 ∨ pubkey[0]? = some 3 then
          some (pubkey.take 33)
        else if pubkey[0]? = some 4 then
          some ((4 ||| (pubkey.getD 64 0 &&& 1)) :: (pubkey.drop 1).take 32)
        else
          none
      | none => none

/-- `CScriptCompressor::GetSpecialSize`. -/
def GetSpecialSize (nSize : Nat) : Nat :=
  if nSize = 0 ∨ nSize = 1 then 20
  else if nSize = 2 ∨ nSize = 3 ∨ nSize = 4 ∨ nSize = 5 then 32
  else 0

/-- `CScriptCompressor::Decompress(nSize, in)`: the returned flag and the script member
afterwards.  An opcode is stored as a byte.  Reading more bytes than `in` holds and a
failure of `assert(pubkey.size() == 65)` are `none`. -/
def Decompress (op : Opcodes) (pk : PubKeyEnv) (script : List Nat) (nSize : Nat)
    (inp : List Nat) : Option (Bool × List Nat) :=
  if nSize = 0 then
    if inp.length < 20 then none
    else some (true, [op.OP_DUP % 256, op.OP_HASH160 % 256, 20] ++ inp.take 20
      ++ [op.OP_EQUALVERIFY % 256, op.OP_CHECKSIG % 256])
  else if nSize = 1 then
    if inp.length < 20 then none
    else some (true, [op.OP_HASH160 % 256, 20] ++ inp.take 20 ++ [op.OP_EQUAL % 256])
  else if nSize = 2 ∨ nSize = 3 then
    if inp.length < 32 then none
    else some (true, [33, nSize] ++ inp.take 32 ++ [op.OP_CHECKSIG % 256])
  else if nSize = 4 ∨ nSize = 5 then
    if inp.length < 32 then none
    else
      match pk.Decompress ((nSize - 2) :: inp.take 32) with
      | none => some (false, script)
      | some pubkey =>
        if pubkey.length = 65 then some (true, [65] ++ pubkey ++ [op.OP_CHECKSIG % 256])
        else none
  else
    some (false, script)

/-! ## Concrete inputs used to instantiate the theorems -/

/-- A transaction that is told apart by its time stamp only. -/
def sampleTx (t : Nat) : CTransaction :=
  { nVersion := 1, nTime := t, vin := [], vout := [], nLockTime := 0 }

/-- Stand-ins for the hash functions: a transaction is identified by its time stamp, a
block header by its nonce. -/
def sampleHasher : Hasher :=
  { Hash := fun a b => 1000 * a + b + 7, GetHash := fun t => t.nTime,
    Hash_bmw512 := fun _ _ _ _ _ nNonce => nNonce }

/-- A block of three transactions with an empty Merkle cache. -/
def sampleBlock3 : CBlock :=
  { nVersion := 7, hashPrevBlock := 0, hashMerkleRoot := 0, nTime := 0, nBits := 0,
    nNonce := 0, vtx := [sampleTx 1, sampleTx 2, sampleTx 3], vchBlockSig := [],
    vMerkleTree := [], nDoS := 0 }

/-- Stand-ins for the transaction classification, after the usual definitions: a
coinbase has one input with a null previous output, a coinstake spends a real output
and has an empty first output. -/
def sampleKinds : TxKinds :=
  { IsCoinBase := fun tx =>
      decide (tx.vin.length = 1) && tx.vin.all (fun i => i.prevout.hash == 0) &&
        decide (tx.vout.length ≥ 1),
    IsCoinStake := fun tx =>
      decide (tx.vin.length > 0) && tx.vin.all (fun i => i.prevout.hash != 0) &&
        decide (tx.vout.length ≥ 2) &&
        (tx.vout.take 1).all (fun o => o.nValue == 0 && o.scriptPubKey.isEmpty),
    IsEmpty := fun o => o.nValue == 0 && o.scriptPubKey.isEmpty }

/-- A coinbase transaction paying `v` to script `[1]`. -/
def sampleCoinbase (v : Int) : CTransaction :=
  { nVersion := 1, nTime := 0, vin := [{ prevout := { hash := 0, n := 4294967295 }, scriptSig := [] }],
    vout := [{ nValue := v, scriptPubKey := [1] }], nLockTime := 0 }

/-- A proof-of-work block with one coinbase; the header hash stand-in is the nonce. -/
def sampleWorkBlock (nNonce hashPrevBlock nBits : Nat) : CBlock :=
  { nVersion := 7, hashPrevBlock := hashPrevBlock, hashMerkleRoot := 0, nTime := 0,
    nBits := nBits, nNonce := nNonce, vtx := [sampleCoinbase 50], vchBlockSig := [],
    vMerkleTree := [], nDoS := 0 }

/-- Collaborators that always succeed; the trust of a block is its `nBits`. -/
def sampleChainEnv : ChainEnv :=
  { HashGenesisBlock := 1,
    GetBlockTrust := fun _ nBits => nBits,
    SetStakeEntropyBit := fun bit => decide (bit ≤ 1),
    ComputeNextStakeModifier := fun _ _ => some (0, false),
    ComputeStakeModifierV2 := fun _ _ kernel => kernel,
    TxnBegin := fun _ => true,
    TxnCommit := fun _ => true,
    WriteHashBestChain := fun _ _ => true,
    ConnectBlock := fun _ _ _ => true,
    Reorganize := fun _ _ => true,
    ReadFromDisk := fun _ _ => none,
    IsInitialBlockDownload := fun _ => false }

/-- The chain state before any block is known. -/
def emptyChain : ChainState :=
  { mapBlockIndex := [], hashBestChain := 0, pindexBest := none, pindexGenesisBlock := none,
    nBestHeight := -1, nBestChainTrust := 0, nBlockSequenceId := 1, setStakeSeen := [],
    trace := [] }

/-- One call of `AddToBlockIndex` per list element, in order; `none` as soon as a call
does not return `true`. -/
def addAll (c : ChainEnv) (h : Hasher) (k : TxKinds) :
    ChainState → List (CBlock × Nat × Nat × uint256) → Option ChainState
  | s, [] => some s
  | s, (b, nFile, nBlockPos, hashProof) :: rest =>
    match AddToBlockIndex c h k s b nFile nBlockPos hashProof with
    | some (true, s1) => addAll c h k s1 rest
    | _ => none

/-- Argument tuple of `AddToBlockIndex` for a block stored at position 0 of file 0. -/
def atOrigin (b : CBlock) : CBlock × Nat × Nat × uint256 := (b, 0, 0, 0)

/-- The genesis block of the examples (hash 1, block trust 10). -/
def sampleGenesis : CBlock := sampleWorkBlock 1 0 10

/-- Child of the genesis block with block trust 100 (hash 2). -/
def sampleChild100 : CBlock := sampleWorkBlock 2 1 100

/-- Child of the genesis block with block trust 105 (hash 3). -/
def sampleChild105 : CBlock := sampleWorkBlock 3 1 105

/-- A second child of the genesis block with block trust 100 (hash 4). -/
def sampleTwin100 : CBlock := sampleWorkBlock 4 1 100

/-- The chain state after the genesis block was added to the empty index. -/
def chainGenesis : ChainState :=
  (addAll sampleChainEnv sampleHasher sampleKinds emptyChain [atOrigin sampleGenesis]).getD emptyChain

/-- The chain state after the genesis block and its trust-100 child were added. -/
def chainChild100 : ChainState :=
  (addAll sampleChainEnv sampleHasher sampleKinds chainGenesis [atOrigin sampleChild100]).getD emptyChain

/-- Collaborators that always succeed and give every block the trust of the hardest
target, `(1 << 256) / (1 + 1) = 2^255`. -/
def hardestChainEnv : ChainEnv :=
  { sampleChainEnv with GetBlockTrust := fun _ _ => 2 ^ 255 }

/-- The chain state after the genesis block was added with block trust `2^255`. -/
def chainHardGenesis : ChainState :=
  (addAll hardestChainEnv sampleHasher sampleKinds emptyChain [atOrigin sampleGenesis]).getD emptyChain

/-- The chain state after a child of trust `2^255` was added on top of it. -/
def chainHardChild : ChainState :=
  (addAll hardestChainEnv sampleHasher sampleKinds chainHardGenesis
    [atOrigin sampleChild100]).getD emptyChain

/-- Genesis, then the trust-100 child, then the trust-105 child. -/
def orderChild100First : List (CBlock × Nat × Nat × uint256) :=
  [atOrigin sampleGenesis, atOrigin sampleChild100, atOrigin sampleChild105]

/-- Genesis, then the trust-105 child, then the trust-100 child. -/
def orderChild105First : List (CBlock × Nat × Nat × uint256) :=
  [atOrigin sampleGenesis, atOrigin sampleChild105, atOrigin sampleChild100]

/-- The chain state at the end of `orderChild100First`. -/
def chainChild100First : ChainState :=
  (addAll sampleChainEnv sampleHasher sampleKinds emptyChain orderChild100First).getD emptyChain

/-- The chain state at the end of `orderChild105First`. -/
def chainChild105First : ChainState :=
  (addAll sampleChainEnv sampleHasher sampleKinds emptyChain orderChild105First).getD emptyChain

/-- Collaborators of `CheckBlock` for the examples: a header hash satisfies its target
when it is at most `nBits`, the clock reads 1000 with a drift allowance of 600, the
payment fork starts after time 100, the standard reward is 300 coins of which 150 go
to a masternode and 50 to devops, and the node is not in initial download. -/
def sampleCheckEnv : CheckEnv :=
  { MAX_BLOCK_SIZE := 1000000,
    MAX_BLOCK_SIGOPS := 20000,
    GetSerializeSize := fun b => 80 + 100 * b.vtx.length,
    CheckProofOfWork := fun hash nBits => decide (hash ≤ nBits),
    GetAdjustedTime := 1000,
    FutureDrift := fun t => t + 600,
    Solver := fun script => (true, txnouttype.TX_PUBKEY, [script]),
    Verify := fun vchPubKey _ vchSig => vchPubKey == vchSig,
    fInstantXBlockFiltering := false,
    mapLockedInputs := [],
    fDebug := false,
    IsInitialBlockDownload := fun _ => false,
    START_MASTERNODE_PAYMENTS := 500,
    vWinning := [],
    VERION_1_0_0_0_MANDATORY_UPDATE_START := 100,
    VERION_1_0_1_5_MANDATORY_UPDATE_START := 200,
    COIN := 100000000,
    GetProofOfStakeReward := fun _ _ _ => 30000000000,
    GetProofOfWorkReward := fun _ _ => 30000000000,
    GetMasternodePayment := fun _ _ => 15000000000,
    GetDevOpsPayment := fun _ _ => 5000000000,
    nMasterNodeChecksDelayBaseTime := 0,
    GetTime := 1000,
    getDevelopersAdress := fun _ => [9],
    IsPayeeAValidMasternode := fun script => script == [8],
    fMnAdvRelay := true,
    AddressToString := fun script => script,
    CheckTransaction := fun tx => (tx.vout.all (fun o => decide (0 ≤ o.nValue)), 100),
    GetLegacySigOpCount := fun _ => 1 }

/-- A proof-of-work block of time 300 whose coinbase has the three outputs of the
payment layout, with 1 coin instead of 150 at the masternode index (hash 5). -/
def sampleUnderpaid : CBlock :=
  { nVersion := 7, hashPrevBlock := 1, hashMerkleRoot := 0, nTime := 300, nBits := 10,
    nNonce := 5,
    vtx := [{ nVersion := 1, nTime := 0,
              vin := [{ prevout := { hash := 0, n := 4294967295 }, scriptSig := [] }],
              vout := [{ nValue := 10000000000, scriptPubKey := [1] },
                       { nValue := 100000000, scriptPubKey := [8] },
                       { nValue := 5000000000, scriptPubKey := [9] }],
              nLockTime := 0 }],
    vchBlockSig := [], vMerkleTree := [], nDoS := 0 }

/-- A coinstake transaction spending output 0 of transaction 77. -/
def sampleCoinstake : CTransaction :=
  { nVersion := 1, nTime := 0,
    vin := [{ prevout := { hash := 77, n := 0 }, scriptSig := [] }],
    vout := [{ nValue := 0, scriptPubKey := [] }, { nValue := 40000000000, scriptPubKey := [7] }],
    nLockTime := 0 }

/-- A proof-of-stake block whose coinbase has two outputs instead of one empty output. -/
def sampleStakeTwoOutputs : CBlock :=
  { nVersion := 7, hashPrevBlock := 1, hashMerkleRoot := 0, nTime := 300, nBits := 10,
    nNonce := 6,
    vtx := [{ nVersion := 1, nTime := 0,
              vin := [{ prevout := { hash := 0, n := 4294967295 }, scriptSig := [] }],
              vout := [{ nValue := 0, scriptPubKey := [] }, { nValue := 0, scriptPubKey := [] }],
              nLockTime := 0 },
            sampleCoinstake],
    vchBlockSig := [7], vMerkleTree := [], nDoS := 0 }

/-- A proof-of-work block whose hash 50 does not satisfy its target 10. -/
def sampleBadWork : CBlock := sampleWorkBlock 50 1 10

/-- A block whose only transaction is a coinstake, not a coinbase. -/
def sampleNoCoinbase : CBlock :=
  { sampleWorkBlock 7 1 10 with vtx := [sampleCoinstake] }

/-- The chain state after the genesis block and its trust-105 child were added. -/
def chainChild105 : ChainState :=
  (addAll sampleChainEnv sampleHasher sampleKinds chainGenesis [atOrigin sampleChild105]).getD
    emptyChain

/-- The same chain after the trust-100 child arrived as well: one more index entry,
the same best tip. -/
def chainChild105Then100 : ChainState :=
  (addAll sampleChainEnv sampleHasher sampleKinds chainChild105 [atOrigin sampleChild100]).getD
    emptyChain

/-- The chain state after `sampleUnderpaid` joined the index next to the trust-105
child: one more index entry, the same best tip. -/
def chainUnderpaid : ChainState :=
  (addAll sampleChainEnv sampleHasher sampleKinds chainChild105 [atOrigin sampleUnderpaid]).getD
    emptyChain

/-- What `CheckBlock` leaves behind for the genesis block of the examples: accepted,
with the Merkle cache filled. -/
def sampleGenesisOutcome : CheckOutcome :=
  { ok := true, block := { sampleGenesis with vMerkleTree := [0] },
    nMasterNodeChecksDelayBaseTime := 0 }

/-- A proof-of-work block that carries a block signature. -/
def sampleSignedWork : CBlock :=
  { sampleWorkBlock 8 1 10 with vchBlockSig := [1, 2, 3] }

/-- A proof-of-stake block with one empty coinbase output and no block signature. -/
def sampleUnsignedStake : CBlock :=
  { nVersion := 7, hashPrevBlock := 1, hashMerkleRoot := 0, nTime := 300, nBits := 10,
    nNonce := 9,
    vtx := [{ nVersion := 1, nTime := 0,
              vin := [{ prevout := { hash := 0, n := 4294967295 }, scriptSig := [] }],
              vout := [{ nValue := 0, scriptPubKey := [] }],
              nLockTime := 0 },
            sampleCoinstake],
    vchBlockSig := [], vMerkleTree := [], nDoS := 0 }

/-- A proof-of-work block whose header names a Merkle root that its transactions do not
have. -/
def sampleBadRoot : CBlock :=
  { sampleWorkBlock 8 1 10 with hashMerkleRoot := 77 }

/-- A proof-of-work block of time 300 (hash `nNonce`) whose coinbase has the three
outputs of the payment layout: `mn` to the masternode script `[8]` and `dev` to the
devops script `[9]`. -/
def samplePayout (nNonce : Nat) (mn dev : Int) : CBlock :=
  { nVersion := 7, hashPrevBlock := 1, hashMerkleRoot := 0, nTime := 300, nBits := 10,
    nNonce := nNonce,
    vtx := [{ nVersion := 1, nTime := 0,
              vin := [{ prevout := { hash := 0, n := 4294967295 }, scriptSig := [] }],
              vout := [{ nValue := 10000000000, scriptPubKey := [1] },
                       { nValue := mn, scriptPubKey := [8] },
                       { nValue := dev, scriptPubKey := [9] }],
              nLockTime := 0 }],
    vchBlockSig := [], vMerkleTree := [], nDoS := 0 }

/-- A payout block with 60 coins instead of 50 at the devops index (hash 6). -/
def sampleOverpaid : CBlock := samplePayout 6 15000000000 6000000000

/-- A payout block with 40 coins instead of 50 at the devops index (hash 7). -/
def sampleShortDevops : CBlock := samplePayout 7 15000000000 4000000000

/-- The chain state after `b` joined the index next to the trust-105 child. -/
def chainWith (b : CBlock) : ChainState :=
  (addAll sampleChainEnv sampleHasher sampleKinds chainChild105 [atOrigin b]).getD emptyChain

/-- A proof-of-stake block of time 300 (hash 13) whose coinstake pays the masternode
amount of 150 coins to the script `[5]`, which is neither a valid masternode payee nor
the devops address, and 50 coins to the devops script `[9]`. -/
def sampleWrongPayee : CBlock :=
  { nVersion := 7, hashPrevBlock := 1, hashMerkleRoot := 8, nTime := 300, nBits := 10,
    nNonce := 13,
    vtx := [{ nVersion := 1, nTime := 0,
              vin := [{ prevout := { hash := 0, n := 4294967295 }, scriptSig := [] }],
              vout := [{ nValue := 0, scriptPubKey := [] }],
              nLockTime := 0 },
            { nVersion := 1, nTime := 1,
              vin := [{ prevout := { hash := 77, n := 0 }, scriptSig := [] }],
              vout := [{ nValue := 0, scriptPubKey := [] },
                       { nValue := 40000000000, scriptPubKey := [7] },
                       { nValue := 15000000000, scriptPubKey := [5] },
                       { nValue := 5000000000, scriptPubKey := [9] }],
              nLockTime := 0 }],
    vchBlockSig := [7], vMerkleTree := [], nDoS := 0 }

/-- The collaborators of the examples with a ledger that cannot begin a transaction. -/
def brokenLedgerEnv : ChainEnv := { sampleChainEnv with TxnBegin := fun _ => false }

/-- The collaborators of the examples with a `ConnectBlock` that fails. -/
def failedConnectEnv : ChainEnv := { sampleChainEnv with ConnectBlock := fun _ _ _ => false }

/-- The chain state that the failing `AddToBlockIndex` of the trust-100 child leaves
behind when `ConnectBlock` fails. -/
def chainFailedConnect : ChainState :=
  ((AddToBlockIndex failedConnectEnv sampleHasher sampleKinds chainGenesis sampleChild100
    0 0 0).map Prod.snd).getD emptyChain

/-- The chain state that the failing `AddToBlockIndex` of the trust-100 child leaves
behind when the ledger cannot begin a transaction. -/
def chainBrokenLedger : ChainState :=
  ((AddToBlockIndex brokenLedgerEnv sampleHasher sampleKinds chainGenesis sampleChild100
    0 0 0).map Prod.snd).getD emptyChain

/-- Collaborators of `AcceptBlock` for the examples: no velocity rule, proof of work
allowed up to height 1000000, the target is always 10, the past-time limit of an entry
is its own time, every input resolves to the value 0, the value out of a transaction is
the sum of its outputs, and checkpoints, disk and ledger succeed. -/
def sampleAcceptEnv : AcceptEnv :=
  { Velocity_check := fun _ => false,
    Velocity := fun _ _ _ => true,
    EndPoWBlock := 1000000,
    StartPoSBlock := 0,
    CheckCoinStakeTimestamp := fun _ _ _ => true,
    GetNextTargetRequired := fun _ _ _ => 10,
    GetPastTimeLimit := fun _ p => (p.nTime : Int),
    IsFinalTx := fun _ _ _ => true,
    GetMapTxInputs := fun _ => some true,
    GetValueMapIn := fun _ => some 0,
    GetValueOut := fun tx => some (tx.vout.map (fun o => o.nValue)).sum,
    CheckHardened := fun _ _ => true,
    CheckProofOfStake := fun _ _ _ _ => (true, 0),
    CheckSync := fun _ => true,
    heightScript := fun _ => [],
    CheckDiskSpace := fun _ => true,
    WriteToDisk := fun _ => some (0, 0),
    nestedDoS := fun _ _ => 0 }

/-- The chain that holds the genesis block of the examples, with that entry moved to
height `n`. -/
def chainAtHeight (n : Int) : ChainState :=
  { chainGenesis with
    mapBlockIndex := chainGenesis.mapBlockIndex.map (fun p => (p.1, { p.2 with nHeight := n })),
    nBestHeight := n }

/-- A child of the genesis block (hash 2) with block time `nTime` and difficulty bits
`nBits`. -/
def sampleTimed (nTime nBits : Nat) : CBlock :=
  { sampleWorkBlock 2 1 nBits with nTime := nTime }

/-- The index entry of the genesis block of the examples. -/
def sampleGenesisEntry : CBlockIndex :=
  { phashBlock := 1, pprev := none, nFile := 0, nBlockPos := 0, nSequenceId := 1,
    nHeight := 0, nChainTrust := 10, fProofOfStake := false, prevoutStake := none,
    nStakeTime := 0, fStakeEntropyBit := 1, hashProof := 0, nStakeModifier := 0,
    fGeneratedStakeModifier := false, bnStakeModifierV2 := 1, nVersion := 7, nTime := 0,
    nBits := 10 }

/-- A child of the genesis block (hash 2, time 100) with a coinbase and one more
transaction. -/
def sampleTwoTx : CBlock :=
  { sampleTimed 100 10 with vtx := [sampleCoinbase 50, sampleTx 1] }

/-- Collaborators for which every transaction has the input total `2^62` and the
output total 0. -/
def largeInputsEnv : AcceptEnv :=
  { sampleAcceptEnv with GetValueMapIn := fun _ => some (2 ^ 62), GetValueOut := fun _ => some 0 }

/-- Collaborators for which `GetMapTxInputs` returns false. -/
def unmappedEnv : AcceptEnv :=
  { sampleAcceptEnv with GetMapTxInputs := fun _ => some false }

/-- Collaborators for which `GetValueMapIn` throws. -/
def throwingEnv : AcceptEnv :=
  { sampleAcceptEnv with GetValueMapIn := fun _ => none }

/-- Collaborators for which every transaction has the output total of 400 coins. -/
def inflatingEnv : AcceptEnv :=
  { sampleAcceptEnv with GetValueOut := fun _ => some 40000000000 }

/-- Collaborators for which the inputs of a transaction without inputs of its own cannot
be mapped. -/
def partlyUnmappedEnv : AcceptEnv :=
  { sampleAcceptEnv with GetMapTxInputs := fun tx => some (!tx.vin.isEmpty) }

/-- Collaborators of `ConnectBlock` for the examples: every ledger call succeeds, every
input resolves to the value 0, and the value out of a transaction is the sum of its
outputs. -/
def sampleConnectEnv : ConnectEnv :=
  { ComputeBlockSize := fun _ => 1000000,
    GetP2SHSigOpCount := fun _ => 0,
    FetchInputs := fun _ _ => true,
    GetValueMapIn := fun _ => 0,
    GetValueOut := fun tx => (tx.vout.map (fun o => o.nValue)).sum,
    ConnectInputs := fun _ _ => true,
    GetCoinAge := fun _ => some 0,
    WriteBlockIndex := fun _ => true,
    UpdateTxIndex := fun _ => true,
    fAddrIndex := false,
    WritePrevBlockIndex := fun _ => true }

/-- The genesis block of the examples with a coinbase of 400 coins, above the reward of
300 coins. -/
def sampleGreedy : CBlock :=
  { sampleGenesis with vtx := [sampleCoinbase 40000000000] }

/-- The block `sampleNoCoinbase` after a first failing `CheckBlock`. -/
def sampleNoCoinbaseChecked : CBlock :=
  ((CheckBlock sampleCheckEnv sampleHasher sampleKinds emptyChain sampleNoCoinbase
    true true true).map (fun out => out.block)).getD sampleNoCoinbase

/-- Collaborators of `AcceptBlock` for which proof of stake starts at height 10. -/
def lateStakeEnv : AcceptEnv := { sampleAcceptEnv with StartPoSBlock := 10 }

/-- A proof-of-work block of time 300 (hash 8) whose coinbase has a single output. -/
def sampleShortCoinbase : CBlock :=
  { sampleWorkBlock 8 1 10 with nTime := 300 }

/-- The collaborators of `CheckBlock` for the examples with the flag `fMnAdvRelay` unset. -/
def quietCheckEnv : CheckEnv := { sampleCheckEnv with fMnAdvRelay := false }

/-- A ledger in which every call succeeds. -/
def sampleDisconnectEnv : DisconnectEnv :=
  { DisconnectInputs := fun _ _ => true, WriteBlockIndex := fun _ _ => true }

/-- A ledger that fails to disconnect the transaction stamped 1. -/
def failingDisconnectEnv : DisconnectEnv :=
  { DisconnectInputs := fun _ tx => tx.nTime != 1, WriteBlockIndex := fun _ _ => true }

/-- The opcode values of the Bitcoin script language. -/
def sampleOpcodes : Opcodes :=
  { OP_DUP := 118, OP_HASH160 := 169, OP_EQUALVERIFY := 136, OP_CHECKSIG := 172,
    OP_EQUAL := 135 }

/-- A public-key class that accepts no key. -/
def samplePubKeyEnv : PubKeyEnv :=
  { IsFullyValid := fun _ => false, Decompress := fun _ => none }

/-- Twenty hash bytes. -/
def sampleHash160 : List Nat :=
  [1, 2, 3, 4, 5, 6, 7, 8, 9, 10, 11, 12, 13, 14, 15, 16, 17, 18, 19, 255]

/-- A winner environment that knows every block hash; a number hashes to itself. -/
def sampleWinnerEnv : WinnerEnv :=
  { GetBlockHash := fun h => some h.toNat, Hash := fun n => n, GetHash := fun w => w.score }

/-- A winner environment that knows no block hash. -/
def blindWinnerEnv : WinnerEnv :=
  { sampleWinnerEnv with GetBlockHash := fun _ => none }

/-- A winner for a height, paid through the outpoint with the given hash. -/
def sampleWinner (nBlockHeight : Int) (hash : Nat) (score : Nat) : CMasternodePaymentWinner :=
  { nBlockHeight := nBlockHeight, vin := { prevout := { hash := hash, n := 0 }, scriptSig := [] },
    payee := [hash], vchSig := [], score := score }

/-- Winners recorded for the heights 1000 and 1001. -/
def sampleWinners : WinnerState :=
  { vWinning := [sampleWinner 1000 500 76, sampleWinner 1001 400 25],
    mapSeenMasternodeVotes := [] }

/-- Little-endian base-256 digits of a number, with fuel. -/
def littleEndian : Nat → Nat → List Nat
  | 0, _ => []
  | fuel + 1, n => if n = 0 then [] else (n % 256) :: littleEndian fuel (n / 256)

/-- A `getvch` that gives the little-endian bytes of the number, followed by a zero
byte when the top bit of the last byte is set; zero has no bytes. -/
def sampleGetvch (n : Nat) : List Nat :=
  let bytes := littleEndian n n
  if bytes.reverse.getD 0 0 ≥ 128 then bytes ++ [0] else bytes

/-- Child of the trust-105 child of the genesis block, with block trust 50 (hash 5). -/
def sampleGrandchild : CBlock := sampleWorkBlock 5 3 50

/-- The chain state with the trust-100 child (hash 2) as best block, after the
trust-105 child (hash 3) and its child (hash 5) were added while the ledger could not
begin a transaction: both are indexed, neither was connected. -/
def chainStalled : ChainState :=
  (((AddToBlockIndex brokenLedgerEnv sampleHasher sampleKinds chainChild100
      sampleChild105 0 0 0).bind
    (fun r => AddToBlockIndex brokenLedgerEnv sampleHasher sampleKinds r.2
      sampleGrandchild 0 0 0)).map (fun r => r.2)).getD emptyChain

/-- Collaborators that always succeed and read the block with hash 5 from disk. -/
def diskChainEnv : ChainEnv :=
  { sampleChainEnv with
    ReadFromDisk := fun _ p => if p = 5 then some sampleGrandchild else none }

/-- The chain state after `SetBestChain` switched `chainStalled` to the block with
hash 5, every ledger call succeeding. -/
def chainReorganized : ChainState :=
  ((SetBestChain diskChainEnv sampleHasher chainStalled sampleGrandchild 5).map
    (fun r => r.2)).getD emptyChain

/-- The chain state after the same call when the block cannot be read from disk. -/
def chainHalfReorganized : ChainState :=
  ((SetBestChain sampleChainEnv sampleHasher chainStalled sampleGrandchild 5).map
    (fun r => r.2)).getD emptyChain

/-- The pool without transactions. -/
def emptyPool : CTxMemPool :=
  { mapTx := fun _ => none, mapNextTx := fun _ => none, nTransactionsUpdated := 0 }

/-- A transaction stamped `t` that spends the listed outpoints and has `outputs`
outputs of value 1. -/
def sampleSpend (t : Nat) (spent : List COutPoint) (outputs : Nat) : CTransaction :=
  { nVersion := 1, nTime := t,
    vin := spent.map (fun o => { prevout := o, scriptSig := [] }),
    vout := List.replicate outputs { nValue := 1, scriptPubKey := [] },
    nLockTime := 0 }

/-- Transaction 20 spends output 0 of a transaction 10 outside the pool. -/
def samplePoolTx20 : CTransaction := sampleSpend 20 [{ hash := 10, n := 0 }] 2

/-- Transaction 30 spends output 1 of transaction 20. -/
def samplePoolTx30 : CTransaction := sampleSpend 30 [{ hash := 20, n := 1 }] 1

/-- The pool after transactions 20 and 30 were added under their hashes. -/
def samplePool : CTxMemPool :=
  (addUnchecked (addUnchecked emptyPool 20 samplePoolTx20).2 30 samplePoolTx30).2

/-- The pool after transaction 20 was added under the key 5, which is not its hash. -/
def illKeyedPool : CTxMemPool :=
  (addUnchecked emptyPool 5 samplePoolTx20).2

/-- Genesis, then the trust-100 child, then the second trust-100 child. -/
def orderTwinSecond : List (CBlock × Nat × Nat × uint256) :=
  [atOrigin sampleGenesis, atOrigin sampleChild100, atOrigin sampleTwin100]

/-- The chain state at the end of `orderTwinSecond`. -/
def chainTwinSecond : ChainState :=
  (addAll sampleChainEnv sampleHasher sampleKinds emptyChain orderTwinSecond).getD emptyChain

/-- The chain state after the second trust-100 child was added to `chainChild100`,
whose best block is the first trust-100 child. -/
def chainTiedChild : ChainState :=
  (addAll sampleChainEnv sampleHasher sampleKinds chainChild100
    [atOrigin sampleTwin100]).getD emptyChain

/-- The index entry stored under a hash (the genesis entry when there is none). -/
def indexedEntry (s : ChainState) (hash : uint256) : CBlockIndex :=
  (s.mapBlockIndex.lookup hash).getD sampleGenesisEntry

/-! # Theorems -/

/-! ## Merkle tree: the loops compute the levels of the tree -/
theorem refPairs_length (Hash : uint256 → uint256 → uint256) :
    ∀ l : List uint256, (refPairs Hash l).length = (l.length + 1) / 2
  | [] => by simp [refPairs]
  | [_] => by simp [refPairs]
  | _ :: _ :: rest => by
    simp only [refPairs, List.length_cons, refPairs_length Hash rest]
    omega

theorem getElem?_mid (pre cur acc : List uint256) (i : Nat) (hi : i < cur.length) :
    (pre ++ cur ++ acc)[pre.length + i]? = some (cur[i]) := by
  rw [List.append_assoc, List.getElem?_append_right (by omega)]
  simp [List.getElem?_append_left, hi]

theorem buildLevel_spec (Hash : uint256 → uint256 → uint256) (pre cur : List uint256) :
    ∀ (fuel i : Nat) (acc : List uint256), cur.length ≤ i + 2 * fuel →
      buildLevel Hash pre.length cur.length fuel i (pre ++ cur ++ acc)
        = some (pre ++ cur ++ acc ++ refPairs Hash (cur.drop i)) := by
  intro fuel
  induction fuel with
  | zero =>
    intro i acc h
    have h1 : ¬ i < cur.length := by omega
    have h2 : cur.drop i = [] := List.drop_eq_nil_of_le (by omega)
    simp [buildLevel, h1, h2, refPairs]
  | succ fuel ih =>
    intro i acc h
    by_cases h1 : i < cur.length
    · by_cases h2 : i + 1 < cur.length
      · have hmin : min (i + 1) (cur.length - 1) = i + 1 := by omega
        have hd : cur.drop i = cur[i] :: cur[i + 1] :: cur.drop (i + 2) := by
          rw [List.drop_eq_getElem_cons h1, List.drop_eq_getElem_cons h2]
        simp only [buildLevel, h1, if_true, hmin, getElem?_mid pre cur acc i h1,
          getElem?_mid pre cur acc (i + 1) h2]
        have := ih (i + 2) (acc ++ [Hash cur[i] cur[i + 1]]) (by omega)
        rw [← List.append_assoc] at this
        rw [this, hd]
        simp [refPairs]
      · have hmin : min (i + 1) (cur.length - 1) = i := by omega
        have hd : cur.drop i = [cur[i]] := by
          rw [List.drop_eq_getElem_cons h1, List.drop_eq_nil_of_le (by omega)]
        have hd2 : cur.drop (i + 2) = [] := List.drop_eq_nil_of_le (by omega)
        simp only [buildLevel, h1, if_true, hmin, getElem?_mid pre cur acc i h1]
        have := ih (i + 2) (acc ++ [Hash cur[i] cur[i]]) (by omega)
        rw [← List.append_assoc] at this
        rw [this, hd, hd2]
        simp [refPairs]
    · have h2 : cur.drop i = [] := List.drop_eq_nil_of_le (by omega)
      simp [buildLevel, h1, h2, refPairs]

theorem buildLevels_spec (Hash : uint256 → uint256 → uint256) :
    ∀ (fuel : Nat) (pre cur : List uint256), cur.length ≤ fuel + 1 →
      buildLevels Hash fuel pre.length cur.length (pre ++ cur)
        = some (pre ++ allLevels Hash fuel cur) := by
  intro fuel
  induction fuel with
  | zero =>
    intro pre cur h
    have h1 : ¬ cur.length > 1 := by omega
    simp [buildLevels, h1, allLevels]
  | succ fuel ih =>
    intro pre cur h
    by_cases h1 : cur.length > 1
    · have hl := buildLevel_spec Hash pre cur cur.length 0 [] (by omega)
      simp only [List.append_nil, List.drop_zero] at hl
      simp only [buildLevels, h1, if_true, hl, allLevels]
      have hlen : (refPairs Hash cur).length = (cur.length + 1) / 2 := refPairs_length Hash cur
      have := ih (pre ++ cur) (refPairs Hash cur) (by rw [hlen]; omega)
      rw [List.length_append, hlen] at this
      rw [this]
      simp
    · simp [buildLevels, h1, allLevels]

theorem allLevels_ne_nil (Hash : uint256 → uint256 → uint256) :
    ∀ (fuel : Nat) (cur : List uint256), cur ≠ [] → allLevels Hash fuel cur ≠ [] := by
  intro fuel cur h
  cases fuel with
  | zero => simpa [allLevels] using h
  | succ fuel =>
    unfold allLevels
    split
    · simp [h]
    · exact h

theorem refPairs_ne_nil (Hash : uint256 → uint256 → uint256) (l : List uint256) (h : l ≠ []) :
    refPairs Hash l ≠ [] := by
  intro h0
  have := refPairs_length Hash l
  rw [h0] at this
  have : 0 < l.length := List.length_pos.mpr h
  simp at *
  omega

theorem allLevels_getLastD (Hash : uint256 → uint256 → uint256) :
    ∀ (fuel : Nat) (cur : List uint256), cur ≠ [] →
      (allLevels Hash fuel cur).getLastD 0 = (refReduce Hash fuel cur).getLastD 0 := by
  intro fuel
  induction fuel with
  | zero => intro cur _; rfl
  | succ fuel ih =>
    intro cur h
    by_cases h1 : cur.length > 1
    · have h2 : ¬ cur.length ≤ 1 := by omega
      have hne := allLevels_ne_nil Hash fuel _ (refPairs_ne_nil Hash cur h)
      simp only [allLevels, h1, if_true, refReduce, h2, if_false]
      rw [← ih _ (refPairs_ne_nil Hash cur h)]
      simp only [List.getLastD_eq_getLast?, List.getLast?_append, List.getLast?_eq_getLast _ hne]
      simp
    · have h2 : cur.length ≤ 1 := by omega
      simp [allLevels, h1, refReduce, h2]

theorem BuildMerkleTree_eq (h : Hasher) (b : CBlock) :
    BuildMerkleTree h b
      = some ({ b with vMerkleTree := allLevels h.Hash b.vtx.length (b.vtx.map h.GetHash) },
          refMerkleRoot h.Hash (b.vtx.map h.GetHash)) := by
  have hs := buildLevels_spec h.Hash b.vtx.length [] (b.vtx.map h.GetHash) (by simp)
  simp only [List.length_nil, List.nil_append, List.length_map] at hs
  unfold BuildMerkleTree
  rw [hs]
  simp only [Option.some.injEq, Prod.mk.injEq, true_and]
  match hv : b.vtx with
  | [] => simp [allLevels, refMerkleRoot]
  | [a] => simp [allLevels, refMerkleRoot]
  | a :: c :: rest =>
    have hne : List.map h.GetHash (a :: c :: rest) ≠ [] := by simp
    have hne2 := allLevels_ne_nil h.Hash (a :: c :: rest).length _ hne
    have hne3 : ¬ (allLevels h.Hash (a :: c :: rest).length
        (List.map h.GetHash (a :: c :: rest))).isEmpty = true := by
      rw [List.isEmpty_iff]; exact hne2
    rw [if_neg hne3, allLevels_getLastD _ _ _ hne]
    simp [refMerkleRoot]


theorem xor_one_eq (i : Nat) : i ^^^ 1 = if i % 2 = 0 then i + 1 else i - 1 := by
  apply Nat.eq_of_testBit_eq
  intro k
  rw [Nat.testBit_xor]
  cases k with
  | zero =>
    by_cases h : i % 2 = 0
    · rw [if_pos h]
      have h2 : (i + 1) % 2 = 1 := by omega
      simp [Nat.testBit_zero, h, h2]
    · rw [if_neg h]
      have h1 : i % 2 = 1 := by omega
      have h2 : (i - 1) % 2 = 0 := by omega
      simp [Nat.testBit_zero, h1, h2]
  | succ k =>
    have h1 : Nat.testBit 1 (k + 1) = false := by
      simp [Nat.testBit_succ]
    rw [h1, Bool.xor_false]
    simp only [Nat.testBit_succ]
    by_cases h : i % 2 = 0
    · rw [if_pos h]; congr 1; omega
    · rw [if_neg h]; congr 1; omega

theorem refPairs_getElem (Hash : uint256 → uint256 → uint256) :
    ∀ (l : List uint256) (k : Nat) (_ : k < (refPairs Hash l).length),
      (refPairs Hash l)[k]? = some (Hash (l.getD (2 * k) 0) (l.getD (min (2 * k + 1) (l.length - 1)) 0))
  | [], k, hk => by simp [refPairs] at hk
  | [a], k, hk => by
    simp [refPairs] at hk
    subst hk
    simp [refPairs]
  | a :: b :: rest, 0, _ => by simp [refPairs]
  | a :: b :: rest, k + 1, hk => by
    have hk2 : k < (refPairs Hash rest).length := by simpa [refPairs] using hk
    have ih := refPairs_getElem Hash rest k hk2
    have hlen : 0 < rest.length := by
      rw [refPairs_length] at hk2
      omega
    have e1 : 2 * (k + 1) = 2 * k + 1 + 1 := by ring
    have e2 : min (2 * (k + 1) + 1) ((a :: b :: rest).length - 1)
        = min (2 * k + 1) (rest.length - 1) + 1 + 1 := by
      simp only [List.length_cons]; omega
    rw [e2, e1]
    simp only [refPairs, List.getElem?_cons_succ, ih, List.getD_cons_succ]

theorem branchLoop_spec (Hash : uint256 → uint256 → uint256) :
    ∀ (fuel : Nat) (pre cur : List uint256) (idx : Nat) (acc : List uint256),
      cur.length ≤ fuel + 1 → idx < cur.length →
      branchLoop (pre ++ allLevels Hash fuel cur) fuel pre.length cur.length (idx : Int) acc
        = some (acc ++ refBranch Hash fuel cur idx) := by
  intro fuel
  induction fuel with
  | zero =>
    intro pre cur idx acc h _
    have h1 : ¬ cur.length > 1 := by omega
    simp [branchLoop, h1, refBranch]
  | succ fuel ih =>
    intro pre cur idx acc h hidx
    by_cases h1 : cur.length > 1
    · have hx : Int.xor (idx : Int) 1 = ((idx ^^^ 1 : Nat) : Int) := rfl
      have hs : (idx : Int) >>> 1 = ((idx / 2 : Nat) : Int) := by
        show ((idx >>> 1 : Nat) : Int) = _
        rw [Nat.shiftRight_one]
      have hm : min (((idx ^^^ 1 : Nat) : Int)) ((cur.length : Int) - 1)
          = ((min (idx ^^^ 1) (cur.length - 1) : Nat) : Int) := by
        omega
      have hlt : min (idx ^^^ 1) (cur.length - 1) < cur.length := by omega
      have hnn : ¬ ((pre.length : Int) + ((min (idx ^^^ 1) (cur.length - 1) : Nat) : Int) < 0) := by
        omega
      have htn : ((pre.length : Int) + ((min (idx ^^^ 1) (cur.length - 1) : Nat) : Int)).toNat
          = pre.length + min (idx ^^^ 1) (cur.length - 1) := by omega
      have hget : (pre ++ allLevels Hash (fuel + 1) cur)[pre.length + min (idx ^^^ 1) (cur.length - 1)]?
          = some (cur.getD (min (idx ^^^ 1) (cur.length - 1)) 0) := by
        simp only [allLevels, h1, if_true]
        rw [← List.append_assoc, getElem?_mid pre cur _ _ hlt]
        simp [List.getD_eq_getElem?_getD, hlt]
      have hlen : (refPairs Hash cur).length = (cur.length + 1) / 2 := refPairs_length Hash cur
      have hrec := ih (pre ++ cur) (refPairs Hash cur) (idx / 2)
        (acc ++ [cur.getD (min (idx ^^^ 1) (cur.length - 1)) 0])
        (by rw [hlen]; omega) (by rw [hlen]; omega)
      rw [List.length_append, hlen, List.append_assoc] at hrec
      have hall : pre ++ allLevels Hash (fuel + 1) cur
          = pre ++ (cur ++ allLevels Hash fuel (refPairs Hash cur)) := by
        simp [allLevels, h1]
      unfold branchLoop
      simp only [h1, if_true, hx, hm, hnn, if_false, htn, hget, hs]
      rw [hall, hrec]
      simp [refBranch, h1]
    · simp [branchLoop, h1, refBranch]

theorem land_one_cast (n : Nat) : Int.land (n : Int) 1 = ((n % 2 : Nat) : Int) := by
  show ((n &&& 1 : Nat) : Int) = _
  rw [Nat.and_one_is_mod]

theorem checkLoop_refBranch (Hash : uint256 → uint256 → uint256) :
    ∀ (fuel : Nat) (cur : List uint256) (idx : Nat),
      cur.length ≤ fuel + 1 → idx < cur.length →
      checkLoop Hash (refBranch Hash fuel cur idx) (cur.getD idx 0) (idx : Int)
        = (refReduce Hash fuel cur).getLastD 0 := by
  intro fuel
  induction fuel with
  | zero =>
    intro cur idx h hidx
    match cur, h, hidx with
    | [a], _, hidx =>
      have : idx = 0 := by simpa using hidx
      subst this
      simp [refBranch, checkLoop, refReduce]
  | succ fuel ih =>
    intro cur idx h hidx
    by_cases h1 : cur.length > 1
    · have h2 : ¬ cur.length ≤ 1 := by omega
      have hlen : (refPairs Hash cur).length = (cur.length + 1) / 2 := refPairs_length Hash cur
      have hk : idx / 2 < (refPairs Hash cur).length := by rw [hlen]; omega
      have hrec := ih (refPairs Hash cur) (idx / 2) (by rw [hlen]; omega) hk
      have hs : (idx : Int) >>> 1 = ((idx / 2 : Nat) : Int) := by
        show ((idx >>> 1 : Nat) : Int) = _
        rw [Nat.shiftRight_one]
      have hp := refPairs_getElem Hash cur (idx / 2) hk
      have hpd : (refPairs Hash cur).getD (idx / 2) 0
          = Hash (cur.getD (2 * (idx / 2)) 0)
              (cur.getD (min (2 * (idx / 2) + 1) (cur.length - 1)) 0) := by
        rw [List.getD_eq_getElem?_getD, hp]; rfl
      simp only [refBranch, h1, if_true, checkLoop, refReduce, h2, if_false, hs, land_one_cast]
      rw [← hrec, hpd, xor_one_eq]
      by_cases hpar : idx % 2 = 0
      · have e1 : 2 * (idx / 2) = idx := by omega
        have hc : ((idx % 2 : Nat) : Int) = 0 := by omega
        simp only [if_pos hpar, e1, hc, ne_eq, not_true_eq_false, if_false]
      · have e1 : 2 * (idx / 2) = idx - 1 := by omega
        have e2 : min (2 * (idx / 2) + 1) (cur.length - 1) = idx := by omega
        have e3 : min (idx - 1) (cur.length - 1) = idx - 1 := by omega
        have e4 : min (idx - 1 + 1) (cur.length - 1) = idx := by omega
        have hc : ((idx % 2 : Nat) : Int) ≠ 0 := by omega
        simp only [if_neg hpar, e2, e1, e3, e4, hc, ne_eq, not_false_eq_true, if_true]
    · have h2 : cur.length ≤ 1 := by omega
      match cur, h2, hidx with
      | [a], _, hidx =>
        have : idx = 0 := by simpa using hidx
        subst this
        simp [refBranch, checkLoop, refReduce]

theorem checkLoop_enumFrom (Hash : uint256 → uint256 → uint256) (index : Nat) :
    ∀ (branch : List uint256) (acc : uint256) (k : Nat),
      checkLoop Hash branch acc ((index >>> k : Nat) : Int)
        = (branch.enumFrom k).foldl
            (fun acc ks => if index.testBit ks.1 then Hash ks.2 acc else Hash acc ks.2) acc := by
  intro branch
  induction branch with
  | nil => intro acc k; rfl
  | cons s rest ih =>
    intro acc k
    have hs : ((index >>> k : Nat) : Int) >>> 1 = ((index >>> (k + 1) : Nat) : Int) := by
      show (((index >>> k) >>> 1 : Nat) : Int) = _
      rw [← Nat.shiftRight_add]
    have hb : (((index >>> k) % 2 : Nat) : Int) ≠ 0 ↔ index.testBit k = true := by
      rw [Nat.testBit_to_div_mod, Nat.shiftRight_eq_div_pow]
      have := Nat.mod_two_eq_zero_or_one (index / 2 ^ k)
      rcases this with h | h <;> simp [h]
    simp only [checkLoop, List.enumFrom_cons, List.foldl_cons, hs, land_one_cast, ih]
    by_cases ht : index.testBit k = true
    · rw [if_pos (hb.mpr ht), if_pos ht]
    · rw [if_neg (fun hh => ht (hb.mp hh)), if_neg ht]

theorem refReduce_root (Hash : uint256 → uint256 → uint256) (l : List uint256) (hl : l ≠ []) :
    (refReduce Hash l.length l).getLastD 0 = refMerkleRoot Hash l := by
  match l, hl with
  | [a], _ => simp [refReduce, refMerkleRoot]
  | a :: c :: rest, _ => simp [refMerkleRoot]

theorem GetMerkleBranch_cached (h : Hasher) (c : CBlock) (i : Nat) (hi : i < c.vtx.length)
    (hc : c.vMerkleTree = [] ∨
      c.vMerkleTree = allLevels h.Hash c.vtx.length (c.vtx.map h.GetHash)) :
    GetMerkleBranch h c (i : Int)
      = some (refBranch h.Hash c.vtx.length (c.vtx.map h.GetHash) i) := by
  have hne : c.vtx.map h.GetHash ≠ [] := by
    intro h0
    have := congrArg List.length h0
    simp at this
    rw [this] at hi
    simp at hi
  have hb := branchLoop_spec h.Hash c.vtx.length [] (c.vtx.map h.GetHash) i []
    (by simp) (by simpa using hi)
  simp only [List.nil_append, List.length_nil, List.length_map] at hb
  unfold GetMerkleBranch
  rcases hc with hc | hc
  · simp only [hc, List.isEmpty_nil, if_true, BuildMerkleTree_eq]
    exact hb
  · have hne2 : ¬ c.vMerkleTree.isEmpty = true := by
      rw [List.isEmpty_iff, hc]
      exact allLevels_ne_nil h.Hash _ _ hne
    rw [if_neg hne2]
    show branchLoop c.vMerkleTree c.vtx.length 0 c.vtx.length (i : Int) [] = _
    rw [hc]
    exact hb

/-- C1 (Merkle round trip): for a block with transactions `vtx` and an index `i` below
`vtx.size()`, `BuildMerkleTree()` returns a root, and both for the block as that call
leaves it (cache filled) and for the block with an empty cache, `GetMerkleBranch(i)`
returns a branch and `CheckMerkleBranch(txid_i, branch, i)` equals that root. -/
theorem merkle_round_trip (h : Hasher) (b : CBlock) (i : Nat) (hi : i < b.vtx.length) :
    ∃ (b1 : CBlock) (root : uint256), BuildMerkleTree h b = some (b1, root) ∧
      ∀ c : CBlock, c = b1 ∨ c = { b with vMerkleTree := [] } →
        ∃ branch, GetMerkleBranch h c (i : Int) = some branch ∧
          CheckMerkleBranch h (h.GetHash b.vtx[i]) branch (i : Int) = root := by
  refine ⟨_, _, BuildMerkleTree_eq h b, ?_⟩
  intro c hc
  have hvtx : c.vtx = b.vtx := by rcases hc with hc | hc <;> rw [hc]
  have hcache : c.vMerkleTree = [] ∨
      c.vMerkleTree = allLevels h.Hash c.vtx.length (c.vtx.map h.GetHash) := by
    rcases hc with hc | hc
    · right; rw [hc]
    · left; rw [hc]
  have hi2 : i < c.vtx.length := by rw [hvtx]; exact hi
  refine ⟨_, GetMerkleBranch_cached h c i hi2 hcache, ?_⟩
  have hne : b.vtx.map h.GetHash ≠ [] := by
    intro h0
    have := congrArg List.length h0
    simp at this
    rw [this] at hi
    simp at hi
  have hneg : ¬ ((i : Int) = -1) := by omega
  have hleaf : h.GetHash b.vtx[i] = (b.vtx.map h.GetHash).getD i 0 := by
    simp [List.getD_eq_getElem?_getD, hi]
  have hrt := checkLoop_refBranch h.Hash b.vtx.length (b.vtx.map h.GetHash) i
    (by simp) (by simpa using hi)
  have hroot := refReduce_root h.Hash (b.vtx.map h.GetHash) hne
  rw [List.length_map] at hroot
  unfold CheckMerkleBranch
  rw [if_neg hneg, hvtx, hleaf, hrt, hroot]

/-- Instance of C1: the second of three transactions. -/
theorem merkle_round_trip_witness :
    ∃ (b1 : CBlock) (root : uint256), BuildMerkleTree sampleHasher sampleBlock3 = some (b1, root) ∧
      ∀ c : CBlock, c = b1 ∨ c = { sampleBlock3 with vMerkleTree := [] } →
        ∃ branch, GetMerkleBranch sampleHasher c ((1 : Nat) : Int) = some branch ∧
          CheckMerkleBranch sampleHasher (sampleHasher.GetHash (sampleTx 2)) branch
            ((1 : Nat) : Int) = root :=
  merkle_round_trip sampleHasher sampleBlock3 1 (by decide)

/-- C2 (BuildMerkleTree is the pairwise reduction): for every transaction list the
root returned by `BuildMerkleTree()` is the reference reduction of the transaction
ids: zero for none, the id for one, else the last hash of the repeated pairing with
the last element doubled on odd levels. -/
theorem BuildMerkleTree_refines (h : Hasher) (b : CBlock) :
    (BuildMerkleTree h b).map Prod.snd
      = some (refMerkleRoot h.Hash (b.vtx.map h.GetHash)) := by
  rw [BuildMerkleTree_eq]
  rfl

/-- C3 (CheckMerkleBranch): index `-1` gives the zero hash for any leaf and branch, and
for every index `>= 0` the result is the left fold of the branch over the leaf that
puts the sibling first exactly at the levels whose bit of the index is 1. -/
theorem CheckMerkleBranch_fold (h : Hasher) (leaf : uint256) (branch : List uint256) :
    CheckMerkleBranch h leaf branch (-1) = 0 ∧
    ∀ index : Nat,
      CheckMerkleBranch h leaf branch (index : Int) = refBranchFold h.Hash leaf branch index := by
  constructor
  · simp [CheckMerkleBranch]
  · intro index
    have hneg : ¬ ((index : Int) = -1) := by omega
    have := checkLoop_enumFrom h.Hash index branch leaf 0
    rw [Nat.shiftRight_zero] at this
    unfold CheckMerkleBranch refBranchFold
    rw [if_neg hneg, this]
    rfl

/-! ## Best-chain selection -/

@[simp] theorem emit_mapBlockIndex (s : ChainState) (e : Event) :
    (s.emit e).mapBlockIndex = s.mapBlockIndex := rfl

@[simp] theorem emit_nBestChainTrust (s : ChainState) (e : Event) :
    (s.emit e).nBestChainTrust = s.nBestChainTrust := rfl

@[simp] theorem emit_pindexBest (s : ChainState) (e : Event) :
    (s.emit e).pindexBest = s.pindexBest := rfl

@[simp] theorem emit_hashBestChain (s : ChainState) (e : Event) :
    (s.emit e).hashBestChain = s.hashBestChain := rfl

@[simp] theorem emit_nBestHeight (s : ChainState) (e : Event) :
    (s.emit e).nBestHeight = s.nBestHeight := rfl

theorem SetBestChainInner_map (c : ChainEnv) (h : Hasher) (s s' : ChainState) (b : CBlock)
    (p : uint256) (r : Bool) (hr : SetBestChainInner c h s b p = some (r, s')) :
    s'.mapBlockIndex = s.mapBlockIndex := by
  unfold SetBestChainInner at hr
  simp only at hr
  repeat' split at hr
  all_goals first
    | (simp only [Option.some.injEq, Prod.mk.injEq] at hr
       obtain ⟨_, rfl⟩ := hr
       rfl)
    | simp at hr

theorem connectFurther_map (c : ChainEnv) (h : Hasher) :
    ∀ (l : List uint256) (s s' : ChainState), connectFurther c h l s = some s' →
      s'.mapBlockIndex = s.mapBlockIndex := by
  intro l
  induction l with
  | nil =>
    intro s s' hr
    simp only [connectFurther, Option.some.injEq] at hr
    rw [← hr]
  | cons p rest ih =>
    intro s s' hr
    unfold connectFurther at hr
    simp only at hr
    split at hr
    · simp only [Option.some.injEq] at hr
      rw [← hr]; rfl
    · split at hr
      · simp only [Option.some.injEq] at hr
        rw [← hr]; rfl
      · split at hr
        · exact absurd hr (by simp)
        · rename_i s2 hinner
          simp only [Option.some.injEq] at hr
          rw [← hr, SetBestChainInner_map _ _ _ _ _ _ _ hinner]; rfl
        · rename_i s2 hinner
          rw [ih _ _ hr, SetBestChainInner_map _ _ _ _ _ _ _ hinner]; rfl

theorem switchChain_map (c : ChainEnv) (h : Hasher) (s s' : ChainState) (b : CBlock)
    (p : uint256) (r : Bool) (hr : switchChain c h s b p = some (r, s')) :
    s'.mapBlockIndex = s.mapBlockIndex := by
  unfold switchChain at hr
  simp only at hr
  split at hr
  · split at hr
    · simp only [Option.some.injEq, Prod.mk.injEq] at hr
      rw [← hr.2]; rfl
    · simp only [Option.some.injEq, Prod.mk.injEq] at hr
      rw [← hr.2]; rfl
  · split at hr
    · exact SetBestChainInner_map _ _ _ _ _ _ _ hr
    · split at hr
      · exact absurd hr (by simp)
      · split at hr
        · simp only [Option.some.injEq, Prod.mk.injEq] at hr
          rw [← hr.2]; rfl
        · split at hr
          · exact absurd hr (by simp)
          · rename_i s3 hcf
            simp only [Option.some.injEq, Prod.mk.injEq] at hr
            rw [← hr.2, connectFurther_map _ _ _ _ _ hcf]; rfl

/-- What a successful `SetBestChain` leaves behind: the index map is untouched and the
published best block is the entry `pindexNew`. -/
theorem SetBestChain_true (c : ChainEnv) (h : Hasher) (s s' : ChainState) (b : CBlock)
    (p : uint256) (hr : SetBestChain c h s b p = some (true, s')) :
    s'.mapBlockIndex = s.mapBlockIndex ∧
    ∃ e, s.mapBlockIndex.lookup p = some e ∧ s'.hashBestChain = GetHash h b ∧
      s'.pindexBest = some p ∧ s'.nBestHeight = e.nHeight ∧
      s'.nBestChainTrust = e.nChainTrust := by
  unfold SetBestChain at hr
  simp only at hr
  split at hr
  · simp at hr
  · split at hr
    · exact absurd hr (by simp)
    · simp at hr
    · rename_i s2 hsw
      have hm := switchChain_map _ _ _ _ _ _ _ hsw
      simp only [emit_mapBlockIndex] at hm
      split at hr
      · exact absurd hr (by simp)
      · rename_i e he
        simp only [Option.some.injEq, Prod.mk.injEq, true_and] at hr
        rw [hm] at he
        subst hr
        refine ⟨?_, e, he, rfl, rfl, rfl, rfl⟩
        show (if _ then _ else _ : ChainState).mapBlockIndex = _
        split <;> simp [hm]

theorem CBlockIndex_new_spec (k : TxKinds) (nFile nBlockPos : Nat) (b : CBlock) (e0 : CBlockIndex)
    (hr : CBlockIndex.new k nFile nBlockPos b = some e0) :
    e0.pprev = none ∧ e0.nHeight = 0 ∧ e0.fProofOfStake = IsProofOfStake k b ∧
      e0.nBits = b.nBits := by
  unfold CBlockIndex.new at hr
  simp only at hr
  split at hr
  · rename_i hpos
    split at hr
    · split at hr
      · simp only [Option.some.injEq] at hr
        subst hr
        exact ⟨rfl, rfl, hpos.symm, rfl⟩
      · simp at hr
    · simp at hr
  · rename_i hpos
    simp only [Option.some.injEq] at hr
    subst hr
    refine ⟨rfl, rfl, ?_, rfl⟩
    simpa using hpos

/-- The entry built by `AddToBlockIndex`: link, height and trust. -/
theorem linkedEntry_spec (c : ChainEnv) (h : Hasher) (k : TxKinds) (s : ChainState) (b : CBlock)
    (nFile nBlockPos : Nat) (e : CBlockIndex)
    (hr : linkedEntry c h k s b nFile nBlockPos = some e) :
    e.pprev = (if (s.mapBlockIndex.lookup b.hashPrevBlock).isSome then some b.hashPrevBlock
               else none) ∧
    e.nHeight = (match s.mapBlockIndex.lookup b.hashPrevBlock with
                 | some ep => ep.nHeight + 1
                 | none => 0) ∧
    e.nChainTrust
      = (prevChainTrust s e.pprev + c.GetBlockTrust (IsProofOfStake k b) b.nBits) % 2 ^ 256 := by
  unfold linkedEntry at hr
  split at hr
  · simp at hr
  · rename_i e0 hnew
    obtain ⟨h1, h2, h3, h4⟩ := CBlockIndex_new_spec k nFile nBlockPos b e0 hnew
    simp only [Option.some.injEq] at hr
    subst hr
    cases hl : s.mapBlockIndex.lookup b.hashPrevBlock with
    | none => simp [h1, h2, h3, h4]
    | some ep => simp [h3, h4]

theorem stakedEntry_spec (c : ChainEnv) (h : Hasher) (k : TxKinds) (s1 : ChainState) (b : CBlock)
    (e3 e : CBlockIndex) (hashProof : uint256)
    (hr : stakedEntry c h k s1 b e3 hashProof = some (some e)) :
    e.pprev = e3.pprev ∧ e.nHeight = e3.nHeight ∧ e.nChainTrust = e3.nChainTrust := by
  unfold stakedEntry at hr
  simp only at hr
  repeat' split at hr
  all_goals first
    | (simp only [Option.some.injEq] at hr
       subst hr
       exact ⟨rfl, rfl, rfl⟩)
    | simp at hr

/-- What a successful `publishEntry` leaves behind. -/
theorem publishEntry_true (c : ChainEnv) (h : Hasher) (s2 s' : ChainState) (b : CBlock)
    (e : CBlockIndex) (hl : s2.mapBlockIndex.lookup (GetHash h b) = some e)
    (hr : publishEntry c h s2 b e = some (true, s')) :
    s'.mapBlockIndex = s2.mapBlockIndex ∧
    (e.nChainTrust > s2.nBestChainTrust →
      s'.hashBestChain = GetHash h b ∧ s'.pindexBest = some (GetHash h b) ∧
      s'.nBestHeight = e.nHeight ∧ s'.nBestChainTrust = e.nChainTrust) ∧
    (¬ e.nChainTrust > s2.nBestChainTrust →
      s'.hashBestChain = s2.hashBestChain ∧ s'.pindexBest = s2.pindexBest ∧
      s'.nBestHeight = s2.nBestHeight ∧ s'.nBestChainTrust = s2.nBestChainTrust ∧
      (s2.pindexBest ≠ some (GetHash h b) →
        s'.trace = s2.trace ++
          [Event.TxnBegin, Event.WriteBlockIndex (GetHash h b), Event.TxnCommit])) := by
  unfold publishEntry at hr
  simp only at hr
  split at hr
  · simp at hr
  · split at hr
    · simp at hr
    · by_cases ht : e.nChainTrust > s2.nBestChainTrust
      · have ht' : e.nChainTrust >
            (((s2.emit Event.TxnBegin).emit (Event.WriteBlockIndex (GetHash h b))).emit
              Event.TxnCommit).nBestChainTrust := ht
        rw [if_pos ht'] at hr
        split at hr
        · simp at hr
        · simp at hr
        · rename_i s5 hsb
          obtain ⟨hm, e', he', h1, h2, h3, h4⟩ := SetBestChain_true _ _ _ _ _ _ hsb
          simp only [emit_mapBlockIndex] at hm he'
          rw [hl] at he'
          simp only [Option.some.injEq] at he'
          subst he'
          have hfin : ∀ t : ChainState, t = s5 ∨ t = s5.emit Event.SignalUpdatedTransaction →
              t.mapBlockIndex = s2.mapBlockIndex ∧ t.hashBestChain = GetHash h b ∧
              t.pindexBest = some (GetHash h b) ∧ t.nBestHeight = e.nHeight ∧
              t.nBestChainTrust = e.nChainTrust := by
            intro t htt
            rcases htt with rfl | rfl
            · exact ⟨hm, h1, h2, h3, h4⟩
            · exact ⟨hm, h1, h2, h3, h4⟩
          have hs' : s' = s5 ∨ s' = s5.emit Event.SignalUpdatedTransaction := by
            rw [if_pos h2] at hr
            split at hr
            · simp only [Option.some.injEq, Prod.mk.injEq, true_and] at hr
              exact Or.inr hr.symm
            · simp at hr
          obtain ⟨g0, g1, g2, g3, g4⟩ := hfin s' hs'
          exact ⟨g0, fun _ => ⟨g1, g2, g3, g4⟩, fun hn => absurd ht hn⟩
      · have ht' : ¬ e.nChainTrust >
            (((s2.emit Event.TxnBegin).emit (Event.WriteBlockIndex (GetHash h b))).emit
              Event.TxnCommit).nBestChainTrust := ht
        rw [if_neg ht'] at hr
        simp only at hr
        by_cases hbest : s2.pindexBest = some (GetHash h b)
        · have hbest' : (((s2.emit Event.TxnBegin).emit (Event.WriteBlockIndex (GetHash h b))).emit
              Event.TxnCommit).pindexBest = some (GetHash h b) := hbest
          rw [if_pos hbest'] at hr
          split at hr
          · simp only [Option.some.injEq, Prod.mk.injEq, true_and] at hr
            rw [← hr]
            exact ⟨rfl, fun hp => absurd hp ht,
              fun _ => ⟨rfl, rfl, rfl, rfl, fun hne => absurd hbest hne⟩⟩
          · simp at hr
        · have hbest' : ¬ (((s2.emit Event.TxnBegin).emit (Event.WriteBlockIndex (GetHash h b))).emit
              Event.TxnCommit).pindexBest = some (GetHash h b) := hbest
          rw [if_neg hbest'] at hr
          simp only [Option.some.injEq, Prod.mk.injEq, true_and] at hr
          rw [← hr]
          refine ⟨rfl, fun hp => absurd hp ht, fun _ => ⟨rfl, rfl, rfl, rfl, fun _ => ?_⟩⟩
          simp [ChainState.emit]

/-- Summary of a successful `AddToBlockIndex`: the block was unknown, exactly one entry
is added under its hash, and the published best block follows the trust comparison. -/
theorem AddToBlockIndex_true (c : ChainEnv) (h : Hasher) (k : TxKinds) (s s' : ChainState)
    (b : CBlock) (nFile nBlockPos : Nat) (hashProof : uint256)
    (hr : AddToBlockIndex c h k s b nFile nBlockPos hashProof = some (true, s')) :
    s.mapBlockIndex.lookup (GetHash h b) = none ∧
    ∃ e : CBlockIndex,
      s'.mapBlockIndex = (GetHash h b, e) :: s.mapBlockIndex ∧
      e.pprev = (if (s.mapBlockIndex.lookup b.hashPrevBlock).isSome then some b.hashPrevBlock
                 else none) ∧
      e.nChainTrust
        = (prevChainTrust s e.pprev + c.GetBlockTrust (IsProofOfStake k b) b.nBits) % 2 ^ 256 ∧
      (e.nChainTrust > s.nBestChainTrust →
        s'.hashBestChain = GetHash h b ∧ s'.pindexBest = some (GetHash h b) ∧
        s'.nBestHeight = e.nHeight ∧ s'.nBestChainTrust = e.nChainTrust) ∧
      (¬ e.nChainTrust > s.nBestChainTrust →
        s'.hashBestChain = s.hashBestChain ∧ s'.pindexBest = s.pindexBest ∧
        s'.nBestHeight = s.nBestHeight ∧ s'.nBestChainTrust = s.nBestChainTrust ∧
        (s.pindexBest ≠ some (GetHash h b) →
          s'.trace = s.trace ++
            [Event.TxnBegin, Event.WriteBlockIndex (GetHash h b), Event.TxnCommit])) := by
  unfold AddToBlockIndex at hr
  simp only at hr
  split at hr
  · simp at hr
  · rename_i hdup
    have hnone : s.mapBlockIndex.lookup (GetHash h b) = none := by
      cases hx : s.mapBlockIndex.lookup (GetHash h b) with
      | none => rfl
      | some v => rw [hx] at hdup; simp at hdup
    refine ⟨hnone, ?_⟩
    split at hr
    · simp at hr
    · rename_i e3 hlink
      obtain ⟨l1, _, l3⟩ := linkedEntry_spec _ _ _ _ _ _ _ _ hlink
      split at hr
      · simp at hr
      · simp at hr
      · rename_i e hst
        obtain ⟨t1, _, t3⟩ := stakedEntry_spec _ _ _ _ _ _ _ _ hst
        have hl : (insertEntry { s with nBlockSequenceId := (s.nBlockSequenceId + 1) % 2 ^ 32 }
            (GetHash h b) e).mapBlockIndex.lookup (GetHash h b) = some e := by
          simp [insertEntry, List.lookup]
        obtain ⟨p0, p1, p2⟩ := publishEntry_true _ _ _ _ _ _ hl hr
        refine ⟨e, p0, by rw [t1, l1], ?_, p1, p2⟩
        rw [t3, l3, t1]

/-! ## Order of insertion and the best chain -/

theorem addList_append (t : TrustState) (l1 l2 : List TrustItem) :
    t.addList (l1 ++ l2) = (t.addList l1).addList l2 := by
  induction l1 generalizing t with
  | nil => rfl
  | cons x l ih => exact ih (t.add x)

theorem addList_trust_of_not_mem (l : List TrustItem) :
    ∀ (t : TrustState) (k : uint256), (∀ y ∈ l, y.key ≠ k) → (t.addList l).trust k = t.trust k := by
  induction l with
  | nil => intro t k _; rfl
  | cons x l ih =>
    intro t k hk
    have h1 : x.key ≠ k := hk x (List.mem_cons_self _ _)
    have h2 := ih (t.add x) k (fun y hy => hk y (List.mem_cons_of_mem _ hy))
    have h3 : (t.add x).trust k = t.trust k := by
      simp [TrustState.add, Ne.symm h1]
    show ((t.add x).addList l).trust k = t.trust k
    rw [h2, h3]

theorem fresh_key_ne (l : List TrustItem) :
    ∀ (t : TrustState) (k : uint256), Fresh t l → t.trust k ≠ none → ∀ y ∈ l, y.key ≠ k := by
  induction l with
  | nil => intro t k _ _ y hy; simp at hy
  | cons x l ih =>
    intro t k hf hk y hy
    obtain ⟨hx, hrest⟩ := hf
    rcases List.mem_cons.mp hy with rfl | hy'
    · intro heq
      rw [heq] at hx
      exact hk hx
    · refine ih (t.add x) k hrest ?_ y hy'
      by_cases hkx : k = x.key
      · simp [TrustState.add, hkx]
      · simpa [TrustState.add, hkx] using hk

theorem add_trust_key (t : TrustState) (x : TrustItem) :
    (t.add x).trust x.key = some (((t.trust x.prev).getD 0 + x.blockTrust) % 2 ^ 256) := by
  simp [TrustState.add]

/-- The trust stored for a block is the trust of its parent in the final index plus the
block trust. -/
theorem addList_fixpoint (l : List TrustItem) :
    ∀ (t : TrustState), Fresh t l → ParentsFirstItems l → ∀ x ∈ l,
      (t.addList l).trust x.key
        = some ((((t.addList l).trust x.prev).getD 0 + x.blockTrust) % 2 ^ 256) := by
  induction l with
  | nil => intro t _ _ x hx; simp at hx
  | cons a l ih =>
    intro t hf hp x hx
    obtain ⟨ha, hrest⟩ := hf
    obtain ⟨hpa, hprest⟩ := hp
    rcases List.mem_cons.mp hx with rfl | hx'
    · have hkeys : ∀ y ∈ l, y.key ≠ x.key :=
        fresh_key_ne l (t.add x) x.key hrest (by rw [add_trust_key]; simp)
      have hprev : ∀ y ∈ l, y.key ≠ x.prev := fun y hy => hpa y (List.mem_cons_of_mem _ hy)
      have hself : x.key ≠ x.prev := hpa x (List.mem_cons_self _ _)
      show ((t.add x).addList l).trust x.key
        = some (((((t.add x).addList l).trust x.prev).getD 0 + x.blockTrust) % 2 ^ 256)
      rw [addList_trust_of_not_mem l _ _ hkeys, addList_trust_of_not_mem l _ _ hprev,
        add_trust_key]
      have : (t.add x).trust x.prev = t.trust x.prev := by
        simp [TrustState.add, Ne.symm hself]
      rw [this]
    · exact ih (t.add a) hrest hprest x hx'

/-- Two assignments of trust that agree outside the blocks of a parent-first list and
satisfy the same parent equation agree on the blocks of the list. -/
theorem fixpoint_unique (F G : uint256 → Option uint256) (l : List TrustItem)
    (hp : ParentsFirstItems l)
    (hout : ∀ k, (∀ y ∈ l, y.key ≠ k) → F k = G k)
    (hF : ∀ x ∈ l, F x.key = some (((F x.prev).getD 0 + x.blockTrust) % 2 ^ 256))
    (hG : ∀ x ∈ l, G x.key = some (((G x.prev).getD 0 + x.blockTrust) % 2 ^ 256)) :
    ∀ k, F k = G k := by
  suffices hs : ∀ (pre post : List TrustItem), l = pre ++ post → ParentsFirstItems post →
      (∀ x ∈ pre, F x.key = G x.key) → ∀ x ∈ l, F x.key = G x.key by
    intro k
    by_cases hk : ∃ y ∈ l, y.key = k
    · obtain ⟨y, hy, rfl⟩ := hk
      exact hs [] l rfl hp (by simp) y hy
    · exact hout k (fun y hy heq => hk ⟨y, hy, heq⟩)
  intro pre post
  induction post generalizing pre with
  | nil =>
    intro hl _ hpre x hx
    rw [hl, List.append_nil] at hx
    exact hpre x hx
  | cons a post ih =>
    intro hl hpp hpre
    obtain ⟨hpa, hprest⟩ := hpp
    have ha : a ∈ l := by rw [hl]; simp
    have hparent : F a.prev = G a.prev := by
      by_cases hk : ∃ y ∈ l, y.key = a.prev
      · obtain ⟨y, hy, hyk⟩ := hk
        rw [hl] at hy
        rcases List.mem_append.mp hy with hin | hin
        · rw [← hyk]; exact hpre y hin
        · exact absurd hyk (hpa y hin)
      · exact hout a.prev (fun y hy heq => hk ⟨y, hy, heq⟩)
    have hakey : F a.key = G a.key := by rw [hF a ha, hG a ha, hparent]
    refine ih (pre ++ [a]) (by rw [hl]; simp) hprest ?_
    intro x hx
    rcases List.mem_append.mp hx with hin | hin
    · exact hpre x hin
    · simp only [List.mem_singleton] at hin
      rw [hin]; exact hakey

theorem parentsFirstItems_perm_mem {l1 l2 : List TrustItem} (hperm : l1.Perm l2) :
    (∀ k, (∀ y ∈ l1, y.key ≠ k) ↔ (∀ y ∈ l2, y.key ≠ k)) := by
  intro k
  constructor
  · intro h y hy; exact h y (hperm.mem_iff.mpr hy)
  · intro h y hy; exact h y (hperm.mem_iff.mp hy)

/-- The cumulative trust of every block does not depend on the order of insertion. -/
theorem addList_trust_perm (t : TrustState) (l1 l2 : List TrustItem) (hperm : l1.Perm l2)
    (hf1 : Fresh t l1) (hf2 : Fresh t l2)
    (hp1 : ParentsFirstItems l1) (hp2 : ParentsFirstItems l2) :
    ∀ k, (t.addList l1).trust k = (t.addList l2).trust k := by
  apply fixpoint_unique _ _ l1 hp1
  · intro k hk
    rw [addList_trust_of_not_mem l1 t k hk,
      addList_trust_of_not_mem l2 t k ((parentsFirstItems_perm_mem hperm k).mp hk)]
  · exact addList_fixpoint l1 t hf1 hp1
  · intro x hx
    exact addList_fixpoint l2 t hf2 hp2 x (hperm.mem_iff.mp hx)

/-- The best trust is the largest trust seen, and the tip is a block that attains it. -/
theorem addList_best (l : List TrustItem) :
    ∀ (t : TrustState), Fresh t l →
      t.best ≤ (t.addList l).best ∧
      (∀ x ∈ l, ∀ v, (t.addList l).trust x.key = some v → v ≤ (t.addList l).best) ∧
      (((t.addList l).best = t.best ∧ (t.addList l).tip = t.tip) ∨
        ∃ x ∈ l, (t.addList l).trust x.key = some (t.addList l).best ∧
          (t.addList l).tip = (some x.key, x.key) ∧ (t.addList l).best > t.best) := by
  induction l with
  | nil =>
    intro t _
    exact ⟨le_refl _, fun x hx => by simp at hx, Or.inl ⟨rfl, rfl⟩⟩
  | cons a l ih =>
    intro t hf
    obtain ⟨ha, hrest⟩ := hf
    obtain ⟨i1, i2, i3⟩ := ih (t.add a) hrest
    have hkeys : ∀ y ∈ l, y.key ≠ a.key :=
      fresh_key_ne l (t.add a) a.key hrest (by rw [add_trust_key]; simp)
    have hfin : ((t.add a).addList l).trust a.key
        = some (((t.trust a.prev).getD 0 + a.blockTrust) % 2 ^ 256) := by
      rw [addList_trust_of_not_mem l _ _ hkeys, add_trust_key]
    have hbest : (t.add a).best
        = if ((t.trust a.prev).getD 0 + a.blockTrust) % 2 ^ 256 > t.best then
            ((t.trust a.prev).getD 0 + a.blockTrust) % 2 ^ 256 else t.best := rfl
    have htip : (t.add a).tip
        = if ((t.trust a.prev).getD 0 + a.blockTrust) % 2 ^ 256 > t.best then
            (some a.key, a.key) else t.tip := rfl
    have hge : t.best ≤ (t.add a).best := by
      rw [hbest]
      split
      · rename_i hh; exact Nat.le_of_lt hh
      · exact Nat.le_refl _
    have hva : ((t.trust a.prev).getD 0 + a.blockTrust) % 2 ^ 256 ≤ (t.add a).best := by
      rw [hbest]
      split
      · exact Nat.le_refl _
      · rename_i hh; exact Nat.le_of_not_lt hh
    show t.best ≤ ((t.add a).addList l).best ∧
      (∀ x ∈ a :: l, ∀ v, ((t.add a).addList l).trust x.key = some v →
        v ≤ ((t.add a).addList l).best) ∧
      ((((t.add a).addList l).best = t.best ∧ ((t.add a).addList l).tip = t.tip) ∨
        ∃ x ∈ a :: l, ((t.add a).addList l).trust x.key = some ((t.add a).addList l).best ∧
          ((t.add a).addList l).tip = (some x.key, x.key) ∧ ((t.add a).addList l).best > t.best)
    refine ⟨le_trans hge i1, ?_, ?_⟩
    · intro x hx v hv
      rcases List.mem_cons.mp hx with rfl | hx'
      · rw [hfin] at hv
        simp only [Option.some.injEq] at hv
        rw [← hv]
        exact le_trans hva i1
      · exact i2 x hx' v hv
    · rcases i3 with ⟨j1, j2⟩ | ⟨x, hx, j1, j2, j3⟩
      · by_cases hgt : ((t.trust a.prev).getD 0 + a.blockTrust) % 2 ^ 256 > t.best
        · right
          refine ⟨a, List.mem_cons_self _ _, ?_, ?_, ?_⟩
          · rw [hfin, j1, hbest, if_pos hgt]
          · rw [j2, htip, if_pos hgt]
          · rw [j1, hbest, if_pos hgt]; exact hgt
        · left
          exact ⟨by rw [j1, hbest, if_neg hgt], by rw [j2, htip, if_neg hgt]⟩
      · right
        exact ⟨x, List.mem_cons_of_mem _ hx, j1, j2, lt_of_le_of_lt hge j3⟩

/-- Order independence, on the view: equal best trust, and equal tip when at most one
block attains the best trust. -/
theorem addList_best_perm (t : TrustState) (l1 l2 : List TrustItem) (hperm : l1.Perm l2)
    (hf1 : Fresh t l1) (hf2 : Fresh t l2)
    (hp1 : ParentsFirstItems l1) (hp2 : ParentsFirstItems l2) :
    (t.addList l1).best = (t.addList l2).best ∧
    ((∀ x ∈ l1, ∀ y ∈ l1, (t.addList l1).trust x.key = some (t.addList l1).best →
        (t.addList l1).trust y.key = some (t.addList l1).best → x.key = y.key) →
      (t.addList l1).tip = (t.addList l2).tip) := by
  have htr := addList_trust_perm t l1 l2 hperm hf1 hf2 hp1 hp2
  obtain ⟨a1, a2, a3⟩ := addList_best l1 t hf1
  obtain ⟨b1, b2, b3⟩ := addList_best l2 t hf2
  have hle12 : (t.addList l1).best ≤ (t.addList l2).best := by
    rcases a3 with ⟨j1, _⟩ | ⟨x, hx, j1, _, _⟩
    · rw [j1]; exact b1
    · exact b2 x (hperm.mem_iff.mp hx) _ (by rw [← htr, j1])
  have hle21 : (t.addList l2).best ≤ (t.addList l1).best := by
    rcases b3 with ⟨j1, _⟩ | ⟨x, hx, j1, _, _⟩
    · rw [j1]; exact a1
    · exact a2 x (hperm.mem_iff.mpr hx) _ (by rw [htr, j1])
  have heq : (t.addList l1).best = (t.addList l2).best := Nat.le_antisymm hle12 hle21
  refine ⟨heq, fun huniq => ?_⟩
  rcases a3 with ⟨j1, j2⟩ | ⟨x, hx, j1, j2, j3⟩
  · rcases b3 with ⟨k1, k2⟩ | ⟨y, hy, k1, k2, k3⟩
    · rw [j2, k2]
    · rw [← heq, j1] at k3
      exact absurd k3 (Nat.lt_irrefl _)
  · rcases b3 with ⟨k1, k2⟩ | ⟨y, hy, k1, k2, k3⟩
    · rw [heq, k1] at j3
      exact absurd j3 (Nat.lt_irrefl _)
    · have hy1 : y ∈ l1 := hperm.mem_iff.mpr hy
      have hyt : (t.addList l1).trust y.key = some (t.addList l1).best := by
        rw [htr, k1, heq]
      have hxy : x.key = y.key := huniq x hx y hy1 j1 hyt
      rw [j2, k2, hxy]

theorem lookup_cons_eq (m : List (uint256 × CBlockIndex)) (key k : uint256) (e : CBlockIndex) :
    List.lookup k ((key, e) :: m) = if k = key then some e else List.lookup k m := by
  by_cases hk : k = key
  · subst hk
    simp [List.lookup]
  · have : (k == key) = false := by simpa using hk
    simp [List.lookup, this, hk]

/-- One successful `AddToBlockIndex` acts on the view as `TrustState.add`. -/
theorem trustView_step (c : ChainEnv) (h : Hasher) (k : TxKinds) (s s' : ChainState)
    (b : CBlock) (nFile nBlockPos : Nat) (hashProof : uint256)
    (hr : AddToBlockIndex c h k s b nFile nBlockPos hashProof = some (true, s')) :
    (trustView s).trust (trustItem c h k b).key = none ∧
      trustView s' = (trustView s).add (trustItem c h k b) := by
  obtain ⟨hnone, e, hmap, hprev, htrust, hgt, hle⟩ := AddToBlockIndex_true _ _ _ _ _ _ _ _ _ hr
  have hpt : prevChainTrust s e.pprev = ((trustView s).trust b.hashPrevBlock).getD 0 := by
    rw [hprev]
    unfold prevChainTrust trustView
    cases hl : List.lookup b.hashPrevBlock s.mapBlockIndex with
    | none => simp [hl]
    | some ep => simp [hl]
  have hv : e.nChainTrust
      = (((trustView s).trust (trustItem c h k b).prev).getD 0 + (trustItem c h k b).blockTrust)
          % 2 ^ 256 := by
    rw [htrust, hpt]; rfl
  refine ⟨by simp [trustView, trustItem, hnone], ?_⟩
  have htr : (trustView s').trust = ((trustView s).add (trustItem c h k b)).trust := by
    funext q
    show (List.lookup q s'.mapBlockIndex).map (fun e => e.nChainTrust) = _
    rw [hmap, lookup_cons_eq]
    by_cases hq : q = GetHash h b
    · have hq' : q = (trustItem c h k b).key := hq
      rw [if_pos hq]
      simp only [TrustState.add, if_pos hq', Option.map_some', hv]
    · have hq' : ¬ q = (trustItem c h k b).key := hq
      rw [if_neg hq]
      simp only [TrustState.add, if_neg hq']
      rfl
  by_cases hcmp : e.nChainTrust > s.nBestChainTrust
  · obtain ⟨g1, g2, g3, g4⟩ := hgt hcmp
    have hcmp' : (((trustView s).trust (trustItem c h k b).prev).getD 0
        + (trustItem c h k b).blockTrust) % 2 ^ 256 > (trustView s).best := by
      rw [← hv]; exact hcmp
    have hb : (trustView s').best = ((trustView s).add (trustItem c h k b)).best := by
      show s'.nBestChainTrust = _
      simp only [TrustState.add, if_pos hcmp']
      rw [g4, hv]
    have ht : (trustView s').tip = ((trustView s).add (trustItem c h k b)).tip := by
      show (s'.pindexBest, s'.hashBestChain) = _
      simp only [TrustState.add, if_pos hcmp']
      rw [g1, g2]; rfl
    cases hs : trustView s' with
    | mk tr be ti =>
      rw [hs] at htr hb ht
      simp only at htr hb ht
      subst htr hb ht
      rfl
  · obtain ⟨g1, g2, g3, g4, _⟩ := hle hcmp
    have hcmp' : ¬ (((trustView s).trust (trustItem c h k b).prev).getD 0
        + (trustItem c h k b).blockTrust) % 2 ^ 256 > (trustView s).best := by
      rw [← hv]; exact hcmp
    have hb : (trustView s').best = ((trustView s).add (trustItem c h k b)).best := by
      show s'.nBestChainTrust = _
      simp only [TrustState.add, if_neg hcmp']
      rw [g4]; rfl
    have ht : (trustView s').tip = ((trustView s).add (trustItem c h k b)).tip := by
      show (s'.pindexBest, s'.hashBestChain) = _
      simp only [TrustState.add, if_neg hcmp']
      rw [g1, g2]; rfl
    cases hs : trustView s' with
    | mk tr be ti =>
      rw [hs] at htr hb ht
      simp only at htr hb ht
      subst htr hb ht
      rfl

/-- A successful run of `AddToBlockIndex` calls acts on the view as `addList`. -/
theorem trustView_addAll (c : ChainEnv) (h : Hasher) (k : TxKinds) :
    ∀ (l : List (CBlock × Nat × Nat × uint256)) (s s' : ChainState),
      addAll c h k s l = some s' →
      Fresh (trustView s) ((l.map Prod.fst).map (trustItem c h k)) ∧
        trustView s' = (trustView s).addList ((l.map Prod.fst).map (trustItem c h k)) := by
  intro l
  induction l with
  | nil =>
    intro s s' hr
    simp only [addAll, Option.some.injEq] at hr
    subst hr
    exact ⟨trivial, rfl⟩
  | cons x l ih =>
    intro s s' hr
    obtain ⟨b, nFile, nBlockPos, hashProof⟩ := x
    unfold addAll at hr
    split at hr
    · rename_i s1 hstep
      obtain ⟨f1, f2⟩ := trustView_step _ _ _ _ _ _ _ _ _ hstep
      obtain ⟨r1, r2⟩ := ih s1 s' hr
      rw [f2] at r1 r2
      exact ⟨⟨f1, r1⟩, r2⟩
    · simp at hr

theorem parentsFirst_items (c : ChainEnv) (h : Hasher) (k : TxKinds) :
    ∀ l : List CBlock, ParentsFirst h l → ParentsFirstItems (l.map (trustItem c h k)) := by
  intro l
  induction l with
  | nil => intro _; trivial
  | cons x l ih =>
    intro hp
    obtain ⟨h1, h2⟩ := hp
    refine ⟨?_, ih h2⟩
    intro y hy
    rw [← List.map_cons, List.mem_map] at hy
    obtain ⟨z, hz, rfl⟩ := hy
    exact h1 z hz

theorem fresh_append (l1 l2 : List TrustItem) :
    ∀ t : TrustState, Fresh t (l1 ++ l2) → Fresh t l1 ∧ Fresh (t.addList l1) l2 := by
  induction l1 with
  | nil => intro t hf; exact ⟨trivial, hf⟩
  | cons a l ih =>
    intro t hf
    obtain ⟨ha, hrest⟩ := hf
    obtain ⟨h1, h2⟩ := ih (t.add a) hrest
    exact ⟨⟨ha, h1⟩, h2⟩

/-- The tip stays what it was when no added block has a trust above the best trust. -/
theorem addList_tip_kept (l : List TrustItem) (t : TrustState) (hf : Fresh t l)
    (hle : ∀ x ∈ l, ∀ v, (t.addList l).trust x.key = some v → v ≤ t.best) :
    (t.addList l).best = t.best ∧ (t.addList l).tip = t.tip := by
  obtain ⟨_, _, a3⟩ := addList_best l t hf
  rcases a3 with ⟨j1, j2⟩ | ⟨x, hx, j1, _, j3⟩
  · exact ⟨j1, j2⟩
  · have := hle x hx _ j1
    exact absurd j3 (Nat.not_lt.mpr this)

/-- The tip is the first of the added blocks that attains the final best trust, when
this is above the best trust at the start. -/
theorem addList_tip_first (pre post : List TrustItem) (x : TrustItem) (t : TrustState)
    (hf : Fresh t (pre ++ x :: post))
    (hx : (t.addList (pre ++ x :: post)).trust x.key
      = some (t.addList (pre ++ x :: post)).best)
    (hgt : t.best < (t.addList (pre ++ x :: post)).best)
    (hpre : ∀ y ∈ pre, ∀ v, (t.addList (pre ++ x :: post)).trust y.key = some v →
      v < (t.addList (pre ++ x :: post)).best) :
    (t.addList (pre ++ x :: post)).tip = (some x.key, x.key) := by
  obtain ⟨hf1, hf2⟩ := fresh_append pre (x :: post) t hf
  obtain ⟨hfx, hf3⟩ := hf2
  have hT : t.addList (pre ++ x :: post) = ((t.addList pre).add x).addList post := by
    rw [addList_append]; rfl
  rw [hT] at hx hgt hpre ⊢
  have hkeys : ∀ y ∈ post, y.key ≠ x.key :=
    fresh_key_ne post ((t.addList pre).add x) x.key hf3 (by rw [add_trust_key]; simp)
  rw [addList_trust_of_not_mem post _ _ hkeys, add_trust_key] at hx
  simp only [Option.some.injEq] at hx
  have hlow : (t.addList pre).best < (((t.addList pre).add x).addList post).best := by
    obtain ⟨_, _, a3⟩ := addList_best pre t hf1
    rcases a3 with ⟨j1, _⟩ | ⟨y, hy, j1, _, _⟩
    · rw [j1]; exact hgt
    · have hne : ∀ z ∈ x :: post, z.key ≠ y.key :=
        fresh_key_ne (x :: post) (t.addList pre) y.key ⟨hfx, hf3⟩ (by rw [j1]; simp)
      have hfin : (((t.addList pre).add x).addList post).trust y.key
          = some (t.addList pre).best := by
        have := addList_trust_of_not_mem (x :: post) (t.addList pre) y.key hne
        rw [← j1]
        exact this
      exact hpre y hy _ hfin
  have hadd : ((t.addList pre).add x).best = (((t.addList pre).add x).addList post).best ∧
      ((t.addList pre).add x).tip = (some x.key, x.key) := by
    rw [← hx] at hlow
    constructor
    · rw [← hx]
      simp only [TrustState.add, if_pos hlow]
    · simp only [TrustState.add, if_pos hlow]
  obtain ⟨_, _, b3⟩ := addList_best post ((t.addList pre).add x) hf3
  rcases b3 with ⟨_, k2⟩ | ⟨_, _, _, _, k3⟩
  · rw [k2, hadd.2]
  · rw [← hadd.1] at k3
    exact absurd k3 (Nat.lt_irrefl _)

/-- A list with an element of a given kind splits at the first such element. -/
theorem exists_first_split {α : Type} (P : α → Prop) :
    ∀ l : List α, (∃ x ∈ l, P x) →
      ∃ pre x post, l = pre ++ x :: post ∧ P x ∧ ∀ y ∈ pre, ¬ P y := by
  intro l
  induction l with
  | nil => rintro ⟨x, hx, _⟩; simp at hx
  | cons a l ih =>
    rintro ⟨x, hx, hpx⟩
    by_cases ha : P a
    · exact ⟨[], a, l, rfl, ha, fun y hy => by simp at hy⟩
    · have hxl : x ∈ l := by
        rcases List.mem_cons.mp hx with rfl | h
        · exact absurd hpx ha
        · exact h
      obtain ⟨pre, y, post, h1, h2, h3⟩ := ih ⟨x, hxl, hpx⟩
      refine ⟨a :: pre, y, post, by rw [h1]; rfl, h2, fun z hz => ?_⟩
      rcases List.mem_cons.mp hz with rfl | h
      · exact ha
      · exact h3 z h

theorem SetBestChain_map (c : ChainEnv) (h : Hasher) (s s' : ChainState) (b : CBlock)
    (p : uint256) (r : Bool) (hr : SetBestChain c h s b p = some (r, s')) :
    s'.mapBlockIndex = s.mapBlockIndex := by
  unfold SetBestChain at hr
  simp only at hr
  split at hr
  · simp only [Option.some.injEq, Prod.mk.injEq] at hr
    rw [← hr.2]; rfl
  · split at hr
    · simp at hr
    · rename_i s2 hsw
      simp only [Option.some.injEq, Prod.mk.injEq] at hr
      rw [← hr.2, switchChain_map _ _ _ _ _ _ _ hsw]; rfl
    · rename_i s2 hsw
      have hm := switchChain_map _ _ _ _ _ _ _ hsw
      split at hr
      · simp at hr
      · simp only [Option.some.injEq, Prod.mk.injEq] at hr
        rw [← hr.2]
        show (if _ then _ else _ : ChainState).mapBlockIndex = _
        split <;> simp [hm]

theorem publishEntry_map (c : ChainEnv) (h : Hasher) (s2 s' : ChainState) (b : CBlock)
    (e : CBlockIndex) (r : Bool) (hr : publishEntry c h s2 b e = some (r, s')) :
    s'.mapBlockIndex = s2.mapBlockIndex := by
  unfold publishEntry at hr
  simp only at hr
  split at hr
  · simp only [Option.some.injEq, Prod.mk.injEq] at hr
    rw [← hr.2]; rfl
  · split at hr
    · simp only [Option.some.injEq, Prod.mk.injEq] at hr
      rw [← hr.2]; rfl
    · have key : ∀ s5 : ChainState, s5.mapBlockIndex = s2.mapBlockIndex →
          (if s5.pindexBest = some (GetHash h b) then
              match b.vtx[0]? with
              | some _ => some (true, s5.emit Event.SignalUpdatedTransaction)
              | none => none
            else some (true, s5)) = some (r, s') → s'.mapBlockIndex = s2.mapBlockIndex := by
        intro s5 hm5 hx
        split at hx
        · split at hx
          · simp only [Option.some.injEq, Prod.mk.injEq] at hx
            rw [← hx.2]; exact hm5
          · simp at hx
        · simp only [Option.some.injEq, Prod.mk.injEq] at hx
          rw [← hx.2]; exact hm5
      split at hr
      · simp at hr
      · rename_i s5 hbest
        simp only [Option.some.injEq, Prod.mk.injEq] at hr
        rw [← hr.2]
        split at hbest
        · rw [SetBestChain_map _ _ _ _ _ _ _ hbest]; rfl
        · simp at hbest
      · rename_i s5 hbest
        refine key s5 ?_ hr
        split at hbest
        · rw [SetBestChain_map _ _ _ _ _ _ _ hbest]; rfl
        · simp only [Option.some.injEq, Prod.mk.injEq, true_and] at hbest
          rw [← hbest]; rfl

/-- C4 (tie-break on trust): when `AddToBlockIndex` succeeds from a state whose best tip
is an indexed entry, the new entry `e` is stored under the block hash, and the
published best tip (`hashBestChain`, `pindexBest`, `nBestHeight`, `nBestChainTrust`) is
the new entry if and only if `e.nChainTrust > nBestChainTrust`; when the trust is equal
or lower the four values are unchanged and the only collaborator calls are the three
that write the index entry, so `SetBestChain` is not invoked.  In particular, after
the genesis block, children of block trust 100 and 105 leave the trust-105 block as
best tip in both orders of arrival. -/
theorem AddToBlockIndex_tie_break (c : ChainEnv) (h : Hasher) (k : TxKinds) (s s' : ChainState)
    (b : CBlock) (nFile nBlockPos : Nat) (hashProof : uint256)
    (hwf : ∀ p, s.pindexBest = some p → (s.mapBlockIndex.lookup p).isSome = true)
    (hr : AddToBlockIndex c h k s b nFile nBlockPos hashProof = some (true, s')) :
    (∃ e : CBlockIndex, s'.mapBlockIndex.lookup (GetHash h b) = some e ∧
      ((s'.hashBestChain = GetHash h b ∧ s'.pindexBest = some (GetHash h b) ∧
          s'.nBestHeight = e.nHeight ∧ s'.nBestChainTrust = e.nChainTrust)
        ↔ e.nChainTrust > s.nBestChainTrust) ∧
      (e.nChainTrust ≤ s.nBestChainTrust →
        s'.hashBestChain = s.hashBestChain ∧ s'.pindexBest = s.pindexBest ∧
        s'.nBestHeight = s.nBestHeight ∧ s'.nBestChainTrust = s.nBestChainTrust ∧
        s'.trace = s.trace ++
          [Event.TxnBegin, Event.WriteBlockIndex (GetHash h b), Event.TxnCommit])) ∧
    (addAll sampleChainEnv sampleHasher sampleKinds emptyChain
        [atOrigin sampleGenesis, atOrigin sampleChild100, atOrigin sampleChild105]).map
      (fun t => t.pindexBest) = some (some (GetHash sampleHasher sampleChild105)) ∧
    (addAll sampleChainEnv sampleHasher sampleKinds emptyChain
        [atOrigin sampleGenesis, atOrigin sampleChild105, atOrigin sampleChild100]).map
      (fun t => t.pindexBest) = some (some (GetHash sampleHasher sampleChild105)) := by
  refine ⟨?_, by decide, by decide⟩
  obtain ⟨hnone, e, hmap, _, _, hgt, hle⟩ := AddToBlockIndex_true _ _ _ _ _ _ _ _ _ hr
  have hnot : s.pindexBest ≠ some (GetHash h b) := by
    intro hp
    have := hwf _ hp
    rw [hnone] at this
    simp at this
  refine ⟨e, by rw [hmap, lookup_cons_eq, if_pos rfl], ⟨?_, hgt⟩, ?_⟩
  · intro hpub
    by_contra hcmp
    obtain ⟨_, g2, _, _, _⟩ := hle hcmp
    rw [hpub.2.1] at g2
    exact hnot g2.symm
  · intro hcmp
    obtain ⟨g1, g2, g3, g4, g5⟩ := hle (Nat.not_lt.mpr hcmp)
    exact ⟨g1, g2, g3, g4, g5 hnot⟩

/-- Instance of C4: the trust-100 child arrives after the genesis block. -/
theorem AddToBlockIndex_tie_break_witness :
    (∀ p, chainGenesis.pindexBest = some p → (chainGenesis.mapBlockIndex.lookup p).isSome = true) ∧
    AddToBlockIndex sampleChainEnv sampleHasher sampleKinds chainGenesis sampleChild100 0 0 0
      = some (true, chainChild100) ∧
    ((∃ e : CBlockIndex,
      chainChild100.mapBlockIndex.lookup (GetHash sampleHasher sampleChild100) = some e ∧
      ((chainChild100.hashBestChain = GetHash sampleHasher sampleChild100 ∧
          chainChild100.pindexBest = some (GetHash sampleHasher sampleChild100) ∧
          chainChild100.nBestHeight = e.nHeight ∧ chainChild100.nBestChainTrust = e.nChainTrust)
        ↔ e.nChainTrust > chainGenesis.nBestChainTrust) ∧
      (e.nChainTrust ≤ chainGenesis.nBestChainTrust →
        chainChild100.hashBestChain = chainGenesis.hashBestChain ∧
        chainChild100.pindexBest = chainGenesis.pindexBest ∧
        chainChild100.nBestHeight = chainGenesis.nBestHeight ∧
        chainChild100.nBestChainTrust = chainGenesis.nBestChainTrust ∧
        chainChild100.trace = chainGenesis.trace ++
          [Event.TxnBegin, Event.WriteBlockIndex (GetHash sampleHasher sampleChild100),
            Event.TxnCommit])) ∧
    (addAll sampleChainEnv sampleHasher sampleKinds emptyChain
        [atOrigin sampleGenesis, atOrigin sampleChild100, atOrigin sampleChild105]).map
      (fun t => t.pindexBest) = some (some (GetHash sampleHasher sampleChild105)) ∧
    (addAll sampleChainEnv sampleHasher sampleKinds emptyChain
        [atOrigin sampleGenesis, atOrigin sampleChild105, atOrigin sampleChild100]).map
      (fun t => t.pindexBest) = some (some (GetHash sampleHasher sampleChild105))) :=
  have hwf : ∀ p, chainGenesis.pindexBest = some p →
      (chainGenesis.mapBlockIndex.lookup p).isSome = true := by
    intro p hp
    have h1 : chainGenesis.pindexBest = some 1 := by decide
    rw [h1] at hp
    simp only [Option.some.injEq] at hp
    subst hp
    decide
  have hr : AddToBlockIndex sampleChainEnv sampleHasher sampleKinds chainGenesis sampleChild100
      0 0 0 = some (true, chainChild100) := by decide
  ⟨hwf, hr, AddToBlockIndex_tie_break sampleChainEnv sampleHasher sampleKinds chainGenesis
      chainChild100 sampleChild100 0 0 0 hwf hr⟩

/-- C5, counterexample: the genesis block with two children of equal block trust 100.
Both orders put every parent before its children and every call succeeds, yet the
final best tip is the child that was added first. -/
theorem best_tip_depends_on_order :
    ([sampleGenesis, sampleChild100, sampleTwin100]).Perm
        [sampleGenesis, sampleTwin100, sampleChild100] ∧
    ParentsFirst sampleHasher [sampleGenesis, sampleChild100, sampleTwin100] ∧
    ParentsFirst sampleHasher [sampleGenesis, sampleTwin100, sampleChild100] ∧
    (addAll sampleChainEnv sampleHasher sampleKinds emptyChain
        [atOrigin sampleGenesis, atOrigin sampleChild100, atOrigin sampleTwin100]).map
      (fun t => (t.pindexBest, t.nBestChainTrust))
      = some (some (GetHash sampleHasher sampleChild100), 110) ∧
    (addAll sampleChainEnv sampleHasher sampleKinds emptyChain
        [atOrigin sampleGenesis, atOrigin sampleTwin100, atOrigin sampleChild100]).map
      (fun t => (t.pindexBest, t.nBestChainTrust))
      = some (some (GetHash sampleHasher sampleTwin100), 110) ∧
    GetHash sampleHasher sampleChild100 ≠ GetHash sampleHasher sampleTwin100 := by
  refine ⟨List.Perm.cons _ (List.Perm.swap _ _ _), ?_, ?_, by decide, by decide, by decide⟩
  · simp only [ParentsFirst, List.mem_cons, List.mem_singleton, forall_eq_or_imp, forall_eq,
      List.not_mem_nil, false_imp_iff, implies_true, and_true]
    decide
  · simp only [ParentsFirst, List.mem_cons, List.mem_singleton, forall_eq_or_imp, forall_eq,
      List.not_mem_nil, false_imp_iff, implies_true, and_true]
    decide

/-- C5 (as amended): for two orders of the same blocks, each putting every parent before
its children, in which every `AddToBlockIndex` call succeeds from the same chain
state:
(1) the final best trust value is the same;
(2) the final best tip (`pindexBest`, `hashBestChain`) is the same provided at most one
of the blocks has a cumulative trust equal to that final value;
(3) when no added block has a cumulative trust above the best trust of the starting
state, the best trust and the best tip stay those of the starting state;
(4) a block that attains the final best trust, above the best trust of the starting
state, while every block added before it has a smaller trust, is the best tip;
(5) when some added block has a cumulative trust above the best trust of the starting
state there is such a block: the best tip is the first block of the order whose
cumulative trust is the final best trust. -/
theorem best_chain_order_independent (c : ChainEnv) (h : Hasher) (k : TxKinds)
    (s s1 s2 : ChainState) (l1 l2 : List (CBlock × Nat × Nat × uint256))
    (hperm : (l1.map Prod.fst).Perm (l2.map Prod.fst))
    (hp1 : ParentsFirst h (l1.map Prod.fst)) (hp2 : ParentsFirst h (l2.map Prod.fst))
    (h1 : addAll c h k s l1 = some s1) (h2 : addAll c h k s l2 = some s2) :
    s1.nBestChainTrust = s2.nBestChainTrust ∧
    ((∀ x ∈ l1, ∀ y ∈ l1, ∀ ex ey : CBlockIndex,
        s1.mapBlockIndex.lookup (GetHash h x.1) = some ex →
        s1.mapBlockIndex.lookup (GetHash h y.1) = some ey →
        ex.nChainTrust = s1.nBestChainTrust → ey.nChainTrust = s1.nBestChainTrust →
        GetHash h x.1 = GetHash h y.1) →
      s1.pindexBest = s2.pindexBest ∧ s1.hashBestChain = s2.hashBestChain) ∧
    ((∀ x ∈ l1, ∀ ex : CBlockIndex, s1.mapBlockIndex.lookup (GetHash h x.1) = some ex →
        ex.nChainTrust ≤ s.nBestChainTrust) →
      s1.nBestChainTrust = s.nBestChainTrust ∧ s1.pindexBest = s.pindexBest ∧
      s1.hashBestChain = s.hashBestChain) ∧
    (∀ (pre post : List (CBlock × Nat × Nat × uint256)) (x : CBlock × Nat × Nat × uint256)
        (ex : CBlockIndex), l1 = pre ++ x :: post →
      s1.mapBlockIndex.lookup (GetHash h x.1) = some ex →
      ex.nChainTrust = s1.nBestChainTrust → s.nBestChainTrust < ex.nChainTrust →
      (∀ y ∈ pre, ∀ ey : CBlockIndex, s1.mapBlockIndex.lookup (GetHash h y.1) = some ey →
        ey.nChainTrust < ex.nChainTrust) →
      s1.pindexBest = some (GetHash h x.1) ∧ s1.hashBestChain = GetHash h x.1) ∧
    ((∃ x0 ∈ l1, ∃ e0 : CBlockIndex, s1.mapBlockIndex.lookup (GetHash h x0.1) = some e0 ∧
        s.nBestChainTrust < e0.nChainTrust) →
      ∃ (pre post : List (CBlock × Nat × Nat × uint256)) (x : CBlock × Nat × Nat × uint256)
        (ex : CBlockIndex), l1 = pre ++ x :: post ∧
        s1.mapBlockIndex.lookup (GetHash h x.1) = some ex ∧
        ex.nChainTrust = s1.nBestChainTrust ∧ s.nBestChainTrust < ex.nChainTrust ∧
        (∀ y ∈ pre, ∀ ey : CBlockIndex,
          s1.mapBlockIndex.lookup (GetHash h y.1) = some ey →
          ey.nChainTrust < ex.nChainTrust) ∧
        s1.pindexBest = some (GetHash h x.1) ∧ s1.hashBestChain = GetHash h x.1) := by
  obtain ⟨f1, v1⟩ := trustView_addAll c h k l1 s s1 h1
  obtain ⟨f2, v2⟩ := trustView_addAll c h k l2 s s2 h2
  have hpi := hperm.map (trustItem c h k)
  obtain ⟨hb, ht⟩ := addList_best_perm (trustView s) _ _ hpi f1 f2
    (parentsFirst_items c h k _ hp1) (parentsFirst_items c h k _ hp2)
  have hstored : ∀ (q : uint256) (v : uint256), (trustView s1).trust q = some v →
      ∃ e, s1.mapBlockIndex.lookup q = some e ∧ e.nChainTrust = v := by
    intro q v hv
    have hv1 : (s1.mapBlockIndex.lookup q).map (fun e => e.nChainTrust) = some v := hv
    cases hl : s1.mapBlockIndex.lookup q with
    | none => rw [hl] at hv1; simp at hv1
    | some e =>
      rw [hl] at hv1
      simp only [Option.map_some', Option.some.injEq] at hv1
      exact ⟨e, rfl, hv1⟩
  have hfour : ∀ (pre post : List (CBlock × Nat × Nat × uint256))
      (x : CBlock × Nat × Nat × uint256) (ex : CBlockIndex), l1 = pre ++ x :: post →
      s1.mapBlockIndex.lookup (GetHash h x.1) = some ex →
      ex.nChainTrust = s1.nBestChainTrust → s.nBestChainTrust < ex.nChainTrust →
      (∀ y ∈ pre, ∀ ey : CBlockIndex, s1.mapBlockIndex.lookup (GetHash h y.1) = some ey →
        ey.nChainTrust < ex.nChainTrust) →
      s1.pindexBest = some (GetHash h x.1) ∧ s1.hashBestChain = GetHash h x.1 := by
    intro pre post x ex hl hlx hbest hgt hpre
    have hitems : (l1.map Prod.fst).map (trustItem c h k)
        = (pre.map Prod.fst).map (trustItem c h k)
          ++ trustItem c h k x.1 :: (post.map Prod.fst).map (trustItem c h k) := by
      rw [hl]; simp
    rw [hitems] at f1 v1
    have hx1 : (trustView s1).trust (trustItem c h k x.1).key = some (trustView s1).best := by
      show (s1.mapBlockIndex.lookup (GetHash h x.1)).map (fun e => e.nChainTrust)
        = some s1.nBestChainTrust
      rw [hlx, ← hbest]; rfl
    have hfirst := addList_tip_first _ _ _ (trustView s) f1 (by rw [← v1]; exact hx1)
      (by
        rw [← v1]
        show s.nBestChainTrust < s1.nBestChainTrust
        rw [← hbest]; exact hgt)
      (by
        intro yi hyi v hv
        rw [List.mem_map] at hyi
        obtain ⟨by1, hby, rfl⟩ := hyi
        rw [List.mem_map] at hby
        obtain ⟨ty, hty, rfl⟩ := hby
        rw [← v1] at hv ⊢
        obtain ⟨e, hle, hev⟩ := hstored _ _ hv
        rw [← hev]
        show e.nChainTrust < s1.nBestChainTrust
        rw [← hbest]
        exact hpre ty hty e hle)
    rw [← v1] at hfirst
    have k3 : (s1.pindexBest, s1.hashBestChain) = (some (GetHash h x.1), GetHash h x.1) :=
      hfirst
    simp only [Prod.mk.injEq] at k3
    exact k3
  refine ⟨?_, ?_, ?_, ?_, ?_⟩
  · rw [← v1, ← v2] at hb
    exact hb
  · intro huniq
    rw [← v1, ← v2] at ht
    have htip : (trustView s1).tip = (trustView s2).tip := by
      apply ht
      intro x hx y hy hxt hyt
      rw [List.mem_map] at hx hy
      obtain ⟨bx, hbx, rfl⟩ := hx
      obtain ⟨bz, hbz, rfl⟩ := hy
      rw [List.mem_map] at hbx hbz
      obtain ⟨tx, htx, rfl⟩ := hbx
      obtain ⟨ty, hty, rfl⟩ := hbz
      obtain ⟨ex, hlx, hxv⟩ := hstored _ _ hxt
      obtain ⟨ey, hly, hyv⟩ := hstored _ _ hyt
      exact huniq tx htx ty hty ex ey hlx hly hxv hyv
    have htip1 : (s1.pindexBest, s1.hashBestChain) = (s2.pindexBest, s2.hashBestChain) := htip
    simp only [Prod.mk.injEq] at htip1
    exact htip1
  · intro hle
    have hkept := addList_tip_kept _ (trustView s) f1 (by
      intro xi hxi v hv
      rw [List.mem_map] at hxi
      obtain ⟨bx, hbx, rfl⟩ := hxi
      rw [List.mem_map] at hbx
      obtain ⟨tx, htx, rfl⟩ := hbx
      rw [← v1] at hv
      obtain ⟨e, hl, hev⟩ := hstored _ _ hv
      rw [← hev]
      exact hle tx htx e hl)
    rw [← v1] at hkept
    obtain ⟨k1, k2⟩ := hkept
    have k3 : (s1.pindexBest, s1.hashBestChain) = (s.pindexBest, s.hashBestChain) := k2
    simp only [Prod.mk.injEq] at k3
    exact ⟨k1, k3.1, k3.2⟩
  · exact hfour
  · rintro ⟨x0, hx0, e0, hl0, hgt0⟩
    obtain ⟨_, a2, a3⟩ := addList_best _ (trustView s) f1
    rw [← v1] at a2 a3
    have hmax : ∀ y ∈ l1, ∀ ey : CBlockIndex,
        s1.mapBlockIndex.lookup (GetHash h y.1) = some ey →
        ey.nChainTrust ≤ s1.nBestChainTrust := by
      intro y hy ey hey
      refine a2 (trustItem c h k y.1)
        (List.mem_map.mpr ⟨y.1, List.mem_map.mpr ⟨y, hy, rfl⟩, rfl⟩) ey.nChainTrust ?_
      show (s1.mapBlockIndex.lookup (GetHash h y.1)).map (fun e => e.nChainTrust) = _
      rw [hey]; rfl
    have hbgt : s.nBestChainTrust < s1.nBestChainTrust :=
      lt_of_lt_of_le hgt0 (hmax x0 hx0 e0 hl0)
    have hex : ∃ x ∈ l1, ∃ ex : CBlockIndex,
        s1.mapBlockIndex.lookup (GetHash h x.1) = some ex ∧
        ex.nChainTrust = s1.nBestChainTrust := by
      rcases a3 with ⟨j1, _⟩ | ⟨xi, hxi, j1, _, _⟩
      · have j2 : s1.nBestChainTrust = s.nBestChainTrust := j1
        rw [j2] at hbgt
        exact absurd hbgt (Nat.lt_irrefl _)
      · rw [List.mem_map] at hxi
        obtain ⟨bx, hbx, rfl⟩ := hxi
        rw [List.mem_map] at hbx
        obtain ⟨tx, htx, rfl⟩ := hbx
        obtain ⟨e, hle, hev⟩ := hstored _ _ j1
        exact ⟨tx, htx, e, hle, hev⟩
    obtain ⟨pre, x, post, hl, ⟨ex, hlx, hbest⟩, hpre⟩ := exists_first_split
      (fun x : CBlock × Nat × Nat × uint256 => ∃ ex : CBlockIndex,
        s1.mapBlockIndex.lookup (GetHash h x.1) = some ex ∧
        ex.nChainTrust = s1.nBestChainTrust) l1 hex
    have hgt : s.nBestChainTrust < ex.nChainTrust := by rw [hbest]; exact hbgt
    have hlow : ∀ y ∈ pre, ∀ ey : CBlockIndex,
        s1.mapBlockIndex.lookup (GetHash h y.1) = some ey →
        ey.nChainTrust < ex.nChainTrust := by
      intro y hy ey hey
      have hle := hmax y (by rw [hl]; exact List.mem_append_left _ hy) ey hey
      rw [hbest]
      exact lt_of_le_of_ne hle (fun heq => hpre y hy ⟨ey, hey, heq⟩)
    exact ⟨pre, post, x, ex, hl, hlx, hbest, hgt, hlow, hfour pre post x ex hl hlx hbest hgt hlow⟩

theorem orderTwinSecond_parentsFirst :
    ParentsFirst sampleHasher (orderTwinSecond.map Prod.fst) := by
  simp only [orderTwinSecond, atOrigin, List.map, ParentsFirst, List.mem_cons,
    List.mem_singleton, forall_eq_or_imp, forall_eq, List.not_mem_nil, false_imp_iff,
    implies_true, and_true]
  decide

theorem chainTwinSecond_added :
    addAll sampleChainEnv sampleHasher sampleKinds emptyChain orderTwinSecond
      = some chainTwinSecond := by decide

theorem chainTwinSecond_child :
    chainTwinSecond.mapBlockIndex.lookup (GetHash sampleHasher (atOrigin sampleChild100).1)
      = some (indexedEntry chainTwinSecond 2) := by decide

theorem chainTwinSecond_before :
    ∀ y ∈ [atOrigin sampleGenesis], ∀ ey : CBlockIndex,
      chainTwinSecond.mapBlockIndex.lookup (GetHash sampleHasher y.1) = some ey →
      ey.nChainTrust < (indexedEntry chainTwinSecond 2).nChainTrust := by
  intro y hy ey hey
  simp only [List.mem_singleton] at hy
  subst hy
  have h0 : chainTwinSecond.mapBlockIndex.lookup (GetHash sampleHasher (atOrigin sampleGenesis).1)
      = some (indexedEntry chainTwinSecond 1) := by decide
  rw [h0] at hey
  simp only [Option.some.injEq] at hey
  rw [← hey]
  decide

theorem tiedChild_parentsFirst :
    ParentsFirst sampleHasher ([atOrigin sampleTwin100].map Prod.fst) := by
  simp only [atOrigin, List.map, ParentsFirst, List.mem_singleton, forall_eq,
    List.not_mem_nil, false_imp_iff, implies_true, and_true]
  decide

theorem chainTiedChild_added :
    addAll sampleChainEnv sampleHasher sampleKinds chainChild100 [atOrigin sampleTwin100]
      = some chainTiedChild := by decide

theorem chainTiedChild_trust :
    ∀ x ∈ [atOrigin sampleTwin100], ∀ ex : CBlockIndex,
      chainTiedChild.mapBlockIndex.lookup (GetHash sampleHasher x.1) = some ex →
      ex.nChainTrust ≤ chainChild100.nBestChainTrust := by
  intro x hx ex hex
  simp only [List.mem_singleton] at hx
  subst hx
  have h0 : chainTiedChild.mapBlockIndex.lookup (GetHash sampleHasher (atOrigin sampleTwin100).1)
      = some (indexedEntry chainTiedChild 4) := by decide
  rw [h0] at hex
  simp only [Option.some.injEq] at hex
  rw [← hex]
  decide

/-- Instances of C5 as amended: the children of trust 100 and 105 in both orders; two
children of equal trust, of which the one added first is the tip; and a child whose
cumulative trust equals the best trust of the starting state, which keeps its tip. -/
theorem best_chain_order_independent_witness :
    (orderChild100First.map Prod.fst).Perm (orderChild105First.map Prod.fst) ∧
    ParentsFirst sampleHasher (orderChild100First.map Prod.fst) ∧
    ParentsFirst sampleHasher (orderChild105First.map Prod.fst) ∧
    addAll sampleChainEnv sampleHasher sampleKinds emptyChain orderChild100First
      = some chainChild100First ∧
    addAll sampleChainEnv sampleHasher sampleKinds emptyChain orderChild105First
      = some chainChild105First ∧
    (chainChild100First.nBestChainTrust = chainChild105First.nBestChainTrust ∧
    ((∀ x ∈ orderChild100First, ∀ y ∈ orderChild100First, ∀ ex ey : CBlockIndex,
        chainChild100First.mapBlockIndex.lookup (GetHash sampleHasher x.1) = some ex →
        chainChild100First.mapBlockIndex.lookup (GetHash sampleHasher y.1) = some ey →
        ex.nChainTrust = chainChild100First.nBestChainTrust →
        ey.nChainTrust = chainChild100First.nBestChainTrust →
        GetHash sampleHasher x.1 = GetHash sampleHasher y.1) →
      chainChild100First.pindexBest = chainChild105First.pindexBest ∧
      chainChild100First.hashBestChain = chainChild105First.hashBestChain)) ∧
    (chainTwinSecond.pindexBest = some (GetHash sampleHasher sampleChild100) ∧
      chainTwinSecond.hashBestChain = GetHash sampleHasher sampleChild100) ∧
    (chainTiedChild.nBestChainTrust = chainChild100.nBestChainTrust ∧
      chainTiedChild.pindexBest = chainChild100.pindexBest ∧
      chainTiedChild.hashBestChain = chainChild100.hashBestChain) :=
  have hperm : (orderChild100First.map Prod.fst).Perm (orderChild105First.map Prod.fst) :=
    List.Perm.cons _ (List.Perm.swap _ _ _)
  have hp1 : ParentsFirst sampleHasher (orderChild100First.map Prod.fst) := by
    simp only [orderChild100First, atOrigin, List.map, ParentsFirst, List.mem_cons,
      List.mem_singleton, forall_eq_or_imp, forall_eq, List.not_mem_nil, false_imp_iff,
      implies_true, and_true]
    decide
  have hp2 : ParentsFirst sampleHasher (orderChild105First.map Prod.fst) := by
    simp only [orderChild105First, atOrigin, List.map, ParentsFirst, List.mem_cons,
      List.mem_singleton, forall_eq_or_imp, forall_eq, List.not_mem_nil, false_imp_iff,
      implies_true, and_true]
    decide
  have h1 : addAll sampleChainEnv sampleHasher sampleKinds emptyChain orderChild100First
      = some chainChild100First := by decide
  have h2 : addAll sampleChainEnv sampleHasher sampleKinds emptyChain orderChild105First
      = some chainChild105First := by decide
  have full := best_chain_order_independent sampleChainEnv sampleHasher sampleKinds emptyChain
      chainChild100First chainChild105First orderChild100First orderChild105First
      hperm hp1 hp2 h1 h2
  ⟨hperm, hp1, hp2, h1, h2, ⟨full.1, full.2.1⟩,
    (best_chain_order_independent sampleChainEnv sampleHasher sampleKinds emptyChain
      chainTwinSecond chainTwinSecond orderTwinSecond orderTwinSecond
      (List.Perm.refl _) orderTwinSecond_parentsFirst orderTwinSecond_parentsFirst
      chainTwinSecond_added chainTwinSecond_added).2.2.2.1
      [atOrigin sampleGenesis] [atOrigin sampleTwin100] (atOrigin sampleChild100)
      (indexedEntry chainTwinSecond 2) rfl chainTwinSecond_child (by decide) (by decide)
      chainTwinSecond_before,
    (best_chain_order_independent sampleChainEnv sampleHasher sampleKinds chainChild100
      chainTiedChild chainTiedChild [atOrigin sampleTwin100] [atOrigin sampleTwin100]
      (List.Perm.refl _) tiedChild_parentsFirst tiedChild_parentsFirst
      chainTiedChild_added chainTiedChild_added).2.2.1 chainTiedChild_trust⟩

/-- Whatever `AddToBlockIndex` returns, it either leaves the index map alone or adds
one entry under the block hash whose trust is the parent's plus the block trust. -/
theorem AddToBlockIndex_entry (c : ChainEnv) (h : Hasher) (k : TxKinds) (s s' : ChainState)
    (b : CBlock) (nFile nBlockPos : Nat) (hashProof : uint256) (r : Bool)
    (hr : AddToBlockIndex c h k s b nFile nBlockPos hashProof = some (r, s')) :
    s'.mapBlockIndex = s.mapBlockIndex ∨
    ∃ e : CBlockIndex,
      s'.mapBlockIndex = (GetHash h b, e) :: s.mapBlockIndex ∧
      e.pprev = (if (s.mapBlockIndex.lookup b.hashPrevBlock).isSome then some b.hashPrevBlock
                 else none) ∧
      e.nChainTrust
        = (prevChainTrust s e.pprev + c.GetBlockTrust (IsProofOfStake k b) b.nBits) % 2 ^ 256 := by
  unfold AddToBlockIndex at hr
  simp only at hr
  split at hr
  · simp only [Option.some.injEq, Prod.mk.injEq] at hr
    left; rw [← hr.2]
  · split at hr
    · simp at hr
    · rename_i e3 hlink
      obtain ⟨l1, _, l3⟩ := linkedEntry_spec _ _ _ _ _ _ _ _ hlink
      split at hr
      · simp at hr
      · simp only [Option.some.injEq, Prod.mk.injEq] at hr
        left; rw [← hr.2]
      · rename_i e hst
        obtain ⟨t1, _, t3⟩ := stakedEntry_spec _ _ _ _ _ _ _ _ hst
        have p0 := publishEntry_map _ _ _ _ _ _ _ hr
        right
        refine ⟨e, p0, by rw [t1, l1], ?_⟩
        rw [t3, l3, t1]

/-- C6, counterexample: with the block trust of the hardest target, `2^255`, the child
of a genesis block of the same trust gets the chain trust `2^255 + 2^255 mod 2^256 = 0`,
which is below its parent's although its block trust is positive. -/
theorem chain_trust_wraps :
    AddToBlockIndex hardestChainEnv sampleHasher sampleKinds chainHardGenesis sampleChild100 0 0 0
      = some (true, chainHardChild) ∧
    0 < hardestChainEnv.GetBlockTrust (IsProofOfStake sampleKinds sampleChild100)
          sampleChild100.nBits ∧
    (chainHardChild.mapBlockIndex.lookup (GetHash sampleHasher sampleChild100)).map
      (fun e => (e.pprev, e.nChainTrust)) = some (some (GetHash sampleHasher sampleGenesis), 0) ∧
    (chainHardChild.mapBlockIndex.lookup (GetHash sampleHasher sampleGenesis)).map
      (fun e => e.nChainTrust) = some (2 ^ 255) := by
  refine ⟨by decide, by decide, by decide, by decide⟩

/-- C6 (as amended): every entry that `AddToBlockIndex` adds to the index has
`nChainTrust = ((parent's nChainTrust, or 0 without parent) + GetBlockTrust()) mod 2^256`;
whenever that sum is below `2^256` the entry's trust is at least the parent's, and
greater when the block trust is greater than 0. -/
theorem AddToBlockIndex_chain_trust (c : ChainEnv) (h : Hasher) (k : TxKinds) (s s' : ChainState)
    (b : CBlock) (nFile nBlockPos : Nat) (hashProof : uint256) (r : Bool)
    (hr : AddToBlockIndex c h k s b nFile nBlockPos hashProof = some (r, s')) :
    s'.mapBlockIndex = s.mapBlockIndex ∨
    ∃ e : CBlockIndex,
      s'.mapBlockIndex = (GetHash h b, e) :: s.mapBlockIndex ∧
      e.pprev = (if (s.mapBlockIndex.lookup b.hashPrevBlock).isSome then some b.hashPrevBlock
                 else none) ∧
      e.nChainTrust
        = (prevChainTrust s e.pprev + c.GetBlockTrust (IsProofOfStake k b) b.nBits) % 2 ^ 256 ∧
      (prevChainTrust s e.pprev + c.GetBlockTrust (IsProofOfStake k b) b.nBits < 2 ^ 256 →
        e.nChainTrust ≥ prevChainTrust s e.pprev ∧
        (c.GetBlockTrust (IsProofOfStake k b) b.nBits > 0 →
          e.nChainTrust > prevChainTrust s e.pprev)) := by
  rcases AddToBlockIndex_entry _ _ _ _ _ _ _ _ _ _ hr with hsame | ⟨e, hmap, hprev, htrust⟩
  · exact Or.inl hsame
  · refine Or.inr ⟨e, hmap, hprev, htrust, fun hlt => ?_⟩
    rw [htrust, Nat.mod_eq_of_lt hlt]
    exact ⟨Nat.le_add_right _ _, fun hpos => Nat.lt_add_of_pos_right hpos⟩

/-- Instance of C6 as amended: the trust-100 child of the genesis block. -/
theorem AddToBlockIndex_chain_trust_witness :
    AddToBlockIndex sampleChainEnv sampleHasher sampleKinds chainGenesis sampleChild100 0 0 0
      = some (true, chainChild100) ∧
    (chainChild100.mapBlockIndex = chainGenesis.mapBlockIndex ∨
    ∃ e : CBlockIndex,
      chainChild100.mapBlockIndex
        = (GetHash sampleHasher sampleChild100, e) :: chainGenesis.mapBlockIndex ∧
      e.pprev = (if (chainGenesis.mapBlockIndex.lookup sampleChild100.hashPrevBlock).isSome then
                   some sampleChild100.hashPrevBlock
                 else none) ∧
      e.nChainTrust
        = (prevChainTrust chainGenesis e.pprev
            + sampleChainEnv.GetBlockTrust (IsProofOfStake sampleKinds sampleChild100)
                sampleChild100.nBits) % 2 ^ 256 ∧
      (prevChainTrust chainGenesis e.pprev
          + sampleChainEnv.GetBlockTrust (IsProofOfStake sampleKinds sampleChild100)
              sampleChild100.nBits < 2 ^ 256 →
        e.nChainTrust ≥ prevChainTrust chainGenesis e.pprev ∧
        (sampleChainEnv.GetBlockTrust (IsProofOfStake sampleKinds sampleChild100)
            sampleChild100.nBits > 0 →
          e.nChainTrust > prevChainTrust chainGenesis e.pprev))) :=
  have hr : AddToBlockIndex sampleChainEnv sampleHasher sampleKinds chainGenesis sampleChild100
      0 0 0 = some (true, chainChild100) := by decide
  ⟨hr, AddToBlockIndex_chain_trust sampleChainEnv sampleHasher sampleKinds chainGenesis
    chainChild100 sampleChild100 0 0 0 true hr⟩

/-! ## Context-free block validation -/

theorem firstNotCoinBase_false (k : TxKinds) (b : CBlock) :
    firstNotCoinBase k b = false ↔ ∃ tx0, b.vtx[0]? = some tx0 ∧ k.IsCoinBase tx0 = true := by
  unfold firstNotCoinBase
  cases hv : b.vtx with
  | nil => simp
  | cons tx0 rest => simp

theorem any_drop_false (f : CTransaction → Bool) (l : List CTransaction) (n : Nat) :
    (l.drop n).any f = false ↔ ∀ i, n ≤ i → ∀ tx, l[i]? = some tx → f tx = false := by
  rw [List.any_eq_false]
  constructor
  · intro hall i hi tx htx
    have hmem : tx ∈ l.drop n := by
      rw [List.mem_iff_getElem?]
      refine ⟨i - n, ?_⟩
      rw [List.getElem?_drop]
      have : n + (i - n) = i := by omega
      rw [this]; exact htx
    have := hall tx hmem
    simpa using this
  · intro hall tx hmem
    rw [List.mem_iff_getElem?] at hmem
    obtain ⟨j, hj⟩ := hmem
    rw [List.getElem?_drop] at hj
    have := hall (n + j) (by omega) tx hj
    simp [this]

theorem laterCoinBase_false (k : TxKinds) (b : CBlock) :
    laterCoinBase k b = false ↔ ∀ i, 1 ≤ i → ∀ tx, b.vtx[i]? = some tx → k.IsCoinBase tx = false :=
  any_drop_false k.IsCoinBase b.vtx 1

theorem laterCoinStake_false (k : TxKinds) (b : CBlock) :
    laterCoinStake k b = false ↔ ∀ i, 2 ≤ i → ∀ tx, b.vtx[i]? = some tx → k.IsCoinStake tx = false :=
  any_drop_false k.IsCoinStake b.vtx 2

theorem isProofOfStake_second (k : TxKinds) (b : CBlock) (hp : IsProofOfStake k b = true) :
    ∃ tx1, b.vtx[1]? = some tx1 ∧ k.IsCoinStake tx1 = true := by
  unfold IsProofOfStake at hp
  cases hv : b.vtx[1]? with
  | none => rw [hv] at hp; simp at hp
  | some tx1 =>
    rw [hv] at hp
    refine ⟨tx1, rfl, ?_⟩
    simp only [Bool.and_eq_true] at hp
    exact hp.2

theorem rejectDoS_eq (b : CBlock) (baseTime nDoSIn : Int) :
    rejectDoS b baseTime nDoSIn
      = some { ok := false, block := { b with nDoS := b.nDoS + nDoSIn },
               nMasterNodeChecksDelayBaseTime := baseTime } := rfl

/-- A rejected outcome is not an accepted one. -/
theorem rejectDoS_not_ok (b : CBlock) (baseTime nDoSIn : Int) (out : CheckOutcome)
    (hr : rejectDoS b baseTime nDoSIn = some out) : out.ok = false := by
  rw [rejectDoS_eq] at hr
  simp only [Option.some.injEq] at hr
  rw [← hr]

/-- An accepted block went through none of the shape rejections. -/
theorem CheckBlock_ok_conditions (env : CheckEnv) (h : Hasher) (k : TxKinds) (s : ChainState)
    (b : CBlock) (fCheckPOW fCheckMerkleRoot fCheckSig : Bool) (out : CheckOutcome)
    (hr : CheckBlock env h k s b fCheckPOW fCheckMerkleRoot fCheckSig = some out)
    (hok : out.ok = true) :
    sizeLimitsFailed env b = false ∧ proofOfWorkFailed env h k b fCheckPOW = false ∧
    timestampTooFar env b = false ∧ firstNotCoinBase k b = false ∧ laterCoinBase k b = false ∧
    (IsProofOfStake k b && coinBaseOutputNotEmpty k b) = false ∧
    (IsProofOfStake k b && secondNotCoinStake k b) = false ∧
    (IsProofOfStake k b && laterCoinStake k b) = false := by
  unfold CheckBlock at hr
  have hno : ∀ n, rejectDoS b env.nMasterNodeChecksDelayBaseTime n ≠ some out := by
    intro n hx
    have := rejectDoS_not_ok _ _ _ _ hx
    rw [hok] at this
    exact absurd this (by simp)
  split at hr
  · exact absurd hr (hno _)
  · split at hr
    · exact absurd hr (hno _)
    · split at hr
      · simp only [rejectPlain, Option.some.injEq] at hr
        rw [← hr] at hok
        simp at hok
      · split at hr
        · exact absurd hr (hno _)
        · split at hr
          · exact absurd hr (hno _)
          · split at hr
            · exact absurd hr (hno _)
            · split at hr
              · exact absurd hr (hno _)
              · split at hr
                · exact absurd hr (hno _)
                · rename_i h1 h2 h3 h4 h5 h6 h7 h8
                  simp only [Bool.not_eq_true] at h1 h2 h3 h4 h5 h6 h7 h8
                  exact ⟨h1, h2, h3, h4, h5, h6, h7, h8⟩

theorem masternodePaymentStep_frame (env : CheckEnv) (k : TxKinds) (s1 s2 : ChainState)
    (b : CBlock)
    (hI : env.IsInitialBlockDownload s1 = env.IsInitialBlockDownload s2)
    (hbest : s1.pindexBest = s2.pindexBest)
    (hentry : s1.pindexBest.bind (fun p => s1.mapBlockIndex.lookup p)
      = s2.pindexBest.bind (fun p => s2.mapBlockIndex.lookup p)) :
    masternodePaymentStep env k s1 b = masternodePaymentStep env k s2 b := by
  unfold masternodePaymentStep
  rw [hI, hentry, ← hbest]
  cases hp : s1.pindexBest with
  | none => rfl
  | some p =>
    have he : s1.mapBlockIndex.lookup p = s2.mapBlockIndex.lookup p := by
      rw [← hbest, hp] at hentry
      simpa using hentry
    simp only [he]

theorem devopsPaymentStep_frame (env : CheckEnv) (h : Hasher) (k : TxKinds) (s1 s2 : ChainState)
    (b : CBlock)
    (hI : env.IsInitialBlockDownload s1 = env.IsInitialBlockDownload s2)
    (hown : s1.mapBlockIndex.lookup (GetHash h b) = s2.mapBlockIndex.lookup (GetHash h b))
    (hprev : ∀ e, s1.mapBlockIndex.lookup (GetHash h b) = some e →
      e.pprev.bind (fun p => s1.mapBlockIndex.lookup p)
        = e.pprev.bind (fun p => s2.mapBlockIndex.lookup p)) :
    devopsPaymentStep env h k s1 b = devopsPaymentStep env h k s2 b := by
  unfold devopsPaymentStep
  rw [← hown, hI]
  cases he : s1.mapBlockIndex.lookup (GetHash h b) with
  | none => rfl
  | some e =>
    simp only
    rw [hprev e he]

/-- C7, counterexample: the same block, flags and collaborators under two block index
maps.  Before the block is indexed `CheckBlock` accepts it; once its own entry is in
`mapBlockIndex` (as when `ConnectBlock` checks it again) the payment verification
runs and `CheckBlock` rejects it with DoS weight 10. -/
theorem CheckBlock_depends_on_block_index :
    (CheckBlock sampleCheckEnv sampleHasher sampleKinds chainChild105 sampleUnderpaid
        true true true).map (fun o => (o.ok, o.block.nDoS)) = some (true, 0) ∧
    (CheckBlock sampleCheckEnv sampleHasher sampleKinds chainUnderpaid sampleUnderpaid
        true true true).map (fun o => (o.ok, o.block.nDoS)) = some (false, 10) ∧
    chainUnderpaid.pindexBest = chainChild105.pindexBest ∧
    sampleCheckEnv.IsInitialBlockDownload chainUnderpaid
      = sampleCheckEnv.IsInitialBlockDownload chainChild105 := by
  refine ⟨by decide, by decide, by decide, by decide⟩

/-- C7 (as amended): `CheckBlock` reads the chain graph only through
`IsInitialBlockDownload`, the best tip (`pindexBest` and the entry it points to) and
the block's own entry in `mapBlockIndex` with that entry's predecessor; under two
chain states that agree on these, all other inputs being equal, the result, the DoS
weight and every other effect of `CheckBlock` are the same. -/
theorem CheckBlock_chain_frame (env : CheckEnv) (h : Hasher) (k : TxKinds) (s1 s2 : ChainState)
    (b : CBlock) (fCheckPOW fCheckMerkleRoot fCheckSig : Bool)
    (hI : env.IsInitialBlockDownload s1 = env.IsInitialBlockDownload s2)
    (hbest : s1.pindexBest = s2.pindexBest)
    (hentry : s1.pindexBest.bind (fun p => s1.mapBlockIndex.lookup p)
      = s2.pindexBest.bind (fun p => s2.mapBlockIndex.lookup p))
    (hown : s1.mapBlockIndex.lookup (GetHash h b) = s2.mapBlockIndex.lookup (GetHash h b))
    (hprev : ∀ e, s1.mapBlockIndex.lookup (GetHash h b) = some e →
      e.pprev.bind (fun p => s1.mapBlockIndex.lookup p)
        = e.pprev.bind (fun p => s2.mapBlockIndex.lookup p)) :
    CheckBlock env h k s1 b fCheckPOW fCheckMerkleRoot fCheckSig
      = CheckBlock env h k s2 b fCheckPOW fCheckMerkleRoot fCheckSig := by
  unfold CheckBlock checkSignatureAndPayments
  rw [masternodePaymentStep_frame env k s1 s2 b hI hbest hentry,
    devopsPaymentStep_frame env h k s1 s2 b hI hown hprev]

/-- Instance of C7 as amended: an unindexed block checked before and after an unrelated
entry of lower trust joined the index. -/
theorem CheckBlock_chain_frame_witness :
    sampleCheckEnv.IsInitialBlockDownload chainChild105
      = sampleCheckEnv.IsInitialBlockDownload chainChild105Then100 ∧
    chainChild105.pindexBest = chainChild105Then100.pindexBest ∧
    chainChild105.pindexBest.bind (fun p => chainChild105.mapBlockIndex.lookup p)
      = chainChild105Then100.pindexBest.bind
          (fun p => chainChild105Then100.mapBlockIndex.lookup p) ∧
    chainChild105.mapBlockIndex.lookup (GetHash sampleHasher sampleUnderpaid)
      = chainChild105Then100.mapBlockIndex.lookup (GetHash sampleHasher sampleUnderpaid) ∧
    chainChild105.mapBlockIndex ≠ chainChild105Then100.mapBlockIndex ∧
    CheckBlock sampleCheckEnv sampleHasher sampleKinds chainChild105 sampleUnderpaid true true true
      = CheckBlock sampleCheckEnv sampleHasher sampleKinds chainChild105Then100 sampleUnderpaid
          true true true :=
  have hI : sampleCheckEnv.IsInitialBlockDownload chainChild105
      = sampleCheckEnv.IsInitialBlockDownload chainChild105Then100 := by decide
  have hbest : chainChild105.pindexBest = chainChild105Then100.pindexBest := by decide
  have hentry : chainChild105.pindexBest.bind (fun p => chainChild105.mapBlockIndex.lookup p)
      = chainChild105Then100.pindexBest.bind
          (fun p => chainChild105Then100.mapBlockIndex.lookup p) := by decide
  have hown : chainChild105.mapBlockIndex.lookup (GetHash sampleHasher sampleUnderpaid)
      = chainChild105Then100.mapBlockIndex.lookup (GetHash sampleHasher sampleUnderpaid) := by
    decide
  have hnone : chainChild105.mapBlockIndex.lookup (GetHash sampleHasher sampleUnderpaid) = none := by
    decide
  ⟨hI, hbest, hentry, hown, by decide,
    CheckBlock_chain_frame sampleCheckEnv sampleHasher sampleKinds chainChild105
      chainChild105Then100 sampleUnderpaid true true true hI hbest hentry hown
      (fun e he => by rw [hnone] at he; exact absurd he (by simp))⟩

/-- C8 (block shape accepted by `CheckBlock`): a block for which `CheckBlock` returns
true has a coinbase as transaction 0, no coinbase at an index `>= 1`, and, if it is a
proof-of-stake block, a coinstake at index 1 and none at an index `>= 2`; and a block
that passes the size, proof-of-work and timestamp checks but whose transaction 0 is
not a coinbase, or that has a coinbase at an index `>= 1`, is rejected with 100 added
to its DoS weight. -/
theorem CheckBlock_coinbase_shape (env : CheckEnv) (h : Hasher) (k : TxKinds) (s : ChainState)
    (b : CBlock) (fCheckPOW fCheckMerkleRoot fCheckSig : Bool) :
    (∀ out, CheckBlock env h k s b fCheckPOW fCheckMerkleRoot fCheckSig = some out →
      out.ok = true →
      (∃ tx0, b.vtx[0]? = some tx0 ∧ k.IsCoinBase tx0 = true) ∧
      (∀ i, 1 ≤ i → ∀ tx, b.vtx[i]? = some tx → k.IsCoinBase tx = false) ∧
      (IsProofOfStake k b = true →
        (∃ tx1, b.vtx[1]? = some tx1 ∧ k.IsCoinStake tx1 = true) ∧
        ∀ i, 2 ≤ i → ∀ tx, b.vtx[i]? = some tx → k.IsCoinStake tx = false)) ∧
    (sizeLimitsFailed env b = false → proofOfWorkFailed env h k b fCheckPOW = false →
      timestampTooFar env b = false →
      ((∃ tx0, b.vtx[0]? = some tx0 ∧ k.IsCoinBase tx0 = false) ∨
        (∃ i, 1 ≤ i ∧ ∃ tx, b.vtx[i]? = some tx ∧ k.IsCoinBase tx = true)) →
      CheckBlock env h k s b fCheckPOW fCheckMerkleRoot fCheckSig
        = some { ok := false, block := { b with nDoS := b.nDoS + 100 },
                 nMasterNodeChecksDelayBaseTime := env.nMasterNodeChecksDelayBaseTime }) := by
  constructor
  · intro out hr hok
    obtain ⟨_, _, _, c4, c5, _, _, c8⟩ :=
      CheckBlock_ok_conditions env h k s b fCheckPOW fCheckMerkleRoot fCheckSig out hr hok
    refine ⟨(firstNotCoinBase_false k b).mp c4, (laterCoinBase_false k b).mp c5, fun hpos => ?_⟩
    refine ⟨isProofOfStake_second k b hpos, (laterCoinStake_false k b).mp ?_⟩
    rw [hpos] at c8
    simpa using c8
  · intro h1 h2 h3 hbad
    unfold CheckBlock
    rw [h1, h2, h3]
    simp only [Bool.false_eq_true, if_false]
    by_cases hf : firstNotCoinBase k b = true
    · rw [if_pos hf, rejectDoS_eq]
    · rw [if_neg hf]
      have hf' : firstNotCoinBase k b = false := by simpa using hf
      have hl : laterCoinBase k b = true := by
        rcases hbad with ⟨tx0, h0, hcb⟩ | ⟨i, hi, tx, htx, hcb⟩
        · obtain ⟨tx0', h0', hcb'⟩ := (firstNotCoinBase_false k b).mp hf'
          rw [h0] at h0'
          simp only [Option.some.injEq] at h0'
          subst h0'
          rw [hcb] at hcb'
          exact absurd hcb' (by simp)
        · by_contra hn
          have hn' : laterCoinBase k b = false := by simpa using hn
          have := (laterCoinBase_false k b).mp hn' i hi tx htx
          rw [hcb] at this
          exact absurd this (by simp)
      rw [if_pos hl, rejectDoS_eq]

/-- Instance of C8: the genesis block of the examples is accepted, and a block whose
only transaction is a coinstake is rejected. -/
theorem CheckBlock_coinbase_shape_witness :
    (CheckBlock sampleCheckEnv sampleHasher sampleKinds emptyChain sampleGenesis true true true
        = some sampleGenesisOutcome ∧
      sampleGenesisOutcome.ok = true ∧
      (∃ tx0, sampleGenesis.vtx[0]? = some tx0 ∧ sampleKinds.IsCoinBase tx0 = true) ∧
      (∀ i, 1 ≤ i → ∀ tx, sampleGenesis.vtx[i]? = some tx → sampleKinds.IsCoinBase tx = false) ∧
      (IsProofOfStake sampleKinds sampleGenesis = true →
        (∃ tx1, sampleGenesis.vtx[1]? = some tx1 ∧ sampleKinds.IsCoinStake tx1 = true) ∧
        ∀ i, 2 ≤ i → ∀ tx, sampleGenesis.vtx[i]? = some tx →
          sampleKinds.IsCoinStake tx = false)) ∧
    (sizeLimitsFailed sampleCheckEnv sampleNoCoinbase = false ∧
      proofOfWorkFailed sampleCheckEnv sampleHasher sampleKinds sampleNoCoinbase true = false ∧
      timestampTooFar sampleCheckEnv sampleNoCoinbase = false ∧
      (∃ tx0, sampleNoCoinbase.vtx[0]? = some tx0 ∧ sampleKinds.IsCoinBase tx0 = false) ∧
      CheckBlock sampleCheckEnv sampleHasher sampleKinds emptyChain sampleNoCoinbase true true true
        = some { ok := false, block := { sampleNoCoinbase with nDoS := sampleNoCoinbase.nDoS + 100 },
                 nMasterNodeChecksDelayBaseTime :=
                   sampleCheckEnv.nMasterNodeChecksDelayBaseTime }) :=
  have hr : CheckBlock sampleCheckEnv sampleHasher sampleKinds emptyChain sampleGenesis
      true true true = some sampleGenesisOutcome := by decide
  have hno : ∃ tx0, sampleNoCoinbase.vtx[0]? = some tx0 ∧ sampleKinds.IsCoinBase tx0 = false :=
    ⟨sampleCoinstake, by decide, by decide⟩
  ⟨⟨hr, rfl,
      (CheckBlock_coinbase_shape sampleCheckEnv sampleHasher sampleKinds emptyChain sampleGenesis
        true true true).1 sampleGenesisOutcome hr rfl⟩,
    ⟨by decide, by decide, by decide, hno,
      (CheckBlock_coinbase_shape sampleCheckEnv sampleHasher sampleKinds emptyChain
        sampleNoCoinbase true true true).2 (by decide) (by decide) (by decide) (Or.inl hno)⟩⟩

/-- C9 (proof-of-work rejection): a proof-of-work block that passes the size limits and
whose proof-of-work hash does not satisfy the target of `nBits` makes
`CheckBlock(true, ., .)` return false with exactly 50 added to the block's DoS weight;
with `fCheckPOW = false` the check never rejects, and the whole result of `CheckBlock`
is the same whatever `CheckProofOfWork` answers. -/
theorem CheckBlock_proof_of_work (env : CheckEnv) (h : Hasher) (k : TxKinds) (s : ChainState)
    (b : CBlock) (fCheckMerkleRoot fCheckSig : Bool) :
    (sizeLimitsFailed env b = false → IsProofOfWork k b = true →
      env.CheckProofOfWork (GetPoWHash h b) b.nBits = false →
      CheckBlock env h k s b true fCheckMerkleRoot fCheckSig
        = some { ok := false, block := { b with nDoS := b.nDoS + 50 },
                 nMasterNodeChecksDelayBaseTime := env.nMasterNodeChecksDelayBaseTime }) ∧
    proofOfWorkFailed env h k b false = false ∧
    (∀ g : uint256 → Nat → Bool,
      CheckBlock { env with CheckProofOfWork := g } h k s b false fCheckMerkleRoot fCheckSig
        = CheckBlock env h k s b false fCheckMerkleRoot fCheckSig) := by
  refine ⟨fun h1 h2 h3 => ?_, rfl, fun g => rfl⟩
  have hp : proofOfWorkFailed env h k b true = true := by
    simp [proofOfWorkFailed, h2, h3]
  unfold CheckBlock
  rw [h1, hp]
  simp only [Bool.false_eq_true, if_false, if_true, rejectDoS_eq]

/-- Instance of C9: a work block with hash 50 against target 10. -/
theorem CheckBlock_proof_of_work_witness :
    sizeLimitsFailed sampleCheckEnv sampleBadWork = false ∧
    IsProofOfWork sampleKinds sampleBadWork = true ∧
    sampleCheckEnv.CheckProofOfWork (GetPoWHash sampleHasher sampleBadWork) sampleBadWork.nBits
      = false ∧
    CheckBlock sampleCheckEnv sampleHasher sampleKinds emptyChain sampleBadWork true true true
      = some { ok := false, block := { sampleBadWork with nDoS := sampleBadWork.nDoS + 50 },
               nMasterNodeChecksDelayBaseTime := sampleCheckEnv.nMasterNodeChecksDelayBaseTime } :=
  ⟨by decide, by decide, by decide,
    (CheckBlock_proof_of_work sampleCheckEnv sampleHasher sampleKinds emptyChain sampleBadWork
      true true).1 (by decide) (by decide) (by decide)⟩

/-- C10 (coinbase of a stake block): a proof-of-stake block that passes the size,
timestamp and coinbase-position checks (the proof-of-work check does not apply to it)
and whose transaction 0 does not consist of exactly one output that is empty is
rejected by `CheckBlock` with 100 added to its DoS weight; in particular when the
output list of transaction 0 has 2 entries. -/
theorem CheckBlock_stake_coinbase (env : CheckEnv) (h : Hasher) (k : TxKinds) (s : ChainState)
    (b : CBlock) (fCheckPOW fCheckMerkleRoot fCheckSig : Bool)
    (hpos : IsProofOfStake k b = true)
    (hsize : sizeLimitsFailed env b = false) (htime : timestampTooFar env b = false)
    (hfirst : firstNotCoinBase k b = false) (hlater : laterCoinBase k b = false) :
    ((∀ tx0, b.vtx[0]? = some tx0 → ¬ ∃ o, tx0.vout = [o] ∧ k.IsEmpty o = true) →
      CheckBlock env h k s b fCheckPOW fCheckMerkleRoot fCheckSig
        = some { ok := false, block := { b with nDoS := b.nDoS + 100 },
                 nMasterNodeChecksDelayBaseTime := env.nMasterNodeChecksDelayBaseTime }) ∧
    ((∀ tx0, b.vtx[0]? = some tx0 → tx0.vout.length = 2) →
      CheckBlock env h k s b fCheckPOW fCheckMerkleRoot fCheckSig
        = some { ok := false, block := { b with nDoS := b.nDoS + 100 },
                 nMasterNodeChecksDelayBaseTime := env.nMasterNodeChecksDelayBaseTime }) := by
  have hpow : proofOfWorkFailed env h k b fCheckPOW = false := by
    simp [proofOfWorkFailed, IsProofOfWork, hpos]
  have main : coinBaseOutputNotEmpty k b = true →
      CheckBlock env h k s b fCheckPOW fCheckMerkleRoot fCheckSig
        = some { ok := false, block := { b with nDoS := b.nDoS + 100 },
                 nMasterNodeChecksDelayBaseTime := env.nMasterNodeChecksDelayBaseTime } := by
    intro hc
    unfold CheckBlock
    rw [hsize, hpow, htime, hfirst, hlater, hpos, hc]
    simp only [Bool.false_eq_true, if_false, Bool.and_self, if_true, rejectDoS_eq]
  have hne : (∀ tx0, b.vtx[0]? = some tx0 → ¬ ∃ o, tx0.vout = [o] ∧ k.IsEmpty o = true) →
      coinBaseOutputNotEmpty k b = true := by
    intro hbad
    unfold coinBaseOutputNotEmpty
    cases hv : b.vtx with
    | nil => rfl
    | cons tx0 rest =>
      have h0 : b.vtx[0]? = some tx0 := by rw [hv]; simp
      have hb := hbad tx0 h0
      simp only
      split
      · rename_i o ho
        by_contra hn
        exact hb ⟨o, ho, by simpa using hn⟩
      · rfl
  refine ⟨fun hbad => main (hne hbad), fun htwo => main (hne ?_)⟩
  intro tx0 h0 hex
  obtain ⟨o, ho, _⟩ := hex
  have := htwo tx0 h0
  rw [ho] at this
  simp at this

/-- Instance of C10: a stake block whose coinbase has two outputs. -/
theorem CheckBlock_stake_coinbase_witness :
    IsProofOfStake sampleKinds sampleStakeTwoOutputs = true ∧
    sizeLimitsFailed sampleCheckEnv sampleStakeTwoOutputs = false ∧
    timestampTooFar sampleCheckEnv sampleStakeTwoOutputs = false ∧
    firstNotCoinBase sampleKinds sampleStakeTwoOutputs = false ∧
    laterCoinBase sampleKinds sampleStakeTwoOutputs = false ∧
    (∀ tx0, sampleStakeTwoOutputs.vtx[0]? = some tx0 → tx0.vout.length = 2) ∧
    CheckBlock sampleCheckEnv sampleHasher sampleKinds emptyChain sampleStakeTwoOutputs
        true true true
      = some { ok := false,
               block := { sampleStakeTwoOutputs with nDoS := sampleStakeTwoOutputs.nDoS + 100 },
               nMasterNodeChecksDelayBaseTime := sampleCheckEnv.nMasterNodeChecksDelayBaseTime } :=
  have htwo : ∀ tx0, sampleStakeTwoOutputs.vtx[0]? = some tx0 → tx0.vout.length = 2 := by
    intro tx0 h0
    have : sampleStakeTwoOutputs.vtx[0]? = some
        { nVersion := 1, nTime := 0,
          vin := [{ prevout := { hash := 0, n := 4294967295 }, scriptSig := [] }],
          vout := [{ nValue := 0, scriptPubKey := [] }, { nValue := 0, scriptPubKey := [] }],
          nLockTime := 0 } := rfl
    rw [this] at h0
    simp only [Option.some.injEq] at h0
    rw [← h0]
    rfl
  ⟨by decide, by decide, by decide, by decide, by decide, htwo,
    (CheckBlock_stake_coinbase sampleCheckEnv sampleHasher sampleKinds emptyChain
      sampleStakeTwoOutputs true true true (by decide) (by decide) (by decide) (by decide)
      (by decide)).2 htwo⟩

/-! ## Signature and Merkle root checks of `CheckBlock` -/

/-- When none of the shape checks rejects, `CheckBlock` is its part from the signature
check on. -/
theorem CheckBlock_after_shape (env : CheckEnv) (h : Hasher) (k : TxKinds) (s : ChainState)
    (b : CBlock) (fCheckPOW fCheckMerkleRoot fCheckSig : Bool)
    (h1 : sizeLimitsFailed env b = false) (h2 : proofOfWorkFailed env h k b fCheckPOW = false)
    (h3 : timestampTooFar env b = false) (h4 : firstNotCoinBase k b = false)
    (h5 : laterCoinBase k b = false)
    (h6 : (IsProofOfStake k b && coinBaseOutputNotEmpty k b) = false)
    (h7 : (IsProofOfStake k b && secondNotCoinStake k b) = false)
    (h8 : (IsProofOfStake k b && laterCoinStake k b) = false) :
    CheckBlock env h k s b fCheckPOW fCheckMerkleRoot fCheckSig
      = checkSignatureAndPayments env h k s b fCheckMerkleRoot fCheckSig := by
  unfold CheckBlock
  rw [h1, h2, h3, h4, h5, h6, h7, h8]
  simp only [Bool.false_eq_true, if_false]

/-- An accepted block passed the signature and payment part. -/
theorem CheckBlock_ok_stage (env : CheckEnv) (h : Hasher) (k : TxKinds) (s : ChainState)
    (b : CBlock) (fCheckPOW fCheckMerkleRoot fCheckSig : Bool) (out : CheckOutcome)
    (hr : CheckBlock env h k s b fCheckPOW fCheckMerkleRoot fCheckSig = some out)
    (hok : out.ok = true) :
    checkSignatureAndPayments env h k s b fCheckMerkleRoot fCheckSig = some out := by
  obtain ⟨h1, h2, h3, h4, h5, h6, h7, h8⟩ :=
    CheckBlock_ok_conditions env h k s b fCheckPOW fCheckMerkleRoot fCheckSig out hr hok
  rw [CheckBlock_after_shape env h k s b fCheckPOW fCheckMerkleRoot fCheckSig
    h1 h2 h3 h4 h5 h6 h7 h8] at hr
  exact hr

/-- An accepted block passed every step before the transaction checks. -/
theorem checkSignatureAndPayments_ok (env : CheckEnv) (h : Hasher) (k : TxKinds)
    (s : ChainState) (b : CBlock) (fCheckMerkleRoot fCheckSig : Bool) (out : CheckOutcome)
    (hr : checkSignatureAndPayments env h k s b fCheckMerkleRoot fCheckSig = some out)
    (hok : out.ok = true) :
    (if fCheckSig then CheckBlockSignature env h k b else some true) = some true ∧
    lockedInputConflict env h k b = false ∧
    masternodePaymentStep env k s b = some true ∧
    ∃ baseTime, devopsPaymentStep env h k s b = some (true, baseTime) ∧
      checkTransactionsAndRoot env h b baseTime fCheckMerkleRoot = some out := by
  have hno : ∀ t n, rejectDoS b t n ≠ some out := by
    intro t n hx
    have := rejectDoS_not_ok _ _ _ _ hx
    rw [hok] at this
    exact absurd this (by simp)
  unfold checkSignatureAndPayments at hr
  cases hsig : (if fCheckSig then CheckBlockSignature env h k b else some true) with
  | none => rw [hsig] at hr; simp at hr
  | some bsig =>
    rw [hsig] at hr
    cases bsig with
    | false => exact absurd hr (hno _ _)
    | true =>
      simp only at hr
      by_cases hlock : lockedInputConflict env h k b = true
      · rw [if_pos hlock] at hr
        exact absurd hr (hno _ _)
      · rw [if_neg hlock] at hr
        cases hmn : masternodePaymentStep env k s b with
        | none => rw [hmn] at hr; simp at hr
        | some bmn =>
          rw [hmn] at hr
          cases bmn with
          | false => exact absurd hr (hno _ _)
          | true =>
            simp only at hr
            cases hdev : devopsPaymentStep env h k s b with
            | none => rw [hdev] at hr; simp at hr
            | some r =>
              obtain ⟨bdev, t⟩ := r
              rw [hdev] at hr
              cases bdev with
              | false => exact absurd hr (hno _ _)
              | true =>
                simp only at hr
                exact ⟨rfl, by simpa using hlock, rfl, t, rfl, hr⟩

/-- C11 (block signature rule): for a proof-of-work block `CheckBlockSignature` returns
true exactly when `vchBlockSig` is empty; for a proof-of-stake block with an empty
`vchBlockSig` it returns false; `CheckBlock(., ., true)` rejects with 100 added to the
DoS weight every block that passes the earlier checks and for which
`CheckBlockSignature` is false; and with `fCheckSig = false` the result of `CheckBlock`
is the same whatever `Solver` and the signature verification answer. -/
theorem CheckBlock_signature (env : CheckEnv) (h : Hasher) (k : TxKinds) (s : ChainState)
    (b : CBlock) (fCheckPOW fCheckMerkleRoot : Bool) :
    (IsProofOfWork k b = true → CheckBlockSignature env h k b = some b.vchBlockSig.isEmpty) ∧
    (IsProofOfStake k b = true → b.vchBlockSig = [] →
      CheckBlockSignature env h k b = some false) ∧
    (sizeLimitsFailed env b = false → proofOfWorkFailed env h k b fCheckPOW = false →
      timestampTooFar env b = false → firstNotCoinBase k b = false →
      laterCoinBase k b = false →
      (IsProofOfStake k b && coinBaseOutputNotEmpty k b) = false →
      (IsProofOfStake k b && secondNotCoinStake k b) = false →
      (IsProofOfStake k b && laterCoinStake k b) = false →
      CheckBlockSignature env h k b = some false →
      CheckBlock env h k s b fCheckPOW fCheckMerkleRoot true
        = some { ok := false, block := { b with nDoS := b.nDoS + 100 },
                 nMasterNodeChecksDelayBaseTime := env.nMasterNodeChecksDelayBaseTime }) ∧
    (∀ (Solver : List Nat → Bool × txnouttype × List (List Nat))
        (Verify : List Nat → uint256 → List Nat → Bool),
      CheckBlock { env with Solver := Solver, Verify := Verify } h k s b fCheckPOW
          fCheckMerkleRoot false
        = CheckBlock env h k s b fCheckPOW fCheckMerkleRoot false) := by
  refine ⟨fun hw => ?_, fun hp he => ?_, fun h1 h2 h3 h4 h5 h6 h7 h8 hsig => ?_,
    fun _ _ => rfl⟩
  · unfold CheckBlockSignature
    rw [if_pos hw]
  · have hw : ¬ IsProofOfWork k b = true := by simp [IsProofOfWork, hp]
    unfold CheckBlockSignature
    rw [if_neg hw, he]
    simp
  · rw [CheckBlock_after_shape env h k s b fCheckPOW fCheckMerkleRoot true
      h1 h2 h3 h4 h5 h6 h7 h8]
    unfold checkSignatureAndPayments
    simp only [if_true, hsig, rejectDoS_eq]

theorem CheckBlock_signature_witness :
    CheckBlockSignature sampleCheckEnv sampleHasher sampleKinds sampleSignedWork
      = some sampleSignedWork.vchBlockSig.isEmpty ∧
    CheckBlockSignature sampleCheckEnv sampleHasher sampleKinds sampleUnsignedStake
      = some false ∧
    CheckBlock sampleCheckEnv sampleHasher sampleKinds emptyChain sampleSignedWork
        true true true
      = some { ok := false,
               block := { sampleSignedWork with nDoS := sampleSignedWork.nDoS + 100 },
               nMasterNodeChecksDelayBaseTime := sampleCheckEnv.nMasterNodeChecksDelayBaseTime } :=
  ⟨(CheckBlock_signature sampleCheckEnv sampleHasher sampleKinds emptyChain sampleSignedWork
      true true).1 (by decide),
   (CheckBlock_signature sampleCheckEnv sampleHasher sampleKinds emptyChain
      sampleUnsignedStake true true).2.1 (by decide) rfl,
   (CheckBlock_signature sampleCheckEnv sampleHasher sampleKinds emptyChain sampleSignedWork
      true true).2.2.1 (by decide) (by decide) (by decide) (by decide) (by decide)
      (by decide) (by decide) (by decide) (by decide)⟩

/-! ## The payment loop -/

/-- One round of the payment loop, when its three reads are inside the vector. -/
theorem paymentsAt_eq (COIN : Int) (fValid : List Nat → Bool) (fMnAdvRelay pos : Bool)
    (vout : List CTxOut) (m d : Nat) (mnPay devPay engage time upd : Int) (i : Nat) (f : Bool)
    (o om od : CTxOut) (hi : vout[i]? = some o) (hm : vout[m]? = some om)
    (hd : vout[d]? = some od) :
    paymentsAt COIN fValid fMnAdvRelay pos vout m d mnPay devPay engage time upd i f
      = some (f && (!decide (i = m) || masternodeOutputOk COIN fValid fMnAdvRelay mnPay engage om)
            && (!decide (i = d) || devopsOutputOk COIN devPay time upd od)) := by
  unfold paymentsAt
  rw [hi, hm, hd]
  simp only [Option.some.injEq]
  have hom : i = m → o = om := by
    intro e
    subst e
    rw [hi] at hm
    exact Option.some.inj hm
  have hod : i = d → o = od := by
    intro e
    subst e
    rw [hi] at hd
    exact Option.some.inj hd
  unfold masternodeOutputOk devopsOutputOk
  by_cases him : i = m
  · have e1 := hom him
    subst e1
    subst him
    by_cases hid : i = d
    · have e2 := hod hid
      subst e2
      subst hid
      cases f <;> cases pos <;> cases fMnAdvRelay <;> cases fValid o.scriptPubKey <;>
        by_cases h1 : o.nValue.tdiv COIN = mnPay <;>
        by_cases h2 : o.nValue.tdiv COIN = devPay <;>
        by_cases h3 : time < upd <;>
        by_cases h4 : o.nValue.tdiv COIN ≥ devPay <;>
        by_cases h5 : engage = 0 <;>
        simp [h1, h2, h3, h4, h5]
    · cases f <;> cases pos <;> cases fMnAdvRelay <;> cases fValid o.scriptPubKey <;>
        by_cases h1 : o.nValue.tdiv COIN = mnPay <;>
        by_cases h5 : engage = 0 <;>
        simp [hid, h1, h5]
  · by_cases hid : i = d
    · have e2 := hod hid
      subst e2
      subst hid
      cases f <;> cases pos <;>
        by_cases h2 : o.nValue.tdiv COIN = devPay <;>
        by_cases h3 : time < upd <;>
        by_cases h4 : o.nValue.tdiv COIN ≥ devPay <;>
        simp [him, h2, h3, h4]
    · simp [him, hid]

/-- Membership in a list with one more element, as a Boolean. -/
theorem decide_mem_cons (m i : Nat) (rest : List Nat) :
    decide (m ∈ i :: rest) = (decide (i = m) || decide (m ∈ rest)) := by
  by_cases h1 : i = m
  · subst h1
    simp
  · have h2 : ¬ m = i := fun e => h1 e.symm
    simp [h1, h2]

/-- The payment loop over indices inside the vector: `fBlockHasPayments` survives when it
was set before the loop and the outputs at the masternode and devops index pass, as far
as the loop visits these indices. -/
theorem paymentsLoop_eq (COIN : Int) (fValid : List Nat → Bool) (fMnAdvRelay pos : Bool)
    (vout : List CTxOut) (m d : Nat) (mnPay devPay engage time upd : Int)
    (om od : CTxOut) (hm : vout[m]? = some om) (hd : vout[d]? = some od) :
    ∀ (l : List Nat) (f : Bool), (∀ i ∈ l, i < vout.length) →
      paymentsLoop COIN fValid fMnAdvRelay pos vout m d mnPay devPay engage time upd l f
        = some (f && (!decide (m ∈ l) || masternodeOutputOk COIN fValid fMnAdvRelay mnPay engage om)
              && (!decide (d ∈ l) || devopsOutputOk COIN devPay time upd od)) := by
  intro l
  induction l with
  | nil =>
    intro f _
    simp [paymentsLoop]
  | cons i rest ih =>
    intro f hl
    have hi : i < vout.length := hl i (List.mem_cons_self _ _)
    have hio : vout[i]? = some vout[i] := List.getElem?_eq_getElem hi
    unfold paymentsLoop
    rw [paymentsAt_eq COIN fValid fMnAdvRelay pos vout m d mnPay devPay engage time upd i f
      vout[i] om od hio hm hd]
    simp only
    rw [ih _ (fun j hj => hl j (List.mem_cons_of_mem _ hj))]
    simp only [Option.some.injEq]
    rw [decide_mem_cons, decide_mem_cons]
    generalize decide (i = m) = a1
    generalize decide (i = d) = a2
    generalize decide (m ∈ rest) = a3
    generalize decide (d ∈ rest) = a4
    generalize masternodeOutputOk COIN fValid fMnAdvRelay mnPay engage om = a5
    generalize devopsOutputOk COIN devPay time upd od = a6
    cases f <;> cases a1 <;> cases a2 <;> cases a3 <;> cases a4 <;> cases a5 <;> cases a6 <;> rfl

/-- The payment verification of a block that has an index entry past the payment fork
and whose payment transaction has outputs at the masternode and the devops index. -/
theorem devopsPaymentStep_eq (env : CheckEnv) (h : Hasher) (k : TxKinds) (s : ChainState)
    (b : CBlock) (pindex : CBlockIndex) (tx : CTransaction) (om od : CTxOut)
    (hidx : s.mapBlockIndex.lookup (GetHash h b) = some pindex)
    (hfork : (pindex.nTime : Int) > env.VERION_1_0_0_0_MANDATORY_UPDATE_START)
    (htx : b.vtx[if (!IsProofOfWork k b) = true then 1 else 0]? = some tx)
    (hm : tx.vout[(paymentLayout (!IsProofOfWork k b) tx.vout.length).1]? = some om)
    (hd : tx.vout[(paymentLayout (!IsProofOfWork k b) tx.vout.length).2.1]? = some od) :
    devopsPaymentStep env h k s b
      = some ((paymentLayout (!IsProofOfWork k b) tx.vout.length).2.2
          && masternodeOutputOk env.COIN (fValidPayee env pindex) env.fMnAdvRelay
              (nMasternodePayment env k s b pindex) (nMasterNodeChecksEngageTime env s) om
          && devopsOutputOk env.COIN (nDevopsPayment env k s b pindex) (pindex.nTime : Int)
              env.VERION_1_0_1_5_MANDATORY_UPDATE_START od,
        if env.IsInitialBlockDownload s then env.GetTime
        else env.nMasterNodeChecksDelayBaseTime) := by
  have hml : (paymentLayout (!IsProofOfWork k b) tx.vout.length).1 < tx.vout.length := by
    by_contra hc
    rw [List.getElem?_eq_none (Nat.le_of_not_lt hc)] at hm
    exact absurd hm (by simp)
  have hdl : (paymentLayout (!IsProofOfWork k b) tx.vout.length).2.1 < tx.vout.length := by
    by_contra hc
    rw [List.getElem?_eq_none (Nat.le_of_not_lt hc)] at hd
    exact absurd hd (by simp)
  have hloop := paymentsLoop_eq env.COIN (fValidPayee env pindex) env.fMnAdvRelay
    (!IsProofOfWork k b) tx.vout _ _ (nMasternodePayment env k s b pindex)
    (nDevopsPayment env k s b pindex) (nMasterNodeChecksEngageTime env s) (pindex.nTime : Int)
    env.VERION_1_0_1_5_MANDATORY_UPDATE_START om od hm hd (List.range tx.vout.length)
    (paymentLayout (!IsProofOfWork k b) tx.vout.length).2.2
    (fun i hi => List.mem_range.mp hi)
  simp only [List.mem_range, hml, hdl, decide_True, Bool.not_true, Bool.false_or] at hloop
  unfold devopsPaymentStep
  rw [hidx]
  try simp only
  rw [if_pos hfork]
  try simp only
  rw [htx]
  try simp only
  unfold paymentLayout nMasternodePayment nDevopsPayment nStandardPayment
    nMasterNodeChecksEngageTime fValidPayee at hloop
  rw [hloop]
  rfl

/-! ## Payment amounts and the checks delay -/

/-- A block whose payment verification fails is never accepted by `CheckBlock`. -/
theorem CheckBlock_payments_failed (env : CheckEnv) (h : Hasher) (k : TxKinds)
    (s : ChainState) (b : CBlock) (fCheckPOW fCheckMerkleRoot fCheckSig : Bool) (t : Int)
    (hdev : devopsPaymentStep env h k s b = some (false, t)) (out : CheckOutcome)
    (hr : CheckBlock env h k s b fCheckPOW fCheckMerkleRoot fCheckSig = some out) :
    out.ok = false := by
  cases hok : out.ok with
  | false => rfl
  | true =>
    have hst := CheckBlock_ok_stage env h k s b fCheckPOW fCheckMerkleRoot fCheckSig out hr hok
    obtain ⟨_, _, _, t1, hdev1, _⟩ :=
      checkSignatureAndPayments_ok env h k s b fCheckMerkleRoot fCheckSig out hst hok
    rw [hdev] at hdev1
    simp at hdev1

/-- C12, the counterexample: the block `sampleOverpaid` has an index entry whose time
300 is past the payment fork boundary 100, it carries 60 coins at the devops index where
the devops payment is 50 coins, and `CheckBlock` accepts it. -/
theorem devops_overpayment_accepted :
    ((chainWith sampleOverpaid).mapBlockIndex.lookup (GetHash sampleHasher sampleOverpaid)).map
        (fun pindex => ((pindex.nTime : Int), pindex.nHeight))
      = some (300, 1) ∧
    (300 : Int) > sampleCheckEnv.VERION_1_0_0_0_MANDATORY_UPDATE_START ∧
    (sampleOverpaid.vtx[0]?.bind (fun tx => tx.vout[2]?)).map (fun o => o.nValue)
      = some 6000000000 ∧
    sampleCheckEnv.GetDevOpsPayment 1 (sampleCheckEnv.GetProofOfWorkReward 1 0) = 5000000000 ∧
    CheckBlock sampleCheckEnv sampleHasher sampleKinds (chainWith sampleOverpaid) sampleOverpaid
        true true true
      = some { ok := true, block := { sampleOverpaid with vMerkleTree := [0] },
               nMasterNodeChecksDelayBaseTime := 0 } :=
  ⟨rfl, by decide, rfl, rfl, rfl⟩

/-- C12 (payout amounts, as the code has them): for a block with an index entry past the
payment fork boundary whose payment transaction has outputs at the masternode and the
devops index, amounts are compared in whole coins (value divided by `COIN`, rounded
towards zero).  If the whole-coin value at the masternode index differs from the
whole-coin masternode payment, `CheckBlock` does not accept the block; if the whole-coin
value at the devops index differs from the whole-coin devops payment and either the
entry's time is before `VERION_1_0_1_5_MANDATORY_UPDATE_START` or the value is below the
payment, `CheckBlock` does not accept the block; the payment verification then fails
(the step that rejects with DoS weight 10).  From that update on a devops value above
the payment is let through: the verdict is that of the output count and the masternode
output alone. -/
theorem CheckBlock_payment_amounts (env : CheckEnv) (h : Hasher) (k : TxKinds)
    (s : ChainState) (b : CBlock) (fCheckPOW fCheckMerkleRoot fCheckSig : Bool)
    (pindex : CBlockIndex) (tx : CTransaction) (om od : CTxOut)
    (hidx : s.mapBlockIndex.lookup (GetHash h b) = some pindex)
    (hfork : (pindex.nTime : Int) > env.VERION_1_0_0_0_MANDATORY_UPDATE_START)
    (htx : b.vtx[if (!IsProofOfWork k b) = true then 1 else 0]? = some tx)
    (hm : tx.vout[(paymentLayout (!IsProofOfWork k b) tx.vout.length).1]? = some om)
    (hd : tx.vout[(paymentLayout (!IsProofOfWork k b) tx.vout.length).2.1]? = some od) :
    (om.nValue.tdiv env.COIN ≠ nMasternodePayment env k s b pindex →
      (∃ t, devopsPaymentStep env h k s b = some (false, t)) ∧
      ∀ out, CheckBlock env h k s b fCheckPOW fCheckMerkleRoot fCheckSig = some out →
        out.ok = false) ∧
    (od.nValue.tdiv env.COIN ≠ nDevopsPayment env k s b pindex →
      ((pindex.nTime : Int) < env.VERION_1_0_1_5_MANDATORY_UPDATE_START ∨
        od.nValue.tdiv env.COIN < nDevopsPayment env k s b pindex) →
      (∃ t, devopsPaymentStep env h k s b = some (false, t)) ∧
      ∀ out, CheckBlock env h k s b fCheckPOW fCheckMerkleRoot fCheckSig = some out →
        out.ok = false) ∧
    (env.VERION_1_0_1_5_MANDATORY_UPDATE_START ≤ (pindex.nTime : Int) →
      nDevopsPayment env k s b pindex < od.nValue.tdiv env.COIN →
      devopsPaymentStep env h k s b
        = some ((paymentLayout (!IsProofOfWork k b) tx.vout.length).2.2
            && masternodeOutputOk env.COIN (fValidPayee env pindex) env.fMnAdvRelay
                (nMasternodePayment env k s b pindex) (nMasterNodeChecksEngageTime env s) om,
          if env.IsInitialBlockDownload s then env.GetTime
          else env.nMasterNodeChecksDelayBaseTime)) := by
  have hstep := devopsPaymentStep_eq env h k s b pindex tx om od hidx hfork htx hm hd
  refine ⟨fun hne => ?_, fun hne hlow => ?_, fun hlate hover => ?_⟩
  · have hmn : masternodeOutputOk env.COIN (fValidPayee env pindex) env.fMnAdvRelay
        (nMasternodePayment env k s b pindex) (nMasterNodeChecksEngageTime env s) om = false := by
      unfold masternodeOutputOk
      simp [hne]
    rw [hmn] at hstep
    simp only [Bool.and_false, Bool.false_and] at hstep
    exact ⟨⟨_, hstep⟩, fun out hr =>
      CheckBlock_payments_failed env h k s b fCheckPOW fCheckMerkleRoot fCheckSig _ hstep out hr⟩
  · have hdev : devopsOutputOk env.COIN (nDevopsPayment env k s b pindex) (pindex.nTime : Int)
        env.VERION_1_0_1_5_MANDATORY_UPDATE_START od = false := by
      unfold devopsOutputOk
      rcases hlow with hl | hl
      · simp [hne, hl]
      · simp [hne, hl]
    rw [hdev] at hstep
    simp only [Bool.and_false] at hstep
    exact ⟨⟨_, hstep⟩, fun out hr =>
      CheckBlock_payments_failed env h k s b fCheckPOW fCheckMerkleRoot fCheckSig _ hstep out hr⟩
  · have hdev : devopsOutputOk env.COIN (nDevopsPayment env k s b pindex) (pindex.nTime : Int)
        env.VERION_1_0_1_5_MANDATORY_UPDATE_START od = true := by
      unfold devopsOutputOk
      simp [not_lt.mpr hlate, le_of_lt hover]
    rw [hdev] at hstep
    simp only [Bool.and_true] at hstep
    exact hstep

theorem CheckBlock_payment_amounts_witness :
    ((∃ t, devopsPaymentStep sampleCheckEnv sampleHasher sampleKinds chainUnderpaid
        sampleUnderpaid = some (false, t)) ∧
      ∀ out, CheckBlock sampleCheckEnv sampleHasher sampleKinds chainUnderpaid sampleUnderpaid
        true true true = some out → out.ok = false) ∧
    ((∃ t, devopsPaymentStep sampleCheckEnv sampleHasher sampleKinds
        (chainWith sampleShortDevops) sampleShortDevops = some (false, t)) ∧
      ∀ out, CheckBlock sampleCheckEnv sampleHasher sampleKinds (chainWith sampleShortDevops)
        sampleShortDevops true true true = some out → out.ok = false) ∧
    devopsPaymentStep sampleCheckEnv sampleHasher sampleKinds (chainWith sampleOverpaid)
      sampleOverpaid = some (true, 0) :=
  ⟨(CheckBlock_payment_amounts sampleCheckEnv sampleHasher sampleKinds chainUnderpaid
      sampleUnderpaid true true true _ _ _ _ rfl (by decide) rfl rfl rfl).1 (by decide),
   (CheckBlock_payment_amounts sampleCheckEnv sampleHasher sampleKinds
      (chainWith sampleShortDevops) sampleShortDevops true true true _ _ _ _
      rfl (by decide) rfl rfl rfl).2.1 (by decide) (Or.inr (by decide)),
   (CheckBlock_payment_amounts sampleCheckEnv sampleHasher sampleKinds
      (chainWith sampleOverpaid) sampleOverpaid true true true _ _ _ _
      rfl (by decide) rfl rfl rfl).2.2 (by decide) (by decide)⟩

/-- Outside initial download the payment verification does not read the clock. -/
theorem devopsPaymentStep_clock (env : CheckEnv) (h : Hasher) (k : TxKinds) (s : ChainState)
    (b : CBlock) (t : Int) (hinit : env.IsInitialBlockDownload s = false) :
    devopsPaymentStep { env with GetTime := t } h k s b = devopsPaymentStep env h k s b := by
  unfold devopsPaymentStep
  simp only [hinit, Bool.false_eq_true, if_false]

/-- Outside initial download `CheckBlock` does not read the clock `GetTime()`. -/
theorem CheckBlock_clock (env : CheckEnv) (h : Hasher) (k : TxKinds) (s : ChainState)
    (b : CBlock) (fCheckPOW fCheckMerkleRoot fCheckSig : Bool) (t : Int)
    (hinit : env.IsInitialBlockDownload s = false) :
    CheckBlock { env with GetTime := t } h k s b fCheckPOW fCheckMerkleRoot fCheckSig
      = CheckBlock env h k s b fCheckPOW fCheckMerkleRoot fCheckSig := by
  have h1 := devopsPaymentStep_clock env h k s b t hinit
  unfold CheckBlock checkSignatureAndPayments
  rw [h1]
  rfl

/-- C13, the counterexample: `sampleWrongPayee` is a proof-of-stake block with an index
entry past the payment fork boundary; the output at the masternode index 2 carries the
masternode amount of 150 coins and the script `[5]`, which is neither a valid masternode
payee nor the devops address.  At clock 1000, before the base time 0 plus 45 minutes,
`CheckBlock` rejects it (weight 10); and with `fMnAdvRelay` unset it is accepted at
clock 100000, after the base time plus 45 minutes. -/
theorem wrong_payee_ignores_clock :
    IsProofOfStake sampleKinds sampleWrongPayee = true ∧
    ((chainWith sampleWrongPayee).mapBlockIndex.lookup
        (GetHash sampleHasher sampleWrongPayee)).map (fun pindex => (pindex.nTime : Int))
      = some 300 ∧
    (sampleWrongPayee.vtx[1]?.bind (fun tx => tx.vout[2]?))
      = some { nValue := 15000000000, scriptPubKey := [5] } ∧
    sampleCheckEnv.IsPayeeAValidMasternode [5] = false ∧
    sampleCheckEnv.AddressToString [5] ≠ [9] ∧
    sampleCheckEnv.GetTime < sampleCheckEnv.nMasterNodeChecksDelayBaseTime + 45 * 60 ∧
    CheckBlock sampleCheckEnv sampleHasher sampleKinds (chainWith sampleWrongPayee)
        sampleWrongPayee true true true
      = some { ok := false, block := { sampleWrongPayee with nDoS := 10 },
               nMasterNodeChecksDelayBaseTime := 0 } ∧
    sampleCheckEnv.nMasterNodeChecksDelayBaseTime + 45 * 60 < 100000 ∧
    CheckBlock { sampleCheckEnv with fMnAdvRelay := false, GetTime := 100000 } sampleHasher
        sampleKinds (chainWith sampleWrongPayee) sampleWrongPayee true true true
      = some { ok := true, block := { sampleWrongPayee with vMerkleTree := [0, 1, 8] },
               nMasterNodeChecksDelayBaseTime := 0 } :=
  ⟨by decide, rfl, rfl, rfl, by decide, by decide, rfl, by decide, rfl⟩

/-- C13 (wrong masternode payee, as the code has it): for a proof-of-stake block with an
index entry past the payment fork boundary whose coinstake has 4 or 5 outputs, whose
output at the masternode index carries the whole-coin masternode amount and a script
that is neither a valid masternode payee nor the devops address, and whose devops
output passes: the payment verification accepts exactly when the node is in initial
download (engage time 0) or `fMnAdvRelay` is unset, and `CheckBlock` does not accept the
block when the engage time is set and `fMnAdvRelay` is set; outside initial download the
result of `CheckBlock` does not depend on the clock. -/
theorem CheckBlock_wrong_payee (env : CheckEnv) (h : Hasher) (k : TxKinds)
    (s : ChainState) (b : CBlock) (fCheckPOW fCheckMerkleRoot fCheckSig : Bool)
    (pindex : CBlockIndex) (tx : CTransaction) (om od : CTxOut)
    (hpos : IsProofOfWork k b = false)
    (hidx : s.mapBlockIndex.lookup (GetHash h b) = some pindex)
    (hfork : (pindex.nTime : Int) > env.VERION_1_0_0_0_MANDATORY_UPDATE_START)
    (htx : b.vtx[1]? = some tx)
    (hlen : tx.vout.length = 4 ∨ tx.vout.length = 5)
    (hm : tx.vout[(paymentLayout true tx.vout.length).1]? = some om)
    (hd : tx.vout[(paymentLayout true tx.vout.length).2.1]? = some od)
    (hamount : om.nValue.tdiv env.COIN = nMasternodePayment env k s b pindex)
    (hpayee : env.IsPayeeAValidMasternode om.scriptPubKey = false)
    (hnotdev : env.AddressToString om.scriptPubKey ≠ env.getDevelopersAdress pindex)
    (hdev : devopsOutputOk env.COIN (nDevopsPayment env k s b pindex) (pindex.nTime : Int)
      env.VERION_1_0_1_5_MANDATORY_UPDATE_START od = true) :
    devopsPaymentStep env h k s b
      = some (env.IsInitialBlockDownload s ||
            decide (env.nMasterNodeChecksDelayBaseTime + 45 * 60 = 0) || !env.fMnAdvRelay,
          if env.IsInitialBlockDownload s then env.GetTime
          else env.nMasterNodeChecksDelayBaseTime) ∧
    (env.IsInitialBlockDownload s = false →
      env.nMasterNodeChecksDelayBaseTime + 45 * 60 ≠ 0 → env.fMnAdvRelay = true →
      ∀ out, CheckBlock env h k s b fCheckPOW fCheckMerkleRoot fCheckSig = some out →
        out.ok = false) ∧
    (env.IsInitialBlockDownload s = false → ∀ t,
      CheckBlock { env with GetTime := t } h k s b fCheckPOW fCheckMerkleRoot fCheckSig
        = CheckBlock env h k s b fCheckPOW fCheckMerkleRoot fCheckSig) := by
  have hpos1 : (!IsProofOfWork k b) = true := by rw [hpos]; rfl
  have hstep := devopsPaymentStep_eq env h k s b pindex tx om od hidx hfork
    (by rw [if_pos hpos1]; exact htx) (by rw [hpos1]; exact hm) (by rw [hpos1]; exact hd)
  have hlay : (paymentLayout (!IsProofOfWork k b) tx.vout.length).2.2 = true := by
    rw [hpos1]
    unfold paymentLayout
    rcases hlen with hl | hl <;> simp [hl]
  have hmn : masternodeOutputOk env.COIN (fValidPayee env pindex) env.fMnAdvRelay
      (nMasternodePayment env k s b pindex) (nMasterNodeChecksEngageTime env s) om
      = (env.IsInitialBlockDownload s ||
          decide (env.nMasterNodeChecksDelayBaseTime + 45 * 60 = 0) || !env.fMnAdvRelay) := by
    unfold masternodeOutputOk fValidPayee nMasterNodeChecksEngageTime
    rw [hamount, hpayee]
    cases hinit : env.IsInitialBlockDownload s <;> cases env.fMnAdvRelay <;>
      by_cases h0 : env.nMasterNodeChecksDelayBaseTime + 45 * 60 = 0 <;>
      simp [hnotdev, h0]
  rw [hlay, hmn, hdev] at hstep
  simp only [Bool.true_and, Bool.and_true] at hstep
  refine ⟨hstep, fun hinit hne hrelay out hr => ?_, fun hinit t => ?_⟩
  · rw [hinit, hrelay] at hstep
    simp only [hne, decide_False, Bool.or_false, Bool.not_true, Bool.false_eq_true,
      if_false] at hstep
    exact CheckBlock_payments_failed env h k s b fCheckPOW fCheckMerkleRoot fCheckSig _ hstep
      out hr
  · exact CheckBlock_clock env h k s b fCheckPOW fCheckMerkleRoot fCheckSig t hinit

theorem CheckBlock_wrong_payee_witness :
    devopsPaymentStep sampleCheckEnv sampleHasher sampleKinds (chainWith sampleWrongPayee)
        sampleWrongPayee = some (false, 0) ∧
    (∀ out, CheckBlock sampleCheckEnv sampleHasher sampleKinds (chainWith sampleWrongPayee)
        sampleWrongPayee true true true = some out → out.ok = false) ∧
    (∀ t, CheckBlock { sampleCheckEnv with GetTime := t } sampleHasher sampleKinds
        (chainWith sampleWrongPayee) sampleWrongPayee true true true
      = CheckBlock sampleCheckEnv sampleHasher sampleKinds (chainWith sampleWrongPayee)
        sampleWrongPayee true true true) :=
  ⟨(CheckBlock_wrong_payee sampleCheckEnv sampleHasher sampleKinds
      (chainWith sampleWrongPayee) sampleWrongPayee true true true _ _ _ _
      rfl rfl (by decide) rfl (Or.inl rfl) rfl rfl (by decide) rfl (by decide) (by decide)).1,
   (CheckBlock_wrong_payee sampleCheckEnv sampleHasher sampleKinds
      (chainWith sampleWrongPayee) sampleWrongPayee true true true _ _ _ _
      rfl rfl (by decide) rfl (Or.inl rfl) rfl rfl (by decide) rfl (by decide)
      (by decide)).2.1 rfl (by decide) rfl,
   (CheckBlock_wrong_payee sampleCheckEnv sampleHasher sampleKinds
      (chainWith sampleWrongPayee) sampleWrongPayee true true true _ _ _ _
      rfl rfl (by decide) rfl (Or.inl rfl) rfl rfl (by decide) rfl (by decide)
      (by decide)).2.2 rfl⟩

/-- With the Merkle root comparison switched off, the transaction part accepts a block
exactly when the part with the comparison on reaches the comparison; a rejection is the
same rejection with the comparison on. -/
theorem checkTransactionsAndRoot_flag (env : CheckEnv) (h : Hasher) (b : CBlock)
    (baseTime : Int) (out : CheckOutcome)
    (hr : checkTransactionsAndRoot env h b baseTime false = some out) :
    (out.ok = false → checkTransactionsAndRoot env h b baseTime true = some out) ∧
    (out.ok = true → out = { ok := true, block := b, nMasterNodeChecksDelayBaseTime := baseTime } ∧
      checkTransactionsAndRoot env h b baseTime true =
        match BuildMerkleTree h b with
        | none => none
        | some (b1, root) =>
          if b.hashMerkleRoot ≠ root then rejectDoS b1 baseTime 100
          else some { ok := true, block := b1, nMasterNodeChecksDelayBaseTime := baseTime }) := by
  unfold checkTransactionsAndRoot at hr ⊢
  cases htf : transactionsFailure env.CheckTransaction b b.vtx with
  | some w =>
    try rw [htf] at hr
    try rw [htf]
    simp only at hr ⊢
    refine ⟨fun _ => hr, fun hok => ?_⟩
    have := rejectDoS_not_ok _ _ _ _ hr
    rw [hok] at this
    exact absurd this (by simp)
  | none =>
    try rw [htf] at hr
    try rw [htf]
    simp only at hr ⊢
    by_cases hdup : duplicateTransaction h b = true
    · rw [if_pos hdup] at hr ⊢
      refine ⟨fun _ => hr, fun hok => ?_⟩
      have := rejectDoS_not_ok _ _ _ _ hr
      rw [hok] at this
      exact absurd this (by simp)
    · rw [if_neg hdup] at hr ⊢
      by_cases hsig : legacySigOps env b > env.MAX_BLOCK_SIGOPS
      · rw [if_pos hsig] at hr ⊢
        refine ⟨fun _ => hr, fun hok => ?_⟩
        have := rejectDoS_not_ok _ _ _ _ hr
        rw [hok] at this
        exact absurd this (by simp)
      · rw [if_neg hsig] at hr ⊢
        simp only [Bool.false_eq_true, if_false, Option.some.injEq] at hr
        subst hr
        refine ⟨fun hok => absurd hok (by simp), fun _ => ⟨rfl, ?_⟩⟩
        rfl

/-- A rejection by the signature and payment part with the Merkle root comparison off is
the same rejection with the comparison on. -/
theorem checkSignatureAndPayments_flag (env : CheckEnv) (h : Hasher) (k : TxKinds)
    (s : ChainState) (b : CBlock) (fCheckSig : Bool) (out : CheckOutcome)
    (hr : checkSignatureAndPayments env h k s b false fCheckSig = some out)
    (hok : out.ok = false) :
    checkSignatureAndPayments env h k s b true fCheckSig = some out := by
  unfold checkSignatureAndPayments at hr ⊢
  cases hsig : (if fCheckSig then CheckBlockSignature env h k b else some true) with
  | none => (try rw [hsig] at hr); simp at hr
  | some bsig =>
    try rw [hsig] at hr
    try rw [hsig]
    cases bsig with
    | false => exact hr
    | true =>
      simp only at hr ⊢
      by_cases hlock : lockedInputConflict env h k b = true
      · rw [if_pos hlock] at hr ⊢
        exact hr
      · rw [if_neg hlock] at hr ⊢
        cases hmn : masternodePaymentStep env k s b with
        | none => (try rw [hmn] at hr); simp at hr
        | some bmn =>
          try rw [hmn] at hr
          try rw [hmn]
          cases bmn with
          | false => exact hr
          | true =>
            simp only at hr ⊢
            cases hdev : devopsPaymentStep env h k s b with
            | none => (try rw [hdev] at hr); simp at hr
            | some r =>
              obtain ⟨bdev, t⟩ := r
              try rw [hdev] at hr
              try rw [hdev]
              cases bdev with
              | false => exact hr
              | true =>
                simp only at hr ⊢
                exact (checkTransactionsAndRoot_flag env h b t out hr).1 hok

/-- The shape checks of `CheckBlock` do not look at the Merkle flag. -/
theorem CheckBlock_flag (env : CheckEnv) (h : Hasher) (k : TxKinds) (s : ChainState)
    (b : CBlock) (fCheckPOW fCheckSig : Bool) (out : CheckOutcome)
    (hst : checkSignatureAndPayments env h k s b false fCheckSig = some out →
      checkSignatureAndPayments env h k s b true fCheckSig = some out)
    (hr : CheckBlock env h k s b fCheckPOW false fCheckSig = some out) :
    CheckBlock env h k s b fCheckPOW true fCheckSig = some out := by
  unfold CheckBlock at hr ⊢
  split_ifs at hr ⊢ <;> first | exact hr | exact hst hr

/-- C14 (Merkle root check): if `CheckBlock` called with `fCheckMerkleRoot = true`
returns true then `hashMerkleRoot` is the root that `BuildMerkleTree` computes over the
transactions of the block; a block that passes every other check (`CheckBlock` with the
comparison off accepts it) and whose `hashMerkleRoot` differs from the recomputed root
is rejected with 100 added to its DoS weight; and with `fCheckMerkleRoot = false` the
root is not compared: every rejection made then is made for the same reason with the
comparison on, so the comparison is the only difference between the two calls. -/
theorem CheckBlock_merkle_root (env : CheckEnv) (h : Hasher) (k : TxKinds) (s : ChainState)
    (b : CBlock) (fCheckPOW fCheckSig : Bool) :
    (∀ out, CheckBlock env h k s b fCheckPOW true fCheckSig = some out → out.ok = true →
      (BuildMerkleTree h b).map Prod.snd = some b.hashMerkleRoot) ∧
    (∀ out0, CheckBlock env h k s b fCheckPOW false fCheckSig = some out0 →
      out0.ok = true →
      (BuildMerkleTree h b).map Prod.snd ≠ some b.hashMerkleRoot →
      ∃ b1 root, BuildMerkleTree h b = some (b1, root) ∧
        CheckBlock env h k s b fCheckPOW true fCheckSig
          = some { ok := false, block := { b1 with nDoS := b1.nDoS + 100 },
                   nMasterNodeChecksDelayBaseTime := out0.nMasterNodeChecksDelayBaseTime }) ∧
    (∀ out0, CheckBlock env h k s b fCheckPOW false fCheckSig = some out0 →
      out0.ok = false → CheckBlock env h k s b fCheckPOW true fCheckSig = some out0) := by
  refine ⟨fun out hr hok => ?_, fun out0 hr hok hne => ?_, fun out0 hr hok => ?_⟩
  · have hst := CheckBlock_ok_stage env h k s b fCheckPOW true fCheckSig out hr hok
    obtain ⟨_, _, _, t, _, htr⟩ :=
      checkSignatureAndPayments_ok env h k s b true fCheckSig out hst hok
    unfold checkTransactionsAndRoot at htr
    rw [BuildMerkleTree_eq] at htr ⊢
    have hno : ∀ b0 t n, rejectDoS b0 t n ≠ some out := by
      intro b0 t n hx
      have := rejectDoS_not_ok _ _ _ _ hx
      rw [hok] at this
      exact absurd this (by simp)
    cases htf : transactionsFailure env.CheckTransaction b b.vtx with
    | some w => rw [htf] at htr; exact absurd htr (hno _ _ _)
    | none =>
      rw [htf] at htr
      simp only at htr
      by_cases hdup : duplicateTransaction h b = true
      · rw [if_pos hdup] at htr
        exact absurd htr (hno _ _ _)
      · rw [if_neg hdup] at htr
        by_cases hsig : legacySigOps env b > env.MAX_BLOCK_SIGOPS
        · rw [if_pos hsig] at htr
          exact absurd htr (hno _ _ _)
        · rw [if_neg hsig] at htr
          simp only [if_true] at htr
          by_cases hroot : b.hashMerkleRoot ≠ refMerkleRoot h.Hash (b.vtx.map h.GetHash)
          · rw [if_pos hroot] at htr
            exact absurd htr (hno _ _ _)
          · simp only [Option.map_some']
            rw [not_not.mp hroot]
  · obtain ⟨h1, h2, h3, h4, h5, h6, h7, h8⟩ :=
      CheckBlock_ok_conditions env h k s b fCheckPOW false fCheckSig out0 hr hok
    have hst := CheckBlock_ok_stage env h k s b fCheckPOW false fCheckSig out0 hr hok
    obtain ⟨hsig, hlock, hmn, t, hdev, htr⟩ :=
      checkSignatureAndPayments_ok env h k s b false fCheckSig out0 hst hok
    obtain ⟨hout, htrue⟩ := (checkTransactionsAndRoot_flag env h b t out0 htr).2 hok
    rw [BuildMerkleTree_eq] at hne htrue ⊢
    refine ⟨_, _, rfl, ?_⟩
    rw [CheckBlock_after_shape env h k s b fCheckPOW true fCheckSig h1 h2 h3 h4 h5 h6 h7 h8]
    unfold checkSignatureAndPayments
    rw [hsig]
    simp only
    rw [hlock, hmn]
    simp only [Bool.false_eq_true, if_false]
    rw [hdev]
    simp only
    rw [htrue]
    simp only
    have hroot : b.hashMerkleRoot ≠ refMerkleRoot h.Hash (b.vtx.map h.GetHash) := by
      intro he
      apply hne
      simp only [Option.map_some']
      rw [he]
    rw [if_pos hroot, rejectDoS_eq, hout]
  · exact CheckBlock_flag env h k s b fCheckPOW fCheckSig out0
      (fun hx => checkSignatureAndPayments_flag env h k s b fCheckSig out0 hx hok) hr

theorem CheckBlock_merkle_root_witness :
    (BuildMerkleTree sampleHasher (sampleWorkBlock 8 1 10)).map Prod.snd
      = some (sampleWorkBlock 8 1 10).hashMerkleRoot ∧
    (∃ b1 root, BuildMerkleTree sampleHasher sampleBadRoot = some (b1, root) ∧
      CheckBlock sampleCheckEnv sampleHasher sampleKinds emptyChain sampleBadRoot true true true
        = some { ok := false, block := { b1 with nDoS := b1.nDoS + 100 },
                 nMasterNodeChecksDelayBaseTime := sampleCheckEnv.nMasterNodeChecksDelayBaseTime }) ∧
    CheckBlock sampleCheckEnv sampleHasher sampleKinds emptyChain sampleSignedWork true true true
      = some { ok := false, block := { sampleSignedWork with nDoS := 100 },
               nMasterNodeChecksDelayBaseTime := sampleCheckEnv.nMasterNodeChecksDelayBaseTime } :=
  ⟨(CheckBlock_merkle_root sampleCheckEnv sampleHasher sampleKinds emptyChain
      (sampleWorkBlock 8 1 10) true true).1
      { ok := true,
        block := { sampleWorkBlock 8 1 10 with vMerkleTree := [0] },
        nMasterNodeChecksDelayBaseTime := sampleCheckEnv.nMasterNodeChecksDelayBaseTime }
      rfl rfl,
   (CheckBlock_merkle_root sampleCheckEnv sampleHasher sampleKinds emptyChain
      sampleBadRoot true true).2.1
      { ok := true, block := sampleBadRoot,
        nMasterNodeChecksDelayBaseTime := sampleCheckEnv.nMasterNodeChecksDelayBaseTime }
      rfl rfl (by decide),
   (CheckBlock_merkle_root sampleCheckEnv sampleHasher sampleKinds emptyChain
      sampleSignedWork true true).2.2
      { ok := false, block := { sampleSignedWork with nDoS := 100 },
        nMasterNodeChecksDelayBaseTime := sampleCheckEnv.nMasterNodeChecksDelayBaseTime }
      rfl rfl⟩

/-! ## DoS weights -/

theorem rejectDoS_weight (b : CBlock) (t n : Int) (out : CheckOutcome)
    (hr : rejectDoS b t n = some out) : out.block.nDoS = b.nDoS + n := by
  rw [rejectDoS_eq] at hr
  simp only [Option.some.injEq] at hr
  rw [← hr]

theorem transactionsFailure_weight (f : CTransaction → Bool × Int) (b : CBlock) :
    ∀ (l : List CTransaction) (w : Int), transactionsFailure f b l = some w →
      w = 50 ∨ ∃ tx ∈ l, w = (f tx).2 := by
  intro l
  induction l with
  | nil =>
    intro w hr
    simp [transactionsFailure] at hr
  | cons tx rest ih =>
    intro w hr
    unfold transactionsFailure at hr
    split at hr
    · simp only [Option.some.injEq] at hr
      exact Or.inr ⟨tx, List.mem_cons_self _ _, hr.symm⟩
    · split at hr
      · simp only [Option.some.injEq] at hr
        exact Or.inl hr.symm
      · rcases ih w hr with h1 | ⟨t, ht, hw⟩
        · exact Or.inl h1
        · exact Or.inr ⟨t, List.mem_cons_of_mem _ ht, hw⟩

/-- What the transaction part of `CheckBlock` does to the DoS weight. -/
theorem checkTransactionsAndRoot_weight (env : CheckEnv) (h : Hasher) (b : CBlock)
    (t : Int) (m : Bool) (out : CheckOutcome)
    (hr : checkTransactionsAndRoot env h b t m = some out) :
    (out.ok = true → out.block.nDoS = b.nDoS) ∧
    (out.ok = false → ∃ w, out.block.nDoS = b.nDoS + w ∧ attachedWeight env b w) := by
  have hrej : ∀ (b0 : CBlock) (n : Int), b0.nDoS = b.nDoS → attachedWeight env b n →
      rejectDoS b0 t n = some out →
      (out.ok = true → out.block.nDoS = b.nDoS) ∧
      (out.ok = false → ∃ w, out.block.nDoS = b.nDoS + w ∧ attachedWeight env b w) := by
    intro b0 n hb0 hn hx
    have hno := rejectDoS_not_ok _ _ _ _ hx
    have hw := rejectDoS_weight _ _ _ _ hx
    refine ⟨fun hok => ?_, fun _ => ⟨n, by rw [hw, hb0], hn⟩⟩
    rw [hno] at hok
    exact absurd hok (by simp)
  unfold checkTransactionsAndRoot at hr
  rw [BuildMerkleTree_eq] at hr
  cases htf : transactionsFailure env.CheckTransaction b b.vtx with
  | some w =>
    rw [htf] at hr
    refine hrej b w rfl ?_ hr
    rcases transactionsFailure_weight _ _ _ _ htf with h1 | ⟨tx, htx, hw⟩
    · exact Or.inr (Or.inr (Or.inl h1))
    · exact Or.inr (Or.inr (Or.inr (Or.inr ⟨tx, htx, hw⟩)))
  | none =>
    rw [htf] at hr
    simp only at hr
    have h100 : attachedWeight env b 100 := Or.inr (Or.inr (Or.inr (Or.inl rfl)))
    split at hr
    · exact hrej _ 100 (by rfl) h100 hr
    · split at hr
      · exact hrej _ 100 (by rfl) h100 hr
      · split at hr
        · split at hr
          · exact hrej _ 100 (by rfl) h100 hr
          · simp only [Option.some.injEq] at hr
            rw [← hr]
            exact ⟨fun _ => rfl, fun hx => absurd hx (by simp)⟩
        · simp only [Option.some.injEq] at hr
          rw [← hr]
          exact ⟨fun _ => rfl, fun hx => absurd hx (by simp)⟩

/-- What `CheckBlock` does to the DoS weight: nothing when it returns true, one
attached weight when it returns false. -/
theorem CheckBlock_weight (env : CheckEnv) (h : Hasher) (k : TxKinds) (s : ChainState)
    (b : CBlock) (p m g : Bool) (out : CheckOutcome)
    (hr : CheckBlock env h k s b p m g = some out) :
    (out.ok = true → out.block.nDoS = b.nDoS) ∧
    (out.ok = false → ∃ w, out.block.nDoS = b.nDoS + w ∧ attachedWeight env b w) := by
  have hrej : ∀ (t n : Int), attachedWeight env b n → rejectDoS b t n = some out →
      (out.ok = true → out.block.nDoS = b.nDoS) ∧
      (out.ok = false → ∃ w, out.block.nDoS = b.nDoS + w ∧ attachedWeight env b w) := by
    intro t n hn hx
    have hno := rejectDoS_not_ok _ _ _ _ hx
    have hw := rejectDoS_weight _ _ _ _ hx
    refine ⟨fun hok => ?_, fun _ => ⟨n, hw, hn⟩⟩
    rw [hno] at hok
    exact absurd hok (by simp)
  have h0 : attachedWeight env b 0 := Or.inl rfl
  have h10 : attachedWeight env b 10 := Or.inr (Or.inl rfl)
  have h50 : attachedWeight env b 50 := Or.inr (Or.inr (Or.inl rfl))
  have h100 : attachedWeight env b 100 := Or.inr (Or.inr (Or.inr (Or.inl rfl)))
  unfold CheckBlock at hr
  split at hr
  · exact hrej _ _ h100 hr
  split at hr
  · exact hrej _ _ h50 hr
  split at hr
  · unfold rejectPlain at hr
    simp only [Option.some.injEq] at hr
    rw [← hr]
    exact ⟨fun hx => absurd hx (by simp), fun _ => ⟨0, by simp, h0⟩⟩
  split at hr
  · exact hrej _ _ h100 hr
  split at hr
  · exact hrej _ _ h100 hr
  split at hr
  · exact hrej _ _ h100 hr
  split at hr
  · exact hrej _ _ h100 hr
  split at hr
  · exact hrej _ _ h100 hr
  unfold checkSignatureAndPayments at hr
  split at hr
  · simp at hr
  · exact hrej _ _ h100 hr
  · split at hr
    · exact hrej _ _ h0 hr
    · split at hr
      · simp at hr
      · exact hrej _ _ h100 hr
      · split at hr
        · simp at hr
        · exact hrej _ _ h10 hr
        · exact checkTransactionsAndRoot_weight env h b _ m out hr

theorem inflationLoop_weight (gm : CTransaction → Option Bool)
    (gi go : CTransaction → Option Int) :
    ∀ (l : List CTransaction) (i o n : Int),
      inflationLoop gm gi go l i o = InflationResult.rejected n → n = 10 ∨ n = 100 := by
  intro l
  induction l with
  | nil =>
    intro i o n hr
    simp [inflationLoop] at hr
  | cons tx rest ih =>
    intro i o n hr
    rw [inflationLoop] at hr
    repeat' split at hr
    all_goals first
      | exact ih _ _ _ hr
      | (simp only [InflationResult.rejected.injEq] at hr
         first | exact Or.inl hr.symm | exact Or.inr hr.symm)
      | simp at hr

theorem inflationStep_weight (a : AcceptEnv) (env : CheckEnv) (b : CBlock) (nHeight n : Int)
    (hr : inflationStep a env b nHeight = some n) : n = 10 ∨ n = 100 := by
  unfold inflationStep at hr
  split at hr
  · simp only at hr
    split at hr
    · split at hr
      · simp only [Option.some.injEq] at hr
        exact Or.inr hr.symm
      · simp at hr
    · rename_i w hl
      simp only [Option.some.injEq] at hr
      rw [← hr]
      exact inflationLoop_weight _ _ _ _ _ _ _ hl
    · split at hr
      · simp only [Option.some.injEq] at hr
        exact Or.inr hr.symm
      · simp at hr
  · simp at hr

theorem earlyRejection_weight (a : AcceptEnv) (env : CheckEnv) (k : TxKinds) (s : ChainState)
    (b : CBlock) (pindexPrev : CBlockIndex) (nHeight n : Int)
    (hr : earlyRejection a env k s b pindexPrev nHeight = some (some n)) :
    n = 50 ∨ n = 100 := by
  unfold earlyRejection at hr
  repeat' split at hr
  all_goals first
    | (simp only [Option.some.injEq] at hr
       first | exact Or.inl hr.symm | exact Or.inr hr.symm)
    | (simp at hr; done)
    | (generalize (Option.map _ b.vtx[1]?) = x at hr
       rcases x with _ | _ | _
       · simp at hr
       · simp at hr
       · simp only [Option.some.injEq] at hr
         exact Or.inl hr.symm)

/-- What `AcceptBlock` does to the DoS weight: nothing when it returns true, one weight
when it returns false. -/
theorem AcceptBlock_weight (a : AcceptEnv) (env : CheckEnv) (c : ChainEnv) (h : Hasher)
    (k : TxKinds) (s : ChainState) (b : CBlock) (out : AcceptOutcome)
    (hr : AcceptBlock a env c h k s b = some out) :
    (out.ok = true → out.block.nDoS = b.nDoS) ∧
    (out.ok = false → ∃ w, out.block.nDoS = b.nDoS + w ∧ acceptWeight a s b w) := by
  have hrej : ∀ (n : Int), acceptWeight a s b n → acceptDoS s b n = some out →
      (out.ok = true → out.block.nDoS = b.nDoS) ∧
      (out.ok = false → ∃ w, out.block.nDoS = b.nDoS + w ∧ acceptWeight a s b w) := by
    intro n hn hx
    unfold acceptDoS DoS at hx
    simp only [Option.some.injEq] at hx
    rw [← hx]
    exact ⟨fun hok => absurd hok (by simp), fun _ => ⟨n, rfl, hn⟩⟩
  have herr : acceptError s b = some out →
      (out.ok = true → out.block.nDoS = b.nDoS) ∧
      (out.ok = false → ∃ w, out.block.nDoS = b.nDoS + w ∧ acceptWeight a s b w) := by
    intro hx
    unfold acceptError at hx
    simp only [Option.some.injEq] at hx
    rw [← hx]
    exact ⟨fun hok => absurd hok (by simp), fun _ => ⟨0, by simp, Or.inl rfl⟩⟩
  have h10 : acceptWeight a s b 10 := Or.inr (Or.inl rfl)
  have h100 : acceptWeight a s b 100 := Or.inr (Or.inr (Or.inr (Or.inl rfl)))
  have hof : ∀ n : Int, n = 50 ∨ n = 100 → acceptWeight a s b n := by
    intro n hn
    rcases hn with e | e
    · exact Or.inr (Or.inr (Or.inl e))
    · exact Or.inr (Or.inr (Or.inr (Or.inl e)))
  have hof2 : ∀ n : Int, n = 10 ∨ n = 100 → acceptWeight a s b n := by
    intro n hn
    rcases hn with e | e
    · exact Or.inr (Or.inl e)
    · exact Or.inr (Or.inr (Or.inr (Or.inl e)))
  unfold AcceptBlock at hr
  split at hr
  · exact herr hr
  split at hr
  · exact hrej _ h10 hr
  simp only at hr
  split at hr
  · simp at hr
  · rename_i n he
    exact hrej _ (hof n (earlyRejection_weight _ _ _ _ _ _ _ _ he)) hr
  unfold acceptFromDifficulty at hr
  split at hr
  · exact hrej _ h100 hr
  unfold acceptFromTimestamp at hr
  split at hr
  · exact herr hr
  unfold acceptFromFinality at hr
  split at hr
  · exact hrej _ h10 hr
  unfold acceptFromInflation at hr
  split at hr
  · rename_i n hi
    exact hrej _ (hof2 n (inflationStep_weight _ _ _ _ _ hi)) hr
  unfold acceptFromCheckpoints at hr
  split at hr
  · exact hrej _ h100 hr
  simp only at hr
  split at hr
  · simp at hr
  · exact herr hr
  split at hr
  · exact herr hr
  split at hr
  · simp at hr
  split at hr
  · exact hrej _ h100 hr
  split at hr
  · exact herr hr
  split at hr
  · exact herr hr
  split at hr
  · simp at hr
  · simp only [Option.some.injEq] at hr
    rw [← hr]
    exact ⟨fun hok => absurd hok (by simp),
      fun _ => ⟨a.nestedDoS s b, rfl, Or.inr (Or.inr (Or.inr (Or.inr rfl)))⟩⟩
  · simp only [Option.some.injEq] at hr
    rw [← hr]
    exact ⟨fun _ => rfl, fun hx => absurd hx (by simp)⟩

theorem connectLoop_weight (k : TxKinds) (f : CTransaction → Nat) (conn : ConnectEnv)
    (maxSigOps : Nat) :
    ∀ (l seen : List CTransaction) (t : ConnectTotals) (n : Int),
      connectLoop k f conn maxSigOps seen l t = ConnectStep.dos n → n = 100 := by
  intro l
  induction l with
  | nil =>
    intro seen t n hr
    simp [connectLoop] at hr
  | cons tx rest ih =>
    intro seen t n hr
    rw [connectLoop] at hr
    simp only at hr
    repeat' split at hr
    all_goals first
      | exact ih _ _ _ hr
      | (simp only [ConnectStep.dos.injEq] at hr
         exact hr.symm)
      | simp at hr

theorem rewardCaps_weight (env : CheckEnv) (conn : ConnectEnv) (k : TxKinds) (s : ChainState)
    (b : CBlock) (pindex : CBlockIndex) (t : ConnectTotals) (n : Int)
    (hr : rewardCaps env conn k s b pindex t = some (ConnectStep.dos n)) :
    n = 50 ∨ n = 100 := by
  unfold rewardCaps at hr
  simp only at hr
  repeat' split at hr
  all_goals first
    | (simp only [Option.some.injEq, ConnectStep.dos.injEq] at hr
       first | exact Or.inl hr.symm | exact Or.inr hr.symm)
    | simp at hr

/-- What `ConnectBlock` does to the DoS weight: nothing when it returns true, one
attached weight when it returns false. -/
theorem ConnectBlock_weight (env : CheckEnv) (conn : ConnectEnv) (h : Hasher) (k : TxKinds)
    (s : ChainState) (b : CBlock) (pindex : uint256) (fJustCheck : Bool)
    (out : ConnectOutcome)
    (hr : ConnectBlock env conn h k s b pindex fJustCheck = some out) :
    (out.ok = true → out.block.nDoS = b.nDoS) ∧
    (out.ok = false → ∃ w, out.block.nDoS = b.nDoS + w ∧ attachedWeight env b w) := by
  unfold ConnectBlock at hr
  split at hr
  · simp at hr
  rename_i checked hcheck
  obtain ⟨hc1, hc2⟩ := CheckBlock_weight env h k s b _ _ _ checked hcheck
  split at hr
  · rename_i hnot
    have hfalse : checked.ok = false := by simpa using hnot
    simp only [Option.some.injEq] at hr
    rw [← hr]
    exact ⟨fun hx => absurd hx (by simp), fun _ => hc2 hfalse⟩
  rename_i hnot
  have htrue : checked.ok = true := by simpa using hnot
  have hb1 := hc1 htrue
  have h0 : attachedWeight env b 0 := Or.inl rfl
  have hplain : ∀ ok : Bool,
      (({ ok := ok, block := checked.block,
          nMasterNodeChecksDelayBaseTime := checked.nMasterNodeChecksDelayBaseTime,
          MAX_BLOCK_SIZE := out.MAX_BLOCK_SIZE, MAX_BLOCK_SIGOPS := out.MAX_BLOCK_SIGOPS }
          : ConnectOutcome) = out) →
      (out.ok = true → out.block.nDoS = b.nDoS) ∧
      (out.ok = false → ∃ w, out.block.nDoS = b.nDoS + w ∧ attachedWeight env b w) := by
    intro ok hx
    rw [← hx]
    exact ⟨fun _ => hb1, fun _ => ⟨0, by simp [hb1], h0⟩⟩
  have hdos : ∀ n : Int, attachedWeight env b n →
      (({ ok := false, block := (DoS checked.block n false).2,
          nMasterNodeChecksDelayBaseTime := checked.nMasterNodeChecksDelayBaseTime,
          MAX_BLOCK_SIZE := out.MAX_BLOCK_SIZE, MAX_BLOCK_SIGOPS := out.MAX_BLOCK_SIGOPS }
          : ConnectOutcome) = out) →
      (out.ok = true → out.block.nDoS = b.nDoS) ∧
      (out.ok = false → ∃ w, out.block.nDoS = b.nDoS + w ∧ attachedWeight env b w) := by
    intro n hn hx
    rw [← hx]
    refine ⟨fun hx => absurd hx (by simp), fun _ => ⟨n, ?_, hn⟩⟩
    show (DoS checked.block n false).2.nDoS = b.nDoS + n
    unfold DoS
    simp only
    rw [hb1]
  split at hr
  · simp at hr
  simp only at hr
  split at hr
  · rename_i n hl
    simp only [Option.some.injEq] at hr
    have hn := connectLoop_weight _ _ _ _ _ _ _ _ hl
    subst hr
    exact hdos n (by rw [hn]; exact Or.inr (Or.inr (Or.inr (Or.inl rfl)))) rfl
  · simp only [Option.some.injEq] at hr
    subst hr
    exact hplain false rfl
  · split at hr
    · simp at hr
    · rename_i n hc
      simp only [Option.some.injEq] at hr
      have hn := rewardCaps_weight _ _ _ _ _ _ _ _ hc
      subst hr
      refine hdos n ?_ rfl
      rcases hn with e | e
      · rw [e]; exact Or.inr (Or.inr (Or.inl rfl))
      · rw [e]; exact Or.inr (Or.inr (Or.inr (Or.inl rfl)))
    · simp only [Option.some.injEq] at hr
      subst hr
      exact hplain false rfl
    · split at hr
      · simp at hr
      · rename_i ok _
        simp only [Option.some.injEq] at hr
        subst hr
        exact hplain ok rfl

/-- C15, the counterexample: `CheckBlock` fails on the block `sampleNoCoinbase`, whose
DoS weight was 0, and leaves the weight 100; a second failing `CheckBlock` on the same
block leaves the weight 200. -/
theorem DoS_weight_exceeds_100 :
    sampleNoCoinbase.nDoS = 0 ∧
    (CheckBlock sampleCheckEnv sampleHasher sampleKinds emptyChain sampleNoCoinbase
        true true true).map (fun out => (out.ok, out.block))
      = some (false, sampleNoCoinbaseChecked) ∧
    sampleNoCoinbaseChecked.nDoS = 100 ∧
    (CheckBlock sampleCheckEnv sampleHasher sampleKinds emptyChain sampleNoCoinbaseChecked
        true true true).map (fun out => (out.ok, out.block.nDoS))
      = some (false, 200) := by
  refine ⟨rfl, by decide, by decide, by decide⟩

/-- C15 (DoS weights, as the code has them): `DoS` adds its weight to `nDoS`, which is
never reset.  A failing call of `CheckBlock`, `AcceptBlock` or `ConnectBlock` adds one
weight to the `nDoS` the block had before the call: 0, 10, 50 or 100, the weight of the
transaction whose `CheckTransaction` failed, or (for `AcceptBlock`) the weight left by
the `ConnectBlock` run inside `AddToBlockIndex`.  Hence a failing `CheckBlock` or
`ConnectBlock` on a block whose weight was 0 and whose transactions carry weights in
0..100 leaves a weight in 0..100; over several failing calls the weights add up. -/
theorem DoS_weight_accumulates (env : CheckEnv) (conn : ConnectEnv) (a : AcceptEnv)
    (c : ChainEnv) (h : Hasher) (k : TxKinds) (s : ChainState) (b : CBlock) :
    (∀ p m g out, CheckBlock env h k s b p m g = some out → out.ok = false →
      ∃ w, out.block.nDoS = b.nDoS + w ∧ attachedWeight env b w) ∧
    (∀ out, AcceptBlock a env c h k s b = some out → out.ok = false →
      ∃ w, out.block.nDoS = b.nDoS + w ∧ acceptWeight a s b w) ∧
    (∀ pindex fJustCheck out,
      ConnectBlock env conn h k s b pindex fJustCheck = some out → out.ok = false →
      ∃ w, out.block.nDoS = b.nDoS + w ∧ attachedWeight env b w) ∧
    (b.nDoS = 0 →
      (∀ tx ∈ b.vtx, 0 ≤ (env.CheckTransaction tx).2 ∧ (env.CheckTransaction tx).2 ≤ 100) →
      (∀ p m g out, CheckBlock env h k s b p m g = some out → out.ok = false →
        0 ≤ out.block.nDoS ∧ out.block.nDoS ≤ 100) ∧
      (∀ pindex fJustCheck out,
        ConnectBlock env conn h k s b pindex fJustCheck = some out → out.ok = false →
        0 ≤ out.block.nDoS ∧ out.block.nDoS ≤ 100)) := by
  have hbound : b.nDoS = 0 →
      (∀ tx ∈ b.vtx, 0 ≤ (env.CheckTransaction tx).2 ∧ (env.CheckTransaction tx).2 ≤ 100) →
      ∀ (n w : Int), n = b.nDoS + w → attachedWeight env b w → 0 ≤ n ∧ n ≤ 100 := by
    intro h0 htx n w hn hw
    rw [h0, zero_add] at hn
    rw [hn]
    rcases hw with e | e | e | e | ⟨tx, hmem, e⟩
    · rw [e]; exact ⟨by norm_num, by norm_num⟩
    · rw [e]; exact ⟨by norm_num, by norm_num⟩
    · rw [e]; exact ⟨by norm_num, by norm_num⟩
    · rw [e]; exact ⟨by norm_num, by norm_num⟩
    · rw [e]; exact htx tx hmem
  refine ⟨fun p m g out hr hok => (CheckBlock_weight env h k s b p m g out hr).2 hok,
    fun out hr hok => (AcceptBlock_weight a env c h k s b out hr).2 hok,
    fun pindex fJustCheck out hr hok =>
      (ConnectBlock_weight env conn h k s b pindex fJustCheck out hr).2 hok,
    fun h0 htx => ⟨fun p m g out hr hok => ?_, fun pindex fJustCheck out hr hok => ?_⟩⟩
  · obtain ⟨w, hn, hw⟩ := (CheckBlock_weight env h k s b p m g out hr).2 hok
    exact hbound h0 htx _ w hn hw
  · obtain ⟨w, hn, hw⟩ := (ConnectBlock_weight env conn h k s b pindex fJustCheck out hr).2 hok
    exact hbound h0 htx _ w hn hw

theorem DoS_weight_accumulates_witness :
    (∃ w, sampleNoCoinbaseChecked.nDoS = sampleNoCoinbase.nDoS + w ∧
      attachedWeight sampleCheckEnv sampleNoCoinbase w) ∧
    (∃ w, (100 : Int) = (sampleTimed 100 99).nDoS + w ∧
      acceptWeight sampleAcceptEnv chainGenesis (sampleTimed 100 99) w) ∧
    (∃ w, (50 : Int) = sampleGreedy.nDoS + w ∧ attachedWeight sampleCheckEnv sampleGreedy w) ∧
    (0 ≤ sampleNoCoinbaseChecked.nDoS ∧ sampleNoCoinbaseChecked.nDoS ≤ 100) :=
  ⟨(DoS_weight_accumulates sampleCheckEnv sampleConnectEnv sampleAcceptEnv sampleChainEnv
      sampleHasher sampleKinds emptyChain sampleNoCoinbase).1 true true true
      { ok := false, block := sampleNoCoinbaseChecked, nMasterNodeChecksDelayBaseTime := 0 }
      (by decide) rfl,
   (DoS_weight_accumulates sampleCheckEnv sampleConnectEnv sampleAcceptEnv sampleChainEnv
      sampleHasher sampleKinds chainGenesis (sampleTimed 100 99)).2.1
      { ok := false, block := { sampleTimed 100 99 with nDoS := 100 }, chain := chainGenesis }
      (by decide) rfl,
   (DoS_weight_accumulates sampleCheckEnv sampleConnectEnv sampleAcceptEnv sampleChainEnv
      sampleHasher sampleKinds chainGenesis sampleGreedy).2.2.1 1 false
      { ok := false, block := { sampleGreedy with vMerkleTree := [0], nDoS := 50 },
        nMasterNodeChecksDelayBaseTime := 0, MAX_BLOCK_SIZE := 1000000,
        MAX_BLOCK_SIGOPS := 20000 }
      (by decide) rfl,
   ((DoS_weight_accumulates sampleCheckEnv sampleConnectEnv sampleAcceptEnv sampleChainEnv
      sampleHasher sampleKinds emptyChain sampleNoCoinbase).2.2.2 rfl (by decide)).1
      true true true
      { ok := false, block := sampleNoCoinbaseChecked, nMasterNodeChecksDelayBaseTime := 0 }
      (by decide) rfl⟩

/-! ## What a failing chain selection leaves behind -/

@[simp] theorem emit_published (s : ChainState) (e : Event) :
    (s.emit e).published = s.published := rfl

theorem SetBestChainInner_published (c : ChainEnv) (h : Hasher) (s s' : ChainState)
    (b : CBlock) (p : uint256) (r : Bool) (hr : SetBestChainInner c h s b p = some (r, s')) :
    s'.published = s.published := by
  unfold SetBestChainInner at hr
  simp only at hr
  repeat' split at hr
  all_goals first
    | (simp only [Option.some.injEq, Prod.mk.injEq] at hr
       obtain ⟨_, rfl⟩ := hr
       rfl)
    | simp at hr

theorem connectFurther_published (c : ChainEnv) (h : Hasher) :
    ∀ (l : List uint256) (s s' : ChainState), connectFurther c h l s = some s' →
      s'.published = s.published := by
  intro l
  induction l with
  | nil =>
    intro s s' hr
    simp only [connectFurther, Option.some.injEq] at hr
    rw [← hr]
  | cons p rest ih =>
    intro s s' hr
    unfold connectFurther at hr
    simp only at hr
    split at hr
    · simp only [Option.some.injEq] at hr
      rw [← hr]; rfl
    · split at hr
      · simp only [Option.some.injEq] at hr
        rw [← hr]; rfl
      · split at hr
        · exact absurd hr (by simp)
        · rename_i s2 hinner
          simp only [Option.some.injEq] at hr
          rw [← hr, SetBestChainInner_published _ _ _ _ _ _ _ hinner]; rfl
        · rename_i s2 hinner
          rw [ih _ _ hr, SetBestChainInner_published _ _ _ _ _ _ _ hinner]; rfl

theorem switchChain_published (c : ChainEnv) (h : Hasher) (s s' : ChainState) (b : CBlock)
    (p : uint256) (hr : switchChain c h s b p = some (false, s')) :
    s'.published = s.published := by
  unfold switchChain at hr
  simp only at hr
  split at hr
  · split at hr
    · simp only [Option.some.injEq, Prod.mk.injEq] at hr
      rw [← hr.2]; rfl
    · simp at hr
  · split at hr
    · exact SetBestChainInner_published _ _ _ _ _ _ _ hr
    · split at hr
      · exact absurd hr (by simp)
      · split at hr
        · simp only [Option.some.injEq, Prod.mk.injEq] at hr
          rw [← hr.2]; rfl
        · split at hr
          · exact absurd hr (by simp)
          · simp at hr

/-- A failing `SetBestChain` leaves the published best chain and the genesis pointer
as they were. -/
theorem SetBestChain_published (c : ChainEnv) (h : Hasher) (s s' : ChainState) (b : CBlock)
    (p : uint256) (hr : SetBestChain c h s b p = some (false, s')) :
    s'.published = s.published := by
  unfold SetBestChain at hr
  simp only at hr
  split at hr
  · simp only [Option.some.injEq, Prod.mk.injEq, true_and] at hr
    rw [← hr]; rfl
  · split at hr
    · simp at hr
    · rename_i s2 hsw
      simp only [Option.some.injEq, Prod.mk.injEq, true_and] at hr
      rw [← hr, switchChain_published _ _ _ _ _ _ hsw]; rfl
    · split at hr
      · simp at hr
      · simp at hr

theorem publishEntry_published (c : ChainEnv) (h : Hasher) (s2 s' : ChainState) (b : CBlock)
    (e : CBlockIndex) (hr : publishEntry c h s2 b e = some (false, s')) :
    s'.published = s2.published := by
  unfold publishEntry at hr
  simp only at hr
  split at hr
  · simp only [Option.some.injEq, Prod.mk.injEq, true_and] at hr
    rw [← hr]; rfl
  · split at hr
    · simp only [Option.some.injEq, Prod.mk.injEq, true_and] at hr
      rw [← hr]; rfl
    · split at hr
      · simp at hr
      · rename_i s5 hbest
        simp only [Option.some.injEq, Prod.mk.injEq, true_and] at hr
        subst hr
        split at hbest
        · rw [SetBestChain_published _ _ _ _ _ _ hbest]; rfl
        · simp at hbest
      · repeat' split at hr
        all_goals simp at hr

/-- A failing `AddToBlockIndex` leaves the published best chain and the genesis pointer
as they were; the index map is the old one or the old one with the new entry. -/
theorem AddToBlockIndex_false (c : ChainEnv) (h : Hasher) (k : TxKinds) (s s' : ChainState)
    (b : CBlock) (nFile nBlockPos : Nat) (hashProof : uint256)
    (hr : AddToBlockIndex c h k s b nFile nBlockPos hashProof = some (false, s')) :
    s'.published = s.published ∧
    (s'.mapBlockIndex = s.mapBlockIndex ∨
      ∃ e, s'.mapBlockIndex = (GetHash h b, e) :: s.mapBlockIndex) := by
  unfold AddToBlockIndex at hr
  simp only at hr
  split at hr
  · simp only [Option.some.injEq, Prod.mk.injEq, true_and] at hr
    rw [← hr]
    exact ⟨rfl, Or.inl rfl⟩
  · split at hr
    · simp at hr
    · split at hr
      · simp at hr
      · simp only [Option.some.injEq, Prod.mk.injEq, true_and] at hr
        rw [← hr]
        exact ⟨rfl, Or.inl rfl⟩
      · rename_i e3 _ pindexNew _
        have hp := publishEntry_published _ _ _ _ _ _ hr
        have hm := publishEntry_map _ _ _ _ _ _ _ hr
        exact ⟨by rw [hp]; rfl, Or.inr ⟨pindexNew, by rw [hm]; rfl⟩⟩

/-- C16, the counterexample: on the chain that holds the genesis block, `AddToBlockIndex`
of the trust-100 child returns false when `ConnectBlock` fails and when the ledger
cannot begin a transaction, and both times the block index map has gained the entry of
the child (hash 2). -/
theorem failed_AddToBlockIndex_keeps_entry :
    AddToBlockIndex failedConnectEnv sampleHasher sampleKinds chainGenesis sampleChild100 0 0 0
      = some (false, chainFailedConnect) ∧
    AddToBlockIndex brokenLedgerEnv sampleHasher sampleKinds chainGenesis sampleChild100 0 0 0
      = some (false, chainBrokenLedger) ∧
    chainGenesis.mapBlockIndex.map Prod.fst = [1] ∧
    chainFailedConnect.mapBlockIndex.map Prod.fst = [2, 1] ∧
    chainBrokenLedger.mapBlockIndex.map Prod.fst = [2, 1] ∧
    chainFailedConnect.mapBlockIndex ≠ chainGenesis.mapBlockIndex ∧
    chainBrokenLedger.mapBlockIndex ≠ chainGenesis.mapBlockIndex := by
  refine ⟨by decide, by decide, by decide, by decide, by decide, by decide, by decide⟩

/-- C16 (failure of chain selection, as the code has it): whenever `SetBestChain` or
`AddToBlockIndex` returns false, the best hash, best tip, best height, best trust and
the genesis pointer are what they were before the call.  The block index map is not
restored by `AddToBlockIndex`: it is the map from before the call, or that map with the
entry of the new block in front when the failure came after the insertion. -/
theorem chain_selection_failure (c : ChainEnv) (h : Hasher) (k : TxKinds) (s s' : ChainState)
    (b : CBlock) :
    (∀ pindexNew, SetBestChain c h s b pindexNew = some (false, s') →
      s'.hashBestChain = s.hashBestChain ∧ s'.pindexBest = s.pindexBest ∧
      s'.nBestHeight = s.nBestHeight ∧ s'.nBestChainTrust = s.nBestChainTrust ∧
      s'.pindexGenesisBlock = s.pindexGenesisBlock) ∧
    (∀ nFile nBlockPos hashProof,
      AddToBlockIndex c h k s b nFile nBlockPos hashProof = some (false, s') →
      s'.hashBestChain = s.hashBestChain ∧ s'.pindexBest = s.pindexBest ∧
      s'.nBestHeight = s.nBestHeight ∧ s'.nBestChainTrust = s.nBestChainTrust ∧
      s'.pindexGenesisBlock = s.pindexGenesisBlock ∧
      (s'.mapBlockIndex = s.mapBlockIndex ∨
        ∃ e, s'.mapBlockIndex = (GetHash h b, e) :: s.mapBlockIndex)) := by
  refine ⟨fun p hr => ?_, fun nFile nBlockPos hashProof hr => ?_⟩
  · have hp := SetBestChain_published c h s s' b p hr
    unfold ChainState.published at hp
    simp only [Prod.mk.injEq] at hp
    exact hp
  · obtain ⟨hp, hm⟩ := AddToBlockIndex_false c h k s s' b nFile nBlockPos hashProof hr
    unfold ChainState.published at hp
    simp only [Prod.mk.injEq] at hp
    exact ⟨hp.1, hp.2.1, hp.2.2.1, hp.2.2.2.1, hp.2.2.2.2, hm⟩

theorem chain_selection_failure_witness :
    ((chainGenesis.emit Event.TxnBegin).hashBestChain = chainGenesis.hashBestChain ∧
      (chainGenesis.emit Event.TxnBegin).pindexBest = chainGenesis.pindexBest ∧
      (chainGenesis.emit Event.TxnBegin).nBestHeight = chainGenesis.nBestHeight ∧
      (chainGenesis.emit Event.TxnBegin).nBestChainTrust = chainGenesis.nBestChainTrust ∧
      (chainGenesis.emit Event.TxnBegin).pindexGenesisBlock = chainGenesis.pindexGenesisBlock) ∧
    (chainFailedConnect.hashBestChain = chainGenesis.hashBestChain ∧
      chainFailedConnect.pindexBest = chainGenesis.pindexBest ∧
      chainFailedConnect.nBestHeight = chainGenesis.nBestHeight ∧
      chainFailedConnect.nBestChainTrust = chainGenesis.nBestChainTrust ∧
      chainFailedConnect.pindexGenesisBlock = chainGenesis.pindexGenesisBlock ∧
      (chainFailedConnect.mapBlockIndex = chainGenesis.mapBlockIndex ∨
        ∃ e, chainFailedConnect.mapBlockIndex
          = (GetHash sampleHasher sampleChild100, e) :: chainGenesis.mapBlockIndex)) :=
  ⟨(chain_selection_failure brokenLedgerEnv sampleHasher sampleKinds chainGenesis
      (chainGenesis.emit Event.TxnBegin) sampleChild100).1 2 (by decide),
   (chain_selection_failure failedConnectEnv sampleHasher sampleKinds chainGenesis
      chainFailedConnect sampleChild100).2 0 0 0 (by decide)⟩

/-! ## The steps of `AcceptBlock` -/

/-- A block that is new, whose previous entry is indexed and that passes the checks in
front of the difficulty check, reaches the difficulty check. -/
theorem AcceptBlock_at_difficulty (a : AcceptEnv) (env : CheckEnv) (c : ChainEnv) (h : Hasher)
    (k : TxKinds) (s : ChainState) (b : CBlock) (pindexPrev : CBlockIndex)
    (hnew : s.mapBlockIndex.lookup (GetHash h b) = none)
    (hprev : s.mapBlockIndex.lookup b.hashPrevBlock = some pindexPrev)
    (hearly : earlyRejection a env k s b pindexPrev (pindexPrev.nHeight + 1) = some none) :
    AcceptBlock a env c h k s b
      = acceptFromDifficulty a env c h k s b pindexPrev (pindexPrev.nHeight + 1)
          (if IsProofOfWork k b then GetPoWHash h b else 0) := by
  unfold AcceptBlock
  rw [hnew, hprev]
  simp only [Option.isSome_none, Bool.false_eq_true, if_false]
  rw [hearly]

/-- A block that also passes the difficulty check reaches the timestamp check. -/
theorem AcceptBlock_at_timestamp (a : AcceptEnv) (env : CheckEnv) (c : ChainEnv) (h : Hasher)
    (k : TxKinds) (s : ChainState) (b : CBlock) (pindexPrev : CBlockIndex)
    (hnew : s.mapBlockIndex.lookup (GetHash h b) = none)
    (hprev : s.mapBlockIndex.lookup b.hashPrevBlock = some pindexPrev)
    (hearly : earlyRejection a env k s b pindexPrev (pindexPrev.nHeight + 1) = some none)
    (hdiff : incorrectProof a k s b pindexPrev (pindexPrev.nHeight + 1) = false) :
    AcceptBlock a env c h k s b
      = acceptFromTimestamp a env c h k s b pindexPrev (pindexPrev.nHeight + 1)
          (if IsProofOfWork k b then GetPoWHash h b else 0) := by
  rw [AcceptBlock_at_difficulty a env c h k s b pindexPrev hnew hprev hearly]
  unfold acceptFromDifficulty
  rw [hdiff]
  simp only [Bool.false_eq_true, if_false]

/-- A block that also passes the timestamp and finality checks reaches the
anti-inflation check. -/
theorem AcceptBlock_at_inflation (a : AcceptEnv) (env : CheckEnv) (c : ChainEnv) (h : Hasher)
    (k : TxKinds) (s : ChainState) (b : CBlock) (pindexPrev : CBlockIndex)
    (hnew : s.mapBlockIndex.lookup (GetHash h b) = none)
    (hprev : s.mapBlockIndex.lookup b.hashPrevBlock = some pindexPrev)
    (hearly : earlyRejection a env k s b pindexPrev (pindexPrev.nHeight + 1) = some none)
    (hdiff : incorrectProof a k s b pindexPrev (pindexPrev.nHeight + 1) = false)
    (htime : timestampTooEarly a env s b pindexPrev = false)
    (hfinal : b.vtx.any (fun tx => !a.IsFinalTx tx (pindexPrev.nHeight + 1) (GetBlockTime b))
      = false) :
    AcceptBlock a env c h k s b
      = acceptFromInflation a env c h k s b pindexPrev (pindexPrev.nHeight + 1)
          (if IsProofOfWork k b then GetPoWHash h b else 0) := by
  rw [AcceptBlock_at_timestamp a env c h k s b pindexPrev hnew hprev hearly hdiff]
  unfold acceptFromTimestamp
  rw [htime]
  simp only [Bool.false_eq_true, if_false]
  unfold acceptFromFinality
  rw [hfinal]
  simp only [Bool.false_eq_true, if_false]

/-- C20 (difficulty check and its allow-list): for a new block whose previous entry is
indexed and that passes the checks in front of the difficulty check, at a height
(parent height + 1) other than 46921, 46923, 46924 and 403116 `AcceptBlock` rejects with
100 added to the DoS weight when `nBits` differs from
`GetNextTargetRequired(pindexPrev, IsProofOfStake())`, and goes on to the timestamp
check when they are equal; at those four heights it goes on to the timestamp check
whatever `nBits` is. -/
theorem AcceptBlock_difficulty (a : AcceptEnv) (env : CheckEnv) (c : ChainEnv) (h : Hasher)
    (k : TxKinds) (s : ChainState) (b : CBlock) (pindexPrev : CBlockIndex)
    (hnew : s.mapBlockIndex.lookup (GetHash h b) = none)
    (hprev : s.mapBlockIndex.lookup b.hashPrevBlock = some pindexPrev)
    (hearly : earlyRejection a env k s b pindexPrev (pindexPrev.nHeight + 1) = some none) :
    (pindexPrev.nHeight + 1 ≠ 46921 → pindexPrev.nHeight + 1 ≠ 46923 →
      pindexPrev.nHeight + 1 ≠ 46924 → pindexPrev.nHeight + 1 ≠ 403116 →
      (b.nBits ≠ a.GetNextTargetRequired s pindexPrev (IsProofOfStake k b) →
        AcceptBlock a env c h k s b
          = some { ok := false, block := { b with nDoS := b.nDoS + 100 }, chain := s }) ∧
      (b.nBits = a.GetNextTargetRequired s pindexPrev (IsProofOfStake k b) →
        AcceptBlock a env c h k s b
          = acceptFromTimestamp a env c h k s b pindexPrev (pindexPrev.nHeight + 1)
              (if IsProofOfWork k b then GetPoWHash h b else 0))) ∧
    ((pindexPrev.nHeight + 1 = 46921 ∨ pindexPrev.nHeight + 1 = 46923 ∨
        pindexPrev.nHeight + 1 = 46924 ∨ pindexPrev.nHeight + 1 = 403116) →
      AcceptBlock a env c h k s b
        = acceptFromTimestamp a env c h k s b pindexPrev (pindexPrev.nHeight + 1)
            (if IsProofOfWork k b then GetPoWHash h b else 0)) := by
  refine ⟨fun h1 h2 h3 h4 => ⟨fun hne => ?_, fun heq => ?_⟩, fun hlist => ?_⟩
  · have hinc : incorrectProof a k s b pindexPrev (pindexPrev.nHeight + 1) = true := by
      unfold incorrectProof
      simp [h1, h2, h3, h4, hne]
    rw [AcceptBlock_at_difficulty a env c h k s b pindexPrev hnew hprev hearly]
    unfold acceptFromDifficulty
    rw [hinc]
    rfl
  · have hinc : incorrectProof a k s b pindexPrev (pindexPrev.nHeight + 1) = false := by
      unfold incorrectProof
      simp [heq]
    exact AcceptBlock_at_timestamp a env c h k s b pindexPrev hnew hprev hearly hinc
  · have hinc : incorrectProof a k s b pindexPrev (pindexPrev.nHeight + 1) = false := by
      unfold incorrectProof
      rcases hlist with e | e | e | e <;> simp [e]
    exact AcceptBlock_at_timestamp a env c h k s b pindexPrev hnew hprev hearly hinc

theorem AcceptBlock_difficulty_witness :
    AcceptBlock sampleAcceptEnv sampleCheckEnv sampleChainEnv sampleHasher sampleKinds
        chainGenesis (sampleTimed 100 99)
      = some { ok := false, block := { sampleTimed 100 99 with nDoS := 100 },
               chain := chainGenesis } ∧
    AcceptBlock sampleAcceptEnv sampleCheckEnv sampleChainEnv sampleHasher sampleKinds
        chainGenesis (sampleTimed 100 10)
      = acceptFromTimestamp sampleAcceptEnv sampleCheckEnv sampleChainEnv sampleHasher
          sampleKinds chainGenesis (sampleTimed 100 10)
          sampleGenesisEntry 1 2 ∧
    AcceptBlock sampleAcceptEnv sampleCheckEnv sampleChainEnv sampleHasher sampleKinds
        (chainAtHeight 46920) (sampleTimed 100 99)
      = acceptFromTimestamp sampleAcceptEnv sampleCheckEnv sampleChainEnv sampleHasher
          sampleKinds (chainAtHeight 46920) (sampleTimed 100 99)
          { sampleGenesisEntry with nHeight := 46920 } 46921 2 :=
  ⟨((AcceptBlock_difficulty sampleAcceptEnv sampleCheckEnv sampleChainEnv sampleHasher
      sampleKinds chainGenesis (sampleTimed 100 99) _ (by decide) rfl (by decide)).1
      (by decide) (by decide) (by decide) (by decide)).1 (by decide),
   ((AcceptBlock_difficulty sampleAcceptEnv sampleCheckEnv sampleChainEnv sampleHasher
      sampleKinds chainGenesis (sampleTimed 100 10) _ (by decide) rfl (by decide)).1
      (by decide) (by decide) (by decide) (by decide)).2 (by decide),
   (AcceptBlock_difficulty sampleAcceptEnv sampleCheckEnv sampleChainEnv sampleHasher
      sampleKinds (chainAtHeight 46920) (sampleTimed 100 99) _ (by decide) rfl (by decide)).2
      (Or.inl (by decide))⟩

/-- C17, the counterexample: the child `sampleTimed 5000 10` of the genesis block has the
block time 5000, later than the block time 0 of the previous entry plus the future-drift
allowance (`FutureDrift(0) = 600`), and `AcceptBlock` accepts it. -/
theorem late_block_accepted :
    chainGenesis.mapBlockIndex.lookup (sampleTimed 5000 10).hashPrevBlock
      = some sampleGenesisEntry ∧
    GetBlockTime (sampleTimed 5000 10) = 5000 ∧
    sampleCheckEnv.FutureDrift (sampleGenesisEntry.nTime : Int) = 600 ∧
    sampleAcceptEnv.GetPastTimeLimit chainGenesis sampleGenesisEntry = 0 ∧
    timestampTooEarly sampleAcceptEnv sampleCheckEnv chainGenesis (sampleTimed 5000 10)
      sampleGenesisEntry = false ∧
    (AcceptBlock sampleAcceptEnv sampleCheckEnv sampleChainEnv sampleHasher sampleKinds
        chainGenesis (sampleTimed 5000 10)).map (fun out => (out.ok, out.block.nDoS))
      = some (true, 0) := by
  refine ⟨rfl, rfl, rfl, rfl, by decide, by decide⟩

/-- C17 (timestamp against the previous entry, as the code has it): a new block whose
previous entry is indexed and that passes the checks up to the difficulty check is
rejected by `AcceptBlock`, without a DoS weight, when its block time is not later than
the previous entry's past-time limit or when `FutureDrift(block time)` is earlier than
the previous entry's block time; otherwise it goes on to the finality check.  The step
has no upper bound on the block time. -/
theorem AcceptBlock_timestamp (a : AcceptEnv) (env : CheckEnv) (c : ChainEnv) (h : Hasher)
    (k : TxKinds) (s : ChainState) (b : CBlock) (pindexPrev : CBlockIndex)
    (hnew : s.mapBlockIndex.lookup (GetHash h b) = none)
    (hprev : s.mapBlockIndex.lookup b.hashPrevBlock = some pindexPrev)
    (hearly : earlyRejection a env k s b pindexPrev (pindexPrev.nHeight + 1) = some none)
    (hdiff : incorrectProof a k s b pindexPrev (pindexPrev.nHeight + 1) = false) :
    ((GetBlockTime b ≤ a.GetPastTimeLimit s pindexPrev ∨
        env.FutureDrift (GetBlockTime b) < (pindexPrev.nTime : Int)) →
      AcceptBlock a env c h k s b = some { ok := false, block := b, chain := s }) ∧
    (a.GetPastTimeLimit s pindexPrev < GetBlockTime b →
      (pindexPrev.nTime : Int) ≤ env.FutureDrift (GetBlockTime b) →
      AcceptBlock a env c h k s b
        = acceptFromFinality a env c h k s b pindexPrev (pindexPrev.nHeight + 1)
            (if IsProofOfWork k b then GetPoWHash h b else 0)) := by
  rw [AcceptBlock_at_timestamp a env c h k s b pindexPrev hnew hprev hearly hdiff]
  refine ⟨fun hbad => ?_, fun h1 h2 => ?_⟩
  · have ht : timestampTooEarly a env s b pindexPrev = true := by
      unfold timestampTooEarly
      rcases hbad with hb | hb
      · simp [hb]
      · simp [hb]
    unfold acceptFromTimestamp
    rw [ht]
    rfl
  · have ht : timestampTooEarly a env s b pindexPrev = false := by
      unfold timestampTooEarly
      simp [not_le.mpr h1, not_lt.mpr h2]
    unfold acceptFromTimestamp
    rw [ht]
    simp only [Bool.false_eq_true, if_false]

theorem AcceptBlock_timestamp_witness :
    AcceptBlock sampleAcceptEnv sampleCheckEnv sampleChainEnv sampleHasher sampleKinds
        chainGenesis (sampleTimed 0 10)
      = some { ok := false, block := sampleTimed 0 10, chain := chainGenesis } ∧
    AcceptBlock sampleAcceptEnv sampleCheckEnv sampleChainEnv sampleHasher sampleKinds
        chainGenesis (sampleTimed 5000 10)
      = acceptFromFinality sampleAcceptEnv sampleCheckEnv sampleChainEnv sampleHasher
          sampleKinds chainGenesis (sampleTimed 5000 10) sampleGenesisEntry 1 2 :=
  ⟨(AcceptBlock_timestamp sampleAcceptEnv sampleCheckEnv sampleChainEnv sampleHasher
      sampleKinds chainGenesis (sampleTimed 0 10) _ (by decide) rfl (by decide) (by decide)).1
      (Or.inl (by decide)),
   (AcceptBlock_timestamp sampleAcceptEnv sampleCheckEnv sampleChainEnv sampleHasher
      sampleKinds chainGenesis (sampleTimed 5000 10) _ (by decide) rfl (by decide)
      (by decide)).2 (by decide) (by decide)⟩

/-! ## The anti-inflation accumulation -/

/-- A sum that fits 64-bit two's complement is not changed by the wrap. -/
theorem wrap64_exact (x : Int) (h1 : -2 ^ 63 ≤ x) (h2 : x < 2 ^ 63) : wrap64 x = x := by
  unfold wrap64
  omega

/-- A sum of two non-negative 64-bit values that reaches `2^63` wraps to a negative
value. -/
theorem wrap64_overflow (x : Int) (h1 : 2 ^ 63 ≤ x) (h2 : x < 2 ^ 64) : wrap64 x < 0 := by
  unfold wrap64
  omega

/-- The transactions of `l` resolve: `GetMapTxInputs` succeeds and the value in and the
value out are the non-negative 64-bit values `fin tx` and `fout tx`. -/
theorem inflationLoop_append (gm : CTransaction → Option Bool)
    (gi go : CTransaction → Option Int) (fin fout : CTransaction → Int) :
    ∀ (pre rest : List CTransaction) (i o : Int),
      (∀ tx ∈ pre, gm tx = some true ∧ gi tx = some (fin tx) ∧ go tx = some (fout tx) ∧
        0 ≤ fin tx ∧ 0 ≤ fout tx) →
      0 ≤ i → 0 ≤ o → i + (pre.map fin).sum < 2 ^ 63 → o + (pre.map fout).sum < 2 ^ 63 →
      inflationLoop gm gi go (pre ++ rest) i o
        = inflationLoop gm gi go rest (i + (pre.map fin).sum) (o + (pre.map fout).sum) := by
  intro pre
  induction pre with
  | nil =>
    intro rest i o _ _ _ _ _
    simp
  | cons tx pre ih =>
    intro rest i o hall hi ho hsi hso
    obtain ⟨h1, h2, h3, h4, h5⟩ := hall tx (List.mem_cons_self _ _)
    have hrest : ∀ t ∈ pre, gm t = some true ∧ gi t = some (fin t) ∧ go t = some (fout t) ∧
        0 ≤ fin t ∧ 0 ≤ fout t := fun t ht => hall t (List.mem_cons_of_mem _ ht)
    have hsin : 0 ≤ (pre.map fin).sum :=
      List.sum_nonneg (fun x hx => by
        obtain ⟨t, ht, rfl⟩ := List.mem_map.mp hx
        exact (hrest t ht).2.2.2.1)
    have hsout : 0 ≤ (pre.map fout).sum :=
      List.sum_nonneg (fun x hx => by
        obtain ⟨t, ht, rfl⟩ := List.mem_map.mp hx
        exact (hrest t ht).2.2.2.2)
    simp only [List.map_cons, List.sum_cons] at hsi hso
    have e1 : wrap64 (i + fin tx) = i + fin tx := wrap64_exact _ (by omega) (by omega)
    have e2 : wrap64 (o + fout tx) = o + fout tx := wrap64_exact _ (by omega) (by omega)
    simp only [List.cons_append, List.map_cons, List.sum_cons]
    rw [inflationLoop, h1, h2, h3]
    simp only
    rw [e1, e2, if_pos (by omega), if_pos (by omega)]
    rw [ih rest (i + fin tx) (o + fout tx) hrest (by omega) (by omega) (by omega) (by omega)]
    rw [add_assoc, add_assoc]

/-- The accumulation loop over transactions that all resolve to non-negative 64-bit
values: it ends with the exact sums when they stay below `2^63`, and with the
"overflow detected" rejection otherwise. -/
theorem inflationLoop_exact (gm : CTransaction → Option Bool)
    (gi go : CTransaction → Option Int) (fin fout : CTransaction → Int) :
    ∀ (l : List CTransaction) (i o : Int),
      (∀ tx ∈ l, gm tx = some true ∧ gi tx = some (fin tx) ∧ go tx = some (fout tx) ∧
        0 ≤ fin tx ∧ fin tx < 2 ^ 63 ∧ 0 ≤ fout tx ∧ fout tx < 2 ^ 63) →
      0 ≤ i → i < 2 ^ 63 → 0 ≤ o → o < 2 ^ 63 →
      inflationLoop gm gi go l i o
        = if i + (l.map fin).sum < 2 ^ 63 ∧ o + (l.map fout).sum < 2 ^ 63 then
            InflationResult.done (i + (l.map fin).sum) (o + (l.map fout).sum)
          else InflationResult.rejected 100 := by
  intro l
  induction l with
  | nil =>
    intro i o _ hi0 hi ho0 ho
    rw [inflationLoop]
    simp only [List.map_nil, List.sum_nil, add_zero]
    rw [if_pos ⟨hi, ho⟩]
  | cons tx l ih =>
    intro i o hall hi0 hi ho0 ho
    obtain ⟨h1, h2, h3, h4, h5, h6, h7⟩ := hall tx (List.mem_cons_self _ _)
    have hrest : ∀ t ∈ l, gm t = some true ∧ gi t = some (fin t) ∧ go t = some (fout t) ∧
        0 ≤ fin t ∧ fin t < 2 ^ 63 ∧ 0 ≤ fout t ∧ fout t < 2 ^ 63 :=
      fun t ht => hall t (List.mem_cons_of_mem _ ht)
    have hsin : 0 ≤ (l.map fin).sum :=
      List.sum_nonneg (fun x hx => by
        obtain ⟨t, ht, rfl⟩ := List.mem_map.mp hx
        exact (hrest t ht).2.2.2.1)
    have hsout : 0 ≤ (l.map fout).sum :=
      List.sum_nonneg (fun x hx => by
        obtain ⟨t, ht, rfl⟩ := List.mem_map.mp hx
        exact (hrest t ht).2.2.2.2.2.1)
    simp only [List.map_cons, List.sum_cons]
    rw [inflationLoop, h1, h2, h3]
    simp only
    by_cases hin : i + fin tx < 2 ^ 63
    · have e1 : wrap64 (i + fin tx) = i + fin tx := wrap64_exact _ (by omega) hin
      rw [e1, if_pos (by omega)]
      by_cases hout : o + fout tx < 2 ^ 63
      · have e2 : wrap64 (o + fout tx) = o + fout tx := wrap64_exact _ (by omega) hout
        rw [e2, if_pos (by omega)]
        rw [ih (i + fin tx) (o + fout tx) hrest (by omega) hin (by omega) hout]
        simp only [add_assoc]
      · have e2 : wrap64 (o + fout tx) < 0 := wrap64_overflow _ (by omega) (by omega)
        rw [if_neg (by omega), if_neg (by omega)]
    · have e1 : wrap64 (i + fin tx) < 0 := wrap64_overflow _ (by omega) (by omega)
      rw [if_neg (by omega), if_neg (by omega)]

/-- The anti-inflation step of a block at a height above 170 whose transactions all
resolve to totals that add up below `2^63`: the comparison of the exact sums. -/
theorem inflationStep_exact (a : AcceptEnv) (env : CheckEnv) (b : CBlock) (nHeight : Int)
    (fin fout : CTransaction → Int)
    (hres : ∀ tx ∈ b.vtx, a.GetMapTxInputs tx = some true ∧
      a.GetValueMapIn tx = some (fin tx) ∧ a.GetValueOut tx = some (fout tx) ∧
      0 ≤ fin tx ∧ fin tx < 2 ^ 63 ∧ 0 ≤ fout tx ∧ fout tx < 2 ^ 63)
    (hh : nHeight > 170)
    (hsi : (b.vtx.map fin).sum < 2 ^ 63) (hso : (b.vtx.map fout).sum < 2 ^ 63)
    (hr1 : -2 ^ 63 ≤ (b.vtx.map fin).sum + env.GetProofOfWorkReward nHeight 0)
    (hr2 : (b.vtx.map fin).sum + env.GetProofOfWorkReward nHeight 0 < 2 ^ 63) :
    inflationStep a env b nHeight
      = if (b.vtx.map fin).sum + env.GetProofOfWorkReward nHeight 0 < (b.vtx.map fout).sum
        then some 100 else none := by
  have hloop := inflationLoop_exact a.GetMapTxInputs a.GetValueMapIn a.GetValueOut fin fout
    b.vtx 0 0 hres le_rfl (by norm_num) le_rfl (by norm_num)
  simp only [zero_add] at hloop
  rw [if_pos ⟨hsi, hso⟩] at hloop
  unfold inflationStep
  rw [if_pos hh]
  simp only
  rw [hloop]
  simp only
  rw [wrap64_exact _ hr1 hr2]

/-- The anti-inflation step of a block at a height above 170 whose transactions all
resolve and whose exact input or output sum reaches `2^63`: "overflow detected". -/
theorem inflationStep_overflow (a : AcceptEnv) (env : CheckEnv) (b : CBlock) (nHeight : Int)
    (fin fout : CTransaction → Int)
    (hres : ∀ tx ∈ b.vtx, a.GetMapTxInputs tx = some true ∧
      a.GetValueMapIn tx = some (fin tx) ∧ a.GetValueOut tx = some (fout tx) ∧
      0 ≤ fin tx ∧ fin tx < 2 ^ 63 ∧ 0 ≤ fout tx ∧ fout tx < 2 ^ 63)
    (hh : nHeight > 170)
    (hover : 2 ^ 63 ≤ (b.vtx.map fin).sum ∨ 2 ^ 63 ≤ (b.vtx.map fout).sum) :
    inflationStep a env b nHeight = some 100 := by
  have hloop := inflationLoop_exact a.GetMapTxInputs a.GetValueMapIn a.GetValueOut fin fout
    b.vtx 0 0 hres le_rfl (by norm_num) le_rfl (by norm_num)
  simp only [zero_add] at hloop
  rw [if_neg (by
    intro hc
    rcases hover with ho | ho
    · exact absurd hc.1 (not_lt.mpr ho)
    · exact absurd hc.2 (not_lt.mpr ho))] at hloop
  unfold inflationStep
  rw [if_pos hh]
  simp only
  rw [hloop]

/-- C18, the counterexample: at height 201 the block `sampleTwoTx` has two transactions
that resolve to the input total `2^62` each and the output total 0.  The exact input sum
`2^63` plus the block reward is not less than the exact output sum 0, and `AcceptBlock`
rejects the block with the DoS weight 100. -/
theorem exact_sums_not_compared :
    (chainAtHeight 200).mapBlockIndex.lookup sampleTwoTx.hashPrevBlock
      = some { sampleGenesisEntry with nHeight := 200 } ∧
    sampleTwoTx.vtx.map largeInputsEnv.GetMapTxInputs = [some true, some true] ∧
    sampleTwoTx.vtx.map largeInputsEnv.GetValueMapIn = [some (2 ^ 62), some (2 ^ 62)] ∧
    sampleTwoTx.vtx.map largeInputsEnv.GetValueOut = [some 0, some 0] ∧
    ¬ ((2 : Int) ^ 62 + 2 ^ 62 + sampleCheckEnv.GetProofOfWorkReward 201 0 < 0 + 0) ∧
    AcceptBlock largeInputsEnv sampleCheckEnv sampleChainEnv sampleHasher sampleKinds
        (chainAtHeight 200) sampleTwoTx
      = some { ok := false, block := { sampleTwoTx with nDoS := 100 },
               chain := chainAtHeight 200 } := by
  refine ⟨rfl, rfl, rfl, rfl, by decide, by decide⟩

/-- C18 (anti-inflation check, as the code has it): for a new block that reaches the
anti-inflation check at height h = parent height + 1.  If h > 170 and every transaction
resolves to an input total and an output total in `0 ≤ v < 2^63`, then: when the exact
sums stay below `2^63` and input sum + reward is a 64-bit value, the step
rejects with weight 100 if and only if input sum + reward < output sum, `AcceptBlock`
then returning false with 100 added to the DoS weight and otherwise going on to the
checkpoint check; when the exact input sum or output sum reaches `2^63`, `AcceptBlock`
rejects with weight 100 whatever the comparison of the exact sums.  If h ≤ 170 the check
is skipped. -/
theorem AcceptBlock_inflation (a : AcceptEnv) (env : CheckEnv) (c : ChainEnv) (h : Hasher)
    (k : TxKinds) (s : ChainState) (b : CBlock) (pindexPrev : CBlockIndex)
    (fin fout : CTransaction → Int)
    (hnew : s.mapBlockIndex.lookup (GetHash h b) = none)
    (hprev : s.mapBlockIndex.lookup b.hashPrevBlock = some pindexPrev)
    (hearly : earlyRejection a env k s b pindexPrev (pindexPrev.nHeight + 1) = some none)
    (hdiff : incorrectProof a k s b pindexPrev (pindexPrev.nHeight + 1) = false)
    (htime : timestampTooEarly a env s b pindexPrev = false)
    (hfinal : b.vtx.any (fun tx => !a.IsFinalTx tx (pindexPrev.nHeight + 1) (GetBlockTime b))
      = false) :
    ((∀ tx ∈ b.vtx, a.GetMapTxInputs tx = some true ∧
        a.GetValueMapIn tx = some (fin tx) ∧ a.GetValueOut tx = some (fout tx) ∧
        0 ≤ fin tx ∧ fin tx < 2 ^ 63 ∧ 0 ≤ fout tx ∧ fout tx < 2 ^ 63) →
      pindexPrev.nHeight + 1 > 170 →
      ((b.vtx.map fin).sum < 2 ^ 63 → (b.vtx.map fout).sum < 2 ^ 63 →
        -2 ^ 63 ≤ (b.vtx.map fin).sum + env.GetProofOfWorkReward (pindexPrev.nHeight + 1) 0 →
        (b.vtx.map fin).sum + env.GetProofOfWorkReward (pindexPrev.nHeight + 1) 0 < 2 ^ 63 →
        (inflationStep a env b (pindexPrev.nHeight + 1) = some 100 ↔
          (b.vtx.map fin).sum + env.GetProofOfWorkReward (pindexPrev.nHeight + 1) 0
            < (b.vtx.map fout).sum) ∧
        ((b.vtx.map fin).sum + env.GetProofOfWorkReward (pindexPrev.nHeight + 1) 0
            < (b.vtx.map fout).sum →
          AcceptBlock a env c h k s b
            = some { ok := false, block := { b with nDoS := b.nDoS + 100 }, chain := s }) ∧
        (¬ (b.vtx.map fin).sum + env.GetProofOfWorkReward (pindexPrev.nHeight + 1) 0
            < (b.vtx.map fout).sum →
          AcceptBlock a env c h k s b
            = acceptFromCheckpoints a c h k s b pindexPrev (pindexPrev.nHeight + 1)
                (if IsProofOfWork k b then GetPoWHash h b else 0))) ∧
      ((2 ^ 63 ≤ (b.vtx.map fin).sum ∨ 2 ^ 63 ≤ (b.vtx.map fout).sum) →
        AcceptBlock a env c h k s b
          = some { ok := false, block := { b with nDoS := b.nDoS + 100 }, chain := s })) ∧
    (pindexPrev.nHeight + 1 ≤ 170 →
      AcceptBlock a env c h k s b
        = acceptFromCheckpoints a c h k s b pindexPrev (pindexPrev.nHeight + 1)
            (if IsProofOfWork k b then GetPoWHash h b else 0)) := by
  have hstage := AcceptBlock_at_inflation a env c h k s b pindexPrev hnew hprev hearly hdiff
    htime hfinal
  refine ⟨fun hres hh => ⟨fun hsi hso hr1 hr2 => ?_, fun hover => ?_⟩, fun hlow => ?_⟩
  · have hstep := inflationStep_exact a env b (pindexPrev.nHeight + 1) fin fout hres hh hsi hso
      hr1 hr2
    refine ⟨?_, fun hlt => ?_, fun hge => ?_⟩
    · rw [hstep]
      by_cases hlt : (b.vtx.map fin).sum + env.GetProofOfWorkReward (pindexPrev.nHeight + 1) 0
          < (b.vtx.map fout).sum
      · rw [if_pos hlt]
        exact ⟨fun _ => hlt, fun _ => rfl⟩
      · rw [if_neg hlt]
        exact ⟨fun hx => absurd hx (by simp), fun hx => absurd hx hlt⟩
    · rw [hstage]
      unfold acceptFromInflation
      rw [hstep, if_pos hlt]
      rfl
    · rw [hstage]
      unfold acceptFromInflation
      rw [hstep, if_neg hge]
  · rw [hstage]
    unfold acceptFromInflation
    rw [inflationStep_overflow a env b (pindexPrev.nHeight + 1) fin fout hres hh hover]
    rfl
  · rw [hstage]
    unfold acceptFromInflation
    have hstep : inflationStep a env b (pindexPrev.nHeight + 1) = none := by
      unfold inflationStep
      rw [if_neg (not_lt.mpr hlow)]
    rw [hstep]

theorem AcceptBlock_inflation_witness :
    AcceptBlock inflatingEnv sampleCheckEnv sampleChainEnv sampleHasher sampleKinds
        (chainAtHeight 200) sampleTwoTx
      = some { ok := false, block := { sampleTwoTx with nDoS := sampleTwoTx.nDoS + 100 },
               chain := chainAtHeight 200 } ∧
    AcceptBlock sampleAcceptEnv sampleCheckEnv sampleChainEnv sampleHasher sampleKinds
        (chainAtHeight 200) sampleTwoTx
      = acceptFromCheckpoints sampleAcceptEnv sampleChainEnv sampleHasher sampleKinds
          (chainAtHeight 200) sampleTwoTx { sampleGenesisEntry with nHeight := 200 } 201 2 ∧
    AcceptBlock largeInputsEnv sampleCheckEnv sampleChainEnv sampleHasher sampleKinds
        (chainAtHeight 200) sampleTwoTx
      = some { ok := false, block := { sampleTwoTx with nDoS := sampleTwoTx.nDoS + 100 },
               chain := chainAtHeight 200 } ∧
    AcceptBlock inflatingEnv sampleCheckEnv sampleChainEnv sampleHasher sampleKinds
        (chainAtHeight 100) sampleTwoTx
      = acceptFromCheckpoints inflatingEnv sampleChainEnv sampleHasher sampleKinds
          (chainAtHeight 100) sampleTwoTx { sampleGenesisEntry with nHeight := 100 } 101 2 :=
  ⟨((((AcceptBlock_inflation inflatingEnv sampleCheckEnv sampleChainEnv sampleHasher
      sampleKinds (chainAtHeight 200) sampleTwoTx _ (fun _ => 0) (fun _ => 40000000000)
      (by decide) rfl (by decide) (by decide) (by decide) (by decide)).1
      (by decide) (by decide)).1 (by decide) (by decide) (by decide) (by decide)).2.1
      (by decide)),
   ((((AcceptBlock_inflation sampleAcceptEnv sampleCheckEnv sampleChainEnv sampleHasher
      sampleKinds (chainAtHeight 200) sampleTwoTx _ (fun _ => 0)
      (fun tx => (tx.vout.map (fun o => o.nValue)).sum)
      (by decide) rfl (by decide) (by decide) (by decide) (by decide)).1
      (by decide) (by decide)).1 (by decide) (by decide) (by decide) (by decide)).2.2
      (by decide)),
   (((AcceptBlock_inflation largeInputsEnv sampleCheckEnv sampleChainEnv sampleHasher
      sampleKinds (chainAtHeight 200) sampleTwoTx _ (fun _ => 2 ^ 62) (fun _ => 0)
      (by decide) rfl (by decide) (by decide) (by decide) (by decide)).1
      (by decide) (by decide)).2 (Or.inl (by decide))),
   ((AcceptBlock_inflation inflatingEnv sampleCheckEnv sampleChainEnv sampleHasher
      sampleKinds (chainAtHeight 100) sampleTwoTx _ (fun _ => 0) (fun _ => 0)
      (by decide) rfl (by decide) (by decide) (by decide) (by decide)).2 (by decide))⟩

/-- The accumulation loop at the first transaction that does not resolve: the weight 10
when `GetMapTxInputs` returns false, an exception when one of the three calls throws. -/
theorem inflationLoop_unresolved (gm : CTransaction → Option Bool)
    (gi go : CTransaction → Option Int) (fin fout : CTransaction → Int)
    (pre rest : List CTransaction) (tx : CTransaction)
    (hpre : ∀ t ∈ pre, gm t = some true ∧ gi t = some (fin t) ∧ go t = some (fout t) ∧
      0 ≤ fin t ∧ 0 ≤ fout t)
    (hsi : (pre.map fin).sum < 2 ^ 63) (hso : (pre.map fout).sum < 2 ^ 63) :
    (gm tx = some false →
      inflationLoop gm gi go (pre ++ tx :: rest) 0 0 = InflationResult.rejected 10) ∧
    ((gm tx = none ∨ (gm tx = some true ∧ (gi tx = none ∨ go tx = none))) →
      inflationLoop gm gi go (pre ++ tx :: rest) 0 0 = InflationResult.threw) := by
  have happ := inflationLoop_append gm gi go fin fout pre (tx :: rest) 0 0 hpre le_rfl le_rfl
    (by rw [zero_add]; exact hsi) (by rw [zero_add]; exact hso)
  rw [happ]
  refine ⟨fun hf => ?_, fun ht => ?_⟩
  · rw [inflationLoop, hf]
  · rw [inflationLoop]
    rcases ht with ht | ⟨hm, ht | ht⟩
    · rw [ht]
    · rw [hm, ht]
    · rw [hm, ht]
      cases gi tx <;> rfl

/-- C19, the counterexample: at height 201, between 170 and 403084, the inputs of the
transactions of `sampleTwoTx` cannot be mapped (`GetMapTxInputs` returns false), and
`AcceptBlock` rejects the block, with the DoS weight 10, instead of going on. -/
theorem unmapped_inputs_rejected :
    (chainAtHeight 200).mapBlockIndex.lookup sampleTwoTx.hashPrevBlock
      = some { sampleGenesisEntry with nHeight := 200 } ∧
    sampleTwoTx.vtx.map unmappedEnv.GetMapTxInputs = [some false, some false] ∧
    AcceptBlock unmappedEnv sampleCheckEnv sampleChainEnv sampleHasher sampleKinds
        (chainAtHeight 200) sampleTwoTx
      = some { ok := false, block := { sampleTwoTx with nDoS := 10 },
               chain := chainAtHeight 200 } := by
  refine ⟨rfl, rfl, by decide⟩

/-- C19 (unresolved inputs in the anti-inflation check, as the code has it): for a new
block that reaches the anti-inflation check at height h = parent height + 1, take the
first transaction that does not resolve (the ones in front of it resolve to
non-negative totals that add up below `2^63`).  If `GetMapTxInputs` returns false for
it, `AcceptBlock` rejects with 10 added to the DoS weight at every height h > 170.  If
`GetMapTxInputs`, `GetValueMapIn` or `GetValueOut` throws for it, then for
170 < h ≤ 403084 the step only warns and `AcceptBlock` goes on to the checkpoint check,
and for h > 403084 `AcceptBlock` rejects with 100 added to the DoS weight. -/
theorem AcceptBlock_unresolved_inputs (a : AcceptEnv) (env : CheckEnv) (c : ChainEnv)
    (h : Hasher) (k : TxKinds) (s : ChainState) (b : CBlock) (pindexPrev : CBlockIndex)
    (fin fout : CTransaction → Int) (pre rest : List CTransaction) (tx : CTransaction)
    (hnew : s.mapBlockIndex.lookup (GetHash h b) = none)
    (hprev : s.mapBlockIndex.lookup b.hashPrevBlock = some pindexPrev)
    (hearly : earlyRejection a env k s b pindexPrev (pindexPrev.nHeight + 1) = some none)
    (hdiff : incorrectProof a k s b pindexPrev (pindexPrev.nHeight + 1) = false)
    (htime : timestampTooEarly a env s b pindexPrev = false)
    (hfinal : b.vtx.any (fun tx => !a.IsFinalTx tx (pindexPrev.nHeight + 1) (GetBlockTime b))
      = false)
    (hvtx : b.vtx = pre ++ tx :: rest)
    (hpre : ∀ t ∈ pre, a.GetMapTxInputs t = some true ∧ a.GetValueMapIn t = some (fin t) ∧
      a.GetValueOut t = some (fout t) ∧ 0 ≤ fin t ∧ 0 ≤ fout t)
    (hsi : (pre.map fin).sum < 2 ^ 63) (hso : (pre.map fout).sum < 2 ^ 63) :
    (a.GetMapTxInputs tx = some false → pindexPrev.nHeight + 1 > 170 →
      AcceptBlock a env c h k s b
        = some { ok := false, block := { b with nDoS := b.nDoS + 10 }, chain := s }) ∧
    ((a.GetMapTxInputs tx = none ∨
        (a.GetMapTxInputs tx = some true ∧
          (a.GetValueMapIn tx = none ∨ a.GetValueOut tx = none))) →
      (pindexPrev.nHeight + 1 > 170 → pindexPrev.nHeight + 1 ≤ 403084 →
        AcceptBlock a env c h k s b
          = acceptFromCheckpoints a c h k s b pindexPrev (pindexPrev.nHeight + 1)
              (if IsProofOfWork k b then GetPoWHash h b else 0)) ∧
      (pindexPrev.nHeight + 1 > 403084 →
        AcceptBlock a env c h k s b
          = some { ok := false, block := { b with nDoS := b.nDoS + 100 }, chain := s })) := by
  have hstage := AcceptBlock_at_inflation a env c h k s b pindexPrev hnew hprev hearly hdiff
    htime hfinal
  obtain ⟨hfalse, hthrow⟩ := inflationLoop_unresolved a.GetMapTxInputs a.GetValueMapIn
    a.GetValueOut fin fout pre rest tx hpre hsi hso
  rw [← hvtx] at hfalse hthrow
  refine ⟨fun hf hh => ?_, fun ht => ⟨fun hh hlegacy => ?_, fun hh => ?_⟩⟩
  · rw [hstage]
    unfold acceptFromInflation inflationStep
    rw [if_pos hh]
    simp only
    rw [hfalse hf]
    rfl
  · rw [hstage]
    unfold acceptFromInflation inflationStep
    rw [if_pos hh]
    simp only
    rw [hthrow ht]
    simp only
    rw [if_neg (not_lt.mpr hlegacy)]
  · rw [hstage]
    unfold acceptFromInflation inflationStep
    rw [if_pos (by omega)]
    simp only
    rw [hthrow ht]
    simp only
    rw [if_pos hh]
    rfl

theorem AcceptBlock_unresolved_inputs_witness :
    AcceptBlock partlyUnmappedEnv sampleCheckEnv sampleChainEnv sampleHasher sampleKinds
        (chainAtHeight 200) sampleTwoTx
      = some { ok := false, block := { sampleTwoTx with nDoS := sampleTwoTx.nDoS + 10 },
               chain := chainAtHeight 200 } ∧
    AcceptBlock throwingEnv sampleCheckEnv sampleChainEnv sampleHasher sampleKinds
        (chainAtHeight 200) sampleTwoTx
      = acceptFromCheckpoints throwingEnv sampleChainEnv sampleHasher sampleKinds
          (chainAtHeight 200) sampleTwoTx { sampleGenesisEntry with nHeight := 200 } 201 2 ∧
    AcceptBlock throwingEnv sampleCheckEnv sampleChainEnv sampleHasher sampleKinds
        (chainAtHeight 403084) sampleTwoTx
      = some { ok := false, block := { sampleTwoTx with nDoS := sampleTwoTx.nDoS + 100 },
               chain := chainAtHeight 403084 } :=
  ⟨(AcceptBlock_unresolved_inputs partlyUnmappedEnv sampleCheckEnv sampleChainEnv
      sampleHasher sampleKinds (chainAtHeight 200) sampleTwoTx _ (fun _ => 0)
      (fun tx => (tx.vout.map (fun o => o.nValue)).sum) [sampleCoinbase 50] [] (sampleTx 1)
      (by decide) rfl (by decide) (by decide) (by decide) (by decide) rfl (by decide)
      (by decide) (by decide)).1 rfl (by decide),
   ((AcceptBlock_unresolved_inputs throwingEnv sampleCheckEnv sampleChainEnv sampleHasher
      sampleKinds (chainAtHeight 200) sampleTwoTx _ (fun _ => 0) (fun _ => 0)
      [] [sampleTx 1] (sampleCoinbase 50)
      (by decide) rfl (by decide) (by decide) (by decide) (by decide) rfl (by decide)
      (by decide) (by decide)).2 (Or.inr ⟨rfl, Or.inl rfl⟩)).1 (by decide) (by decide),
   ((AcceptBlock_unresolved_inputs throwingEnv sampleCheckEnv sampleChainEnv sampleHasher
      sampleKinds (chainAtHeight 403084) sampleTwoTx _ (fun _ => 0) (fun _ => 0)
      [] [sampleTx 1] (sampleCoinbase 50)
      (by decide) rfl (by decide) (by decide) (by decide) (by decide) rfl (by decide)
      (by decide) (by decide)).2 (Or.inr ⟨rfl, Or.inl rfl⟩)).2 (by decide)⟩

/-! ## Work/stake switchover -/

/-- `AcceptBlock` for a new block of version 7 whose previous entry is indexed and that
passes the velocity check: the switchover test, then the time stamp checks. -/
theorem AcceptBlock_at_switchover (a : AcceptEnv) (env : CheckEnv) (c : ChainEnv) (h : Hasher)
    (k : TxKinds) (s : ChainState) (b : CBlock) (pindexPrev : CBlockIndex)
    (hnew : s.mapBlockIndex.lookup (GetHash h b) = none)
    (hprev : s.mapBlockIndex.lookup b.hashPrevBlock = some pindexPrev)
    (hversion : b.nVersion = 7)
    (hvelocity : (a.Velocity_check (pindexPrev.nHeight + 1) && !a.Velocity s pindexPrev b)
      = false) :
    AcceptBlock a env c h k s b
      = if (IsProofOfWork k b && decide (pindexPrev.nHeight + 1 > a.EndPoWBlock)) = true then
          acceptDoS s b 100
        else if (IsProofOfStake k b && decide (pindexPrev.nHeight + 1 < a.StartPoSBlock))
            = true then
          acceptDoS s b 100
        else acceptFromStakeTime a env c h k s b pindexPrev (pindexPrev.nHeight + 1) := by
  unfold AcceptBlock
  rw [hnew, hprev]
  simp only [Option.isSome_none, Bool.false_eq_true, if_false]
  unfold earlyRejection acceptFromStakeTime stakeTimeRejection
  rw [hversion, hvelocity]
  simp only [lt_self_iff_false, gt_iff_lt, if_false, Bool.false_eq_true]
  by_cases h1 : (IsProofOfWork k b && decide (a.EndPoWBlock < pindexPrev.nHeight + 1)) = true
  · rw [if_pos h1, if_pos h1]
  · rw [if_neg h1, if_neg h1]
    by_cases h2 : (IsProofOfStake k b && decide (pindexPrev.nHeight + 1 < a.StartPoSBlock))
        = true
    · rw [if_pos h2, if_pos h2]
    · rw [if_neg h2, if_neg h2]

/-- C21 (work/stake switchover): for a new block of version 7 whose previous entry is
indexed and that passes the velocity check, at the height h = parent height + 1:
`AcceptBlock` rejects with 100 added to the DoS weight a proof-of-work block with
h > `EndPoWBlock` and a proof-of-stake block with h < `StartPoSBlock`; a proof-of-work
block with h ≤ `EndPoWBlock` and a proof-of-stake block with h ≥ `StartPoSBlock` go on to
the time stamp checks. -/
theorem AcceptBlock_switchover (a : AcceptEnv) (env : CheckEnv) (c : ChainEnv) (h : Hasher)
    (k : TxKinds) (s : ChainState) (b : CBlock) (pindexPrev : CBlockIndex)
    (hnew : s.mapBlockIndex.lookup (GetHash h b) = none)
    (hprev : s.mapBlockIndex.lookup b.hashPrevBlock = some pindexPrev)
    (hversion : b.nVersion = 7)
    (hvelocity : (a.Velocity_check (pindexPrev.nHeight + 1) && !a.Velocity s pindexPrev b)
      = false) :
    (IsProofOfWork k b = true → pindexPrev.nHeight + 1 > a.EndPoWBlock →
      AcceptBlock a env c h k s b
        = some { ok := false, block := { b with nDoS := b.nDoS + 100 }, chain := s }) ∧
    (IsProofOfStake k b = true → pindexPrev.nHeight + 1 < a.StartPoSBlock →
      AcceptBlock a env c h k s b
        = some { ok := false, block := { b with nDoS := b.nDoS + 100 }, chain := s }) ∧
    (IsProofOfWork k b = true → pindexPrev.nHeight + 1 ≤ a.EndPoWBlock →
      AcceptBlock a env c h k s b
        = acceptFromStakeTime a env c h k s b pindexPrev (pindexPrev.nHeight + 1)) ∧
    (IsProofOfStake k b = true → a.StartPoSBlock ≤ pindexPrev.nHeight + 1 →
      AcceptBlock a env c h k s b
        = acceptFromStakeTime a env c h k s b pindexPrev (pindexPrev.nHeight + 1)) := by
  have hstage := AcceptBlock_at_switchover a env c h k s b pindexPrev hnew hprev hversion
    hvelocity
  refine ⟨fun hw hh => ?_, fun hp hh => ?_, fun hw hh => ?_, fun hp hh => ?_⟩
  · rw [hstage, if_pos (by simp [hw, hh])]
    rfl
  · have hw : IsProofOfWork k b = false := by simp [IsProofOfWork, hp]
    rw [hstage, if_neg (by simp [hw]), if_pos (by simp [hp, hh])]
    rfl
  · have hp : IsProofOfStake k b = false := by
      unfold IsProofOfWork at hw
      simpa using hw
    rw [hstage, if_neg (by simp [hw, not_lt.mpr hh]), if_neg (by simp [hp])]
  · have hw : IsProofOfWork k b = false := by simp [IsProofOfWork, hp]
    rw [hstage, if_neg (by simp [hw]), if_neg (by simp [hp, not_lt.mpr hh])]

theorem AcceptBlock_switchover_witness :
    AcceptBlock sampleAcceptEnv sampleCheckEnv sampleChainEnv sampleHasher sampleKinds
        (chainAtHeight 1000000) (sampleTimed 100 10)
      = some { ok := false, block := { sampleTimed 100 10 with nDoS := 100 },
               chain := chainAtHeight 1000000 } ∧
    AcceptBlock lateStakeEnv sampleCheckEnv sampleChainEnv sampleHasher sampleKinds
        (chainAtHeight 5) sampleWrongPayee
      = some { ok := false, block := { sampleWrongPayee with nDoS := 100 },
               chain := chainAtHeight 5 } ∧
    AcceptBlock sampleAcceptEnv sampleCheckEnv sampleChainEnv sampleHasher sampleKinds
        (chainAtHeight 999999) (sampleTimed 100 10)
      = acceptFromStakeTime sampleAcceptEnv sampleCheckEnv sampleChainEnv sampleHasher
          sampleKinds (chainAtHeight 999999) (sampleTimed 100 10)
          { sampleGenesisEntry with nHeight := 999999 } 1000000 ∧
    AcceptBlock lateStakeEnv sampleCheckEnv sampleChainEnv sampleHasher sampleKinds
        (chainAtHeight 9) sampleWrongPayee
      = acceptFromStakeTime lateStakeEnv sampleCheckEnv sampleChainEnv sampleHasher
          sampleKinds (chainAtHeight 9) sampleWrongPayee
          { sampleGenesisEntry with nHeight := 9 } 10 :=
  ⟨(AcceptBlock_switchover sampleAcceptEnv sampleCheckEnv sampleChainEnv sampleHasher
      sampleKinds (chainAtHeight 1000000) (sampleTimed 100 10) _ (by decide) rfl rfl
      (by decide)).1 (by decide) (by decide),
   (AcceptBlock_switchover lateStakeEnv sampleCheckEnv sampleChainEnv sampleHasher
      sampleKinds (chainAtHeight 5) sampleWrongPayee _ (by decide) rfl rfl
      (by decide)).2.1 (by decide) (by decide),
   (AcceptBlock_switchover sampleAcceptEnv sampleCheckEnv sampleChainEnv sampleHasher
      sampleKinds (chainAtHeight 999999) (sampleTimed 100 10) _ (by decide) rfl rfl
      (by decide)).2.2.1 (by decide) (by decide),
   (AcceptBlock_switchover lateStakeEnv sampleCheckEnv sampleChainEnv sampleHasher
      sampleKinds (chainAtHeight 9) sampleWrongPayee _ (by decide) rfl rfl
      (by decide)).2.2.2 (by decide) (by decide)⟩

/-! ## Reward caps of `ConnectBlock` -/

theorem wrap64_add_wrap64 (a b : Int) : wrap64 (a + wrap64 b) = wrap64 (a + b) := by
  unfold wrap64
  omega

theorem wrap64_wrap64 (a : Int) : wrap64 (wrap64 a) = wrap64 a := by
  unfold wrap64
  omega

/-- The fee total that the loop of `ConnectBlock` reaches is the exact fee total of the
transactions, reduced to 64-bit two's complement. -/
theorem connectLoop_fees (k : TxKinds) (f : CTransaction → Nat) (conn : ConnectEnv)
    (maxSigOps : Nat) :
    ∀ (l seen : List CTransaction) (t0 t : ConnectTotals),
      wrap64 t0.nFees = t0.nFees →
      connectLoop k f conn maxSigOps seen l t0 = ConnectStep.pass t →
      t.nFees = wrap64 (t0.nFees + exactFees k conn l) := by
  intro l
  induction l with
  | nil =>
    intro seen t0 t h0 hr
    rw [connectLoop] at hr
    simp only [ConnectStep.pass.injEq] at hr
    rw [← hr]
    simp [exactFees, h0]
  | cons tx rest ih =>
    intro seen t0 t h0 hr
    rw [connectLoop] at hr
    simp only at hr
    split at hr
    · simp at hr
    split at hr
    · rename_i hcb
      rw [ih _ _ _ (by exact h0) hr]
      simp only [exactFees, List.filter_cons, hcb, Bool.not_true, Bool.false_and,
        Bool.false_eq_true, if_false]
    rename_i hcb
    split at hr
    · simp at hr
    split at hr
    · simp at hr
    split at hr
    · simp at hr
    by_cases hcs : k.IsCoinStake tx = true
    · simp only [hcs, Bool.not_true, Bool.false_eq_true, if_false, if_true] at hr
      rw [ih _ _ _ (by exact h0) hr]
      simp only [hcs, exactFees, List.filter_cons, Bool.not_true, Bool.and_false,
        Bool.false_eq_true, if_false]
    · have hcs1 : k.IsCoinStake tx = false := by simpa using hcs
      have hcb1 : k.IsCoinBase tx = false := by simpa using hcb
      simp only [hcs1, Bool.not_false, if_true, Bool.false_eq_true, if_false] at hr
      rw [ih _ _ _ (by exact wrap64_wrap64 _) hr]
      simp only [hcs1, hcb1, Bool.not_false, if_true, exactFees, List.filter_cons,
        Bool.and_self, List.map_cons, List.sum_cons]
      have key : ∀ a d E : Int, wrap64 (wrap64 (a + wrap64 d) + E) = wrap64 (a + (d + E)) := by
        intro a d E
        unfold wrap64
        omega
      exact key _ _ _

/-- The stake reward that the loop of `ConnectBlock` reaches. -/
theorem connectLoop_stake (k : TxKinds) (f : CTransaction → Nat) (conn : ConnectEnv)
    (maxSigOps : Nat) :
    ∀ (l seen : List CTransaction) (t0 t : ConnectTotals),
      connectLoop k f conn maxSigOps seen l t0 = ConnectStep.pass t →
      t.nStakeReward = lastStakeReward k conn l t0.nStakeReward := by
  intro l
  induction l with
  | nil =>
    intro seen t0 t hr
    rw [connectLoop] at hr
    simp only [ConnectStep.pass.injEq] at hr
    rw [← hr]
    rfl
  | cons tx rest ih =>
    intro seen t0 t hr
    rw [connectLoop] at hr
    simp only at hr
    split at hr
    · simp at hr
    split at hr
    · rename_i hcb
      rw [ih _ _ _ hr, lastStakeReward]
      simp only [hcb, Bool.not_true, Bool.false_and, Bool.false_eq_true, if_false]
    rename_i hcb
    split at hr
    · simp at hr
    split at hr
    · simp at hr
    split at hr
    · simp at hr
    have hcb1 : k.IsCoinBase tx = false := by simpa using hcb
    rw [ih _ _ _ hr, lastStakeReward]
    simp only [hcb1, Bool.not_false, Bool.true_and]

/-- Without a coinstake among the transactions that are not a coinbase, the stake reward
is not assigned. -/
theorem lastStakeReward_none (k : TxKinds) (conn : ConnectEnv) :
    ∀ (l : List CTransaction) (acc : Int),
      (∀ tx ∈ l, (!k.IsCoinBase tx && k.IsCoinStake tx) = false) →
      lastStakeReward k conn l acc = acc := by
  intro l
  induction l with
  | nil => intro acc _; rfl
  | cons tx rest ih =>
    intro acc hall
    rw [lastStakeReward, hall tx (List.mem_cons_self _ _)]
    simp only [Bool.false_eq_true, if_false]
    exact ih acc (fun t ht => hall t (List.mem_cons_of_mem _ ht))

/-- A block that `CheckBlock` accepts keeps its transactions. -/
theorem CheckBlock_ok_vtx (env : CheckEnv) (h : Hasher) (k : TxKinds) (s : ChainState)
    (b : CBlock) (p m g : Bool) (out : CheckOutcome)
    (hr : CheckBlock env h k s b p m g = some out) (hok : out.ok = true) :
    out.block.vtx = b.vtx := by
  have hst := CheckBlock_ok_stage env h k s b p m g out hr hok
  obtain ⟨_, _, _, t, _, htr⟩ := checkSignatureAndPayments_ok env h k s b m g out hst hok
  have hno : ∀ b0 t n, rejectDoS b0 t n ≠ some out := by
    intro b0 t n hx
    have := rejectDoS_not_ok _ _ _ _ hx
    rw [hok] at this
    exact absurd this (by simp)
  unfold checkTransactionsAndRoot at htr
  rw [BuildMerkleTree_eq] at htr
  repeat' split at htr
  all_goals first
    | exact absurd htr (hno _ _ _)
    | (simp only [Option.some.injEq] at htr
       rw [← htr]
       done)
    | (rename_i heq _
       simp only [Option.some.injEq, Prod.mk.injEq] at heq htr
       rw [← htr, ← heq.1])
    | simp at htr

theorem IsProofOfStake_vtx (k : TxKinds) (b1 b : CBlock) (hv : b1.vtx = b.vtx) :
    IsProofOfStake k b1 = IsProofOfStake k b := by
  unfold IsProofOfStake
  rw [hv]

theorem IsProofOfWork_vtx (k : TxKinds) (b1 b : CBlock) (hv : b1.vtx = b.vtx) :
    IsProofOfWork k b1 = IsProofOfWork k b := by
  unfold IsProofOfWork
  rw [IsProofOfStake_vtx k b1 b hv]

/-- What a `ConnectBlock` that returns true went through. -/
theorem ConnectBlock_ok (env : CheckEnv) (conn : ConnectEnv) (h : Hasher) (k : TxKinds)
    (s : ChainState) (b : CBlock) (pindex : uint256) (fJustCheck : Bool)
    (out : ConnectOutcome)
    (hr : ConnectBlock env conn h k s b pindex fJustCheck = some out) (hok : out.ok = true) :
    ∃ checked e t,
      CheckBlock env h k s b (!fJustCheck) (!fJustCheck) false = some checked ∧
      checked.ok = true ∧ s.mapBlockIndex.lookup pindex = some e ∧
      connectLoop k env.GetLegacySigOpCount conn (conn.ComputeBlockSize e / 50) []
          checked.block.vtx
          { nFees := 0, nValueIn := 0, nValueOut := 0, nStakeReward := 0, nSigOps := 0 }
        = ConnectStep.pass t ∧
      rewardCaps env conn k s checked.block e t = some (ConnectStep.pass ()) := by
  unfold ConnectBlock at hr
  split at hr
  · simp at hr
  rename_i checked hcheck
  split at hr
  · simp only [Option.some.injEq] at hr
    rw [← hr] at hok
    simp at hok
  rename_i hnot
  have htrue : checked.ok = true := by simpa using hnot
  split at hr
  · simp at hr
  rename_i e he
  simp only at hr
  split at hr
  · simp only [Option.some.injEq] at hr
    rw [← hr] at hok
    simp at hok
  · simp only [Option.some.injEq] at hr
    rw [← hr] at hok
    simp at hok
  · rename_i t hl
    split at hr
    · simp at hr
    · simp only [Option.some.injEq] at hr
      rw [← hr] at hok
      simp at hok
    · simp only [Option.some.injEq] at hr
      rw [← hr] at hok
      simp at hok
    · rename_i u hc
      exact ⟨checked, e, t, hcheck, htrue, he, hl, hc⟩

/-- What the reward caps let through. -/
theorem rewardCaps_pass (env : CheckEnv) (conn : ConnectEnv) (k : TxKinds) (s : ChainState)
    (b : CBlock) (pindex : CBlockIndex) (t : ConnectTotals)
    (hr : rewardCaps env conn k s b pindex t = some (ConnectStep.pass ())) :
    (IsProofOfWork k b = true → ∃ tx0, b.vtx[0]? = some tx0 ∧
      conn.GetValueOut tx0 ≤ env.GetProofOfWorkReward pindex.nHeight t.nFees) ∧
    (IsProofOfStake k b = true → ∃ tx1 nCoinAge, b.vtx[1]? = some tx1 ∧
      conn.GetCoinAge tx1 = some nCoinAge ∧
      t.nStakeReward ≤
        env.GetProofOfStakeReward (pindex.pprev.bind (fun p => s.mapBlockIndex.lookup p))
          (nCoinAge : Int) t.nFees) := by
  unfold rewardCaps at hr
  simp only at hr
  by_cases hw : IsProofOfWork k b = true
  · have hp : IsProofOfStake k b = false := by
      unfold IsProofOfWork at hw
      simpa using hw
    refine ⟨fun _ => ?_, fun hx => by rw [hp] at hx; simp at hx⟩
    rw [if_pos hw] at hr
    cases h0 : b.vtx[0]? with
    | none => rw [h0] at hr; simp at hr
    | some tx0 =>
      rw [h0] at hr
      simp only at hr
      by_cases hgt : conn.GetValueOut tx0 > env.GetProofOfWorkReward pindex.nHeight t.nFees
      · rw [if_pos hgt] at hr
        simp at hr
      · exact ⟨tx0, rfl, not_lt.mp hgt⟩
  · have hw1 : IsProofOfWork k b = false := by simpa using hw
    have hp : IsProofOfStake k b = true := by
      unfold IsProofOfWork at hw1
      simpa using hw1
    refine ⟨fun hx => absurd hx hw, fun _ => ?_⟩
    rw [if_neg hw] at hr
    simp only at hr
    rw [if_pos hp] at hr
    cases h1 : b.vtx[1]? with
    | none => rw [h1] at hr; simp at hr
    | some tx1 =>
      rw [h1] at hr
      simp only at hr
      cases hage : conn.GetCoinAge tx1 with
      | none => rw [hage] at hr; simp at hr
      | some nCoinAge =>
        rw [hage] at hr
        simp only at hr
        split at hr
        · simp at hr
        · rename_i hle
          exact ⟨tx1, nCoinAge, rfl, hage, not_lt.mp hle⟩

/-- The stake reward of a proof-of-stake block of the shape that `CheckBlock` accepts: the
coinstake `vtx[1]` is the only one that assigns it. -/
theorem lastStakeReward_stake_block (k : TxKinds) (conn : ConnectEnv) (b : CBlock)
    (tx1 : CTransaction) (hpos : IsProofOfStake k b = true)
    (hfirst : firstNotCoinBase k b = false) (hbase : laterCoinBase k b = false)
    (hstake : laterCoinStake k b = false) (h1 : b.vtx[1]? = some tx1) :
    lastStakeReward k conn b.vtx 0
      = wrap64 (conn.GetValueOut tx1 - conn.GetValueMapIn tx1) := by
  obtain ⟨t1, ht1, hcs⟩ := isProofOfStake_second k b hpos
  rw [h1] at ht1
  simp only [Option.some.injEq] at ht1
  subst ht1
  obtain ⟨tx0, h0, hcb0⟩ := (firstNotCoinBase_false k b).mp hfirst
  have hb := (laterCoinBase_false k b).mp hbase
  have hs := (laterCoinStake_false k b).mp hstake
  cases hv : b.vtx with
  | nil => rw [hv] at h1; simp at h1
  | cons a rest =>
    cases rest with
    | nil => rw [hv] at h1; simp at h1
    | cons c rest2 =>
      rw [hv] at h0 h1
      simp only [List.getElem?_cons_zero, List.getElem?_cons_succ, Option.some.injEq] at h0 h1
      subst h0
      subst h1
      have hcb1 : k.IsCoinBase c = false :=
        hb 1 le_rfl c (by rw [hv]; simp)
      rw [lastStakeReward, lastStakeReward]
      simp only [hcb0, hcb1, hcs, Bool.not_true, Bool.not_false, Bool.false_and, Bool.true_and,
        Bool.false_eq_true, if_false, if_true]
      apply lastStakeReward_none
      intro tx htx
      rw [List.mem_iff_getElem?] at htx
      obtain ⟨j, hj⟩ := htx
      have := hs (j + 2) (by omega) tx (by rw [hv]; simpa using hj)
      simp [this]

/-- C22 (reward cap on connect), the totals being 64-bit values (the exact fee total of
the block and the stake reward of `vtx[1]` fit `int64_t`): `ConnectBlock` returns true
only if, for a proof-of-work block, the value out of the coinbase `vtx[0]` is at most
`GetProofOfWorkReward(pindex->nHeight, fees)` and, for a proof-of-stake block, the value
out minus the value in of the coinstake `vtx[1]` is at most
`GetProofOfStakeReward(pindex->pprev, nCoinAge, fees)`, `fees` being the sum of value in
minus value out over the transactions that are neither coinbase nor coinstake; and when
`CheckBlock` and the transaction loop pass, a work block above its cap makes
`ConnectBlock` return false with 50 added to the DoS weight, a stake block above its cap
with 100. -/
theorem ConnectBlock_reward_cap (env : CheckEnv) (conn : ConnectEnv) (h : Hasher)
    (k : TxKinds) (s : ChainState) (b : CBlock) (pindex : uint256) (fJustCheck : Bool)
    (hfees : -2 ^ 63 ≤ exactFees k conn b.vtx ∧ exactFees k conn b.vtx < 2 ^ 63)
    (hstake : ∀ tx1, b.vtx[1]? = some tx1 →
      -2 ^ 63 ≤ conn.GetValueOut tx1 - conn.GetValueMapIn tx1 ∧
      conn.GetValueOut tx1 - conn.GetValueMapIn tx1 < 2 ^ 63) :
    (∀ out, ConnectBlock env conn h k s b pindex fJustCheck = some out → out.ok = true →
      ∃ e, s.mapBlockIndex.lookup pindex = some e ∧
        (IsProofOfWork k b = true → ∃ tx0, b.vtx[0]? = some tx0 ∧
          conn.GetValueOut tx0
            ≤ env.GetProofOfWorkReward e.nHeight (exactFees k conn b.vtx)) ∧
        (IsProofOfStake k b = true → ∃ tx1 nCoinAge, b.vtx[1]? = some tx1 ∧
          conn.GetCoinAge tx1 = some nCoinAge ∧
          conn.GetValueOut tx1 - conn.GetValueMapIn tx1
            ≤ env.GetProofOfStakeReward (e.pprev.bind (fun p => s.mapBlockIndex.lookup p))
                (nCoinAge : Int) (exactFees k conn b.vtx))) ∧
    (∀ checked e t,
      CheckBlock env h k s b (!fJustCheck) (!fJustCheck) false = some checked →
      checked.ok = true → s.mapBlockIndex.lookup pindex = some e →
      connectLoop k env.GetLegacySigOpCount conn (conn.ComputeBlockSize e / 50) []
          checked.block.vtx
          { nFees := 0, nValueIn := 0, nValueOut := 0, nStakeReward := 0, nSigOps := 0 }
        = ConnectStep.pass t →
      (IsProofOfWork k b = true → ∀ tx0, b.vtx[0]? = some tx0 →
        conn.GetValueOut tx0 > env.GetProofOfWorkReward e.nHeight (exactFees k conn b.vtx) →
        ConnectBlock env conn h k s b pindex fJustCheck
          = some { ok := false,
                   block := { checked.block with nDoS := checked.block.nDoS + 50 },
                   nMasterNodeChecksDelayBaseTime := checked.nMasterNodeChecksDelayBaseTime,
                   MAX_BLOCK_SIZE := conn.ComputeBlockSize e,
                   MAX_BLOCK_SIGOPS := conn.ComputeBlockSize e / 50 }) ∧
      (IsProofOfStake k b = true → ∀ tx1 nCoinAge, b.vtx[1]? = some tx1 →
        conn.GetCoinAge tx1 = some nCoinAge →
        conn.GetValueOut tx1 - conn.GetValueMapIn tx1
          > env.GetProofOfStakeReward (e.pprev.bind (fun p => s.mapBlockIndex.lookup p))
              (nCoinAge : Int) (exactFees k conn b.vtx) →
        ConnectBlock env conn h k s b pindex fJustCheck
          = some { ok := false,
                   block := { checked.block with nDoS := checked.block.nDoS + 100 },
                   nMasterNodeChecksDelayBaseTime := checked.nMasterNodeChecksDelayBaseTime,
                   MAX_BLOCK_SIZE := conn.ComputeBlockSize e,
                   MAX_BLOCK_SIGOPS := conn.ComputeBlockSize e / 50 })) := by
  have htotals : ∀ (checked : CheckOutcome) (e : CBlockIndex) (t : ConnectTotals),
      CheckBlock env h k s b (!fJustCheck) (!fJustCheck) false = some checked →
      checked.ok = true →
      connectLoop k env.GetLegacySigOpCount conn (conn.ComputeBlockSize e / 50) []
          checked.block.vtx
          { nFees := 0, nValueIn := 0, nValueOut := 0, nStakeReward := 0, nSigOps := 0 }
        = ConnectStep.pass t →
      checked.block.vtx = b.vtx ∧ t.nFees = exactFees k conn b.vtx ∧
      (IsProofOfStake k b = true → ∀ tx1, b.vtx[1]? = some tx1 →
        t.nStakeReward = conn.GetValueOut tx1 - conn.GetValueMapIn tx1) := by
    intro checked e t hcheck hcok hloop
    have hv := CheckBlock_ok_vtx env h k s b _ _ _ checked hcheck hcok
    rw [hv] at hloop
    have hf := connectLoop_fees k env.GetLegacySigOpCount conn _ b.vtx [] _ t
      (by unfold wrap64; norm_num) hloop
    simp only [zero_add] at hf
    rw [wrap64_exact _ hfees.1 hfees.2] at hf
    refine ⟨hv, hf, fun hpos tx1 h1 => ?_⟩
    have hs := connectLoop_stake k env.GetLegacySigOpCount conn _ b.vtx [] _ t hloop
    simp only at hs
    obtain ⟨c1, c2, c3, c4, c5, c6, c7, c8⟩ :=
      CheckBlock_ok_conditions env h k s b _ _ _ checked hcheck hcok
    rw [hpos] at c8
    simp only [Bool.true_and] at c8
    rw [hs, lastStakeReward_stake_block k conn b tx1 hpos c4 c5 c8 h1]
    exact wrap64_exact _ (hstake tx1 h1).1 (hstake tx1 h1).2
  refine ⟨fun out hr hok => ?_, fun checked e t hcheck hcok he hloop => ?_⟩
  · obtain ⟨checked, e, t, hcheck, hcok, he, hloop, hcaps⟩ :=
      ConnectBlock_ok env conn h k s b pindex fJustCheck out hr hok
    obtain ⟨hv, hf, hs⟩ := htotals checked e t hcheck hcok hloop
    obtain ⟨hw, hp⟩ := rewardCaps_pass env conn k s checked.block e t hcaps
    rw [IsProofOfWork_vtx k checked.block b hv] at hw
    rw [IsProofOfStake_vtx k checked.block b hv] at hp
    rw [hv, hf] at hw hp
    refine ⟨e, he, hw, fun hpos => ?_⟩
    obtain ⟨tx1, nCoinAge, h1, hage, hle⟩ := hp hpos
    rw [hs hpos tx1 h1] at hle
    exact ⟨tx1, nCoinAge, h1, hage, hle⟩
  · obtain ⟨hv, hf, hs⟩ := htotals checked e t hcheck hcok hloop
    have hnot : (!checked.ok) = false := by rw [hcok]; rfl
    refine ⟨fun hw tx0 h0 hgt => ?_, fun hpos tx1 nCoinAge h1 hage hgt => ?_⟩
    · have hcaps : rewardCaps env conn k s checked.block e t = some (ConnectStep.dos 50) := by
        unfold rewardCaps
        simp only
        rw [IsProofOfWork_vtx k checked.block b hv, if_pos hw, hv, h0]
        simp only
        rw [hf, if_pos hgt]
      unfold ConnectBlock
      rw [hcheck]
      simp only
      rw [hnot]
      simp only [Bool.false_eq_true, if_false]
      rw [he]
      simp only
      rw [hloop]
      simp only
      rw [hcaps]
      rfl
    · have hw : IsProofOfWork k b = false := by simp [IsProofOfWork, hpos]
      have hcaps : rewardCaps env conn k s checked.block e t
          = some (ConnectStep.dos 100) := by
        unfold rewardCaps
        simp only
        rw [IsProofOfWork_vtx k checked.block b hv, hw]
        simp only [Bool.false_eq_true, if_false]
        rw [IsProofOfStake_vtx k checked.block b hv, if_pos hpos, hv, h1]
        simp only
        rw [hage]
        simp only
        rw [hf, hs hpos tx1 h1, if_pos hgt]
      unfold ConnectBlock
      rw [hcheck]
      simp only
      rw [hnot]
      simp only [Bool.false_eq_true, if_false]
      rw [he]
      simp only
      rw [hloop]
      simp only
      rw [hcaps]
      rfl

theorem ConnectBlock_reward_cap_witness :
    (∃ e, chainGenesis.mapBlockIndex.lookup 1 = some e ∧
      (IsProofOfWork sampleKinds sampleGenesis = true → ∃ tx0,
        sampleGenesis.vtx[0]? = some tx0 ∧
        sampleConnectEnv.GetValueOut tx0
          ≤ sampleCheckEnv.GetProofOfWorkReward e.nHeight
              (exactFees sampleKinds sampleConnectEnv sampleGenesis.vtx)) ∧
      (IsProofOfStake sampleKinds sampleGenesis = true → ∃ tx1 nCoinAge,
        sampleGenesis.vtx[1]? = some tx1 ∧ sampleConnectEnv.GetCoinAge tx1 = some nCoinAge ∧
        sampleConnectEnv.GetValueOut tx1 - sampleConnectEnv.GetValueMapIn tx1
          ≤ sampleCheckEnv.GetProofOfStakeReward
              (e.pprev.bind (fun p => chainGenesis.mapBlockIndex.lookup p)) (nCoinAge : Int)
              (exactFees sampleKinds sampleConnectEnv sampleGenesis.vtx))) ∧
    ConnectBlock sampleCheckEnv sampleConnectEnv sampleHasher sampleKinds chainGenesis
        sampleGreedy 1 false
      = some { ok := false,
               block := { sampleGreedy with vMerkleTree := [0], nDoS := 50 },
               nMasterNodeChecksDelayBaseTime := 0, MAX_BLOCK_SIZE := 1000000,
               MAX_BLOCK_SIGOPS := 20000 } ∧
    ConnectBlock quietCheckEnv sampleConnectEnv sampleHasher sampleKinds
        (chainWith sampleWrongPayee) sampleWrongPayee 13 false
      = some { ok := false,
               block := { sampleWrongPayee with vMerkleTree := [0, 1, 8], nDoS := 100 },
               nMasterNodeChecksDelayBaseTime := 0, MAX_BLOCK_SIZE := 1000000,
               MAX_BLOCK_SIGOPS := 20000 } :=
  ⟨(ConnectBlock_reward_cap sampleCheckEnv sampleConnectEnv sampleHasher sampleKinds
      chainGenesis sampleGenesis 1 false (by decide) (by decide)).1
      { ok := true, block := { sampleGenesis with vMerkleTree := [0] },
        nMasterNodeChecksDelayBaseTime := 0, MAX_BLOCK_SIZE := 1000000,
        MAX_BLOCK_SIGOPS := 20000 } (by decide) rfl,
   ((ConnectBlock_reward_cap sampleCheckEnv sampleConnectEnv sampleHasher sampleKinds
      chainGenesis sampleGreedy 1 false (by decide) (by decide)).2
      { ok := true, block := { sampleGreedy with vMerkleTree := [0] },
        nMasterNodeChecksDelayBaseTime := 0 }
      sampleGenesisEntry
      { nFees := 0, nValueIn := 0, nValueOut := 40000000000, nStakeReward := 0, nSigOps := 1 }
      (by decide) rfl (by decide) rfl).1 (by decide) (sampleCoinbase 40000000000) rfl
      (by decide),
   ((ConnectBlock_reward_cap quietCheckEnv sampleConnectEnv sampleHasher sampleKinds
      (chainWith sampleWrongPayee) sampleWrongPayee 13 false (by decide) (by decide)).2
      { ok := true, block := { sampleWrongPayee with vMerkleTree := [0, 1, 8] },
        nMasterNodeChecksDelayBaseTime := 0 }
      _
      { nFees := 0, nValueIn := 0, nValueOut := 60000000000, nStakeReward := 60000000000,
        nSigOps := 2 }
      (by decide) rfl rfl rfl).2 (by decide) _ 0 rfl rfl (by decide)⟩

/-! ## Disconnecting a block -/

theorem descending_self (n : Nat) : descending n n = [] := by
  simp [descending]

theorem descending_succ (n i : Nat) (h : i ≤ n) :
    descending (n + 1) i = n :: descending n i := by
  unfold descending
  have h1 : n + 1 - i = (n - i) + 1 := by omega
  rw [h1, List.range'_concat, List.reverse_append]
  simp only [List.reverse_cons, List.reverse_nil, List.nil_append, List.singleton_append,
    Nat.one_mul]
  congr 1
  omega

theorem disconnectCalls_self (n : Nat) : disconnectCalls n n = [] := by
  simp [disconnectCalls, descending_self]

theorem disconnectCalls_succ (n i : Nat) (h : i ≤ n) :
    disconnectCalls (n + 1) i
      = DisconnectEvent.DisconnectInputs n :: disconnectCalls n i := by
  simp [disconnectCalls, descending_succ n i h]

/-- The loop succeeds with all calls made when each call succeeds. -/
theorem disconnectLoop_ok (env : DisconnectEnv) (vtx : List CTransaction) (n : Nat) :
    ∀ tr0 : List DisconnectEvent, n ≤ vtx.length →
      (∀ i tx, i < n → vtx[i]? = some tx →
        env.DisconnectInputs (tr0 ++ disconnectCalls n (i + 1)) tx = true) →
      disconnectLoop env vtx n tr0 = some (true, tr0 ++ disconnectCalls n 0) := by
  induction n with
  | zero =>
    intro tr0 _ _
    simp [disconnectLoop, disconnectCalls_self]
  | succ n ih =>
    intro tr0 hn hall
    have hlt : n < vtx.length := by omega
    have hget : vtx[n]? = some vtx[n] := List.getElem?_eq_getElem hlt
    have h0 := hall n vtx[n] (by omega) hget
    rw [disconnectCalls_self, List.append_nil] at h0
    rw [disconnectLoop, hget]
    simp only [h0, Bool.not_true, Bool.false_eq_true, if_false]
    rw [ih _ (by omega), disconnectCalls_succ n 0 (by omega)]
    · simp
    · intro i tx hi htx
      have := hall i tx (by omega) htx
      rw [disconnectCalls_succ n (i + 1) (by omega)] at this
      simpa using this

/-- The loop stops at the first call that fails. -/
theorem disconnectLoop_fail (env : DisconnectEnv) (vtx : List CTransaction) (n : Nat) :
    ∀ (tr0 : List DisconnectEvent) (i : Nat) (tx : CTransaction), n ≤ vtx.length → i < n →
      vtx[i]? = some tx →
      env.DisconnectInputs (tr0 ++ disconnectCalls n (i + 1)) tx = false →
      (∀ j tx1, i < j → j < n → vtx[j]? = some tx1 →
        env.DisconnectInputs (tr0 ++ disconnectCalls n (j + 1)) tx1 = true) →
      disconnectLoop env vtx n tr0 = some (false, tr0 ++ disconnectCalls n i) := by
  induction n with
  | zero => intro _ i _ _ hi; omega
  | succ n ih =>
    intro tr0 i tx hn hi htx hfail hall
    have hlt : n < vtx.length := by omega
    have hget : vtx[n]? = some vtx[n] := List.getElem?_eq_getElem hlt
    rw [disconnectLoop, hget]
    by_cases hin : i = n
    · subst hin
      rw [hget] at htx
      simp only [Option.some.injEq] at htx
      rw [disconnectCalls_self, List.append_nil, ← htx] at hfail
      simp only [hfail, Bool.not_false, if_true]
      rw [disconnectCalls_succ i i (le_refl _), disconnectCalls_self]
    · have h0 := hall n vtx[n] (by omega) (by omega) hget
      rw [disconnectCalls_self, List.append_nil] at h0
      simp only [h0, Bool.not_true, Bool.false_eq_true, if_false]
      rw [ih _ i tx (by omega) (by omega) htx, disconnectCalls_succ n i (by omega)]
      · simp
      · rw [disconnectCalls_succ n (i + 1) (by omega)] at hfail
        simpa using hfail
      · intro j tx1 hij hj htx1
        have := hall j tx1 hij (by omega) htx1
        rw [disconnectCalls_succ n (j + 1) (by omega)] at this
        simpa using this

/-- The loop returns, and its calls are those for the indices `n - 1` down to some
`i`, with `i = 0` when it succeeds. -/
theorem disconnectLoop_shape (env : DisconnectEnv) (vtx : List CTransaction) (n : Nat) :
    ∀ tr0 : List DisconnectEvent, n ≤ vtx.length →
      ∃ ok i, i ≤ n ∧ (ok = true → i = 0) ∧
        disconnectLoop env vtx n tr0 = some (ok, tr0 ++ disconnectCalls n i) := by
  induction n with
  | zero =>
    intro tr0 _
    exact ⟨true, 0, le_refl _, fun _ => rfl, by simp [disconnectLoop, disconnectCalls_self]⟩
  | succ n ih =>
    intro tr0 hn
    have hlt : n < vtx.length := by omega
    have hget : vtx[n]? = some vtx[n] := List.getElem?_eq_getElem hlt
    rw [disconnectLoop, hget]
    by_cases h0 : env.DisconnectInputs tr0 vtx[n] = true
    · obtain ⟨ok, i, hi, hok, hr⟩ :=
        ih (tr0 ++ [DisconnectEvent.DisconnectInputs n]) (by omega)
      refine ⟨ok, i, by omega, hok, ?_⟩
      simp only [h0, Bool.not_true, Bool.false_eq_true, if_false]
      rw [hr, disconnectCalls_succ n i hi]
      simp
    · have h1 : env.DisconnectInputs tr0 vtx[n] = false := by simpa using h0
      refine ⟨false, n, by omega, fun h => absurd h (by simp), ?_⟩
      simp only [h1, Bool.not_false, if_true]
      rw [disconnectCalls_succ n n (le_refl _), disconnectCalls_self]

theorem inputsIndex_calls (n i : Nat) :
    (disconnectCalls n i).filterMap DisconnectEvent.inputsIndex = descending n i := by
  unfold disconnectCalls
  rw [List.filterMap_map]
  have : (DisconnectEvent.inputsIndex ∘ DisconnectEvent.DisconnectInputs) = some := by
    funext x; rfl
  rw [this, List.filterMap_some]

theorem inputsIndex_sync (vtx : List CTransaction) :
    (syncEvents vtx).filterMap DisconnectEvent.inputsIndex = [] := by
  unfold syncEvents
  rw [List.filterMap_map]
  have : (DisconnectEvent.inputsIndex ∘ DisconnectEvent.SyncWithWallets)
      = fun _ => none := by
    funext x; rfl
  rw [this]
  simp

/-- C23.  `DisconnectBlock` on a block whose index entry `e` is in the map.
(1) The call returns; its `DisconnectInputs` calls are, in this order, those for the
transaction indices `n - 1, n - 2, ..., i` for some `i` (`n` the number of
transactions), and `i = 0` when the result is `true`.
(2) When the call for index `i` fails after the calls for all higher indices
succeeded, the result is `false` and nothing is called after index `i`.
(3) When every `DisconnectInputs` call succeeds and the `WriteBlockIndex` of the
previous entry (made when there is one) succeeds, the result is `true`, after the
calls for `n - 1` down to `0`, the write, and the wallet notifications. -/
theorem DisconnectBlock_order (env : DisconnectEnv) (s : ChainState) (b : CBlock)
    (pindex : uint256) (e : CBlockIndex)
    (hindex : s.mapBlockIndex.lookup pindex = some e) :
    (∃ ok tr i, DisconnectBlock env s b pindex = some (ok, tr) ∧ i ≤ b.vtx.length ∧
      tr.filterMap DisconnectEvent.inputsIndex = descending b.vtx.length i ∧
      (ok = true → i = 0)) ∧
    (∀ i tx, i < b.vtx.length → b.vtx[i]? = some tx →
      env.DisconnectInputs (disconnectCalls b.vtx.length (i + 1)) tx = false →
      (∀ j tx1, i < j → j < b.vtx.length → b.vtx[j]? = some tx1 →
        env.DisconnectInputs (disconnectCalls b.vtx.length (j + 1)) tx1 = true) →
      DisconnectBlock env s b pindex = some (false, disconnectCalls b.vtx.length i)) ∧
    ((∀ i tx, b.vtx[i]? = some tx →
        env.DisconnectInputs (disconnectCalls b.vtx.length (i + 1)) tx = true) →
      (∀ p, e.pprev = some p →
        env.WriteBlockIndex (disconnectCalls b.vtx.length 0) p = true) →
      DisconnectBlock env s b pindex
        = some (true, disconnectCalls b.vtx.length 0
            ++ (match e.pprev with
                | none => []
                | some p => [DisconnectEvent.WriteBlockIndex p])
            ++ syncEvents b.vtx)) := by
  refine ⟨?_, ?_, ?_⟩
  · obtain ⟨ok, i, hi, hok, hr⟩ := disconnectLoop_shape env b.vtx b.vtx.length [] (le_refl _)
    rw [List.nil_append] at hr
    unfold DisconnectBlock
    rw [hr]
    cases ok with
    | false =>
      exact ⟨false, _, i, rfl, hi, inputsIndex_calls _ _, fun h => absurd h (by simp)⟩
    | true =>
      have hi0 := hok rfl
      simp only [hindex]
      cases hp : e.pprev with
      | none =>
        refine ⟨true, _, i, rfl, hi, ?_, fun _ => hi0⟩
        rw [List.filterMap_append, inputsIndex_calls, inputsIndex_sync, List.append_nil]
      | some p =>
        by_cases hw : env.WriteBlockIndex (disconnectCalls b.vtx.length i) p = true
        · refine ⟨true, _, i, by simp only [hw]; rfl, hi, ?_, fun _ => hi0⟩
          rw [List.filterMap_append, List.filterMap_append, inputsIndex_calls,
            inputsIndex_sync, List.append_nil]
          simp [DisconnectEvent.inputsIndex]
        · have hw1 : env.WriteBlockIndex (disconnectCalls b.vtx.length i) p = false := by
            simpa using hw
          refine ⟨false, _, i, by simp only [hw1]; rfl, hi, ?_, fun h => absurd h (by simp)⟩
          rw [List.filterMap_append, inputsIndex_calls]
          simp [DisconnectEvent.inputsIndex]
  · intro i tx hi htx hfail hall
    have hr := disconnectLoop_fail env b.vtx b.vtx.length [] i tx (le_refl _) hi htx
      (by simpa using hfail) (fun j tx1 hij hj htx1 => by simpa using hall j tx1 hij hj htx1)
    rw [List.nil_append] at hr
    unfold DisconnectBlock
    rw [hr]
  · intro hall hwrite
    have hr := disconnectLoop_ok env b.vtx b.vtx.length [] (le_refl _)
      (fun i tx _ htx => by simpa using hall i tx htx)
    rw [List.nil_append] at hr
    unfold DisconnectBlock
    rw [hr]
    simp only [hindex]
    cases hp : e.pprev with
    | none => simp
    | some p =>
      have hw := hwrite p hp
      simp only [hw, Bool.not_true, Bool.false_eq_true, if_false]

theorem DisconnectBlock_order_witness :
    DisconnectBlock sampleDisconnectEnv (chainWith sampleWrongPayee) sampleWrongPayee 13
      = some (true, [DisconnectEvent.DisconnectInputs 1, DisconnectEvent.DisconnectInputs 0,
          DisconnectEvent.WriteBlockIndex 1, DisconnectEvent.SyncWithWallets 0,
          DisconnectEvent.SyncWithWallets 1]) ∧
    DisconnectBlock failingDisconnectEnv (chainWith sampleWrongPayee) sampleWrongPayee 13
      = some (false, [DisconnectEvent.DisconnectInputs 1]) :=
  ⟨(DisconnectBlock_order sampleDisconnectEnv (chainWith sampleWrongPayee) sampleWrongPayee
      13 _ rfl).2.2 (fun _ _ _ => rfl) (fun _ _ => rfl),
   (DisconnectBlock_order failingDisconnectEnv (chainWith sampleWrongPayee) sampleWrongPayee
      13 _ rfl).2.1 1 _ (by decide) rfl rfl
      (fun j _ h1 h2 _ => absurd h2 (by
        have : sampleWrongPayee.vtx.length = 2 := rfl
        omega))⟩

/-! ## Reads of the payment outputs -/

/-- One round of the payment loop with the devops index outside the vector. -/
theorem paymentsAt_none (COIN : Int) (fValid : List Nat → Bool) (fMnAdvRelay pos : Bool)
    (vout : List CTxOut) (m d : Nat) (mnPay devPay engage time upd : Int) (i : Nat) (f : Bool)
    (hd : vout[d]? = none) :
    paymentsAt COIN fValid fMnAdvRelay pos vout m d mnPay devPay engage time upd i f = none := by
  unfold paymentsAt
  rw [hd]
  split
  · rename_i heq
    simp at heq
  · rfl

/-- C24 (reads of the payment outputs, as the code makes them): for a block that reaches
the payment verification (its hash is in the block index and the entry's time is past
the fork toggle), the reads `vout[nProofOfIndexMasternode]` and
`vout[nProofOfIndexDevops]` inside the output loop leave the output vector of the payment
transaction when that vector is not empty and has at most `nProofOfIndexDevops`
elements (undefined behaviour, the result `none`); they stay inside it when the vector
is empty, the loop making no round, or has more than `nProofOfIndexDevops` elements. -/
theorem devopsPaymentStep_reads (env : CheckEnv) (h : Hasher) (k : TxKinds) (s : ChainState)
    (b : CBlock) (pindex : CBlockIndex) (tx : CTransaction)
    (hidx : s.mapBlockIndex.lookup (GetHash h b) = some pindex)
    (hfork : (pindex.nTime : Int) > env.VERION_1_0_0_0_MANDATORY_UPDATE_START)
    (htx : b.vtx[if (!IsProofOfWork k b) = true then 1 else 0]? = some tx) :
    (tx.vout ≠ [] →
      tx.vout.length ≤ (paymentLayout (!IsProofOfWork k b) tx.vout.length).2.1 →
      devopsPaymentStep env h k s b = none) ∧
    ((tx.vout = [] ∨ (paymentLayout (!IsProofOfWork k b) tx.vout.length).2.1 < tx.vout.length) →
      (devopsPaymentStep env h k s b).isSome = true) := by
  refine ⟨fun hne hshort => ?_, fun hok => ?_⟩
  · have hd : tx.vout[(paymentLayout (!IsProofOfWork k b) tx.vout.length).2.1]? = none :=
      List.getElem?_eq_none hshort
    obtain ⟨n, hn⟩ : ∃ n, tx.vout.length = n + 1 := by
      cases hv : tx.vout with
      | nil => exact absurd hv hne
      | cons o rest => exact ⟨rest.length, rfl⟩
    unfold devopsPaymentStep
    rw [hidx]
    try simp only
    rw [if_pos hfork]
    try simp only
    rw [htx]
    try simp only
    unfold paymentLayout at hd
    rw [hn, List.range_succ_eq_map]
    rw [hn] at hd
    rw [paymentsLoop, paymentsAt_none _ _ _ _ _ _ _ _ _ _ _ _ _ _ hd]
  · rcases hok with hnil | hlong
    · unfold devopsPaymentStep
      rw [hidx]
      try simp only
      rw [if_pos hfork]
      try simp only
      rw [htx]
      try simp only
      rw [hnil]
      simp [paymentsLoop]
    · have hmd : (paymentLayout (!IsProofOfWork k b) tx.vout.length).1
          < (paymentLayout (!IsProofOfWork k b) tx.vout.length).2.1 := by
        unfold paymentLayout
        split <;> split <;> try split
        all_goals decide
      have hm : (paymentLayout (!IsProofOfWork k b) tx.vout.length).1 < tx.vout.length :=
        lt_trans hmd hlong
      rw [devopsPaymentStep_eq env h k s b pindex tx _ _ hidx hfork htx
        (List.getElem?_eq_getElem hm) (List.getElem?_eq_getElem hlong)]
      rfl

theorem devopsPaymentStep_reads_witness :
    devopsPaymentStep sampleCheckEnv sampleHasher sampleKinds (chainWith sampleShortCoinbase)
        sampleShortCoinbase = none ∧
    (devopsPaymentStep sampleCheckEnv sampleHasher sampleKinds (chainWith sampleOverpaid)
        sampleOverpaid).isSome = true ∧
    CheckBlock sampleCheckEnv sampleHasher sampleKinds (chainWith sampleShortCoinbase)
        sampleShortCoinbase true true true = none :=
  ⟨(devopsPaymentStep_reads sampleCheckEnv sampleHasher sampleKinds
      (chainWith sampleShortCoinbase) sampleShortCoinbase _ _ rfl (by decide) rfl).1
      (by decide) (by decide),
   (devopsPaymentStep_reads sampleCheckEnv sampleHasher sampleKinds
      (chainWith sampleOverpaid) sampleOverpaid _ _ rfl (by decide) rfl).2
      (Or.inr (by decide)),
   rfl⟩

/-! ## The reorganisation case of `SetBestChain` -/

theorem connectedBlocks_append (a b : List Event) :
    connectedBlocks (a ++ b) = connectedBlocks a ++ connectedBlocks b := by
  unfold connectedBlocks
  rw [List.filterMap_append]

theorem connectedBlocks_removals (h : Hasher) (vtx : List CTransaction) :
    connectedBlocks (vtx.map (fun tx => Event.MempoolRemove (h.GetHash tx))) = [] := by
  unfold connectedBlocks
  rw [List.filterMap_map]
  have : (Event.connected ∘ fun tx => Event.MempoolRemove (h.GetHash tx))
      = fun _ => none := by
    funext x; rfl
  rw [this]
  simp

/-- What one call of `SetBestChainInner` adds to the trace: the forward link of the
parent to the block when it returns `true`, no forward link when it returns `false`. -/
theorem SetBestChainInner_trace (c : ChainEnv) (h : Hasher) (s s' : ChainState) (b : CBlock)
    (p : uint256) (r : Bool) (hr : SetBestChainInner c h s b p = some (r, s')) :
    ∃ new, s'.trace = s.trace ++ new ∧
      connectedBlocks new = (if r then [p] else []) ∧
      (r = true → ∃ e pprev, s.mapBlockIndex.lookup p = some e ∧ e.pprev = some pprev ∧
        Event.SetNext pprev p ∈ new) := by
  unfold SetBestChainInner at hr
  simp only at hr
  by_cases hc : c.ConnectBlock s b p = true
  · by_cases hw : c.WriteHashBestChain (s.emit (Event.ConnectBlock p)) (GetHash h b) = true
    · simp only [hc, hw, Bool.and_self, Bool.not_true, Bool.or_self, Bool.false_eq_true,
        if_false, if_true] at hr
      by_cases ht : c.TxnCommit
          ((s.emit (Event.ConnectBlock p)).emit (Event.WriteHashBestChain (GetHash h b))) = true
      · simp only [ht, Bool.not_true, Bool.false_eq_true, if_false] at hr
        cases hl : s.mapBlockIndex.lookup p with
        | none =>
          simp only [ChainState.emit, hl, Option.none_bind] at hr
          exact absurd hr (by simp)
        | some e =>
          cases hp : e.pprev with
          | none =>
            simp only [ChainState.emit, hl, Option.some_bind, hp] at hr
            exact absurd hr (by simp)
          | some pprev =>
            simp only [ChainState.emit, hl, Option.some_bind, hp, Option.some.injEq,
              Prod.mk.injEq] at hr
            obtain ⟨hr1, hr2⟩ := hr
            subst hr1
            refine ⟨[Event.ConnectBlock p, Event.WriteHashBestChain (GetHash h b),
              Event.TxnCommit, Event.SetNext pprev p]
              ++ b.vtx.map (fun tx => Event.MempoolRemove (h.GetHash tx)), ?_, ?_, ?_⟩
            · rw [← hr2]; simp
            · rw [connectedBlocks_append, connectedBlocks_removals]
              rfl
            · intro _
              exact ⟨e, pprev, rfl, hp, by simp⟩
      · have ht1 : c.TxnCommit
            ((s.emit (Event.ConnectBlock p)).emit (Event.WriteHashBestChain (GetHash h b)))
            = false := by simpa using ht
        simp only [ht1, Bool.not_false, if_true, Option.some.injEq, Prod.mk.injEq] at hr
        obtain ⟨hr1, hr2⟩ := hr
        subst hr1
        refine ⟨[Event.ConnectBlock p, Event.WriteHashBestChain (GetHash h b),
          Event.TxnCommit], ?_, rfl, fun h => absurd h (by simp)⟩
        rw [← hr2]; simp [ChainState.emit]
    · have hw1 : c.WriteHashBestChain (s.emit (Event.ConnectBlock p)) (GetHash h b) = false := by
        simpa using hw
      simp only [hc, hw1, Bool.and_false, Bool.not_true, Bool.not_false, Bool.or_true, if_true,
        Option.some.injEq, Prod.mk.injEq] at hr
      obtain ⟨hr1, hr2⟩ := hr
      subst hr1
      refine ⟨[Event.ConnectBlock p, Event.WriteHashBestChain (GetHash h b),
        Event.TxnAbort, Event.InvalidChainFound p], ?_, rfl, fun h => absurd h (by simp)⟩
      rw [← hr2]; simp [ChainState.emit]
  · have hc1 : c.ConnectBlock s b p = false := by simpa using hc
    simp only [hc1, Bool.false_and, Bool.not_false, Bool.or_self, Bool.true_or, if_true,
      Bool.false_eq_true, if_false, Option.some.injEq, Prod.mk.injEq] at hr
    obtain ⟨hr1, hr2⟩ := hr
    subst hr1
    refine ⟨[Event.ConnectBlock p, Event.TxnAbort, Event.InvalidChainFound p], ?_, rfl,
      fun h => absurd h (by simp)⟩
    rw [← hr2]; simp [ChainState.emit]

/-- With a ledger that succeeds, `SetBestChainInner` does not return `false`. -/
theorem SetBestChainInner_succeeds (c : ChainEnv) (h : Hasher) (s s' : ChainState)
    (b : CBlock) (p : uint256) (r : Bool)
    (hc : ∀ st blk q, c.ConnectBlock st blk q = true)
    (hw : ∀ st hash, c.WriteHashBestChain st hash = true)
    (ht : ∀ st, c.TxnCommit st = true)
    (hr : SetBestChainInner c h s b p = some (r, s')) : r = true := by
  unfold SetBestChainInner at hr
  simp only [hc, hw, ht, Bool.and_self, Bool.not_true, Bool.or_self, Bool.false_eq_true,
    if_false, if_true] at hr
  split at hr
  · simp at hr
  · simp only [Option.some.injEq, Prod.mk.injEq] at hr
    exact hr.1.symm

theorem ledgerSucceeds_tail (c : ChainEnv) (p : uint256) (l : List uint256)
    (hs : ledgerSucceeds c (p :: l)) : ledgerSucceeds c l :=
  ⟨fun st q hq => hs.1 st q (List.mem_cons_of_mem _ hq), hs.2⟩

/-- The loop over the postponed blocks connects an initial run of them, in order, and
all of them when no ledger call fails. -/
theorem connectFurther_trace (c : ChainEnv) (h : Hasher) :
    ∀ (l : List uint256) (s s' : ChainState), connectFurther c h l s = some s' →
      ∃ new rest, s'.trace = s.trace ++ new ∧ l = connectedBlocks new ++ rest ∧
        (∀ p ∈ connectedBlocks new, ∃ e pprev, s.mapBlockIndex.lookup p = some e ∧
          e.pprev = some pprev ∧ Event.SetNext pprev p ∈ new) ∧
        (ledgerSucceeds c l → rest = []) := by
  intro l
  induction l with
  | nil =>
    intro s s' hr
    simp only [connectFurther, Option.some.injEq] at hr
    refine ⟨[], [], by rw [← hr]; simp, rfl, fun p hp => ?_, fun _ => rfl⟩
    simp [connectedBlocks] at hp
  | cons p rest0 ih =>
    intro s s' hr
    unfold connectFurther at hr
    simp only at hr
    cases hd : c.ReadFromDisk s p with
    | none =>
      simp only [hd, Option.some.injEq] at hr
      refine ⟨[Event.ReadFromDisk p], p :: rest0, by rw [← hr]; rfl, rfl, fun q hq => ?_,
        fun hs => ?_⟩
      · simp [connectedBlocks, Event.connected] at hq
      · have := hs.1 s p (List.mem_cons_self _ _)
        rw [hd] at this
        simp at this
    | some block =>
      simp only [hd] at hr
      by_cases hb : c.TxnBegin (s.emit (Event.ReadFromDisk p)) = true
      · simp only [hb, Bool.not_true, Bool.false_eq_true, if_false] at hr
        cases hin : SetBestChainInner c h
            ((s.emit (Event.ReadFromDisk p)).emit Event.TxnBegin) block p with
        | none => simp [hin] at hr
        | some res =>
          obtain ⟨r, s2⟩ := res
          obtain ⟨new1, ht1, hc1, hm1⟩ := SetBestChainInner_trace _ _ _ _ _ _ _ hin
          have hmap := SetBestChainInner_map _ _ _ _ _ _ _ hin
          cases r with
          | false =>
            simp only [hin, Option.some.injEq] at hr
            refine ⟨[Event.ReadFromDisk p, Event.TxnBegin] ++ new1, p :: rest0, ?_, ?_,
              fun q hq => ?_, fun hs => ?_⟩
            · rw [← hr, ht1]; simp [ChainState.emit]
            · rw [connectedBlocks_append, hc1]; rfl
            · rw [connectedBlocks_append, hc1] at hq
              simp [connectedBlocks, Event.connected] at hq
            · exact absurd (SetBestChainInner_succeeds _ _ _ _ _ _ _ hs.2.2.1 hs.2.2.2.1
                hs.2.2.2.2 hin) (by simp)
          | true =>
            simp only [hin] at hr
            obtain ⟨new2, rest2, ht2, hl2, hm2, hs2⟩ := ih s2 s' hr
            obtain ⟨e, pprev, he, hpp, hmem⟩ := hm1 rfl
            refine ⟨[Event.ReadFromDisk p, Event.TxnBegin] ++ new1 ++ new2, rest2, ?_, ?_,
              fun q hq => ?_, fun hs => hs2 (ledgerSucceeds_tail c p rest0 hs)⟩
            · rw [ht2, ht1]; simp [ChainState.emit]
            · rw [connectedBlocks_append, connectedBlocks_append, hc1, hl2]
              rfl
            · rw [connectedBlocks_append, connectedBlocks_append, hc1] at hq
              simp only [connectedBlocks, Event.connected, List.filterMap_cons,
                List.filterMap_nil, List.nil_append, if_true, List.singleton_append,
                List.mem_cons] at hq
              rcases hq with hq | hq
              · rw [hq]
                exact ⟨e, pprev, he, hpp, by simp [hmem]⟩
              · obtain ⟨e2, pprev2, he2, hpp2, hmem2⟩ := hm2 q hq
                rw [hmap] at he2
                exact ⟨e2, pprev2, he2, hpp2, by simp [hmem2]⟩
      · have hb1 : c.TxnBegin (s.emit (Event.ReadFromDisk p)) = false := by simpa using hb
        simp only [hb1, Bool.not_false, if_true, Option.some.injEq] at hr
        refine ⟨[Event.ReadFromDisk p, Event.TxnBegin], p :: rest0, by rw [← hr]; simp [ChainState.emit],
          rfl, fun q hq => ?_, fun hs => ?_⟩
        · simp [connectedBlocks, Event.connected] at hq
        · have := hs.2.1 (s.emit (Event.ReadFromDisk p))
          rw [hb1] at this
          simp at this

/-- The postponed entries: each is followed by its parent, and the first is the entry
the loop was entered with. -/
theorem postponeLoop_chain (s : ChainState) :
    ∀ (fuel : Nat) (p : uint256) (acc : List uint256) (pi : uint256) (sec : List uint256),
      postponeLoop s fuel p acc = some (pi, sec) →
      ∃ pushed, sec = acc ++ pushed ∧ (∀ x ∈ pushed.head?, x = p) ∧
        List.Chain' (fun x y => (s.mapBlockIndex.lookup x).bind (fun e => e.pprev) = some y)
          pushed := by
  intro fuel
  induction fuel with
  | zero => intro p acc pi sec hr; simp [postponeLoop] at hr
  | succ fuel ih =>
    intro p acc pi sec hr
    unfold postponeLoop at hr
    cases hl : s.mapBlockIndex.lookup p with
    | none => simp [hl] at hr
    | some e =>
      simp only [hl] at hr
      cases hp : e.pprev with
      | none =>
        simp only [hp, Option.some.injEq, Prod.mk.injEq] at hr
        exact ⟨[], by rw [← hr.2]; simp, by simp, List.chain'_nil⟩
      | some pprev =>
        simp only [hp] at hr
        split at hr
        · split at hr
          · obtain ⟨pushed, h1, h2, h3⟩ := ih _ _ _ _ hr
            refine ⟨p :: pushed, by rw [h1]; simp, by simp, ?_⟩
            rw [List.chain'_cons']
            refine ⟨fun y hy => ?_, h3⟩
            rw [h2 y hy, hl]
            simp [hp]
          · simp only [Option.some.injEq, Prod.mk.injEq] at hr
            exact ⟨[], by rw [← hr.2]; simp, by simp, List.chain'_nil⟩
        · simp at hr

/-- The reorganisation case of `switchChain`, taken apart. -/
theorem switchChain_reorganization (c : ChainEnv) (h : Hasher) (s1 s2 : ChainState)
    (b : CBlock) (pindexNew : uint256)
    (hgen : (s1.pindexGenesisBlock.isNone && GetHash h b == c.HashGenesisBlock) = false)
    (hprev : (b.hashPrevBlock == s1.hashBestChain) = false)
    (hr : switchChain c h s1 b pindexNew = some (true, s2)) :
    ∃ pindexIntermediate sec,
      postponeLoop s1 (s1.mapBlockIndex.length + 1) pindexNew []
        = some (pindexIntermediate, sec) ∧
      connectFurther c h sec.reverse (s1.emit (Event.Reorganize pindexIntermediate))
        = some s2 := by
  unfold switchChain at hr
  simp only [hgen, hprev, Bool.false_eq_true, if_false] at hr
  cases hp : postponeLoop s1 (s1.mapBlockIndex.length + 1) pindexNew [] with
  | none => simp [hp] at hr
  | some res =>
    obtain ⟨pindexIntermediate, sec⟩ := res
    simp only [hp] at hr
    split at hr
    · simp at hr
    · cases hcf : connectFurther c h sec.reverse
          (s1.emit (Event.Reorganize pindexIntermediate)) with
      | none => simp [hcf] at hr
      | some s3 =>
        simp only [hcf, Option.some.injEq, Prod.mk.injEq, true_and] at hr
        exact ⟨pindexIntermediate, sec, rfl, by rw [← hr]; exact hcf⟩

/-- C25, amended.  Let `SetBestChain` return `true` in the reorganisation case (the
block is not the genesis block of an empty index and does not extend the best block),
let `sec` be the entries postponed in `vpindexSecondary`, and `new` the calls the run
added to the trace.  Then `pindexBest = pindexNew` is published, and:
(1) the blocks connected by `SetBestChainInner` are, in order, an initial run of `sec`
in reverse: `sec.reverse = connectedBlocks new ++ rest`, where `rest` are the postponed
blocks left unconnected by a `break`;
(2) `sec` in reverse lists each parent in front of its child, and ends with `pindexNew`
when it is not empty;
(3) for every connected block the `pnext` of its parent was set to it;
(4) when every ledger call of the loop succeeds, `rest` is empty: every postponed
block has been connected, oldest first, `pindexNew` last. -/
theorem SetBestChain_reorganization (c : ChainEnv) (h : Hasher) (s s' : ChainState)
    (b : CBlock) (pindexNew : uint256)
    (hgen : (s.pindexGenesisBlock.isNone && GetHash h b == c.HashGenesisBlock) = false)
    (hprev : (b.hashPrevBlock == s.hashBestChain) = false)
    (hr : SetBestChain c h s b pindexNew = some (true, s')) :
    ∃ pindexIntermediate sec new rest,
      postponeLoop (s.emit Event.TxnBegin) (s.mapBlockIndex.length + 1) pindexNew []
        = some (pindexIntermediate, sec) ∧
      s'.trace = s.trace ++ new ∧ s'.pindexBest = some pindexNew ∧
      sec.reverse = connectedBlocks new ++ rest ∧
      List.Chain' (fun x y => (s.mapBlockIndex.lookup y).bind (fun e => e.pprev) = some x)
        sec.reverse ∧
      (∀ x ∈ sec.reverse.getLast?, x = pindexNew) ∧
      (∀ p ∈ connectedBlocks new, ∃ e pprev, s.mapBlockIndex.lookup p = some e ∧
        e.pprev = some pprev ∧ Event.SetNext pprev p ∈ new) ∧
      (ledgerSucceeds c sec →
        rest = [] ∧ connectedBlocks new = sec.reverse ∧
        (sec ≠ [] → (connectedBlocks new).getLast? = some pindexNew)) := by
  have hbest := (SetBestChain_true c h s s' b pindexNew hr).2
  obtain ⟨_, _, _, hbest, _⟩ := hbest
  unfold SetBestChain at hr
  simp only at hr
  split at hr
  · simp at hr
  · split at hr
    · simp at hr
    · simp at hr
    · rename_i s2 hsw
      obtain ⟨pindexIntermediate, sec, hp, hcf⟩ :=
        switchChain_reorganization c h (s.emit Event.TxnBegin) s2 b pindexNew hgen hprev hsw
      obtain ⟨new, rest, ht, hl, hm, hs⟩ := connectFurther_trace c h _ _ _ hcf
      obtain ⟨pushed, hp1, hp2, hp3⟩ := postponeLoop_chain _ _ _ _ _ _ hp
      rw [List.nil_append] at hp1
      subst hp1
      have hlast : ∀ x ∈ sec.reverse.getLast?, x = pindexNew := by
        intro x hx
        rw [List.getLast?_reverse] at hx
        exact hp2 x hx
      have htrace : ∃ sig, s'.trace = s.trace
          ++ ([Event.TxnBegin, Event.Reorganize pindexIntermediate] ++ new ++ sig) ∧
          connectedBlocks sig = [] := by
        split at hr
        · simp at hr
        · simp only [Option.some.injEq, Prod.mk.injEq, true_and] at hr
          split at hr
          · refine ⟨[Event.SignalSetBestChain pindexNew], ?_, rfl⟩
            rw [← hr]
            simp [ChainState.emit, ht]
          · refine ⟨[], ?_, rfl⟩
            rw [← hr]
            simp [ChainState.emit, ht]
      obtain ⟨sig, hsig, hsig0⟩ := htrace
      have hconn : connectedBlocks
          ([Event.TxnBegin, Event.Reorganize pindexIntermediate] ++ new ++ sig)
          = connectedBlocks new := by
        rw [connectedBlocks_append, connectedBlocks_append, hsig0, List.append_nil]
        rfl
      refine ⟨pindexIntermediate, sec, _, rest, hp, hsig, hbest, ?_, ?_, hlast, ?_, ?_⟩
      · rw [hconn]; exact hl
      · rw [List.chain'_reverse]
        exact hp3
      · intro p hp
        rw [hconn] at hp
        obtain ⟨e, pprev, he, hpp, hmem⟩ := hm p hp
        exact ⟨e, pprev, he, hpp, by simp [hmem]⟩
      · intro hsucc
        have hsucc1 : ledgerSucceeds c sec.reverse :=
          ⟨fun st q hq => hsucc.1 st q (List.mem_reverse.mp hq), hsucc.2⟩
        have hrest := hs hsucc1
        rw [hrest, List.append_nil] at hl
        refine ⟨hrest, by rw [hconn, ← hl], fun hne => ?_⟩
        rw [hconn, ← hl, List.getLast?_reverse]
        cases sec with
        | nil => exact absurd rfl hne
        | cons a t =>
          have := hp2 a (by simp)
          rw [this]
          rfl

theorem SetBestChain_reorganization_witness :
    ∃ pindexIntermediate sec new rest,
      postponeLoop (chainStalled.emit Event.TxnBegin) (chainStalled.mapBlockIndex.length + 1)
        5 [] = some (pindexIntermediate, sec) ∧
      chainReorganized.trace = chainStalled.trace ++ new ∧
      chainReorganized.pindexBest = some 5 ∧
      sec.reverse = connectedBlocks new ++ rest ∧
      List.Chain'
        (fun x y => (chainStalled.mapBlockIndex.lookup y).bind (fun e => e.pprev) = some x)
        sec.reverse ∧
      (∀ x ∈ sec.reverse.getLast?, x = 5) ∧
      (∀ p ∈ connectedBlocks new, ∃ e pprev, chainStalled.mapBlockIndex.lookup p = some e ∧
        e.pprev = some pprev ∧ Event.SetNext pprev p ∈ new) ∧
      (ledgerSucceeds diskChainEnv sec →
        rest = [] ∧ connectedBlocks new = sec.reverse ∧
        (sec ≠ [] → (connectedBlocks new).getLast? = some 5)) :=
  SetBestChain_reorganization diskChainEnv sampleHasher chainStalled chainReorganized
    sampleGrandchild 5 (by decide) (by decide) (by decide)

/-- In `chainStalled` the best block has hash 2, and the block with hash 5 on the other
branch is postponed behind the switch to its parent (hash 3).  When the block cannot be
read from disk, `SetBestChain` returns `true` and publishes the entry 5 as best block,
and no block has been connected: the trace gains `TxnBegin`, `Reorganize 3` and
`ReadFromDisk 5` only. -/
theorem best_tip_not_connected :
    postponeLoop (chainStalled.emit Event.TxnBegin) (chainStalled.mapBlockIndex.length + 1)
      5 [] = some (3, [5]) ∧
    SetBestChain sampleChainEnv sampleHasher chainStalled sampleGrandchild 5
      = some (true, chainHalfReorganized) ∧
    chainHalfReorganized.pindexBest = some 5 ∧
    chainHalfReorganized.trace = chainStalled.trace
      ++ [Event.TxnBegin, Event.Reorganize 3, Event.ReadFromDisk 5] ∧
    connectedBlocks [Event.TxnBegin, Event.Reorganize 3, Event.ReadFromDisk 5] = [] := by
  refine ⟨by decide, by decide, by decide, by decide, by decide⟩

/-! ## Exactness of the overflow guards -/

/-- The accumulation loop from the totals `i` and `o`, the values of the transactions
being 64-bit and non-negative where they exist: totals reached at the end are the exact
sums, and an "overflow detected" rejection comes with an exact partial sum of `2^63` or
more. -/
theorem inflationLoop_guards (gm : CTransaction → Option Bool)
    (gi go : CTransaction → Option Int) :
    ∀ (l : List CTransaction) (i o : Int),
      (∀ tx ∈ l, (∀ v, gi tx = some v → 0 ≤ v ∧ v < 2 ^ 63) ∧
        (∀ v, go tx = some v → 0 ≤ v ∧ v < 2 ^ 63)) →
      0 ≤ i → i < 2 ^ 63 → 0 ≤ o → o < 2 ^ 63 →
      (∀ i1 o1, inflationLoop gm gi go l i o = InflationResult.done i1 o1 →
        i1 = i + (l.map (fun tx => (gi tx).getD 0)).sum ∧
        o1 = o + (l.map (fun tx => (go tx).getD 0)).sum ∧ 0 ≤ i1 ∧ 0 ≤ o1) ∧
      (inflationLoop gm gi go l i o = InflationResult.rejected 100 →
        ∃ pre tx rest, l = pre ++ tx :: rest ∧
          (2 ^ 63 ≤ i + ((pre ++ [tx]).map (fun t => (gi t).getD 0)).sum ∨
            2 ^ 63 ≤ o + ((pre ++ [tx]).map (fun t => (go t).getD 0)).sum)) := by
  intro l
  induction l with
  | nil =>
    intro i o _ hi0 _ ho0 _
    refine ⟨fun i1 o1 hr => ?_, fun hr => ?_⟩
    · rw [inflationLoop] at hr
      simp only [InflationResult.done.injEq] at hr
      simp only [List.map_nil, List.sum_nil, add_zero]
      exact ⟨hr.1.symm, hr.2.symm, hr.1 ▸ hi0, hr.2 ▸ ho0⟩
    · rw [inflationLoop] at hr
      simp at hr
  | cons tx l ih =>
    intro i o hall hi0 hi ho0 ho
    have hrest : ∀ t ∈ l, (∀ v, gi t = some v → 0 ≤ v ∧ v < 2 ^ 63) ∧
        (∀ v, go t = some v → 0 ≤ v ∧ v < 2 ^ 63) :=
      fun t ht => hall t (List.mem_cons_of_mem _ ht)
    obtain ⟨hin, hout⟩ := hall tx (List.mem_cons_self _ _)
    rw [inflationLoop]
    cases hm : gm tx with
    | none => simp
    | some fm =>
      cases fm with
      | false => simp
      | true =>
        cases hgi : gi tx with
        | none => simp
        | some vin =>
          cases hgo : go tx with
          | none => simp
          | some vout =>
            obtain ⟨hv1, hv2⟩ := hin vin hgi
            obtain ⟨hw1, hw2⟩ := hout vout hgo
            simp only [List.map_cons, List.sum_cons, hgi, hgo, Option.getD_some]
            by_cases hci : i + vin < 2 ^ 63
            · have e1 : wrap64 (i + vin) = i + vin := wrap64_exact _ (by omega) hci
              rw [e1, if_pos (by omega)]
              by_cases hco : o + vout < 2 ^ 63
              · have e2 : wrap64 (o + vout) = o + vout := wrap64_exact _ (by omega) hco
                rw [e2, if_pos (by omega)]
                obtain ⟨ih1, ih2⟩ := ih (i + vin) (o + vout) hrest (by omega) hci (by omega) hco
                refine ⟨fun i1 o1 hr => ?_, fun hr => ?_⟩
                · obtain ⟨a1, a2, a3, a4⟩ := ih1 i1 o1 hr
                  exact ⟨by rw [a1, add_assoc], by rw [a2, add_assoc], a3, a4⟩
                · obtain ⟨pre, t, rest, hl, hsum⟩ := ih2 hr
                  refine ⟨tx :: pre, t, rest, by rw [hl]; rfl, ?_⟩
                  simp only [List.cons_append, List.map_cons, List.sum_cons, hgi, hgo,
                    Option.getD_some]
                  rcases hsum with hs | hs
                  · exact Or.inl (by rw [← add_assoc]; exact hs)
                  · exact Or.inr (by rw [← add_assoc]; exact hs)
              · have e2 : wrap64 (o + vout) < 0 := wrap64_overflow _ (by omega) (by omega)
                rw [if_neg (by omega)]
                refine ⟨fun i1 o1 hr => by simp at hr, fun _ => ⟨[], tx, l, rfl, Or.inr ?_⟩⟩
                simp only [List.nil_append, List.map_cons, List.map_nil, List.sum_cons,
                  List.sum_nil, add_zero, hgo, Option.getD_some]
                omega
            · have e1 : wrap64 (i + vin) < 0 := wrap64_overflow _ (by omega) (by omega)
              rw [if_neg (by omega)]
              refine ⟨fun i1 o1 hr => by simp at hr, fun _ => ⟨[], tx, l, rfl, Or.inl ?_⟩⟩
              simp only [List.nil_append, List.map_cons, List.map_nil, List.sum_cons,
                List.sum_nil, add_zero, hgi, Option.getD_some]
              omega

/-- C26 (the overflow guards are exact): with the additions taken in 64-bit two's
complement, if every per-transaction input total and output total is in the range
`0 ≤ v < 2^63`, then whenever the accumulation loop of `AcceptBlock` ends without a
rejection, `tx_inputs_values` and `tx_outputs_values` are the exact unbounded sums of
the per-transaction values and are non-negative; and whenever it ends with the
"overflow detected" rejection, the exact sum of the input totals or of the output totals
up to and including some transaction is `2^63` or more. -/
theorem overflow_guards_exact (a : AcceptEnv) (b : CBlock)
    (hrange : ∀ tx ∈ b.vtx, (∀ v, a.GetValueMapIn tx = some v → 0 ≤ v ∧ v < 2 ^ 63) ∧
      (∀ v, a.GetValueOut tx = some v → 0 ≤ v ∧ v < 2 ^ 63)) :
    (∀ tx_inputs_values tx_outputs_values,
      inflationLoop a.GetMapTxInputs a.GetValueMapIn a.GetValueOut b.vtx 0 0
        = InflationResult.done tx_inputs_values tx_outputs_values →
      tx_inputs_values = (b.vtx.map (fun tx => (a.GetValueMapIn tx).getD 0)).sum ∧
      tx_outputs_values = (b.vtx.map (fun tx => (a.GetValueOut tx).getD 0)).sum ∧
      0 ≤ tx_inputs_values ∧ 0 ≤ tx_outputs_values) ∧
    (inflationLoop a.GetMapTxInputs a.GetValueMapIn a.GetValueOut b.vtx 0 0
        = InflationResult.rejected 100 →
      ∃ pre tx rest, b.vtx = pre ++ tx :: rest ∧
        (2 ^ 63 ≤ ((pre ++ [tx]).map (fun t => (a.GetValueMapIn t).getD 0)).sum ∨
          2 ^ 63 ≤ ((pre ++ [tx]).map (fun t => (a.GetValueOut t).getD 0)).sum)) := by
  obtain ⟨h1, h2⟩ := inflationLoop_guards a.GetMapTxInputs a.GetValueMapIn a.GetValueOut
    b.vtx 0 0 hrange le_rfl (by norm_num) le_rfl (by norm_num)
  refine ⟨fun i o hr => ?_, fun hr => ?_⟩
  · have := h1 i o hr
    simpa only [zero_add] using this
  · have := h2 hr
    simpa only [zero_add] using this

theorem overflow_guards_exact_witness :
    ((0 : Int) = (sampleTwoTx.vtx.map (fun tx => (sampleAcceptEnv.GetValueMapIn tx).getD 0)).sum ∧
      (50 : Int) = (sampleTwoTx.vtx.map (fun tx => (sampleAcceptEnv.GetValueOut tx).getD 0)).sum ∧
      (0 : Int) ≤ 0 ∧ (0 : Int) ≤ 50) ∧
    (∃ pre tx rest, sampleTwoTx.vtx = pre ++ tx :: rest ∧
      (2 ^ 63 ≤ ((pre ++ [tx]).map (fun t => (largeInputsEnv.GetValueMapIn t).getD 0)).sum ∨
        2 ^ 63 ≤ ((pre ++ [tx]).map (fun t => (largeInputsEnv.GetValueOut t).getD 0)).sum)) :=
  ⟨(overflow_guards_exact sampleAcceptEnv sampleTwoTx (by decide)).1 0 50 (by decide),
   (overflow_guards_exact largeInputsEnv sampleTwoTx (by decide)).2 (by decide)⟩

/-! ## The spender index of the memory pool -/

theorem eraseInputs_some :
    ∀ (l : List CTxIn) (m : COutPoint → Option CInPoint) (o : COutPoint) (it : CInPoint),
      eraseInputs l m o = some it → m o = some it ∧ ∀ txin ∈ l, txin.prevout ≠ o := by
  intro l
  induction l with
  | nil => intro m o it hr; exact ⟨hr, fun _ hx => absurd hx (by simp)⟩
  | cons txin rest ih =>
    intro m o it hr
    rw [eraseInputs] at hr
    obtain ⟨h1, h2⟩ := ih _ o it hr
    by_cases ho : o = txin.prevout
    · simp [ho] at h1
    · simp only [ho, if_false] at h1
      refine ⟨h1, fun x hx => ?_⟩
      rcases List.mem_cons.mp hx with hx | hx
      · rw [hx]; exact fun hc => ho hc.symm
      · exact h2 x hx

theorem indexInputs_some (hash : uint256) :
    ∀ (l : List CTxIn) (i : Nat) (m : COutPoint → Option CInPoint) (o : COutPoint)
      (it : CInPoint), indexInputs hash l i m o = some it →
      m o = some it ∨
      (it.ptx = hash ∧ ∃ j, it.n = i + j ∧ (l[j]?).map (fun txin => txin.prevout) = some o) := by
  intro l
  induction l with
  | nil => intro i m o it hr; exact Or.inl hr
  | cons txin rest ih =>
    intro i m o it hr
    rw [indexInputs] at hr
    rcases ih _ _ o it hr with h1 | ⟨h1, j, h2, h3⟩
    · by_cases ho : o = txin.prevout
      · simp only [ho, if_true, Option.some.injEq] at h1
        right
        refine ⟨by rw [← h1], 0, by rw [← h1]; rfl, ?_⟩
        simp [ho]
      · simp only [ho, if_false] at h1
        exact Or.inl h1
    · right
      exact ⟨h1, j + 1, by omega, by simpa using h3⟩

theorem within_refl (pool : CTxMemPool) : pool.within pool :=
  ⟨fun _ _ h => h, fun _ _ h => h⟩

theorem within_trans (a b c : CTxMemPool) (hab : a.within b) (hbc : b.within c) :
    a.within c :=
  ⟨fun k t h => hbc.1 k t (hab.1 k t h), fun o it h => hbc.2 o it (hab.2 o it h)⟩

theorem within_stored (h : Hasher) (a b : CTxMemPool) (hab : a.within b)
    (hb : storedUnderHash h b) : storedUnderHash h a :=
  fun k t hk => hb k t (hab.1 k t hk)

theorem within_descend (rank : uint256 → Nat) (a b : CTxMemPool) (hab : a.within b)
    (hb : spendsDescend rank b) : spendsDescend rank a :=
  fun o it ho => hb o it (hab.2 o it ho)

/-- The index stays sound when `addUnchecked` stores a transaction under a key that
holds nothing or the transaction itself. -/
theorem addUnchecked_sound (pool : CTxMemPool) (hash : uint256) (tx : CTransaction)
    (hsound : spenderIndexSound pool)
    (hown : ∀ t, pool.mapTx hash = some t → t = tx) :
    spenderIndexSound (addUnchecked pool hash tx).2 := by
  intro o it ho
  rcases indexInputs_some _ _ _ _ o it ho with h1 | ⟨h1, j, h2, h3⟩
  · obtain ⟨t, ht1, ht2⟩ := hsound o it h1
    by_cases hk : it.ptx = hash
    · have : t = tx := hown t (by rw [← hk]; exact ht1)
      refine ⟨tx, ?_, by rw [← this]; exact ht2⟩
      simp [addUnchecked, hk]
    · refine ⟨t, ?_, ht2⟩
      simp [addUnchecked, hk, ht1]
  · refine ⟨tx, ?_, ?_⟩
    · simp [addUnchecked, h1]
    · rw [h2, Nat.zero_add]; exact h3

/-- The transactions stay stored under their hashes when `addUnchecked` is called with
the hash of the transaction. -/
theorem addUnchecked_stored (h : Hasher) (pool : CTxMemPool) (tx : CTransaction)
    (hkey : storedUnderHash h pool) :
    storedUnderHash h (addUnchecked pool (h.GetHash tx) tx).2 := by
  intro k t hk
  by_cases hkk : k = h.GetHash tx
  · simp only [addUnchecked, hkk, if_true, Option.some.injEq] at hk
    rw [← hk, hkk]
  · simp only [addUnchecked, hkk, if_false] at hk
    exact hkey k t hk

/-- The loop over the outputs in `remove`, given that the nested calls behave. -/
theorem removeChildren_sound (h : Hasher) (rank : uint256 → Nat)
    (removeRec : CTxMemPool → uint256 → CTransaction → Option CTxMemPool)
    (hash : uint256) (tx : CTransaction) (held : Option uint256) (fuel : Nat)
    (hrec : ∀ pool key child, spenderIndexSound pool → storedUnderHash h pool →
      spendsDescend rank pool → pool.mapTx key = some child → rank key < fuel →
      ∃ pool1, removeRec pool key child = some pool1 ∧ spenderIndexSound pool1 ∧
        pool1.within pool ∧
        (∀ k, pool1.mapTx k = none → pool.mapTx k = none ∨ rank k ≤ rank key))
    (hheld : ∀ key, held = some key → key = hash) (hfuel : rank hash ≤ fuel) :
    ∀ (idxs : List Nat) (pool : CTxMemPool), spenderIndexSound pool →
      storedUnderHash h pool → spendsDescend rank pool → pool.mapTx hash = some tx →
      ∃ pool1, removeChildren removeRec hash held idxs pool = some pool1 ∧
        spenderIndexSound pool1 ∧ pool1.within pool ∧ pool1.mapTx hash = some tx ∧
        (∀ k, pool1.mapTx k = none → pool.mapTx k = none ∨ rank k < rank hash) := by
  intro idxs
  induction idxs with
  | nil =>
    intro pool hs _ _ htx
    exact ⟨pool, rfl, hs, within_refl pool, htx, fun k hk => Or.inl hk⟩
  | cons i rest ih =>
    intro pool hs hk hd htx
    rw [removeChildren]
    cases hit : pool.mapNextTx { hash := hash, n := i } with
    | none => exact ih pool hs hk hd htx
    | some it =>
      obtain ⟨child, hc1, _⟩ := hs _ it hit
      have hlt : rank it.ptx < rank hash := hd _ it hit
      obtain ⟨pool1, hr1, hs1, hw1, hrem1⟩ :=
        hrec pool it.ptx child hs hk hd hc1 (by omega)
      have halive : pool1.mapTx hash = some tx := by
        cases hp : pool1.mapTx hash with
        | none =>
          rcases hrem1 hash hp with h0 | h0
          · rw [htx] at h0; simp at h0
          · omega
        | some t =>
          have := hw1.1 hash t hp
          rw [htx] at this
          rw [this]
      have hal : argumentAlive pool1 held = true := by
        cases hh : held with
        | none => rfl
        | some key =>
          have := hheld key hh
          simp [argumentAlive, this, halive]
      simp only [hc1, hr1, hal, if_true]
      obtain ⟨pool2, hr2, hs2, hw2, htx2, hrem2⟩ :=
        ih pool1 hs1 (within_stored h _ _ hw1 hk) (within_descend rank _ _ hw1 hd) halive
      refine ⟨pool2, hr2, hs2, within_trans _ _ _ hw2 hw1, htx2, fun k hk2 => ?_⟩
      rcases hrem2 k hk2 with h0 | h0
      · rcases hrem1 k h0 with h1 | h1
        · exact Or.inl h1
        · exact Or.inr (by omega)
      · exact Or.inr h0

/-- With enough fuel `remove` returns, the index stays sound, nothing is added, the
transaction is gone, and what is gone has at most its rank. -/
theorem remove_sound (h : Hasher) (rank : uint256 → Nat) :
    ∀ (fuel : Nat) (pool : CTxMemPool) (held : Option uint256) (tx : CTransaction)
      (fRecursive : Bool), spenderIndexSound pool → storedUnderHash h pool →
      spendsDescend rank pool →
      (∀ t, pool.mapTx (h.GetHash tx) = some t → t = tx) →
      (∀ key, held = some key → key = h.GetHash tx) →
      rank (h.GetHash tx) < fuel →
      ∃ pool1, remove h fuel pool held tx fRecursive = some pool1 ∧
        spenderIndexSound pool1 ∧ pool1.within pool ∧ pool1.mapTx (h.GetHash tx) = none ∧
        (∀ k, pool1.mapTx k = none → pool.mapTx k = none ∨ rank k ≤ rank (h.GetHash tx)) := by
  intro fuel
  induction fuel with
  | zero => intro _ _ _ _ _ _ _ _ _ hf; omega
  | succ fuel ih =>
    intro pool held tx fRecursive hs hk hd hown hheld hf
    rw [remove]
    cases hst : pool.mapTx (h.GetHash tx) with
    | none =>
      simp only [hst, Option.isSome_none, Bool.false_eq_true, if_false]
      exact ⟨pool, rfl, hs, within_refl pool, hst, fun k hk0 => Or.inl hk0⟩
    | some t =>
      have htx : pool.mapTx (h.GetHash tx) = some tx := by
        rw [hst, hown t hst]
      have hloop : ∃ pool1,
          (if fRecursive = true then
            removeChildren (fun p key child => remove h fuel p (some key) child true)
              (h.GetHash tx) held (List.range tx.vout.length) pool
          else some pool) = some pool1 ∧
          spenderIndexSound pool1 ∧ pool1.within pool ∧
          pool1.mapTx (h.GetHash tx) = some tx ∧
          (∀ k, pool1.mapTx k = none →
            pool.mapTx k = none ∨ rank k < rank (h.GetHash tx)) := by
        cases fRecursive with
        | false =>
          exact ⟨pool, by simp, hs, within_refl pool, htx, fun k hk0 => Or.inl hk0⟩
        | true =>
          simp only [if_true]
          refine removeChildren_sound h rank _ (h.GetHash tx) tx held fuel ?_ hheld
            (by omega) _ pool hs hk hd htx
          intro p key child hps hpk hpd hpc hpr
          have hkc : h.GetHash child = key := hpk key child hpc
          obtain ⟨pool1, h1, h2, h3, _, h5⟩ := ih p (some key) child true hps hpk hpd
            (fun t0 ht0 => by
              rw [hkc, hpc] at ht0
              simp only [Option.some.injEq] at ht0
              exact ht0.symm)
            (fun key0 hkey0 => by
              simp only [Option.some.injEq] at hkey0
              rw [hkc, hkey0])
            (by rw [hkc]; exact hpr)
          rw [hkc] at h5
          exact ⟨pool1, h1, h2, h3, h5⟩
      obtain ⟨pool1, hr1, hs1, hw1, htx1, hrem1⟩ := hloop
      simp only [Option.isSome_some, if_true, hr1]
      refine ⟨_, rfl, ?_, ⟨?_, ?_⟩, by simp, ?_⟩
      · intro o it ho
        obtain ⟨ho1, ho2⟩ := eraseInputs_some _ _ o it ho
        obtain ⟨t1, ht1, ht2⟩ := hs1 o it ho1
        by_cases hp : it.ptx = h.GetHash tx
        · rw [hp, htx1] at ht1
          simp only [Option.some.injEq] at ht1
          rw [← ht1] at ht2
          cases hv : tx.vin[it.n]? with
          | none => rw [hv] at ht2; simp at ht2
          | some txin =>
            rw [hv] at ht2
            simp only [Option.map_some', Option.some.injEq] at ht2
            exact absurd ht2 (ho2 txin (List.getElem?_mem hv))
        · exact ⟨t1, by simp [hp, ht1], ht2⟩
      · intro k t1 hk1
        by_cases hkk : k = h.GetHash tx
        · simp [hkk] at hk1
        · simp only [hkk, if_false] at hk1
          exact hw1.1 k t1 hk1
      · intro o it ho
        exact hw1.2 o it (eraseInputs_some _ _ o it ho).1
      · intro k hk1
        by_cases hkk : k = h.GetHash tx
        · exact Or.inr (by rw [hkk])
        · simp only [hkk, if_false] at hk1
          rcases hrem1 k hk1 with h0 | h0
          · exact Or.inl h0
          · exact Or.inr (by omega)

/-- With enough fuel `removeConflicts` returns and the index stays sound. -/
theorem conflictsLoop_sound (h : Hasher) (rank : uint256 → Nat) (fuel : Nat)
    (tx : CTransaction) :
    ∀ (l : List CTxIn) (pool : CTxMemPool), spenderIndexSound pool →
      storedUnderHash h pool → spendsDescend rank pool →
      (∀ k t, pool.mapTx k = some t → rank k < fuel) →
      ∃ pool1, conflictsLoop h fuel tx l pool = some pool1 ∧ spenderIndexSound pool1 ∧
        pool1.within pool := by
  intro l
  induction l with
  | nil => intro pool hs _ _ _; exact ⟨pool, rfl, hs, within_refl pool⟩
  | cons txin rest ih =>
    intro pool hs hk hd hf
    rw [conflictsLoop]
    cases hit : pool.mapNextTx txin.prevout with
    | none => exact ih pool hs hk hd hf
    | some it =>
      obtain ⟨txConflict, hc1, _⟩ := hs _ it hit
      simp only [hc1]
      by_cases hne : txConflict ≠ tx
      · rw [if_pos hne]
        have hkc : h.GetHash txConflict = it.ptx := hk _ _ hc1
        obtain ⟨pool1, h1, h2, h3, _, _⟩ := remove_sound h rank fuel pool (some it.ptx)
          txConflict true hs hk hd
          (fun t0 ht0 => by
            rw [hkc, hc1] at ht0
            simp only [Option.some.injEq] at ht0
            exact ht0.symm)
          (fun key0 hkey0 => by
            simp only [Option.some.injEq] at hkey0
            rw [hkc, hkey0])
          (by rw [hkc]; exact hf _ _ hc1)
        simp only [h1]
        obtain ⟨pool2, h4, h5, h6⟩ := ih pool1 h2 (within_stored h _ _ h3 hk)
          (within_descend rank _ _ h3 hd) (fun k t hkt => hf k t (h3.1 k t hkt))
        exact ⟨pool2, h4, h5, within_trans _ _ _ h6 h3⟩
      · rw [if_neg hne]
        exact ih pool hs hk hd hf

/-- The call `remove(tx, false)` returns and keeps the index sound. -/
theorem remove_flat_sound (h : Hasher) (fuel : Nat) (pool : CTxMemPool)
    (tx : CTransaction) (hs : spenderIndexSound pool)
    (hown : ∀ t, pool.mapTx (h.GetHash tx) = some t → t = tx) :
    ∃ pool1, remove h (fuel + 1) pool none tx false = some pool1 ∧
      spenderIndexSound pool1 ∧ pool1.within pool ∧ pool1.mapTx (h.GetHash tx) = none := by
  rw [remove]
  cases hst : pool.mapTx (h.GetHash tx) with
  | none =>
    simp only [hst, Option.isSome_none, Bool.false_eq_true, if_false]
    exact ⟨pool, rfl, hs, within_refl pool, hst⟩
  | some t =>
    have htx : pool.mapTx (h.GetHash tx) = some tx := by
      rw [hst, hown t hst]
    simp only [Option.isSome_some, if_true, Bool.false_eq_true, if_false]
    refine ⟨_, rfl, ?_, ⟨?_, ?_⟩, by simp⟩
    · intro o it ho
      obtain ⟨ho1, ho2⟩ := eraseInputs_some _ _ o it ho
      obtain ⟨t1, ht1, ht2⟩ := hs o it ho1
      by_cases hp : it.ptx = h.GetHash tx
      · rw [hp, htx] at ht1
        simp only [Option.some.injEq] at ht1
        rw [← ht1] at ht2
        cases hv : tx.vin[it.n]? with
        | none => rw [hv] at ht2; simp at ht2
        | some txin =>
          rw [hv] at ht2
          simp only [Option.map_some', Option.some.injEq] at ht2
          exact absurd ht2 (ho2 txin (List.getElem?_mem hv))
      · exact ⟨t1, by simp [hp, ht1], ht2⟩
    · intro k t1 hk1
      by_cases hkk : k = h.GetHash tx
      · simp [hkk] at hk1
      · simp only [hkk, if_false] at hk1
        exact hk1
    · intro o it ho
      exact (eraseInputs_some _ _ o it ho).1

theorem emptyPool_sound : spenderIndexSound emptyPool := by
  intro o it ho
  simp [emptyPool] at ho

theorem samplePool_sound : spenderIndexSound samplePool :=
  addUnchecked_sound _ 30 samplePoolTx30
    (addUnchecked_sound emptyPool 20 samplePoolTx20 emptyPool_sound
      (fun _ ht => absurd ht (by simp [emptyPool])))
    (fun _ ht => absurd ht (by simp [addUnchecked, emptyPool]))

theorem samplePool_stored : storedUnderHash sampleHasher samplePool :=
  addUnchecked_stored sampleHasher _ samplePoolTx30
    (addUnchecked_stored sampleHasher emptyPool samplePoolTx20
      (fun _ _ ht => absurd ht (by simp [emptyPool])))

theorem samplePool_descend : spendsDescend (fun k => 100 - k) samplePool := by
  intro o it ho
  rcases indexInputs_some _ _ _ _ o it ho with h1 | ⟨h1, j, _, h3⟩
  · rcases indexInputs_some _ _ _ _ o it h1 with h2 | ⟨h2, j, _, h3⟩
    · simp [emptyPool] at h2
    · have hj : j = 0 := by
        rcases j with _ | j
        · rfl
        · simp [samplePoolTx20, sampleSpend] at h3
      subst hj
      simp only [samplePoolTx20, sampleSpend, List.map_cons, List.map_nil,
        List.getElem?_cons_zero, Option.map_some', Option.some.injEq] at h3
      rw [h2, ← h3]
      decide
  · have hj : j = 0 := by
      rcases j with _ | j
      · rfl
      · simp [samplePoolTx30, sampleSpend] at h3
    subst hj
    simp only [samplePoolTx30, sampleSpend, List.map_cons, List.map_nil,
      List.getElem?_cons_zero, Option.map_some', Option.some.injEq] at h3
    rw [h1, ← h3]
    decide

/-- C27, amended.  Let every entry of `mapNextTx` refer to a transaction stored in
`mapTx` whose `n`-th input spends the outpoint, and let every transaction of `mapTx`
be stored under its own hash.  Both properties hold again
(1) after `addUnchecked(hash, tx)` with `hash = tx.GetHash()`, when the pool holds
nothing but `tx` under this hash;
(2) after `remove(tx, false)`, under the same condition, and the transaction is then
not in the pool;
(3) after `remove(tx, true)`, under the same condition and when no pool transaction
spends one of its own outputs through a chain of pool transactions (the rank falls
along every entry of the index): with fuel above the rank of `tx` the call returns, and
the transaction is then not in the pool;
(4) after `removeConflicts(tx)`, when the rank falls along every entry and the fuel is
above the rank of every pool transaction;
(5) after `clear()`. -/
theorem spender_index_preserved (h : Hasher) (rank : uint256 → Nat) (pool : CTxMemPool)
    (tx : CTransaction) (hsound : spenderIndexSound pool)
    (hkey : storedUnderHash h pool) :
    ((∀ t, pool.mapTx (h.GetHash tx) = some t → t = tx) →
      (addUnchecked pool (h.GetHash tx) tx).1 = true ∧
      spenderIndexSound (addUnchecked pool (h.GetHash tx) tx).2 ∧
      storedUnderHash h (addUnchecked pool (h.GetHash tx) tx).2) ∧
    ((∀ t, pool.mapTx (h.GetHash tx) = some t → t = tx) → ∀ fuel, 0 < fuel →
      ∃ pool1, remove h fuel pool none tx false = some pool1 ∧
        spenderIndexSound pool1 ∧ storedUnderHash h pool1 ∧
        CTxMemPool.exists pool1 (h.GetHash tx) = false) ∧
    ((∀ t, pool.mapTx (h.GetHash tx) = some t → t = tx) → spendsDescend rank pool →
      ∀ fuel, rank (h.GetHash tx) < fuel →
      ∃ pool1, remove h fuel pool none tx true = some pool1 ∧
        spenderIndexSound pool1 ∧ storedUnderHash h pool1 ∧
        CTxMemPool.exists pool1 (h.GetHash tx) = false) ∧
    (spendsDescend rank pool → ∀ fuel, (∀ k t, pool.mapTx k = some t → rank k < fuel) →
      ∃ pool1, removeConflicts h fuel pool tx = some pool1 ∧
        spenderIndexSound pool1 ∧ storedUnderHash h pool1) ∧
    (spenderIndexSound pool.clear ∧ storedUnderHash h pool.clear) := by
  refine ⟨?_, ?_, ?_, ?_, ?_⟩
  · intro hown
    exact ⟨rfl, addUnchecked_sound pool _ tx hsound hown, addUnchecked_stored h pool tx hkey⟩
  · intro hown fuel hfuel
    obtain ⟨n, rfl⟩ : ∃ n, fuel = n + 1 := ⟨fuel - 1, by omega⟩
    obtain ⟨pool1, h1, h2, h3, h4⟩ := remove_flat_sound h n pool tx hsound hown
    exact ⟨pool1, h1, h2, within_stored h _ _ h3 hkey, by simp [CTxMemPool.exists, h4]⟩
  · intro hown hd fuel hfuel
    obtain ⟨pool1, h1, h2, h3, h4, _⟩ := remove_sound h rank fuel pool none tx true hsound
      hkey hd hown (fun _ hk => absurd hk (by simp)) hfuel
    exact ⟨pool1, h1, h2, within_stored h _ _ h3 hkey, by simp [CTxMemPool.exists, h4]⟩
  · intro hd fuel hfuel
    obtain ⟨pool1, h1, h2, h3⟩ := conflictsLoop_sound h rank fuel tx tx.vin pool hsound hkey
      hd hfuel
    exact ⟨pool1, h1, h2, within_stored h _ _ h3 hkey⟩
  · constructor
    · intro o it ho
      simp [CTxMemPool.clear] at ho
    · intro k t hk
      simp [CTxMemPool.clear] at hk

theorem spender_index_preserved_witness :
    (∃ pool1, remove sampleHasher 1 samplePool none samplePoolTx20 false = some pool1 ∧
      spenderIndexSound pool1 ∧ storedUnderHash sampleHasher pool1 ∧
      CTxMemPool.exists pool1 20 = false) ∧
    (∃ pool1, remove sampleHasher 81 samplePool none samplePoolTx20 true = some pool1 ∧
      spenderIndexSound pool1 ∧ storedUnderHash sampleHasher pool1 ∧
      CTxMemPool.exists pool1 20 = false) :=
  ⟨(spender_index_preserved sampleHasher (fun k => 100 - k) samplePool samplePoolTx20
      samplePool_sound samplePool_stored).2.1
      (fun _ ht => (Option.some.inj ht).symm) 1 (by decide),
   (spender_index_preserved sampleHasher (fun k => 100 - k) samplePool samplePoolTx20
      samplePool_sound samplePool_stored).2.2.1
      (fun _ ht => (Option.some.inj ht).symm) samplePool_descend 81 (by decide)⟩

/-- A pool whose index is sound but that stores transaction 20 under the key 5: after
`remove` of a transaction with hash 5 the entry for the outpoint (10, 0) still refers
to the key 5, which is not in `mapTx` any more. -/
theorem ill_keyed_pool_dangles :
    spenderIndexSound illKeyedPool ∧
    ∃ pool1, remove sampleHasher 1 illKeyedPool none (sampleSpend 5 [] 1) false = some pool1 ∧
      pool1.mapNextTx { hash := 10, n := 0 } = some { ptx := 5, n := 0 } ∧
      pool1.mapTx 5 = none ∧ ¬ spenderIndexSound pool1 := by
  refine ⟨addUnchecked_sound emptyPool 5 samplePoolTx20 emptyPool_sound
    (fun _ ht => absurd ht (by simp [emptyPool])), _, rfl, rfl, rfl, fun hs => ?_⟩
  obtain ⟨t, ht, _⟩ := hs { hash := 10, n := 0 } { ptx := 5, n := 0 } rfl
  exact Option.noConfusion (ht : (none : Option CTransaction) = some t)

/-! ## The masternode winner list -/

/-- The winner `winner` with the score, input, payee and signature of `w`. -/
theorem winningLoop_some (w : CMasternodePaymentWinner) :
    ∀ (l l1 : List CMasternodePaymentWinner), winningLoop w l = some l1 →
      ∃ pre winner post, l = pre ++ winner :: post ∧
        winner.nBlockHeight = w.nBlockHeight ∧ winner.score < w.score ∧
        l1 = pre ++ { winner with score := w.score, vin := w.vin, payee := w.payee,
                                  vchSig := w.vchSig } :: post := by
  intro l
  induction l with
  | nil => intro l1 h; simp [winningLoop] at h
  | cons a rest ih =>
    intro l1 h
    rw [winningLoop] at h
    by_cases hc : a.nBlockHeight = w.nBlockHeight ∧ a.score < w.score
    · rw [if_pos hc] at h
      simp only [Option.some.injEq] at h
      exact ⟨[], a, rest, rfl, hc.1, hc.2, h.symm⟩
    · rw [if_neg hc] at h
      cases hr : winningLoop w rest with
      | none => rw [hr] at h; simp at h
      | some l2 =>
        rw [hr] at h
        simp only [Option.map_some', Option.some.injEq] at h
        obtain ⟨pre, winner, post, h1, h2, h3, h4⟩ := ih l2 hr
        exact ⟨a :: pre, winner, post, by rw [h1]; rfl, h2, h3, by rw [← h, h4]; rfl⟩

theorem winningLoop_none (w : CMasternodePaymentWinner) :
    ∀ l : List CMasternodePaymentWinner, winningLoop w l = none →
      ∀ x ∈ l, ¬ (x.nBlockHeight = w.nBlockHeight ∧ x.score < w.score) := by
  intro l
  induction l with
  | nil => intro _ x hx; simp at hx
  | cons a rest ih =>
    intro h x hx
    rw [winningLoop] at h
    by_cases hc : a.nBlockHeight = w.nBlockHeight ∧ a.score < w.score
    · rw [if_pos hc] at h; simp at h
    · rw [if_neg hc] at h
      cases hr : winningLoop w rest with
      | some l2 => rw [hr] at h; simp at h
      | none =>
        rcases List.mem_cons.mp hx with hx | hx
        · rw [hx]; exact hc
        · exact ih hr x hx

theorem foundBlock_false (w : CMasternodePaymentWinner)
    (l : List CMasternodePaymentWinner) :
    foundBlock w l = false ↔ ∀ x ∈ l, x.nBlockHeight ≠ w.nBlockHeight := by
  unfold foundBlock
  rw [Bool.eq_false_iff]
  simp [List.any_eq_true]

/-- Where `GetBlockHash` succeeds, the three exits of `AddWinningMasternode`. -/
theorem AddWinningMasternode_cases (env : WinnerEnv) (st : WinnerState)
    (w : CMasternodePaymentWinner) (blockHash : uint256)
    (hhash : env.GetBlockHash (w.nBlockHeight - 576) = some blockHash) :
    let w1 : CMasternodePaymentWinner :=
      { w with score := CalculateScore env blockHash w.vin }
    (∃ pre winner post, st.vWinning = pre ++ winner :: post ∧
        winner.nBlockHeight = w.nBlockHeight ∧ winner.score < w1.score ∧
        AddWinningMasternode env st w
          = (true,
              { vWinning :=
                  pre ++ ({ winner with score := w1.score, vin := w.vin, payee := w.payee,
                                        vchSig := w.vchSig } : CMasternodePaymentWinner)
                    :: post,
                mapSeenMasternodeVotes :=
                  seenInsert st.mapSeenMasternodeVotes (env.GetHash w1) w1 },
              w1)) ∨
    ((∀ x ∈ st.vWinning, x.nBlockHeight ≠ w.nBlockHeight) ∧
        AddWinningMasternode env st w
          = (true, { vWinning := st.vWinning ++ [w1],
                     mapSeenMasternodeVotes :=
                       seenInsert st.mapSeenMasternodeVotes (env.GetHash w1) w1 }, w1)) ∨
    ((∃ x ∈ st.vWinning, x.nBlockHeight = w.nBlockHeight) ∧
        (∀ x ∈ st.vWinning, ¬ (x.nBlockHeight = w.nBlockHeight ∧ x.score < w1.score)) ∧
        AddWinningMasternode env st w = (false, st, w1)) := by
  intro w1
  unfold AddWinningMasternode
  simp only [hhash]
  cases hl : winningLoop w1 st.vWinning with
  | some l =>
    left
    obtain ⟨pre, winner, post, h1, h2, h3, h4⟩ := winningLoop_some w1 _ _ hl
    exact ⟨pre, winner, post, h1, h2, h3, by rw [h4]⟩
  | none =>
    right
    cases hf : foundBlock w1 st.vWinning with
    | false =>
      left
      exact ⟨(foundBlock_false w1 _).mp hf, by simp⟩
    | true =>
      right
      refine ⟨?_, winningLoop_none w1 _ hl, by simp⟩
      unfold foundBlock at hf
      rw [List.any_eq_true] at hf
      obtain ⟨x, hx, hxh⟩ := hf
      exact ⟨x, hx, by simpa using hxh⟩

/-- C28, amended.  Let `vWinning` hold at most one winner for each height.
(1) After `AddWinningMasternode(w)` it still does, and every winner recorded before
has a winner of the same height and of a score at least as high afterwards.
(2) When `GetBlockHash` fails for the height of `w` less 576, the call returns `false`
and changes nothing.
(3) When it gives a block hash, let `sc` be the score `CalculateScore` computes for `w`
from it (the score `w` carried into the call is not read).  The call returns `true`
exactly when no winner is recorded for the height of `w` or the recorded winner has a
score below `sc`; in the first case `w` with score `sc` is appended, in the second the
score, input, payee and signature of that winner are replaced by those of `w`; when
the call returns `false` the members are unchanged. -/
theorem AddWinningMasternode_one_per_height (env : WinnerEnv) (st : WinnerState)
    (w : CMasternodePaymentWinner) (hone : onePerHeight st.vWinning) :
    (onePerHeight (AddWinningMasternode env st w).2.1.vWinning ∧
      ∀ x ∈ st.vWinning, ∃ y ∈ (AddWinningMasternode env st w).2.1.vWinning,
        y.nBlockHeight = x.nBlockHeight ∧ x.score ≤ y.score) ∧
    (env.GetBlockHash (w.nBlockHeight - 576) = none →
      AddWinningMasternode env st w = (false, st, w)) ∧
    (∀ blockHash, env.GetBlockHash (w.nBlockHeight - 576) = some blockHash →
      ((AddWinningMasternode env st w).1 = true ↔
        ((∀ x ∈ st.vWinning, x.nBlockHeight ≠ w.nBlockHeight) ∨
         ∃ x ∈ st.vWinning, x.nBlockHeight = w.nBlockHeight ∧
           x.score < CalculateScore env blockHash w.vin)) ∧
      ((∀ x ∈ st.vWinning, x.nBlockHeight ≠ w.nBlockHeight) →
        (AddWinningMasternode env st w).2.1.vWinning
          = st.vWinning ++ [{ w with score := CalculateScore env blockHash w.vin }]) ∧
      (∀ x ∈ st.vWinning, x.nBlockHeight = w.nBlockHeight →
        x.score < CalculateScore env blockHash w.vin →
        ∃ pre post, st.vWinning = pre ++ x :: post ∧
          (AddWinningMasternode env st w).2.1.vWinning
            = pre ++ { x with score := CalculateScore env blockHash w.vin, vin := w.vin,
                              payee := w.payee, vchSig := w.vchSig } :: post) ∧
      ((AddWinningMasternode env st w).1 = false →
        (AddWinningMasternode env st w).2.1 = st)) := by
  have hnone : env.GetBlockHash (w.nBlockHeight - 576) = none →
      AddWinningMasternode env st w = (false, st, w) := by
    intro h
    unfold AddWinningMasternode
    simp only [h]
  have hinj := List.inj_on_of_nodup_map hone
  refine ⟨?_, hnone, ?_⟩
  · cases hh : env.GetBlockHash (w.nBlockHeight - 576) with
    | none =>
      rw [hnone hh]
      exact ⟨hone, fun x hx => ⟨x, hx, rfl, le_refl _⟩⟩
    | some blockHash =>
      rcases AddWinningMasternode_cases env st w blockHash hh with
        ⟨pre, winner, post, h1, _, h3, h4⟩ | ⟨h1, h2⟩ | ⟨_, _, h3⟩
      · rw [h4]
        constructor
        · unfold onePerHeight at hone ⊢
          rw [h1] at hone
          simpa using hone
        · intro x hx
          rw [h1] at hx
          rcases List.mem_append.mp hx with hx | hx
          · exact ⟨x, List.mem_append_left _ hx, rfl, le_refl _⟩
          · rcases List.mem_cons.mp hx with hx | hx
            · refine ⟨_, List.mem_append_right _ (List.mem_cons_self _ _), ?_, ?_⟩
              · rw [hx]
              · rw [hx]; exact Nat.le_of_lt h3
            · exact ⟨x, List.mem_append_right _ (List.mem_cons_of_mem _ hx), rfl, le_refl _⟩
      · rw [h2]
        constructor
        · unfold onePerHeight at hone ⊢
          rw [List.map_append, List.nodup_append]
          refine ⟨hone, by simp, ?_⟩
          intro a ha hb
          simp only [List.map_cons, List.map_nil, List.mem_singleton] at hb
          obtain ⟨x, hx, hxa⟩ := List.mem_map.mp ha
          exact h1 x hx (by rw [hxa, hb])
        · intro x hx
          exact ⟨x, List.mem_append_left _ hx, rfl, le_refl _⟩
      · rw [h3]
        exact ⟨hone, fun x hx => ⟨x, hx, rfl, le_refl _⟩⟩
  · intro blockHash hh
    rcases AddWinningMasternode_cases env st w blockHash hh with
      ⟨pre, winner, post, h1, h2, h3, h4⟩ | ⟨h1, h2⟩ | ⟨⟨x0, hx0, hx0h⟩, h2, h3⟩
    · have hmem : winner ∈ st.vWinning := by rw [h1]; simp
      rw [h4]
      refine ⟨?_, ?_, ?_, ?_⟩
      · exact ⟨fun _ => Or.inr ⟨winner, hmem, h2, h3⟩, fun _ => rfl⟩
      · intro hno
        exact absurd h2 (hno winner hmem)
      · intro x hx hxh _
        have : x = winner := hinj hx hmem (by rw [hxh, h2])
        rw [this]
        exact ⟨pre, post, h1, rfl⟩
      · intro h; simp at h
    · rw [h2]
      refine ⟨?_, ?_, ?_, ?_⟩
      · exact ⟨fun _ => Or.inl h1, fun _ => rfl⟩
      · intro _; rfl
      · intro x hx hxh _
        exact absurd hxh (h1 x hx)
      · intro h; simp at h
    · rw [h3]
      refine ⟨?_, ?_, ?_, ?_⟩
      · constructor
        · intro h; simp at h
        · rintro (hno | ⟨x, hx, hxh, hxs⟩)
          · exact absurd hx0h (hno x0 hx0)
          · exact absurd ⟨hxh, hxs⟩ (h2 x hx)
      · intro hno
        exact absurd hx0h (hno x0 hx0)
      · intro x hx hxh hxs
        exact absurd ⟨hxh, hxs⟩ (h2 x hx)
      · intro _; rfl

theorem AddWinningMasternode_one_per_height_witness :
    AddWinningMasternode blindWinnerEnv sampleWinners (sampleWinner 1002 7 0)
      = (false, sampleWinners, sampleWinner 1002 7 0) ∧
    (AddWinningMasternode sampleWinnerEnv sampleWinners (sampleWinner 1002 7 0)).2.1.vWinning
      = [sampleWinner 1000 500 76, sampleWinner 1001 400 25, sampleWinner 1002 7 419] ∧
    (∃ pre post, sampleWinners.vWinning = pre ++ sampleWinner 1001 400 25 :: post ∧
      (AddWinningMasternode sampleWinnerEnv sampleWinners (sampleWinner 1001 7 0)).2.1.vWinning
        = pre ++ sampleWinner 1001 7 418 :: post) ∧
    (AddWinningMasternode sampleWinnerEnv sampleWinners (sampleWinner 1001 420 0)).2.1
      = sampleWinners :=
  ⟨(AddWinningMasternode_one_per_height blindWinnerEnv sampleWinners (sampleWinner 1002 7 0)
      (by decide)).2.1 rfl,
   ((AddWinningMasternode_one_per_height sampleWinnerEnv sampleWinners (sampleWinner 1002 7 0)
      (by decide)).2.2 426 rfl).2.1 (by decide),
   ((AddWinningMasternode_one_per_height sampleWinnerEnv sampleWinners (sampleWinner 1001 7 0)
      (by decide)).2.2 425 rfl).2.2.1 (sampleWinner 1001 400 25) (by decide) rfl (by decide),
   ((AddWinningMasternode_one_per_height sampleWinnerEnv sampleWinners
      (sampleWinner 1001 420 0) (by decide)).2.2 425 rfl).2.2.2 rfl⟩

/-- A vote for a height without a recorded winner is refused when the hash of the block
576 below it is not available: the list is empty and the call returns `false`. -/
theorem block_hash_missing_refused :
    (∀ x ∈ ([] : List CMasternodePaymentWinner),
        x.nBlockHeight ≠ (sampleWinner 1002 7 0).nBlockHeight) ∧
    AddWinningMasternode blindWinnerEnv { vWinning := [], mapSeenMasternodeVotes := [] }
        (sampleWinner 1002 7 0)
      = (false, { vWinning := [], mapSeenMasternodeVotes := [] }, sampleWinner 1002 7 0) :=
  ⟨by simp, rfl⟩

/-! ## The assertion of `EncodeBase58` -/

theorem carryLoop_value :
    ∀ (ds : List Nat) (carry : Nat),
      digitsValue (carryLoop ds carry).1 + 58 ^ ds.length * (carryLoop ds carry).2
        = carry + 256 * digitsValue ds := by
  intro ds
  induction ds with
  | nil => intro carry; simp [carryLoop, digitsValue]
  | cons d ds ih =>
    intro carry
    have h := ih ((carry + 256 * d) / 58)
    have hm := Nat.div_add_mod (carry + 256 * d) 58
    simp only [carryLoop, digitsValue, List.length_cons, pow_succ]
    nlinarith [h, hm]

theorem carryLoop_digits :
    ∀ (ds : List Nat) (carry : Nat),
      (carryLoop ds carry).1.length = ds.length ∧ ∀ d ∈ (carryLoop ds carry).1, d < 58 := by
  intro ds
  induction ds with
  | nil => intro carry; simp [carryLoop]
  | cons d ds ih =>
    intro carry
    obtain ⟨h1, h2⟩ := ih ((carry + 256 * d) / 58)
    simp only [carryLoop, List.length_cons, h1, List.mem_cons, true_and]
    intro x hx
    rcases hx with hx | hx
    · rw [hx]; exact Nat.mod_lt _ (by decide)
    · exact h2 x hx

/-- The buffer of `len * 138 / 100 + 1` digits holds every number below `256 ^ len`. -/
theorem base58_buffer_size (n : Nat) : 256 ^ n < 58 ^ (n * 138 / 100 + 1) := by
  have hkey : (256 : Nat) ^ 100 < 58 ^ 138 := by norm_num
  have hm : 138 * n < 100 * (n * 138 / 100 + 1) := by omega
  have h1 : (256 ^ n) ^ 100 < (58 ^ (n * 138 / 100 + 1)) ^ 100 := by
    calc (256 ^ n) ^ 100 = (256 ^ 100) ^ n := by rw [← pow_mul, ← pow_mul, Nat.mul_comm]
      _ ≤ (58 ^ 138) ^ n := Nat.pow_le_pow_left (Nat.le_of_lt hkey) n
      _ = 58 ^ (138 * n) := by rw [← pow_mul]
      _ < 58 ^ (100 * (n * 138 / 100 + 1)) := Nat.pow_lt_pow_right (by decide) hm
      _ = (58 ^ (n * 138 / 100 + 1)) ^ 100 := by rw [← pow_mul, Nat.mul_comm]
  exact lt_of_pow_lt_pow_left₀ 100 (Nat.zero_le _) h1

/-- The assertion `carry == 0` holds in every round while the number read so far,
continued by the bytes still to come, fits the buffer. -/
theorem processBytes_total :
    ∀ (rest b58 : List Nat), (∀ x ∈ rest, x < 256) → (∀ d ∈ b58, d < 58) →
      (digitsValue b58.reverse + 1) * 256 ^ rest.length ≤ 58 ^ b58.length →
      ∃ out, processBytes rest b58 = some out := by
  intro rest
  induction rest with
  | nil => intro b58 _ _ _; exact ⟨b58, rfl⟩
  | cons ch rest ih =>
    intro b58 hb hd hv
    have hch : ch < 256 := hb ch (List.mem_cons_self _ _)
    have hval := carryLoop_value b58.reverse ch
    obtain ⟨hlen, hdig⟩ := carryLoop_digits b58.reverse ch
    rw [List.length_reverse] at hval hlen
    rw [List.length_cons, pow_succ] at hv
    have hpos : 0 < 256 ^ rest.length := pow_pos (by decide) _
    have hzero : (carryLoop b58.reverse ch).2 = 0 := by
      by_contra hne
      have h1 : 1 ≤ (carryLoop b58.reverse ch).2 := Nat.one_le_iff_ne_zero.mpr hne
      have h2 : 58 ^ b58.length ≤ 58 ^ b58.length * (carryLoop b58.reverse ch).2 :=
        Nat.le_mul_of_pos_right _ h1
      nlinarith [hval, hv, hpos, h2]
    rw [processBytes, applyByte]
    simp only [hzero, if_true]
    refine ih _ (fun x hx => hb x (List.mem_cons_of_mem _ hx))
      (fun d hd0 => hdig d (List.mem_reverse.mp hd0)) ?_
    rw [List.reverse_reverse, List.length_reverse, hlen]
    rw [hzero, Nat.mul_zero, Nat.add_zero] at hval
    rw [hval]
    nlinarith [hv, hpos]

theorem digitsValue_zeros (n : Nat) : digitsValue (List.replicate n 0) = 0 := by
  induction n with
  | zero => rfl
  | succ n ih => simp [List.replicate_succ, digitsValue, ih]

/-- On byte vectors the assertion never fails: `EncodeBase58` returns. -/
theorem EncodeBase58_total (v : List Nat) (hb : ∀ x ∈ v, x < 256) :
    ∃ s, EncodeBase58 v = some s := by
  unfold EncodeBase58
  simp only []
  have hrest : ∀ x ∈ v.dropWhile (fun x => x == 0), x < 256 :=
    fun x hx => hb x (List.dropWhile_sublist _ |>.subset hx)
  obtain ⟨out, hout⟩ := processBytes_total (v.dropWhile (fun x => x == 0))
    (List.replicate ((v.dropWhile (fun x => x == 0)).length * 138 / 100 + 1) 0) hrest
    (fun d hd => by rw [List.eq_of_mem_replicate hd]; decide)
    (by
      rw [List.reverse_replicate, digitsValue_zeros, List.length_replicate, Nat.zero_add,
        Nat.one_mul]
      exact Nat.le_of_lt (base58_buffer_size _))
  rw [hout]
  exact ⟨_, rfl⟩

/-! ## Base58 -/

theorem isspace_table (d : Nat) : isspace (pszBase58.getD d (Char.ofNat 0)) = false := by
  have hall : ∀ c ∈ pszBase58, isspace c = false := by decide
  rw [List.getD_eq_getElem?_getD]
  cases h : pszBase58[d]? with
  | none => rfl
  | some c => exact hall c (List.getElem?_mem h)

/-- A leading zero byte adds a leading `1` to the encoding. -/
theorem EncodeBase58_cons_zero (v : List Nat) :
    EncodeBase58 (0 :: v) = (EncodeBase58 v).map (fun s => '1' :: s) := by
  unfold EncodeBase58
  have h1 : (0 :: v).dropWhile (fun x => x == 0) = v.dropWhile (fun x => x == 0) := by
    simp [List.dropWhile]
  have h2 : ((0 :: v).takeWhile (fun x => x == 0)).length
      = (v.takeWhile (fun x => x == 0)).length + 1 := by
    simp [List.takeWhile]
  simp only [h1, h2]
  cases processBytes (v.dropWhile (fun x => x == 0))
      (List.replicate ((v.dropWhile (fun x => x == 0)).length * 138 / 100 + 1) 0) with
  | none => rfl
  | some b58 => simp [List.replicate_succ]

/-- An encoding does not begin with white space. -/
theorem EncodeBase58_no_space (v : List Nat) (s : List Char) (hs : EncodeBase58 v = some s) :
    s.dropWhile isspace = s := by
  unfold EncodeBase58 at hs
  simp only [] at hs
  cases hp : processBytes (v.dropWhile (fun x => x == 0))
      (List.replicate ((v.dropWhile (fun x => x == 0)).length * 138 / 100 + 1) 0) with
  | none => rw [hp] at hs; simp at hs
  | some b58 =>
    rw [hp] at hs
    simp only [Option.some.injEq] at hs
    rw [← hs]
    cases hz : (v.takeWhile (fun x => x == 0)).length with
    | succ n =>
      rw [List.replicate_succ, List.cons_append, List.dropWhile_cons_of_neg (by decide)]
    | zero =>
      rw [List.replicate_zero, List.nil_append]
      cases hd : b58.dropWhile (fun d => d == 0) with
      | nil => rfl
      | cons d ds =>
        rw [List.map_cons, List.dropWhile_cons_of_neg (by rw [isspace_table]; simp)]

/-- Decoding does not see a leading `1`. -/
theorem DecodeBase58_cons_one (getvch : Nat → List Nat) (s : List Char)
    (hs : s.dropWhile isspace = s) :
    DecodeBase58 getvch ('1' :: s) = DecodeBase58 getvch s := by
  unfold DecodeBase58
  have h1 : ('1' :: s).dropWhile isspace = '1' :: s :=
    List.dropWhile_cons_of_neg (by decide)
  have h2 : ('1' :: s).dropWhile (fun c => c == '1') = s.dropWhile (fun c => c == '1') :=
    List.dropWhile_cons_of_pos (by decide)
  simp only [h1, h2, hs]

/-- C29.  For every byte vector `v` the assertion `carry == 0` holds in every round
of `EncodeBase58`, so that the encoding `s` of `v` exists, and the encoding of `0 :: v`
is the character `1` followed by `s`.  `DecodeBase58` does not restore the leading
zero byte, whatever `CBigNum::getvch` returns: the decoding of `1` followed by `s` is
the decoding of `s`, so where the round trip holds for `v` it fails for `0 :: v`. -/
theorem DecodeBase58_drops_leading_zero (getvch : Nat → List Nat) (v : List Nat)
    (hbytes : ∀ x ∈ v, x < 256) :
    ∃ s, EncodeBase58 v = some s ∧
      EncodeBase58 (0 :: v) = some ('1' :: s) ∧
      DecodeBase58 getvch ('1' :: s) = DecodeBase58 getvch s ∧
      (DecodeBase58 getvch s = some v →
        DecodeBase58 getvch ('1' :: s) ≠ some (0 :: v)) := by
  obtain ⟨s, hs⟩ := EncodeBase58_total v hbytes
  have h2 := DecodeBase58_cons_one getvch s (EncodeBase58_no_space v s hs)
  refine ⟨s, hs, by rw [EncodeBase58_cons_zero, hs]; rfl, h2, ?_⟩
  intro h
  rw [h2, h]
  intro hc
  have := congrArg (fun o => (o.map List.length)) hc
  simp at this

theorem DecodeBase58_drops_leading_zero_witness :
    ∃ s, EncodeBase58 [0] = some s ∧
      EncodeBase58 [0, 0] = some ('1' :: s) ∧
      DecodeBase58 sampleGetvch ('1' :: s) = DecodeBase58 sampleGetvch s ∧
      (DecodeBase58 sampleGetvch s = some [0] →
        DecodeBase58 sampleGetvch ('1' :: s) ≠ some [0, 0]) :=
  DecodeBase58_drops_leading_zero sampleGetvch [0] (by decide)

/-- The byte vector `[0x00]` is encoded as `1`, and `1` is decoded to the trimmed bytes
of `getvch` of zero in reverse order, without a byte for the leading `1`: to the empty
vector for a `getvch` that gives zero no bytes. -/
theorem base58_zero_byte_lost :
    EncodeBase58 [0] = some ['1'] ∧
    (∀ getvch : Nat → List Nat,
      DecodeBase58 getvch ['1'] = some (trimSignByte (getvch 0)).reverse) ∧
    DecodeBase58 sampleGetvch ['1'] = some [] := by
  refine ⟨by decide, fun getvch => ?_, by decide⟩
  rfl

/-! ## Script compression -/

theorem getElem?_after (l r : List Nat) (n i : Nat) (h : l.length = n) :
    (l ++ r)[n + i]? = r[i]? := by
  rw [List.getElem?_append_right (by omega)]
  congr 1
  omega

/-- C30.  For a byte script of the pay-to-key-hash form (`OP_DUP`, `OP_HASH160`, 20,
twenty hash bytes, `OP_EQUALVERIFY`, `OP_CHECKSIG`) `Compress` succeeds with the 21
bytes `0x00 :: hash`, for one of the pay-to-script-hash form (`OP_HASH160`, 20, twenty
hash bytes, `OP_EQUAL`) with the 21 bytes `0x01 :: hash`; in both cases `GetSpecialSize`
of the first byte is the number of remaining bytes, 20, and `Decompress` of the first
byte and the remaining bytes returns `true` and rebuilds the script, whatever the
script member held before. -/
theorem Compress_round_trip (op : Opcodes) (pk : PubKeyEnv) (hash old script : List Nat)
    (hlen : hash.length = 20) (hbytes : ∀ x ∈ script, x < 256) :
    (script = [op.OP_DUP, op.OP_HASH160, 20] ++ hash
        ++ [op.OP_EQUALVERIFY, op.OP_CHECKSIG] →
      script.length = 25 ∧
      Compress op pk script = some (0 :: hash) ∧ (0 :: hash).length = 21 ∧
      GetSpecialSize 0 = hash.length ∧
      Decompress op pk old 0 hash = some (true, script)) ∧
    (script = [op.OP_HASH160, 20] ++ hash ++ [op.OP_EQUAL] →
      script.length = 23 ∧
      Compress op pk script = some (1 :: hash) ∧ (1 :: hash).length = 21 ∧
      GetSpecialSize 1 = hash.length ∧
      Decompress op pk old 1 hash = some (true, script)) := by
  constructor
  · intro hs
    have hl : script.length = 25 := by rw [hs]; simp [hlen]
    have h23 : script[23]? = some op.OP_EQUALVERIFY := by
      rw [hs]
      show (op.OP_DUP :: op.OP_HASH160 :: 20 :: (hash ++ [op.OP_EQUALVERIFY, op.OP_CHECKSIG]))[23]?
        = _
      simp only [List.getElem?_cons_succ]
      exact getElem?_after hash _ 20 0 hlen
    have h24 : script[24]? = some op.OP_CHECKSIG := by
      rw [hs]
      show (op.OP_DUP :: op.OP_HASH160 :: 20 :: (hash ++ [op.OP_EQUALVERIFY, op.OP_CHECKSIG]))[24]?
        = _
      simp only [List.getElem?_cons_succ]
      exact getElem?_after hash _ 20 1 hlen
    have h0 : script[0]? = some op.OP_DUP := by rw [hs]; rfl
    have h1 : script[1]? = some op.OP_HASH160 := by rw [hs]; rfl
    have h2 : script[2]? = some 20 := by rw [hs]; simp
    have hd : (script.drop 3).take 20 = hash := by
      rw [hs]
      show ((hash ++ [op.OP_EQUALVERIFY, op.OP_CHECKSIG])).take 20 = hash
      exact List.take_left' hlen
    have hkey : IsToKeyID op script = some hash := by
      unfold IsToKeyID
      rw [if_pos ⟨hl, h0, h1, h2, h23, h24⟩, hd]
    have b0 : op.OP_DUP % 256 = op.OP_DUP :=
      Nat.mod_eq_of_lt (hbytes _ (by rw [hs]; simp))
    have b1 : op.OP_HASH160 % 256 = op.OP_HASH160 :=
      Nat.mod_eq_of_lt (hbytes _ (by rw [hs]; simp))
    have b2 : op.OP_EQUALVERIFY % 256 = op.OP_EQUALVERIFY :=
      Nat.mod_eq_of_lt (hbytes _ (by rw [hs]; simp))
    have b3 : op.OP_CHECKSIG % 256 = op.OP_CHECKSIG :=
      Nat.mod_eq_of_lt (hbytes _ (by rw [hs]; simp))
    refine ⟨hl, ?_, by simp [hlen], by simp [GetSpecialSize, hlen], ?_⟩
    · unfold Compress
      rw [hkey]
    · unfold Decompress
      rw [if_pos rfl, if_neg (by omega), b0, b1, b2, b3, List.take_of_length_le (by omega), hs]
  · intro hs
    have hl : script.length = 23 := by rw [hs]; simp [hlen]
    have h22 : script[22]? = some op.OP_EQUAL := by
      rw [hs]
      show (op.OP_HASH160 :: 20 :: (hash ++ [op.OP_EQUAL]))[22]? = _
      simp only [List.getElem?_cons_succ]
      exact getElem?_after hash _ 20 0 hlen
    have h0 : script[0]? = some op.OP_HASH160 := by rw [hs]; rfl
    have h1 : script[1]? = some 20 := by rw [hs]; simp
    have hd : (script.drop 2).take 20 = hash := by
      rw [hs]
      show ((hash ++ [op.OP_EQUAL])).take 20 = hash
      exact List.take_left' hlen
    have hkey : IsToKeyID op script = none := by
      unfold IsToKeyID
      rw [if_neg (fun h => by omega)]
    have hsid : IsToScriptID op script = some hash := by
      unfold IsToScriptID
      rw [if_pos ⟨hl, h0, h1, h22⟩, hd]
    have b1 : op.OP_HASH160 % 256 = op.OP_HASH160 :=
      Nat.mod_eq_of_lt (hbytes _ (by rw [hs]; simp))
    have b2 : op.OP_EQUAL % 256 = op.OP_EQUAL :=
      Nat.mod_eq_of_lt (hbytes _ (by rw [hs]; simp))
    refine ⟨hl, ?_, by simp [hlen], by simp [GetSpecialSize, hlen], ?_⟩
    · unfold Compress
      rw [hkey, hsid]
    · unfold Decompress
      rw [if_neg (by decide), if_pos rfl, if_neg (by omega), b1, b2,
        List.take_of_length_le (by omega), hs]

theorem Compress_round_trip_witness :
    (Compress sampleOpcodes samplePubKeyEnv ([118, 169, 20] ++ sampleHash160 ++ [136, 172])
        = some (0 :: sampleHash160) ∧
      Decompress sampleOpcodes samplePubKeyEnv [] 0 sampleHash160
        = some (true, [118, 169, 20] ++ sampleHash160 ++ [136, 172])) ∧
    (Compress sampleOpcodes samplePubKeyEnv ([169, 20] ++ sampleHash160 ++ [135])
        = some (1 :: sampleHash160) ∧
      Decompress sampleOpcodes samplePubKeyEnv [] 1 sampleHash160
        = some (true, [169, 20] ++ sampleHash160 ++ [135])) :=
  ⟨(fun h => ⟨h.2.1, h.2.2.2.2⟩)
    ((Compress_round_trip sampleOpcodes samplePubKeyEnv sampleHash160 []
      ([118, 169, 20] ++ sampleHash160 ++ [136, 172]) rfl (by decide)).1 rfl),
   (fun h => ⟨h.2.1, h.2.2.2.2⟩)
    ((Compress_round_trip sampleOpcodes samplePubKeyEnv sampleHash160 []
      ([169, 20] ++ sampleHash160 ++ [135]) rfl (by decide)).2 rfl)⟩

end DigitalNote
